import Mathlib

/-!
# Orders simulation: kitchen orders, shelves and the kitchen aggregate

A shallow embedding of `lib/cloudkitchens/models/KitchenOrder.js`,
`lib/cloudkitchens/models/KitchenShelf.js`, `lib/cloudkitchens/models/Kitchen.js`
and `lib/cloudkitchens/util/toModelPredicate.js`.

Modelling conventions.

* JavaScript objects are mutable and shared by reference, so orders and shelves
  live in an object store (`World.orders`, `World.shelves`) and containers hold
  references into it.
* A number-valued field holds a rational (every finite double is one) and a
  `Date` is its integer number of milliseconds since the epoch. The arithmetic
  of `getValue` is embedded twice: `KitchenOrder.getValue` carries it out
  exactly, and `KitchenOrder.getValueDouble` in IEEE 754 doubles (`JsNumber`),
  rounding after each operation as the engine does, with `NaN`, the infinities
  and the negative zero. The tests `Math.round(order.getValue() * 100.0) <= 0` of
  `KitchenManager` read the double (`KitchenOrder.expired`).
* `new Date()` reads the clock; every synchronous call takes the clock reading
  `now` as an argument, constant for the duration of that call.
* A call that throws returns `Except.error` together with the world as the
  throw left it, so mutations made before the throw stay visible.
* `emit` appends to an event log that records the emitter of every event.
* `lib/cloudkitchens/controllers/KitchenManager.js` and
  `lib/cloudkitchens/models/Courier.js` are embedded too. An `async` method is cut
  at its `await sleep(...)` calls, the only points where other code can run: a
  `Pipeline` value says where a call of `processOrder` is suspended, and
  `Pipeline.resume` runs it up to its next `sleep`, its return or its throw. The
  clock reading, the number drawn by `randomInteger` and the string made by
  `uuid.v4()` are inputs of each resumption.
* Several calls of `processOrder` on one manager are a `System`; a schedule of
  the event loop is a list of `Action`s, and `System.run` is the interleaving it
  describes. One call seen among the others is `Pipeline.runAmong`: between two
  resumptions the state may change as a relation on states allows.
* `Pipeline.store` resumes one call, alone, until it has left
  `_assignOrderToShelf`, and counts the calls of `Kitchen.assignOrdersToShelf`
  on the way; `KitchenManager.placeAll` does so for a batch of orders, one after
  another, each call staying suspended once its order is stored.
-/

namespace CloudKitchens

/-! ## Enumerations -/

/-- The error kinds of `ErrorCode.js` (numeric values -1, -2, -3). -/
inductive ErrorCode
  | OUT_OF_CAPACITY
  | ORDER_NOT_FOUND
  | ORDER_EXPIRED
  deriving DecidableEq, Repr

/-- The members of `KitchenOrderStatus.js` (numeric values 1 to 6). -/
inductive KitchenOrderStatus
  | AWAITING_PREPARATION
  | AWAITING_STORAGE
  | AWAITING_COURIER
  | AWAITING_DELIVERY
  | DISCARDED
  | DELIVERED
  deriving DecidableEq, Repr

/-- The content of the `status` field of an order: `null` initially, a member of
the enumeration, or `undefined` when a property missing from the enumeration
object was read. -/
inductive StatusField
  | null
  | undefined
  | member (s : KitchenOrderStatus)
  deriving DecidableEq, Repr

/-- A JavaScript `Error` object with its message and its optional `kind`. -/
structure JsError where
  message : String
  kind : Option ErrorCode
  deriving DecidableEq, Repr

/-! ## Numbers -/

/-- A JavaScript number, that is an IEEE 754 double: `NaN`, an infinity, the
negative zero, or a real number (the positive zero is `real 0`). -/
inductive JsNumber
  | nan
  | infinity (negative : Bool)
  | negZero
  | real (value : ℚ)
  deriving DecidableEq

/-- The integer nearest to a rational, a half going to the even neighbour. -/
def roundHalfEven (x : ℚ) : Int :=
  if x - ⌊x⌋ < 1 / 2 then ⌊x⌋
  else if 1 / 2 < x - ⌊x⌋ then ⌊x⌋ + 1
  else if ⌊x⌋ % 2 = 0 then ⌊x⌋
  else ⌊x⌋ + 1

/-- The number of binary digits of `n`, found by halving at most `fuel` times. -/
def bitLength : Nat → Nat → Nat
  | 0, _ => 0
  | fuel + 1, n => if n = 0 then 0 else bitLength fuel (n / 2) + 1

/-- The exponent `e` with `2 ^ e ≤ x < 2 ^ (e + 1)` of a positive rational `x`:
the difference of the bit lengths of its numerator and denominator, or one
less. -/
def log2Floor (x : ℚ) : Int :=
  if (2 : ℚ) ^ ((bitLength x.num.natAbs x.num.natAbs : Int) - (bitLength x.den x.den : Int)) ≤ x
  then (bitLength x.num.natAbs x.num.natAbs : Int) - (bitLength x.den x.den : Int)
  else (bitLength x.num.natAbs x.num.natAbs : Int) - (bitLength x.den x.den : Int) - 1

/-- The exponent of the last place of the doubles around a positive rational:
53 significant bits, and no exponent below that of the subnormal numbers. -/
def ulpExponent (x : ℚ) : Int := max (log2Floor x - 52) (-1074)

/-- A positive rational rounded to 53 significant bits, ties to even, the
exponent range being unbounded above. -/
def roundMagnitude (x : ℚ) : ℚ :=
  (roundHalfEven (x / 2 ^ ulpExponent x) : ℚ) * 2 ^ ulpExponent x

/-- The double nearest to a rational, ties to even: what an operation whose
exact result is the rational returns. A result of magnitude `2 ^ 1024` or more
is an infinity, and a non-zero rational that rounds to zero keeps its sign. -/
def JsNumber.ofRat (x : ℚ) : JsNumber :=
  if x = 0 then JsNumber.real 0
  else if (2 : ℚ) ^ (1024 : Nat) ≤ roundMagnitude |x| then JsNumber.infinity (decide (x < 0))
  else if roundMagnitude |x| = 0 then (if x < 0 then JsNumber.negZero else JsNumber.real 0)
  else JsNumber.real (if x < 0 then -roundMagnitude |x| else roundMagnitude |x|)

/-- The sign bit of a number. -/
def JsNumber.isNegative : JsNumber → Bool
  | JsNumber.nan => false
  | JsNumber.infinity negative => negative
  | JsNumber.negZero => true
  | JsNumber.real value => decide (value < 0)

/-- The real value of a finite number, both zeros being 0. -/
def JsNumber.toRat : JsNumber → ℚ
  | JsNumber.real value => value
  | _ => 0

/-- The zero of a given sign. -/
def JsNumber.zero (negative : Bool) : JsNumber :=
  if negative then JsNumber.negZero else JsNumber.real 0

/-- The operator `-` on numbers. -/
def JsNumber.sub : JsNumber → JsNumber → JsNumber
  | JsNumber.nan, _ => JsNumber.nan
  | _, JsNumber.nan => JsNumber.nan
  | JsNumber.infinity s, JsNumber.infinity t => if s = t then JsNumber.nan else JsNumber.infinity s
  | JsNumber.infinity s, _ => JsNumber.infinity s
  | _, JsNumber.infinity t => JsNumber.infinity (!t)
  | JsNumber.negZero, JsNumber.negZero => JsNumber.real 0
  | JsNumber.negZero, JsNumber.real y => if y = 0 then JsNumber.negZero else JsNumber.ofRat (-y)
  | JsNumber.real x, JsNumber.negZero => JsNumber.ofRat x
  | JsNumber.real x, JsNumber.real y => JsNumber.ofRat (x - y)

/-- The operator `*` on numbers. -/
def JsNumber.mul : JsNumber → JsNumber → JsNumber
  | JsNumber.nan, _ => JsNumber.nan
  | _, JsNumber.nan => JsNumber.nan
  | JsNumber.infinity s, JsNumber.infinity t => JsNumber.infinity (xor s t)
  | JsNumber.infinity s, y =>
    if y.toRat = 0 then JsNumber.nan else JsNumber.infinity (xor s y.isNegative)
  | x, JsNumber.infinity t =>
    if x.toRat = 0 then JsNumber.nan else JsNumber.infinity (xor x.isNegative t)
  | x, y =>
    if x.toRat * y.toRat = 0 then JsNumber.zero (xor x.isNegative y.isNegative)
    else JsNumber.ofRat (x.toRat * y.toRat)

/-- The operator `/` on numbers. -/
def JsNumber.div : JsNumber → JsNumber → JsNumber
  | JsNumber.nan, _ => JsNumber.nan
  | _, JsNumber.nan => JsNumber.nan
  | JsNumber.infinity _, JsNumber.infinity _ => JsNumber.nan
  | JsNumber.infinity s, y => JsNumber.infinity (xor s y.isNegative)
  | x, JsNumber.infinity t => JsNumber.zero (xor x.isNegative t)
  | x, y =>
    if y.toRat = 0 then
      if x.toRat = 0 then JsNumber.nan else JsNumber.infinity (xor x.isNegative y.isNegative)
    else if x.toRat = 0 then JsNumber.zero (xor x.isNegative y.isNegative)
    else JsNumber.ofRat (x.toRat / y.toRat)

/-- The function `Math.round`: the nearest integer, a half going up; a result
that is zero keeps the sign of the argument. -/
def JsNumber.round : JsNumber → JsNumber
  | JsNumber.real value =>
    if value < 0 ∧ -(1 / 2) ≤ value then JsNumber.negZero else JsNumber.real ⌊value + 1 / 2⌋
  | x => x

/-- The comparison `x <= 0`, false for `NaN`. -/
def JsNumber.leZero : JsNumber → Bool
  | JsNumber.nan => false
  | JsNumber.infinity negative => negative
  | JsNumber.negZero => true
  | JsNumber.real value => decide (value ≤ 0)

/-! ## KitchenOrder -/

/-- One entry of `_decayHistory`: a decay modifier and the date it was pushed. -/
structure DecayEntry where
  decayModifier : ℚ
  date : Int
  deriving DecidableEq

/-- The fields of a `KitchenOrder` object. A shelf kind is a string or `null`. -/
structure KitchenOrder where
  id : String
  name : String
  temp : Option String
  shelfLife : ℚ
  decayRate : ℚ
  status : StatusField
  prepared : Option Int
  removed : Option Int
  delivered : Option Int
  _decayHistory : List DecayEntry
  deriving DecidableEq

/-- The constructor of `KitchenOrder`: the five given fields, everything else
`null` and an empty decay history. -/
def KitchenOrder.new (id name : String) (temp : Option String) (shelfLife decayRate : ℚ) :
    KitchenOrder :=
  { id := id, name := name, temp := temp, shelfLife := shelfLife, decayRate := decayRate,
    status := StatusField.null, prepared := none, removed := none, delivered := none,
    _decayHistory := [] }

/-- The method `KitchenOrder.insertDecayModifier`: throws when the order is removed,
otherwise pushes `{ decayModifier, date: new Date() }`. -/
def KitchenOrder.insertDecayModifier (self : KitchenOrder) (decayModifier : ℚ) (now : Int) :
    Except JsError KitchenOrder :=
  if self.removed ≠ none then
    Except.error { message := "order already removed", kind := none }
  else
    Except.ok { self with
      _decayHistory := self._decayHistory ++ [{ decayModifier := decayModifier, date := now }] }

/-- The method `KitchenOrder._valueForAgeAndDecayModifier`. -/
def KitchenOrder._valueForAgeAndDecayModifier (self : KitchenOrder) (age decayModifier : ℚ) : ℚ :=
  (self.shelfLife - self.decayRate * age * decayModifier) / self.shelfLife

/-- The callback handed to `reduce` in `getValue`, with the captured variable
`oldDate` threaded through as the second component of the accumulator. -/
def KitchenOrder.getValueStep (self : KitchenOrder) (acc : ℚ × Int) (entry : DecayEntry) :
    ℚ × Int :=
  let oldValue := acc.1
  let oldDate := acc.2
  let newDate := entry.date
  let age : ℚ := ((newDate - oldDate : Int) : ℚ) / 1000
  let newValue := self._valueForAgeAndDecayModifier age entry.decayModifier
  (newValue - (1 - oldValue), newDate)

/-- The method `KitchenOrder.getValue`, evaluated when the clock reads `now`. A `Date` object
is truthy, so `this.prepared || new Date()` is `prepared` unless it is `null`. -/
def KitchenOrder.getValue (self : KitchenOrder) (now : Int) : ℚ :=
  let oldDate0 : Int := self.prepared.getD now
  let reduced := self._decayHistory.foldl self.getValueStep (1, oldDate0)
  let value := reduced.1
  let oldDate := reduced.2
  match self._decayHistory.getLast? with
  | none => value
  | some last =>
    let age : ℚ := (((self.removed.getD now) - oldDate : Int) : ℚ) / 1000
    value - (1 - self._valueForAgeAndDecayModifier age last.decayModifier)

/-- The method `KitchenOrder._valueForAgeAndDecayModifier` in doubles:
`(this.shelfLife - this.decayRate * age * decayModifier) / this.shelfLife`, each
operation rounding its result. -/
def KitchenOrder._valueForAgeAndDecayModifierDouble (self : KitchenOrder)
    (age decayModifier : JsNumber) : JsNumber :=
  ((JsNumber.ofRat self.shelfLife).sub
      (((JsNumber.ofRat self.decayRate).mul age).mul decayModifier)).div
    (JsNumber.ofRat self.shelfLife)

/-- The difference of two dates divided by 1000, in doubles: the expression
`(newDate - oldDate) / 1000` of `getValue`. -/
def JsNumber.seconds (newDate oldDate : Int) : JsNumber :=
  ((JsNumber.ofRat (newDate : ℚ)).sub (JsNumber.ofRat (oldDate : ℚ))).div (JsNumber.real 1000)

/-- The callback handed to `reduce` in `getValue`, in doubles. -/
def KitchenOrder.getValueStepDouble (self : KitchenOrder) (acc : JsNumber × Int)
    (entry : DecayEntry) : JsNumber × Int :=
  let oldValue := acc.1
  let oldDate := acc.2
  let newDate := entry.date
  let age := JsNumber.seconds newDate oldDate
  let newValue :=
    self._valueForAgeAndDecayModifierDouble age (JsNumber.ofRat entry.decayModifier)
  (newValue.sub ((JsNumber.real 1).sub oldValue), newDate)

/-- The method `KitchenOrder.getValue` in doubles, evaluated when the clock reads
`now`: the number that the engine computes. -/
def KitchenOrder.getValueDouble (self : KitchenOrder) (now : Int) : JsNumber :=
  let oldDate0 : Int := self.prepared.getD now
  let reduced := self._decayHistory.foldl self.getValueStepDouble (JsNumber.real 1, oldDate0)
  let value := reduced.1
  let oldDate := reduced.2
  match self._decayHistory.getLast? with
  | none => value
  | some last =>
    let age := JsNumber.seconds (self.removed.getD now) oldDate
    value.sub ((JsNumber.real 1).sub
      (self._valueForAgeAndDecayModifierDouble age (JsNumber.ofRat last.decayModifier)))

/-- The test `Math.round(order.getValue() * 100.0) <= 0` that `_cleanShelf` and
`_deliverOrder` make, evaluated when the clock reads `now`. -/
def KitchenOrder.expired (self : KitchenOrder) (now : Int) : Bool :=
  ((self.getValueDouble now).mul (JsNumber.real 100)).round.leZero

/-! ## The object store -/

/-- A reference to a `KitchenOrder` object. -/
abbrev OrderRef := Nat

/-- A reference to a `KitchenShelf` object. -/
abbrev ShelfRef := Nat

/-- A reference to a `Courier` object. -/
abbrev CourierRef := Nat

/-- The fields of a `KitchenShelf` object; `_orders` holds references. -/
structure KitchenShelf where
  kind : Option String
  capacity : ℚ
  decayModifier : ℚ
  _orders : List OrderRef
  deriving DecidableEq

/-- The fields of the `Kitchen` object. -/
structure Kitchen where
  _orders : List OrderRef
  _shelfs : List ShelfRef
  deriving DecidableEq

/-- The object on which an event is emitted. -/
inductive Emitter
  | shelf (r : ShelfRef)
  | kitchen
  | manager
  deriving DecidableEq

/-- An emitted event: its name, its emitter and its arguments. The events whose
argument is a courier also record the order that courier carries when the event
is emitted, which is what a listener reads from it. -/
inductive Event
  | insertShelf (source : Emitter) (shelf : ShelfRef)
  | insertOrder (source : Emitter) (order : OrderRef)
  | removeOrder (source : Emitter) (order : OrderRef) (err : Option JsError)
  | assignOrderToShelf (source : Emitter) (order : OrderRef) (shelf : ShelfRef)
  | prepareOrder (source : Emitter) (order : OrderRef)
  | allocateCourier (source : Emitter) (courier : CourierRef)
  | dispatchCourier (source : Emitter) (courier : CourierRef) (order : Option OrderRef)
  | deliverOrder (source : Emitter) (courier : CourierRef) (order : Option OrderRef)
  deriving DecidableEq

/-- The state of the program: the object store, the kitchen and the event log. -/
structure World where
  orders : OrderRef → KitchenOrder
  shelves : ShelfRef → KitchenShelf
  kitchen : Kitchen
  events : List Event

/-- The outcome of a call: what it returned or threw, and the world it left. -/
abbrev Result (α : Type) := Except JsError α × World

/-- Overwrite the order object behind `r`. -/
def World.setOrder (w : World) (r : OrderRef) (o : KitchenOrder) : World :=
  { w with orders := Function.update w.orders r o }

/-- Overwrite the shelf object behind `s`. -/
def World.setShelf (w : World) (s : ShelfRef) (sh : KitchenShelf) : World :=
  { w with shelves := Function.update w.shelves s sh }

/-- Append an event to the log. -/
def World.emit (w : World) (e : Event) : World :=
  { w with events := w.events ++ [e] }

/-- The call `order.insertDecayModifier(decayModifier)` on the order object behind
`r`: a throw leaves the object as it was. -/
def World.insertDecayModifier (r : OrderRef) (decayModifier : ℚ) (now : Int) (w : World) :
    Result Unit :=
  match (w.orders r).insertDecayModifier decayModifier now with
  | Except.error e => (Except.error e, w)
  | Except.ok o => (Except.ok (), w.setOrder r o)

/-- A predicate function `(order, index) => truthy | falsy`. It receives the
order object (its reference and its current fields) and the index. -/
abbrev Predicate := OrderRef → KitchenOrder → Nat → Bool

/-- The values that reach the polymorphic parameters of the models. -/
inductive JsValue
  | order (r : OrderRef)
  | shelf (s : ShelfRef)
  | str (s : String)
  | fn (f : Predicate)
  | array (models : List OrderRef)
  | other

/-- Whether `value instanceof KitchenOrder`. -/
def JsValue.isKitchenOrder : JsValue → Bool
  | JsValue.order _ => true
  | _ => false

/-! ## toModelPredicate -/

/-- The method `Array.prototype.findIndex`: the index of the first element satisfying the
callback, or -1. -/
def findIndex {α : Type} (xs : List α) (callback : α → Bool) : Int :=
  match xs.findIdx? callback with
  | some i => (i : Int)
  | none => -1

/-- Truthiness of a number: every number but 0 (and NaN) is truthy. -/
def truthyNumber (n : Int) : Bool := decide (n ≠ 0)

/-- The function `toModelPredicate(modelOrPredicate, KitchenOrder)`; `none` is `null`. The
closures read `modelOrPredicate.id` and `model.id`, fields that nothing writes
after construction, so they are read here from the store. -/
def toModelPredicate (w : World) : JsValue → Option Predicate
  | JsValue.order r => some (fun _ o _ => decide (o.id = (w.orders r).id))
  | JsValue.str s => some (fun _ o _ => decide (o.id = s))
  | JsValue.fn f => some f
  | JsValue.array models =>
    some (fun _ o _ => truthyNumber (findIndex models (fun model => decide (o.id = (w.orders model).id))))
  | _ => none

/-! ## KitchenShelf -/

/-- The list `Object.values(KitchenShelfKind)`: `OVERFLOW` is `null`. -/
def KitchenShelfKind.values : List (Option String) :=
  [some "hot", some "cold", some "frozen", none]

/-- The static method `KitchenShelf.isKind`. -/
def KitchenShelf.isKind (value : Option String) : Bool :=
  KitchenShelfKind.values.contains value

/-- The constructor of `KitchenShelf`; a `capacity` for which `isNaN` holds is
`none`. The new shelf has no orders. -/
def KitchenShelf.new (kind : Option String) (capacity : Option ℚ) (decayModifier : ℚ) :
    Except JsError KitchenShelf :=
  if !KitchenShelf.isKind kind then
    Except.error { message := "kind must be a KitchenShelfKind", kind := none }
  else
    match capacity with
    | none => Except.error { message := "capacity must be a number", kind := none }
    | some c => Except.ok { kind := kind, capacity := c, decayModifier := decayModifier, _orders := [] }

/-- The method `KitchenShelf.insertOrder`. -/
def KitchenShelf.insertOrder (self : ShelfRef) (order : JsValue) (now : Int) (w : World) :
    Result Unit :=
  match order with
  | JsValue.order r =>
    if (((w.shelves self)._orders.length : ℕ) : ℚ) ≥ (w.shelves self).capacity then
      (Except.error { message := "out of capacity", kind := some ErrorCode.OUT_OF_CAPACITY }, w)
    else
      -- order.removed = null
      let w1 := w.setOrder r { w.orders r with removed := none }
      -- this._orders.push(order)
      let w2 := w1.setShelf self
        { w1.shelves self with _orders := (w1.shelves self)._orders ++ [r] }
      -- order.insertDecayModifier(this.decayModifier)
      match (w2.orders r).insertDecayModifier (w2.shelves self).decayModifier now with
      | Except.error e => (Except.error e, w2)
      | Except.ok o =>
        let w3 := w2.setOrder r o
        (Except.ok (), w3.emit (Event.insertOrder (Emitter.shelf self) r))
  | _ => (Except.error { message := "order must be a KitchenOrder", kind := none }, w)

/-- The `for ... of this._orders.splice(0)` loop of `KitchenShelf.removeOrders`:
`index` and `orders` are the loop variables of the source. -/
def KitchenShelf.removeOrdersLoop (self : ShelfRef) (predicate : Predicate)
    (err : Option JsError) (now : Int) :
    List OrderRef → Nat → List OrderRef → World → List OrderRef × World
  | [], _, orders, w => (orders, w)
  | order :: rest, index, orders, w =>
    if !(predicate order (w.orders order) index) then
      -- this._orders.push(order); continue
      KitchenShelf.removeOrdersLoop self predicate err now rest (index + 1) orders
        (w.setShelf self { w.shelves self with _orders := (w.shelves self)._orders ++ [order] })
    else
      -- order.removed = new Date(); orders.push(order); this.emit(...)
      let w1 := w.setOrder order { w.orders order with removed := some now }
      let w2 := w1.emit (Event.removeOrder (Emitter.shelf self) order err)
      KitchenShelf.removeOrdersLoop self predicate err now rest (index + 1) (orders ++ [order]) w2

/-- The method `KitchenShelf.removeOrders`; `splice(0)` empties `_orders` and hands the
previous residents to the loop. -/
def KitchenShelf.removeOrders (self : ShelfRef) (ordersOrPredicate : JsValue)
    (err : Option JsError) (now : Int) (w : World) : Result (List OrderRef) :=
  match toModelPredicate w ordersOrPredicate with
  | none =>
    (Except.error
      { message := "ordersOrPredicate must be a KitchenOrder, Array<KitchenOrder>, String, or Function",
        kind := none }, w)
  | some predicate =>
    let spliced := (w.shelves self)._orders
    let w0 := w.setShelf self { w.shelves self with _orders := [] }
    let out := KitchenShelf.removeOrdersLoop self predicate err now spliced 0 [] w0
    (Except.ok out.1, out.2)

/-! ## Kitchen -/

/-- The method `Kitchen.insertShelf`. -/
def Kitchen.insertShelf (shelf : JsValue) (w : World) : Result Unit :=
  match shelf with
  | JsValue.shelf s =>
    let w1 := { w with kitchen := { w.kitchen with _shelfs := w.kitchen._shelfs ++ [s] } }
    (Except.ok (), w1.emit (Event.insertShelf Emitter.kitchen s))
  | _ => (Except.error { message := "shelf must be a KitchenShelf", kind := none }, w)

/-- The method `Kitchen.insertOrder`. -/
def Kitchen.insertOrder (order : JsValue) (w : World) : Result Unit :=
  match order with
  | JsValue.order r =>
    let w1 := { w with kitchen := { w.kitchen with _orders := w.kitchen._orders ++ [r] } }
    (Except.ok (), w1.emit (Event.insertOrder Emitter.kitchen r))
  | _ => (Except.error { message := "order must be a KitchenOrder", kind := none }, w)

/-- The first loop of `Kitchen.removeOrders`, over the spliced registry. -/
def Kitchen.removeOrdersLoop (predicate : Predicate) (now : Int) :
    List OrderRef → Nat → List OrderRef → World → List OrderRef × World
  | [], _, orders, w => (orders, w)
  | order :: rest, index, orders, w =>
    if !(predicate order (w.orders order) index) then
      Kitchen.removeOrdersLoop predicate now rest (index + 1) orders
        { w with kitchen := { w.kitchen with _orders := w.kitchen._orders ++ [order] } }
    else
      let w1 := w.setOrder order { w.orders order with removed := some now }
      Kitchen.removeOrdersLoop predicate now rest (index + 1) (orders ++ [order]) w1

/-- The second loop of `Kitchen.removeOrders`:
`for (let shelf of this._shelfs) orders.push(...shelf.removeOrders(predicate, err))`. -/
def Kitchen.removeOrdersShelves (predicate : Predicate) (err : Option JsError) (now : Int) :
    List ShelfRef → List OrderRef → World → Result (List OrderRef)
  | [], orders, w => (Except.ok orders, w)
  | shelf :: rest, orders, w =>
    match KitchenShelf.removeOrders shelf (JsValue.fn predicate) err now w with
    | (Except.error e, w1) => (Except.error e, w1)
    | (Except.ok removed, w1) =>
      Kitchen.removeOrdersShelves predicate err now rest (orders ++ removed) w1

/-- The method `Kitchen.removeOrders`. -/
def Kitchen.removeOrders (ordersOrPredicate : JsValue) (err : Option JsError) (now : Int)
    (w : World) : Result (List OrderRef) :=
  match toModelPredicate w ordersOrPredicate with
  | none =>
    (Except.error
      { message := "ordersOrPredicate must be a KitchenOrder, Array<KitchenOrder>, String, or Function",
        kind := none }, w)
  | some predicate =>
    let spliced := w.kitchen._orders
    let w0 := { w with kitchen := { w.kitchen with _orders := [] } }
    let out := Kitchen.removeOrdersLoop predicate now spliced 0 [] w0
    match Kitchen.removeOrdersShelves predicate err now out.2.kitchen._shelfs out.1 out.2 with
    | (Except.error e, w2) => (Except.error e, w2)
    | (Except.ok orders, w2) =>
      -- for (let order of orders) this.emit('removeOrder', order, err)
      let w3 := orders.foldl (fun acc order => acc.emit (Event.removeOrder Emitter.kitchen order err)) w2
      match ordersOrPredicate with
      | JsValue.order r =>
        if orders.length = 0 then (Except.ok (orders ++ [r]), w3) else (Except.ok orders, w3)
      | _ => (Except.ok orders, w3)

/-- The last loop of `Kitchen.assignOrdersToShelf`. -/
def Kitchen.assignOrdersLoop (shelf : ShelfRef) (now : Int) :
    List OrderRef → World → Result Unit
  | [], w => (Except.ok (), w)
  | order :: rest, w =>
    match KitchenShelf.insertOrder shelf (JsValue.order order) now w with
    | (Except.error e, w1) => (Except.error e, w1)
    | (Except.ok _, w1) =>
      Kitchen.assignOrdersLoop shelf now rest
        (w1.emit (Event.assignOrderToShelf Emitter.kitchen order shelf))

/-- The method `Kitchen.assignOrdersToShelf`. The statement `orders.push(order)` of its
second `if` names a variable that is not in scope there, so reaching it throws
a `ReferenceError`. -/
def Kitchen.assignOrdersToShelf (ordersOrPredicate : JsValue) (shelf : JsValue) (now : Int)
    (w : World) : Result Unit :=
  match shelf with
  | JsValue.shelf s =>
    match Kitchen.removeOrders ordersOrPredicate none now w with
    | (Except.error e, w1) => (Except.error e, w1)
    | (Except.ok orders, w1) =>
      if orders.length = 0 ∧ ordersOrPredicate.isKitchenOrder = true then
        (Except.error { message := "order is not defined", kind := none }, w1)
      else if orders.length = 0 then
        (Except.error { message := "order not found", kind := some ErrorCode.ORDER_NOT_FOUND }, w1)
      else
        Kitchen.assignOrdersLoop s now orders w1
  | _ => (Except.error { message := "shelf must be a KitchenShelf", kind := none }, w)

/-- The method `Kitchen.getShelf`: the first shelf of the given kind, or `null`. -/
def Kitchen.getShelf (kind : Option String) (w : World) : Option ShelfRef :=
  w.kitchen._shelfs.find? (fun shelf => decide ((w.shelves shelf).kind = kind))

/-! ## Courier -/

/-- The fields of a `Courier` object. The property `delivered` is not declared by
the class: it is `undefined` (`none`) until `_dispatchCourier` assigns `null`
(`some none`) to it. -/
structure Courier where
  id : String
  dispatched : Option Int
  arrived : Option Int
  departed : Option Int
  order : Option OrderRef
  delivered : Option (Option Int)
  deriving DecidableEq

/-- The constructor of `Courier`. -/
def Courier.new (id : String) : Courier :=
  { id := id, dispatched := none, arrived := none, departed := none, order := none,
    delivered := none }

/-! ## KitchenManager -/

/-- The function `Math.round` in exact arithmetic: the nearest integer, a half
being rounded up. -/
def mathRound (x : ℚ) : Int := ⌊x + 1 / 2⌋

/-- The argument object of `processOrder`. -/
structure OrderParams where
  id : String
  name : String
  temp : Option String
  shelfLife : ℚ
  decayRate : ℚ

/-- The state of a `KitchenManager`: the world of its kitchen, the courier
objects, the pool `_couriers`, and the next unused order and courier references,
from which `new KitchenOrder` and `new Courier` take theirs. -/
structure ManagerState where
  world : World
  couriers : CourierRef → Courier
  _couriers : List CourierRef
  nextOrder : OrderRef
  nextCourier : CourierRef

/-- What a resumption reads from outside: the clock, the number returned by
`randomInteger` if it is called, and the string returned by `uuid.v4()` if it
is called. -/
structure Inputs where
  now : Int
  random : Int
  uuid : String

/-- Where a call of `processOrder` stands: suspended in one of the `sleep` calls
it reaches, returned, or thrown. `order` is the local variable of `processOrder`,
`carried` the one that `_deliverOrder` reads from its courier. -/
inductive Pipeline
  | cooking (order : OrderRef)
  | cleaning (order : OrderRef) (shelf : ShelfRef)
  | forcedCleaning (order : OrderRef) (shelf : ShelfRef)
  | contacting (order : OrderRef)
  | travelling (order : OrderRef) (courier : CourierRef)
  | pickingUp (order : OrderRef) (courier : CourierRef) (carried : OrderRef)
  | delivering (order : OrderRef) (courier : CourierRef) (carried : OrderRef)
  | resolved (order : OrderRef)
  | rejected (err : JsError)
  deriving DecidableEq

/-- The error that `_cleanShelf` and `_deliverOrder` attach to expired orders in
`_cleanShelf`. -/
def KitchenManager.expiredError : JsError :=
  { message := "order expired", kind := some ErrorCode.ORDER_EXPIRED }

/-- The error made when no shelf can take an order. -/
def KitchenManager.outOfCapacityError : JsError :=
  { message := "out of capacity", kind := some ErrorCode.OUT_OF_CAPACITY }

/-- The error thrown by `_deliverOrder` for an expired order. -/
def KitchenManager.deliverExpiredError : JsError :=
  { message := "cannot deliver order; order expired", kind := some ErrorCode.ORDER_EXPIRED }

/-- The error thrown by `_deliverOrder` for an order that is not in storage. -/
def KitchenManager.deliverNotFoundError : JsError :=
  { message := "cannot deliver order; order not found", kind := some ErrorCode.ORDER_NOT_FOUND }

/-- The predicate `(order) => Math.round(order.getValue() * 100.0) <= 0`. -/
def KitchenManager.isExpired (now : Int) : Predicate :=
  fun _ order _ => order.expired now

/-- The predicate `(_, i) => i === index`. -/
def KitchenManager.isAtIndex (index : Int) : Predicate :=
  fun _ _ i => decide ((i : Int) = index)

/-- The loops `for (let order of orders) order.status = KitchenOrderStatus.DISCARDED`. -/
def KitchenManager.discardAll (orders : List OrderRef) (w : World) : World :=
  orders.foldl
    (fun acc order => acc.setOrder order
      { acc.orders order with status := StatusField.member KitchenOrderStatus.DISCARDED })
    w

/-- The loop `for (let order of orders) this.emit('removeOrder', order, err)`. -/
def KitchenManager.emitRemoved (orders : List OrderRef) (err : JsError) (w : World) : World :=
  orders.foldl (fun acc order => acc.emit (Event.removeOrder Emitter.manager order (some err))) w

/-- The method `KitchenManager._cleanShelf`, from the end of its `await sleep(1)`
on; `random` is what `randomInteger(0, shelf.capacity - 1)` returns. -/
def KitchenManager._cleanShelf (shelf : ShelfRef) (isRequired : Bool) (now random : Int)
    (w : World) : Result (List OrderRef) :=
  match KitchenShelf.removeOrders shelf (JsValue.fn (KitchenManager.isExpired now))
      (some KitchenManager.expiredError) now w with
  | (Except.error e, w1) => (Except.error e, w1)
  | (Except.ok orders, w1) =>
    let w2 := KitchenManager.discardAll orders w1
    if orders.length = 0 ∧ isRequired = true then
      match KitchenShelf.removeOrders shelf (JsValue.fn (KitchenManager.isAtIndex random))
          (some KitchenManager.outOfCapacityError) now w2 with
      | (Except.error e, w3) => (Except.error e, w3)
      | (Except.ok evicted, w3) =>
        let w4 := KitchenManager.discardAll evicted w3
        (Except.ok (orders ++ evicted),
          KitchenManager.emitRemoved (orders ++ evicted) KitchenManager.outOfCapacityError w4)
    else
      (Except.ok orders, KitchenManager.emitRemoved orders KitchenManager.expiredError w2)

/-- The method `KitchenManager._assignOrderToShelf`, from its entry to the
`await sleep(1)` of the `_cleanShelf` it calls. `AWAITING_SHELF` is not a property
of `KitchenOrderStatus`, so the status written is `undefined`. -/
def KitchenManager._assignOrderToShelf (order : OrderRef) (shelf : Option ShelfRef)
    (st : ManagerState) : Pipeline × ManagerState :=
  match shelf with
  | none => (Pipeline.rejected { message := "shelf must be a KitchenShelf", kind := none }, st)
  | some s =>
    (Pipeline.cleaning order s,
      { st with
        world := st.world.setOrder order
          ({ st.world.orders order with status := StatusField.undefined }) })

/-- The end of the `catch` block of `_assignOrderToShelf`: look up the overflow
shelf, discard the order if there is none, otherwise call `_assignOrderToShelf`
again with it. -/
def KitchenManager.retryOnOverflow (order : OrderRef) (now : Int) (st : ManagerState) :
    Pipeline × ManagerState :=
  match Kitchen.getShelf none st.world with
  | none =>
    match Kitchen.removeOrders (JsValue.order order) (some KitchenManager.outOfCapacityError)
        now st.world with
    | (Except.error e, w1) => (Pipeline.rejected e, { st with world := w1 })
    | (Except.ok _, w1) =>
      (Pipeline.rejected KitchenManager.outOfCapacityError,
        { st with
          world := w1.setOrder order
            ({ w1.orders order with status := StatusField.member KitchenOrderStatus.DISCARDED }) })
  | some overflow => KitchenManager._assignOrderToShelf order (some overflow) st

/-- The number a `Date` or `null` becomes in a subtraction. -/
def dateNumber : Option Int → Int
  | none => 0
  | some t => t

/-- The call `.sort((a, b) => b.dispatched - a.dispatched)`, a stable sort. -/
def KitchenManager.sortByDispatched (st : ManagerState) (couriers : List CourierRef) :
    List CourierRef :=
  couriers.insertionSort
    (fun a b => dateNumber (st.couriers b).dispatched - dateNumber (st.couriers a).dispatched ≤ 0)

/-- The end of `_dispatchCourier` up to its `await sleep(randomInteger(2, 6) * 1000)`:
bind the courier to the order and emit `dispatchCourier`. -/
def KitchenManager.dispatch (order : OrderRef) (courier : CourierRef) (now : Int)
    (st : ManagerState) : Pipeline × ManagerState :=
  (Pipeline.travelling order courier,
    { st with
      couriers := Function.update st.couriers courier
        { st.couriers courier with
          order := some order, delivered := some none, dispatched := some now },
      world := st.world.emit (Event.dispatchCourier Emitter.manager courier (some order)) })

/-- The method `KitchenManager._dispatchCourier` from its entry: take the first
courier of the sorted idle ones, or wait in `await sleep(1)` to make a new one. -/
def KitchenManager._dispatchCourier (order : OrderRef) (now : Int) (st : ManagerState) :
    Pipeline × ManagerState :=
  match (KitchenManager.sortByDispatched st
      (st._couriers.filter (fun c => decide ((st.couriers c).dispatched = none)))).head? with
  | none => (Pipeline.contacting order, st)
  | some courier => KitchenManager.dispatch order courier now st

/-- The body of `if (courier == null)` in `_dispatchCourier` after its `sleep`,
then the end of the method as in `dispatch`. -/
def KitchenManager.allocateCourier (order : OrderRef) (inp : Inputs) (st : ManagerState) :
    Pipeline × ManagerState :=
  KitchenManager.dispatch order st.nextCourier inp.now
    { st with
      couriers := Function.update st.couriers st.nextCourier (Courier.new inp.uuid),
      nextCourier := st.nextCourier + 1,
      _couriers := st._couriers ++ [st.nextCourier],
      world := st.world.emit (Event.allocateCourier Emitter.manager st.nextCourier) }

/-- The method `KitchenManager._deliverOrder` from its entry to its first
`await sleep(1)`: it throws, or it reaches the `sleep` with `order` read from the
courier. Reading `getValue` of a `null` order throws a `TypeError`. -/
def KitchenManager._deliverOrder (courier : CourierRef) (now : Int) (st : ManagerState) :
    Except JsError OrderRef × ManagerState :=
  match (st.couriers courier).order with
  | none => (Except.error { message := "Cannot read properties of null", kind := none }, st)
  | some order =>
    if (st.world.orders order).expired now = true then
      match Kitchen.removeOrders (JsValue.order order) (some KitchenManager.deliverExpiredError)
          now st.world with
      | (Except.error e, w1) => (Except.error e, { st with world := w1 })
      | (Except.ok _, w1) =>
        (Except.error KitchenManager.deliverExpiredError,
          { st with
            world := w1.setOrder order
              ({ w1.orders order with
                status := StatusField.member KitchenOrderStatus.DISCARDED }) })
    else if (st.world.orders order).prepared = none ∨ (st.world.orders order).removed ≠ none then
      (Except.error KitchenManager.deliverNotFoundError, st)
    else
      (Except.ok order, st)

/-- The method `_deliverOrder` between its two `sleep` calls: the courier departs
and the order is removed from the kitchen. -/
def KitchenManager.pickUp (courier : CourierRef) (order : OrderRef) (now : Int)
    (st : ManagerState) : Except JsError Unit × ManagerState :=
  match Kitchen.removeOrders (JsValue.order order) none now st.world with
  | (Except.error e, w1) =>
    (Except.error e,
      { st with
        couriers := Function.update st.couriers courier
          { st.couriers courier with departed := some now },
        world := w1 })
  | (Except.ok _, w1) =>
    (Except.ok (),
      { st with
        couriers := Function.update st.couriers courier
          { st.couriers courier with departed := some now },
        world := w1 })

/-- The end of `_deliverOrder`, after its second `sleep`. -/
def KitchenManager.release (courier : CourierRef) (order : OrderRef) (now : Int)
    (st : ManagerState) : ManagerState :=
  { st with
    world := (st.world.setOrder order
        { st.world.orders order with
          status := StatusField.member KitchenOrderStatus.DELIVERED,
          delivered := some now }).emit
      (Event.deliverOrder Emitter.manager courier (st.couriers courier).order),
    couriers := Function.update st.couriers courier
      { st.couriers courier with order := none, arrived := none, dispatched := none } }

/-- The part of `_assignOrderToShelf` that follows `await this._cleanShelf(shelf)`,
run together with the `_cleanShelf` it awaited; when the order is stored, the
call returns and `processOrder` goes on with `_dispatchCourier`. -/
def KitchenManager.cleanAndAssign (order : OrderRef) (shelf : ShelfRef) (inp : Inputs)
    (st : ManagerState) : Pipeline × ManagerState :=
  match KitchenManager._cleanShelf shelf false inp.now inp.random st.world with
  | (Except.error e, w1) => (Pipeline.rejected e, { st with world := w1 })
  | (Except.ok _, w1) =>
    match Kitchen.assignOrdersToShelf (JsValue.order order) (JsValue.shelf shelf) inp.now w1 with
    | (Except.ok _, w2) =>
      KitchenManager._dispatchCourier order inp.now
        { st with
          world := w2.setOrder order
            ({ w2.orders order with
              status := StatusField.member KitchenOrderStatus.AWAITING_COURIER }) }
    | (Except.error err, w2) =>
      if err.kind ≠ some ErrorCode.OUT_OF_CAPACITY then
        (Pipeline.rejected err, { st with world := w2 })
      else if (w2.shelves shelf).kind = none then
        (Pipeline.forcedCleaning order shelf, { st with world := w2 })
      else
        KitchenManager.retryOnOverflow order inp.now { st with world := w2 }

/-- The method `KitchenManager.processOrder` from its entry to the `await sleep(1)`
of `_prepareOrder`. -/
def KitchenManager.processOrder (params : OrderParams) (st : ManagerState) :
    Pipeline × ManagerState :=
  let order := st.nextOrder
  let w1 := st.world.setOrder order
    { KitchenOrder.new params.id params.name params.temp params.shelfLife params.decayRate with
      status := StatusField.member KitchenOrderStatus.AWAITING_PREPARATION }
  match Kitchen.insertOrder (JsValue.order order) w1 with
  | (Except.error e, w2) => (Pipeline.rejected e, { st with world := w2, nextOrder := order + 1 })
  | (Except.ok _, w2) => (Pipeline.cooking order, { st with world := w2, nextOrder := order + 1 })

/-- Run a suspended call of `processOrder` from the end of its `sleep` to its
next `sleep`, its return or its throw. A call that has returned or thrown does
nothing more. -/
def Pipeline.resume (inp : Inputs) (st : ManagerState) : Pipeline → Pipeline × ManagerState
  | Pipeline.cooking order =>
    -- order.prepared = new Date(); this.emit('prepareOrder', order)
    let w1 := st.world.setOrder order { st.world.orders order with prepared := some inp.now }
    let w2 := w1.emit (Event.prepareOrder Emitter.manager order)
    KitchenManager._assignOrderToShelf order (Kitchen.getShelf (w2.orders order).temp w2)
      { st with world := w2 }
  | Pipeline.cleaning order shelf => KitchenManager.cleanAndAssign order shelf inp st
  | Pipeline.forcedCleaning order shelf =>
    match KitchenManager._cleanShelf shelf true inp.now inp.random st.world with
    | (Except.error e, w1) => (Pipeline.rejected e, { st with world := w1 })
    | (Except.ok _, w1) => KitchenManager.retryOnOverflow order inp.now { st with world := w1 }
  | Pipeline.contacting order => KitchenManager.allocateCourier order inp st
  | Pipeline.travelling order courier =>
    -- courier.arrived = new Date; return courier
    match KitchenManager._deliverOrder courier inp.now
        { st with
          couriers := Function.update st.couriers courier
            ({ st.couriers courier with arrived := some inp.now }) } with
    | (Except.error e, st1) => (Pipeline.rejected e, st1)
    | (Except.ok carried, st1) => (Pipeline.pickingUp order courier carried, st1)
  | Pipeline.pickingUp order courier carried =>
    match KitchenManager.pickUp courier carried inp.now st with
    | (Except.error e, st1) => (Pipeline.rejected e, st1)
    | (Except.ok _, st1) => (Pipeline.delivering order courier carried, st1)
  | Pipeline.delivering order courier carried =>
    (Pipeline.resolved order, KitchenManager.release courier carried inp.now st)
  | Pipeline.resolved order => (Pipeline.resolved order, st)
  | Pipeline.rejected err => (Pipeline.rejected err, st)

/-- Resume a call of `processOrder` once per element of `inputs`, nothing else
running in between. -/
def Pipeline.run (inputs : List Inputs) (start : Pipeline × ManagerState) :
    Pipeline × ManagerState :=
  inputs.foldl (fun acc inp => acc.1.resume inp acc.2) start

/-- The courier a suspended call of `processOrder` holds, between its return from
the selection in `_dispatchCourier` and the end of `_deliverOrder`. -/
def Pipeline.courier : Pipeline → Option CourierRef
  | Pipeline.travelling _ courier => some courier
  | Pipeline.pickingUp _ courier _ => some courier
  | Pipeline.delivering _ courier _ => some courier
  | _ => none

/-- A manager with the calls of `processOrder` made on it so far. -/
structure System where
  state : ManagerState
  pipelines : List Pipeline

/-- What the event loop does next: start a call of `processOrder`, or wake the
`i`-th call from its `sleep`. -/
inductive Action
  | processOrder (params : OrderParams)
  | resume (i : Nat) (inp : Inputs)

/-- One action of the event loop. -/
def System.step (s : System) : Action → System
  | Action.processOrder params =>
    match KitchenManager.processOrder params s.state with
    | (p, st) => { state := st, pipelines := s.pipelines ++ [p] }
  | Action.resume i inp =>
    match s.pipelines[i]? with
    | none => s
    | some p =>
      match p.resume inp s.state with
      | (p2, st) => { state := st, pipelines := s.pipelines.set i p2 }

/-- The system after a schedule, a sequence of actions of the event loop. -/
def System.run (schedule : List Action) (s : System) : System :=
  schedule.foldl System.step s

/-- What a listener registered on the manager receives, in order: the events the
manager emits itself and the `insertOrder`, `removeOrder` and `assignOrderToShelf`
events of the kitchen, which the constructor of the manager relays. -/
def KitchenManager.notifications (events : List Event) : List Event :=
  events.filter (fun e =>
    match e with
    | Event.insertOrder Emitter.kitchen _ => true
    | Event.removeOrder Emitter.kitchen _ _ => true
    | Event.assignOrderToShelf Emitter.kitchen _ _ => true
    | Event.insertShelf Emitter.manager _ => true
    | Event.insertOrder Emitter.manager _ => true
    | Event.removeOrder Emitter.manager _ _ => true
    | Event.assignOrderToShelf Emitter.manager _ _ => true
    | Event.prepareOrder Emitter.manager _ => true
    | Event.allocateCourier Emitter.manager _ => true
    | Event.dispatchCourier Emitter.manager _ _ => true
    | Event.deliverOrder Emitter.manager _ _ => true
    | _ => false)

/-! ## Describing numbers -/

/-- A rational that a double can hold, its magnitude apart: at most 53
significant bits and an exponent not below that of the subnormal numbers. -/
def Representable (x : ℚ) : Prop :=
  ∃ (m : ℕ) (e : ℤ), m < 2 ^ 53 ∧ -1074 ≤ e ∧ |x| = m * 2 ^ e

/-- A number that is `+Infinity` or a real number not below `c`. -/
def JsNumber.AtLeast (c : ℚ) (v : JsNumber) : Prop :=
  v = JsNumber.infinity false ∨ ∃ y, v = JsNumber.real y ∧ c ≤ y

/-- A number that is `-Infinity`, the negative zero (for `0 ≤ c`) or a real
number not above `c`. -/
def JsNumber.AtMost (c : ℚ) (v : JsNumber) : Prop :=
  v = JsNumber.infinity true ∨ (v = JsNumber.negZero ∧ 0 ≤ c) ∨ ∃ y, v = JsNumber.real y ∧ y ≤ c

/-- The test `KitchenOrder.expired` as a function of the fields that it reads. -/
def expiredOf (shelfLife decayRate : ℚ) (prepared removed : Option Int)
    (history : List DecayEntry) (now : Int) : Bool :=
  KitchenOrder.expired
    { KitchenOrder.new "" "" none shelfLife decayRate with
      prepared := prepared, removed := removed, _decayHistory := history } now

/-! ## The value formula of the specification -/

/-- The decay charged by the specification, in modifier-seconds: the interval
between two consecutive history entries at the modifier of the earlier entry,
and the time from the last entry to the evaluation instant `T` at the last
modifier. -/
def specCharge : List DecayEntry → Int → ℚ
  | [], _ => 0
  | [e], T => e.decayModifier * (((T - e.date : Int) : ℚ) / 1000)
  | e :: next :: rest, T =>
    e.decayModifier * (((next.date - e.date : Int) : ℚ) / 1000) + specCharge (next :: rest) T

/-- The value according to the specification, at evaluation instant `T`. -/
def specValue (o : KitchenOrder) (T : Int) : ℚ :=
  1 - (o.decayRate / o.shelfLife) * specCharge o._decayHistory T

/-- The decay charged by `getValue` over the history, in modifier-seconds, with
`oldDate` the date preceding the first entry: each interval is charged at the
modifier of the entry that ends it. -/
def reduceCharge : Int → List DecayEntry → ℚ
  | _, [] => 0
  | oldDate, e :: rest =>
    e.decayModifier * (((e.date - oldDate : Int) : ℚ) / 1000) + reduceCharge e.date rest

/-! ## Describing a removal scan -/

/-- The order store: the object behind every order reference. -/
abbrev Store := OrderRef → KitchenOrder

/-- The residents `o_i` with `p(o_i, i)` true, in their original order, when the
first resident has position `index` and the orders are as in `store`. -/
def matchedAt (predicate : Predicate) (store : Store) (residents : List OrderRef)
    (index : Nat) : List OrderRef :=
  ((residents.enumFrom index).filter (fun ir => predicate ir.2 (store ir.2) ir.1)).map Prod.snd

/-- The residents `o_i` with `p(o_i, i)` false, in their original order. -/
def keptAt (predicate : Predicate) (store : Store) (residents : List OrderRef)
    (index : Nat) : List OrderRef :=
  ((residents.enumFrom index).filter (fun ir => !predicate ir.2 (store ir.2) ir.1)).map Prod.snd

/-- The store in which the orders listed in `removed` have their removal
timestamp set to `now` and nothing else differs from `store`. -/
def markRemoved (store : Store) (removed : List OrderRef) (now : Int) : Store :=
  fun r => if r ∈ removed then { store r with removed := some now } else store r

/-- The scan shared by the removal loops of `KitchenShelf` and `Kitchen`, on the
order store alone: the removed references, the retained references and the
store left behind. The predicate reads each order as it is when it is reached. -/
def scan (predicate : Predicate) (now : Int) :
    List OrderRef → Nat → Store → List OrderRef × List OrderRef × Store
  | [], _, store => ([], [], store)
  | r :: rest, index, store =>
    if predicate r (store r) index then
      let out := scan predicate now rest (index + 1)
        (Function.update store r { store r with removed := some now })
      (r :: out.1, out.2.1, out.2.2)
    else
      let out := scan predicate now rest (index + 1) store
      (out.1, r :: out.2.1, out.2.2)

/-- A predicate whose answer does not depend on the removal timestamp of the
order it is given. -/
def Predicate.IgnoresRemoved (predicate : Predicate) : Prop :=
  ∀ (r : OrderRef) (o : KitchenOrder) (i : Nat) (t : Option Int),
    predicate r { o with removed := t } i = predicate r o i

/-- The predicate `({ id }) => id === target` that `toModelPredicate` builds for
a single order (with `target` the id of that order) and for an id string. -/
def idPredicate (target : String) : Predicate :=
  fun _ o _ => decide (o.id = target)

/-- No order tracked by the kitchen, in the registry or on one of its shelves,
satisfies the predicate at its position. -/
def NothingTracked (w : World) (predicate : Predicate) : Prop :=
  (∀ ir ∈ w.kitchen._orders.enumFrom 0, predicate ir.2 (w.orders ir.2) ir.1 = false)
  ∧ ∀ s ∈ w.kitchen._shelfs, ∀ ir ∈ (w.shelves s)._orders.enumFrom 0,
      predicate ir.2 (w.orders ir.2) ir.1 = false

/-- The order behind `r` is tracked by the kitchen: it is in the registry or on
one of the shelves of the kitchen. -/
def Tracked (w : World) (r : OrderRef) : Prop :=
  r ∈ w.kitchen._orders ∨ ∃ s ∈ w.kitchen._shelfs, r ∈ (w.shelves s)._orders

/-- The orders tracked by the kitchen, listed: those of the registry, then those
of each shelf of the kitchen. -/
def World.tracked (w : World) : List OrderRef :=
  w.kitchen._orders ++ w.kitchen._shelfs.flatMap (fun s => (w.shelves s)._orders)

/-! ## Sequences of calls on one shelf -/

/-- A call of one of the two mutating methods of a shelf, with its arguments
and the clock reading during the call. -/
inductive ShelfCall
  | insertOrder (order : JsValue) (now : Int)
  | removeOrders (ordersOrPredicate : JsValue) (err : Option JsError) (now : Int)

/-- The world after one call on the shelf `self`, whether it returned or threw. -/
def ShelfCall.run (self : ShelfRef) (w : World) : ShelfCall → World
  | ShelfCall.insertOrder order now => (KitchenShelf.insertOrder self order now w).2
  | ShelfCall.removeOrders ordersOrPredicate err now =>
    (KitchenShelf.removeOrders self ordersOrPredicate err now w).2

/-- The world after a sequence of calls on the shelf `self`. -/
def runShelfCalls (self : ShelfRef) (calls : List ShelfCall) (w : World) : World :=
  calls.foldl (ShelfCall.run self) w

/-! ## What a resumption does to the couriers -/

/-- The effect on the couriers of a resumption that starts holding `held` in
state `st` and ends holding `held2` in state `st2`: couriers it holds neither
before nor after are untouched; a courier it keeps holding keeps its dispatched
timestamp; a courier it acquires was an idle member of the pool or is the newly
made one, and has a dispatched timestamp afterwards; the pool is unchanged or
extended by the newly made courier; and a courier it held is kept or dropped,
never exchanged. -/
def StepEffect (held : Option CourierRef) (st : ManagerState) (held2 : Option CourierRef)
    (st2 : ManagerState) : Prop :=
  (∀ c, held ≠ some c → held2 ≠ some c → st2.couriers c = st.couriers c)
  ∧ (∀ c, held = some c → held2 = some c →
      (st2.couriers c).dispatched = (st.couriers c).dispatched)
  ∧ (∀ c, held2 = some c → held ≠ some c →
      held = none ∧ (st2.couriers c).dispatched ≠ none
      ∧ ((c ∈ st._couriers ∧ (st.couriers c).dispatched = none)
        ∨ (c = st.nextCourier ∧ st2.nextCourier = st.nextCourier + 1)))
  ∧ ((st2._couriers = st._couriers ∧ st2.nextCourier = st.nextCourier)
    ∨ (st2._couriers = st._couriers ++ [st.nextCourier]
      ∧ st2.nextCourier = st.nextCourier + 1))

/-- The couriers of a system are consistent: two different calls of
`processOrder` never hold the same courier, every courier held by a call has a
dispatched timestamp, and every courier that is held or in the pool was made
before the next courier reference. -/
def System.CouriersConsistent (s : System) : Prop :=
  (∀ (i j : Nat) (p q : Pipeline) (c : CourierRef),
      s.pipelines[i]? = some p → s.pipelines[j]? = some q →
      p.courier = some c → q.courier = some c → i = j)
  ∧ (∀ p ∈ s.pipelines, ∀ c, p.courier = some c →
      (s.state.couriers c).dispatched ≠ none ∧ c < s.state.nextCourier)
  ∧ (∀ c ∈ s.state._couriers, c < s.state.nextCourier)

/-! ## Reading the event log -/

/-- Whether an event is a `removeOrder` event. -/
def Event.isRemoveOrder : Event → Bool
  | Event.removeOrder _ _ _ => true
  | _ => false

/-- Whether an event is an `insertOrder` event for the order `o`. -/
def Event.isInsertOrderOf (o : OrderRef) : Event → Bool
  | Event.insertOrder _ r => decide (r = o)
  | _ => false

/-- Whether an event is a `deliverOrder` event whose courier carries the order `o`. -/
def Event.isDeliverOrderOf (o : OrderRef) : Event → Bool
  | Event.deliverOrder _ _ (some r) => decide (r = o)
  | _ => false

/-- The number of `insertOrder` notifications for the order `o` that a listener
of the manager receives from the events `events`. -/
def KitchenManager.insertCount (o : OrderRef) (events : List Event) : Nat :=
  (KitchenManager.notifications events).countP (Event.isInsertOrderOf o)

/-- The number of `deliverOrder` notifications for the order `o` that a listener
of the manager receives from the events `events`. -/
def KitchenManager.deliverCount (o : OrderRef) (events : List Event) : Nat :=
  (KitchenManager.notifications events).countP (Event.isDeliverOrderOf o)

/-! ## A call of processOrder among other calls -/

/-- What the other calls do between the moment a call of `processOrder` for the
order `o` is suspended at `p`, leaving the state `S`, and the moment it is
resumed, in the state `T`, when they leave the order alone: the order object,
its occurrences in the registry and on each shelf and the courier held by the
call are as they were; no other tracked order has the id of `o`; the shelves of
the kitchen, their kinds and their decay modifiers are as they were; the events
emitted in between hold no `insertOrder` and no `deliverOrder` notification for
`o`; and when the call is about to store the order on a shelf, that shelf has
room. -/
def Rely (o : OrderRef) (p : Pipeline) (S T : ManagerState) : Prop :=
  T.world.orders o = S.world.orders o
  ∧ T.world.kitchen._orders.count o = S.world.kitchen._orders.count o
  ∧ (∀ s, (T.world.shelves s)._orders.count o = (S.world.shelves s)._orders.count o)
  ∧ (∀ r, r ≠ o → Tracked T.world r → (T.world.orders r).id ≠ (S.world.orders o).id)
  ∧ T.world.kitchen._shelfs = S.world.kitchen._shelfs
  ∧ (∀ s, (T.world.shelves s).kind = (S.world.shelves s).kind
      ∧ (T.world.shelves s).decayModifier = (S.world.shelves s).decayModifier)
  ∧ (∀ c, p.courier = some c → T.couriers c = S.couriers c)
  ∧ (∀ order shelf, p = Pipeline.cleaning order shelf →
      (((T.world.shelves shelf)._orders.length : ℕ) : ℚ) < (T.world.shelves shelf).capacity)
  ∧ ∃ extra, T.world.events = S.world.events ++ extra
      ∧ KitchenManager.insertCount o extra = 0 ∧ KitchenManager.deliverCount o extra = 0

/-- A run of one call of `processOrder` among other calls: before each
resumption, with the inputs `inp`, the other calls have taken the state the call
left to the state `T`, in a way allowed by `R`; `final` is where the call is
suspended, and the state it left, after the last resumption listed. -/
def Pipeline.runAmong (R : Pipeline → ManagerState → ManagerState → Prop) :
    List (Inputs × ManagerState) → Pipeline × ManagerState → Pipeline × ManagerState → Prop
  | [], start, final => final = start
  | (inp, T) :: rest, start, final =>
    R start.1 start.2 T ∧ Pipeline.runAmong R rest (start.1.resume inp T) final

/-- The run of one call of `processOrder` while no other call acts: each
resumption finds the state the call left. -/
def Pipeline.alone : List Inputs → Pipeline × ManagerState → List (Inputs × ManagerState)
  | [], _ => []
  | inp :: rest, start => (inp, start.2) :: Pipeline.alone rest (start.1.resume inp start.2)

/-- What a call of `processOrder` for the order `o` knows about the state while
the other calls leave the order alone: the order object is `O`, the order
occurs `inRegistry` times in the registry and once on the shelf `onShelf` if
there is one and on no other shelf, and the events emitted since the event log
was `base` hold `inserts` notifications `insertOrder` and `delivers`
notifications `deliverOrder` for `o`. -/
def OrderState (o : OrderRef) (O : KitchenOrder) (inRegistry : Nat) (onShelf : Option ShelfRef)
    (base : List Event) (inserts delivers : Nat) (S : ManagerState) : Prop :=
  S.world.orders o = O
  ∧ S.world.kitchen._orders.count o = inRegistry
  ∧ (∀ s, (S.world.shelves s)._orders.count o = if onShelf = some s then 1 else 0)
  ∧ ∃ extra, S.world.events = base ++ extra
      ∧ KitchenManager.insertCount o extra = inserts
      ∧ KitchenManager.deliverCount o extra = delivers

/-- The shelves of the kitchen, their kinds and their decay modifiers are in `W`
as they are in `W0`. -/
def SameShelves (W0 W : World) : Prop :=
  W.kitchen._shelfs = W0.kitchen._shelfs
  ∧ ∀ s, (W.shelves s).kind = (W0.shelves s).kind
      ∧ (W.shelves s).decayModifier = (W0.shelves s).decayModifier

/-! ## The notifications concerning one order -/

/-- Whether an event concerns the order `o`: it is an event of `o`, or an event
of a courier that carries `o` when the event is emitted. -/
def Event.concerns (o : OrderRef) : Event → Bool
  | Event.insertOrder _ r => decide (r = o)
  | Event.removeOrder _ r _ => decide (r = o)
  | Event.assignOrderToShelf _ r _ => decide (r = o)
  | Event.prepareOrder _ r => decide (r = o)
  | Event.dispatchCourier _ _ (some r) => decide (r = o)
  | Event.deliverOrder _ _ (some r) => decide (r = o)
  | _ => false

/-- The notifications concerning the order `o` that a listener of the manager
receives from the events `events`, in order. -/
def KitchenManager.concerning (o : OrderRef) (events : List Event) : List Event :=
  (KitchenManager.notifications events).filter (Event.concerns o)

/-- What a call of `processOrder` for the order `o` knows about the world when
no other call touches the order: the order occurs `inRegistry` times in the
registry, once on the shelf `onShelf` if there is one and on no other shelf, no
other tracked order has its id, and the notifications concerning `o` among the
events emitted since the event log was `base` are `seen`. -/
def OrderTrace (o : OrderRef) (inRegistry : Nat) (onShelf : Option ShelfRef)
    (base : List Event) (seen : List Event) (W : World) : Prop :=
  W.kitchen._orders.count o = inRegistry
  ∧ (∀ s, (W.shelves s)._orders.count o = if onShelf = some s then 1 else 0)
  ∧ (∀ r, r ≠ o → Tracked W r → (W.orders r).id ≠ (W.orders o).id)
  ∧ ∃ extra, W.events = base ++ extra ∧ KitchenManager.concerning o extra = seen

/-- The shelves of the kitchen and the kind, capacity and decay modifier of
every shelf are in `W` as they are in `W0`. -/
def SameConfig (W0 W : World) : Prop :=
  W.kitchen._shelfs = W0.kitchen._shelfs
  ∧ ∀ s, (W.shelves s).kind = (W0.shelves s).kind
      ∧ (W.shelves s).capacity = (W0.shelves s).capacity
      ∧ (W.shelves s).decayModifier = (W0.shelves s).decayModifier

/-- The notifications concerning the order `o` of a call of `processOrder` that
stores it on the shelf `sh`, gets the courier `c` and delivers it, the removal
before the delivery having the cause `cause`: the order enters the registry, is
cooked, leaves the registry, is stored, a courier is dispatched, the order
leaves its shelf and is delivered. -/
def KitchenManager.lifecycle (o : OrderRef) (sh : ShelfRef) (c : CourierRef)
    (cause : Option JsError) : List Event :=
  [Event.insertOrder Emitter.kitchen o,
   Event.prepareOrder Emitter.manager o,
   Event.removeOrder Emitter.kitchen o none,
   Event.assignOrderToShelf Emitter.kitchen o sh,
   Event.dispatchCourier Emitter.manager c (some o),
   Event.removeOrder Emitter.kitchen o cause,
   Event.deliverOrder Emitter.manager c (some o)]

/-- The notifications concerning `o` among the events emitted since the event
log was `base` are `seen`. -/
def SeenSince (o : OrderRef) (base seen : List Event) (W : World) : Prop :=
  ∃ extra, W.events = base ++ extra ∧ KitchenManager.concerning o extra = seen

/-- What holds of a call of `processOrder` for the order `o` that runs alone,
where it is suspended: where the order is, that no other tracked order has its
id, and that the notifications concerning it since the event log was `base` are
the first ones of `lifecycle`, as many as the stage tells. -/
def CallTrace (o : OrderRef) (base : List Event) (x : Pipeline × ManagerState) : Prop :=
  ∃ (sh : ShelfRef) (c : CourierRef) (cause : Option JsError),
    match x.1 with
    | Pipeline.cooking r =>
      r = o ∧ OrderTrace o 1 none base ((KitchenManager.lifecycle o sh c cause).take 1) x.2.world
    | Pipeline.cleaning r s =>
      r = o ∧ s ∈ x.2.world.kitchen._shelfs
      ∧ (OrderTrace o 1 none base ((KitchenManager.lifecycle o sh c cause).take 2) x.2.world
        ∨ OrderTrace o 0 none base ((KitchenManager.lifecycle o sh c cause).take 3) x.2.world)
    | Pipeline.forcedCleaning r _ =>
      r = o ∧ OrderTrace o 0 none base ((KitchenManager.lifecycle o sh c cause).take 3) x.2.world
    | Pipeline.contacting r =>
      r = o ∧ sh ∈ x.2.world.kitchen._shelfs
      ∧ OrderTrace o 0 (some sh) base ((KitchenManager.lifecycle o sh c cause).take 4) x.2.world
    | Pipeline.travelling r k =>
      r = o ∧ k = c ∧ sh ∈ x.2.world.kitchen._shelfs ∧ (x.2.couriers c).order = some o
      ∧ OrderTrace o 0 (some sh) base ((KitchenManager.lifecycle o sh c cause).take 5) x.2.world
    | Pipeline.pickingUp _ k carried =>
      carried = o ∧ k = c ∧ sh ∈ x.2.world.kitchen._shelfs ∧ (x.2.couriers c).order = some o
      ∧ OrderTrace o 0 (some sh) base ((KitchenManager.lifecycle o sh c cause).take 5) x.2.world
    | Pipeline.delivering _ k carried =>
      carried = o ∧ k = c ∧ (x.2.couriers c).order = some o
      ∧ SeenSince o base ((KitchenManager.lifecycle o sh c none).take 6) x.2.world
    | Pipeline.resolved _ => SeenSince o base (KitchenManager.lifecycle o sh c none) x.2.world
    | Pipeline.rejected _ =>
      ∃ n, n ≤ 6 ∧ SeenSince o base ((KitchenManager.lifecycle o sh c cause).take n) x.2.world

/-- What the other calls do between the moment a call of `processOrder` for the
order `o` is suspended at `p`, leaving the state `S`, and the moment it is
resumed, in the state `T`, when they do not disturb the order: its occurrences
in the registry and on each shelf are as they were; no other tracked order has
the id of `o`; the shelves of the kitchen are as they were; the courier held by
the call still carries the order it carried; and the events emitted in between
hold no notification concerning `o`. -/
def Undisturbed (o : OrderRef) (p : Pipeline) (S T : ManagerState) : Prop :=
  T.world.kitchen._orders.count o = S.world.kitchen._orders.count o
  ∧ (∀ s, (T.world.shelves s)._orders.count o = (S.world.shelves s)._orders.count o)
  ∧ (∀ r, r ≠ o → Tracked T.world r → (T.world.orders r).id ≠ (T.world.orders o).id)
  ∧ T.world.kitchen._shelfs = S.world.kitchen._shelfs
  ∧ (∀ c, p.courier = some c → (T.couriers c).order = (S.couriers c).order)
  ∧ ∃ extra, T.world.events = S.world.events ++ extra
      ∧ KitchenManager.concerning o extra = []

/-! ## What a clean leaves alone -/

/-- The world left by `_cleanShelf` when the removal it performs is the one of
the predicate `p` with the cause `err`: the residents of `shelf` that the scan
removes are marked as removed and discarded, the shelf keeps the others, the
shelf emits one `removeOrder` event per removed order and then the manager emits
one `removeOrder` event per removed order. -/
def KitchenManager.cleaned (shelf : ShelfRef) (p : Predicate) (err : JsError) (now : Int)
    (w : World) : World :=
  { w with
    orders := fun r =>
      if r ∈ (scan p now (w.shelves shelf)._orders 0 w.orders).1 then
        { (scan p now (w.shelves shelf)._orders 0 w.orders).2.2 r with
          status := StatusField.member KitchenOrderStatus.DISCARDED }
      else (scan p now (w.shelves shelf)._orders 0 w.orders).2.2 r,
    shelves := Function.update w.shelves shelf
      { w.shelves shelf with
        _orders := (scan p now (w.shelves shelf)._orders 0 w.orders).2.1 },
    events := w.events
      ++ ((scan p now (w.shelves shelf)._orders 0 w.orders).1.map
          (fun r => Event.removeOrder (Emitter.shelf shelf) r (some err))
        ++ (scan p now (w.shelves shelf)._orders 0 w.orders).1.map
          (fun r => Event.removeOrder Emitter.manager r (some err))) }

/-- What a clean of `shelf` leaves alone, for an order `o` that is not on the
shelf: the kitchen, every id, the order `o`, the other shelves, the kind,
capacity and modifier of the shelf, whose residents are a sublist of what they
were; and no event emitted concerns `o`. -/
def CleanFrame (o : OrderRef) (shelf : ShelfRef) (w w2 : World) : Prop :=
  w2.kitchen = w.kitchen
  ∧ (∀ r, (w2.orders r).id = (w.orders r).id)
  ∧ w2.orders o = w.orders o
  ∧ (∀ s, s ≠ shelf → w2.shelves s = w.shelves s)
  ∧ (w2.shelves shelf)._orders.Sublist (w.shelves shelf)._orders
  ∧ (w2.shelves shelf).kind = (w.shelves shelf).kind
  ∧ (w2.shelves shelf).capacity = (w.shelves shelf).capacity
  ∧ (w2.shelves shelf).decayModifier = (w.shelves shelf).decayModifier
  ∧ ∃ extra, w2.events = w.events ++ extra ∧ KitchenManager.concerning o extra = []

/-! ## Storing an order -/

/-- Whether a call of `processOrder` has yet to store its order: it is
suspended before `_assignOrderToShelf` or inside it. -/
def Pipeline.isStoring : Pipeline → Bool
  | Pipeline.cooking _ => true
  | Pipeline.cleaning _ _ => true
  | Pipeline.forcedCleaning _ _ => true
  | _ => false

/-- The number of calls of `Kitchen.assignOrdersToShelf` that the next
resumption of a call makes: one when the call is suspended in the `_cleanShelf`
that opens `_assignOrderToShelf`, none otherwise. -/
def Pipeline.attempt : Pipeline → Nat
  | Pipeline.cleaning _ _ => 1
  | _ => 0

/-- Resume a call of `processOrder`, alone, until it has left
`_assignOrderToShelf` by a return or a throw, as far as the inputs go; the first
component counts the calls of `Kitchen.assignOrdersToShelf` made. -/
def Pipeline.store : List Inputs → Pipeline × ManagerState → Nat × (Pipeline × ManagerState)
  | [], x => (0, x)
  | inp :: rest, x =>
    if x.1.isStoring = true then
      ((Pipeline.store rest (x.1.resume inp x.2)).1 + x.1.attempt,
        (Pipeline.store rest (x.1.resume inp x.2)).2)
    else (0, x)

/-- The order `o` is stored and its call has left `_assignOrderToShelf`: the
call is in `_dispatchCourier` or past it, the status of the order is
`AWAITING_COURIER`, the order is not in the registry and it is once on one shelf
and on no other. -/
def OrderStored (o : OrderRef) (x : Pipeline × ManagerState) : Prop :=
  (x.1 = Pipeline.contacting o ∨ ∃ c, x.1 = Pipeline.travelling o c)
  ∧ (x.2.world.orders o).status = StatusField.member KitchenOrderStatus.AWAITING_COURIER
  ∧ o ∉ x.2.world.kitchen._orders
  ∧ ∃ s, ∀ t, (x.2.world.shelves t)._orders.count o = if t = s then 1 else 0

/-- The overflow shelf of the kitchen, if there is one, has a capacity that is a
natural number of at least 1 and holds no more orders than that, and every index
of `inps` drawn for a forced clean is one of `0..capacity - 1`. -/
def OverflowReady (w : World) (inps : List Inputs) : Prop :=
  ∀ V, Kitchen.getShelf none w = some V →
    (∃ n : ℕ, 1 ≤ n ∧ (w.shelves V).capacity = n)
    ∧ (((w.shelves V)._orders.length : ℕ) : ℚ) ≤ (w.shelves V).capacity
    ∧ ∀ inp ∈ inps, 0 ≤ inp.random ∧ ((inp.random : Int) : ℚ) ≤ (w.shelves V).capacity - 1

/-! ## Placing a batch of orders -/

/-- The number of `removeOrder` notifications with a cause other than `null`
that a listener of the manager receives from the events `events`: the counter
of the listener `(_, err) => { if (err != null) ++count }`. -/
def KitchenManager.discardCount (events : List Event) : Nat :=
  (KitchenManager.notifications events).countP
    (fun e => match e with
      | Event.removeOrder _ _ (some _) => true
      | _ => false)

/-- The number of `assignOrderToShelf` notifications naming the shelf `s` that a
listener of the manager receives from the events `events`. -/
def KitchenManager.assignCount (s : ShelfRef) (events : List Event) : Nat :=
  (KitchenManager.notifications events).countP
    (fun e => match e with
      | Event.assignOrderToShelf _ _ t => decide (t = s)
      | _ => false)

/-- Orders are placed one after another: for each job, `processOrder` is called
with the given argument and its call is resumed alone, with the given inputs,
until it has left `_assignOrderToShelf`; the call then stays suspended, so that
no order is picked up, while the next orders are placed. The first component
lists where each call stands when it is left. -/
def KitchenManager.placeAll :
    List (OrderParams × List Inputs) → ManagerState → List Pipeline × ManagerState
  | [], st => ([], st)
  | job :: rest, st =>
    ((Pipeline.store job.2 (KitchenManager.processOrder job.1 st)).2.1
        :: (KitchenManager.placeAll rest
            (Pipeline.store job.2 (KitchenManager.processOrder job.1 st)).2.2).1,
      (KitchenManager.placeAll rest
        (Pipeline.store job.2 (KitchenManager.processOrder job.1 st)).2.2).2)

/-- What holds between two placements of a batch of orders that never expire on
the primary shelf `P` (the shelf of the kind `t`) and the overflow shelf `V`:
the registry is empty; every order on a shelf was made before, has decay rate 0
and a shelf life other than 0, and its id is none of `ids`, the ids still to
come; `P` and `V` have the capacities `c1` and `c2` and hold `a` and `b`
orders. -/
def BatchInv (P V : ShelfRef) (t : Option String) (c1 c2 a b : ℕ) (ids : List String)
    (S : ManagerState) : Prop :=
  S.world.kitchen._orders = []
  ∧ (∀ s, ∀ r ∈ (S.world.shelves s)._orders,
      r < S.nextOrder ∧ (S.world.orders r).decayRate = 0 ∧ (S.world.orders r).shelfLife ≠ 0
      ∧ (S.world.orders r).id ∉ ids)
  ∧ Kitchen.getShelf t S.world = some P ∧ t ≠ none ∧ Kitchen.getShelf none S.world = some V
  ∧ (S.world.shelves P).capacity = c1 ∧ (S.world.shelves V).capacity = c2
  ∧ (S.world.shelves P)._orders.length = a ∧ (S.world.shelves V)._orders.length = b
  ∧ a ≤ c1 ∧ b ≤ c2

/-- What holds while the order `S.nextOrder`, with the id `pid`, is being placed
from the state `S`, in a state `T` where its call is suspended inside
`_assignOrderToShelf`: the configuration of the shelves is that of `S`; the
order is in the registry at most once and alone there; no other order has
changed its id, decay rate or shelf life and the new order has the id `pid`,
decay rate 0 and a shelf life other than 0; every shelf holds a sublist of what
it held in `S`, the shelves `P` and `V` holding `aT` and `bT` of them; and the events
emitted since `S` have no `assignOrderToShelf` notification for `P` or `V` and
`dT` `removeOrder` notifications with a cause. -/
def Placing (P V : ShelfRef) (S T : ManagerState) (pid : String) (aT bT dT : ℕ) : Prop :=
  T.nextOrder = S.nextOrder + 1
  ∧ SameConfig S.world T.world
  ∧ T.world.kitchen._orders.count S.nextOrder ≤ 1
  ∧ T.world.kitchen._orders.filter (fun r => decide (r ≠ S.nextOrder)) = []
  ∧ (∀ r, r ≠ S.nextOrder →
      (T.world.orders r).id = (S.world.orders r).id
      ∧ (T.world.orders r).decayRate = (S.world.orders r).decayRate
      ∧ (T.world.orders r).shelfLife = (S.world.orders r).shelfLife)
  ∧ ((T.world.orders S.nextOrder).id = pid
      ∧ (T.world.orders S.nextOrder).decayRate = 0
      ∧ (T.world.orders S.nextOrder).shelfLife ≠ 0)
  ∧ (∀ s, (T.world.shelves s)._orders.Sublist (S.world.shelves s)._orders)
  ∧ (T.world.shelves P)._orders.length = aT
  ∧ (T.world.shelves V)._orders.length = bT
  ∧ ∃ ev, T.world.events = S.world.events ++ ev
      ∧ KitchenManager.assignCount P ev = 0
      ∧ KitchenManager.assignCount V ev = 0
      ∧ KitchenManager.discardCount ev = dT

/-! ## Concrete states -/

/-- An order prepared at time 0 and put on a shelf of modifier 1 at time 0. -/
def shelvedOrder : KitchenOrder :=
  { KitchenOrder.new "a" "Order #0" (some "hot") 100 1 with
    prepared := some 0,
    _decayHistory := [{ decayModifier := 1, date := 0 }] }

/-- A kitchen with a hot shelf (modifier 1) holding `shelvedOrder` and an empty
overflow shelf (modifier 2). -/
def twoShelfWorld : World :=
  { orders := fun _ => shelvedOrder,
    shelves := fun s =>
      if s = 0 then { kind := some "hot", capacity := 2, decayModifier := 1, _orders := [0] }
      else { kind := none, capacity := 2, decayModifier := 2, _orders := [] },
    kitchen := { _orders := [], _shelfs := [0, 1] },
    events := [] }

/-- An order prepared and shelved (modifier 1) at time 0 and moved to a shelf of
modifier 2 ten seconds later. -/
def movedOrder : KitchenOrder :=
  { KitchenOrder.new "a" "Order #0" (some "hot") 100 1 with
    prepared := some 0,
    _decayHistory := [{ decayModifier := 1, date := 0 }, { decayModifier := 2, date := 10000 }] }

/-- Two orders with ids "a" and "b" (references 0 and 1), both resident on
shelf 0, which has capacity 2. -/
def twoResidentsWorld : World :=
  { orders := fun r =>
      if r = 0 then KitchenOrder.new "a" "Order #0" (some "hot") 100 1
      else KitchenOrder.new "b" "Order #1" (some "hot") 100 1,
    shelves := fun _ => { kind := some "hot", capacity := 2, decayModifier := 1, _orders := [0, 1] },
    kitchen := { _orders := [], _shelfs := [0] },
    events := [] }

/-- A shelf of capacity 2 as the constructor returns it. -/
def freshShelf : KitchenShelf :=
  { kind := some "hot", capacity := 2, decayModifier := 1, _orders := [] }

/-- A world whose shelves are all fresh and whose kitchen tracks nothing. -/
def freshWorld : World :=
  { orders := fun _ => KitchenOrder.new "a" "Order #0" (some "hot") 100 1,
    shelves := fun _ => freshShelf,
    kitchen := { _orders := [], _shelfs := [0] },
    events := [] }

/-- The world reached from `freshWorld` by calling `insertOrder` twice with the
same order on shelf 0: the shelf lists that one object at positions 0 and 1. -/
def twiceInsertedWorld : World :=
  runShelfCalls 0
    [ShelfCall.insertOrder (JsValue.order 0) 1, ShelfCall.insertOrder (JsValue.order 0) 2]
    freshWorld

/-- A kitchen without shelves whose registry holds order 0, of id "a"; every
other reference stands for an order of id "c" that the kitchen does not track. -/
def registryWorld : World :=
  { orders := fun r =>
      if r = 0 then KitchenOrder.new "a" "Order #0" (some "hot") 100 1
      else KitchenOrder.new "c" "Order #2" (some "hot") 100 1,
    shelves := fun _ => freshShelf,
    kitchen := { _orders := [0], _shelfs := [] },
    events := [] }

/-- A kitchen with a hot shelf (reference 0, capacity 2, modifier 1) and an
overflow shelf (reference 1, capacity 2, modifier 2), both empty, and an empty
registry. -/
def managedWorld : World :=
  { orders := fun _ => KitchenOrder.new "" "" none 1 1,
    shelves := fun s =>
      if s = 0 then { kind := some "hot", capacity := 2, decayModifier := 1, _orders := [] }
      else { kind := none, capacity := 2, decayModifier := 2, _orders := [] },
    kitchen := { _orders := [], _shelfs := [0, 1] },
    events := [] }

/-- A manager of `managedWorld` that has made no order and no courier yet. -/
def freshManager : ManagerState :=
  { world := managedWorld,
    couriers := fun _ => Courier.new "",
    _couriers := [],
    nextOrder := 0,
    nextCourier := 0 }

/-- A manager whose courier 0 was dispatched for order 0, an order that was
never prepared. -/
def unpreparedManager : ManagerState :=
  { freshManager with
    couriers := fun _ =>
      { Courier.new "c0" with order := some 0, dispatched := some 0, delivered := some none },
    _couriers := [0],
    nextOrder := 1,
    nextCourier := 1 }

/-- A manager whose hot shelf holds order 0, of shelf life 1 and decay rate 1,
prepared and stored at time 0, and whose courier 0 was dispatched for it. -/
def perishableManager : ManagerState :=
  { world :=
      { managedWorld with
        orders := fun _ =>
          { KitchenOrder.new "a" "Order #0" (some "hot") 1 1 with
            status := StatusField.member KitchenOrderStatus.AWAITING_COURIER,
            prepared := some 0,
            _decayHistory := [{ decayModifier := 1, date := 0 }] },
        shelves := fun s =>
          if s = 0 then { kind := some "hot", capacity := 2, decayModifier := 1, _orders := [0] }
          else { kind := none, capacity := 2, decayModifier := 2, _orders := [] } },
    couriers := fun _ =>
      { Courier.new "c0" with order := some 0, dispatched := some 0, delivered := some none },
    _couriers := [0],
    nextOrder := 1,
    nextCourier := 1 }

/-- A manager whose hot shelf holds order 0, of shelf life 100 and decay rate 1,
prepared and stored at time 0, and whose courier 0 was dispatched for it. -/
def waitingManager : ManagerState :=
  { world :=
      { managedWorld with
        orders := fun _ =>
          { KitchenOrder.new "a" "Order #0" (some "hot") 100 1 with
            status := StatusField.member KitchenOrderStatus.AWAITING_COURIER,
            prepared := some 0,
            _decayHistory := [{ decayModifier := 1, date := 0 }] },
        shelves := fun s =>
          if s = 0 then { kind := some "hot", capacity := 2, decayModifier := 1, _orders := [0] }
          else { kind := none, capacity := 2, decayModifier := 2, _orders := [] } },
    couriers := fun _ =>
      { Courier.new "c0" with order := some 0, dispatched := some 0, delivered := some none },
    _couriers := [0],
    nextOrder := 1,
    nextCourier := 1 }

/-- The inputs of a resumption at clock reading `now`, when the other inputs do
not matter. -/
def Inputs.at (now : Int) : Inputs :=
  { now := now, random := 0, uuid := "courier" }

/-- The argument of `processOrder` for a hot order of shelf life 100 and decay
rate 1 with the given id. -/
def hotOrder (id : String) : OrderParams :=
  { id := id, name := "Order", temp := some "hot", shelfLife := 100, decayRate := 1 }

/-- Two orders are submitted together to a fresh manager. Each gets a new
courier, courier 0 for the first and courier 1 for the second. The first is
delivered at 2005 ms and the second at 6005 ms, so courier 1 is the courier used
most recently. A third order is then submitted and reaches `_dispatchCourier` at
7001 ms. -/
def recencySchedule : List Action :=
  [Action.processOrder (hotOrder "a"), Action.processOrder (hotOrder "b"),
   Action.resume 0 (Inputs.at 1), Action.resume 1 (Inputs.at 1),
   Action.resume 0 (Inputs.at 2), Action.resume 1 (Inputs.at 2),
   Action.resume 0 (Inputs.at 3), Action.resume 1 (Inputs.at 3),
   Action.resume 0 (Inputs.at 2003), Action.resume 0 (Inputs.at 2004),
   Action.resume 0 (Inputs.at 2005),
   Action.resume 1 (Inputs.at 6003), Action.resume 1 (Inputs.at 6004),
   Action.resume 1 (Inputs.at 6005),
   Action.processOrder (hotOrder "c"),
   Action.resume 2 (Inputs.at 7000), Action.resume 2 (Inputs.at 7001)]

/-- A world whose hot shelf holds order 0, of shelf life 1, and order 1, of shelf
life 100, both of decay rate 1, prepared and stored at time 0. -/
def mixedShelfWorld : World :=
  { managedWorld with
    orders := fun r =>
      { KitchenOrder.new (if r = 0 then "a" else "b") "Order" (some "hot")
          (if r = 0 then 1 else 100) 1 with
        status := StatusField.member KitchenOrderStatus.AWAITING_COURIER,
        prepared := some 0,
        _decayHistory := [{ decayModifier := 1, date := 0 }] },
    shelves := fun s =>
      if s = 0 then { kind := some "hot", capacity := 2, decayModifier := 1, _orders := [0, 1] }
      else { kind := none, capacity := 2, decayModifier := 2, _orders := [] } }

/-- The clock readings of the six resumptions of a call that makes its own
courier: cooked at 1 ms, stored at 2 ms, courier made at 3 ms, arrived at
2003 ms, order picked up at 2004 ms and delivered at 2005 ms. -/
def deliverySchedule : List Inputs :=
  [Inputs.at 1, Inputs.at 2, Inputs.at 3, Inputs.at 2003, Inputs.at 2004, Inputs.at 2005]

/-- A kitchen whose only shelf is a hot shelf (reference 0, capacity 2, modifier
1), empty, with an empty registry: there is no overflow shelf. -/
def hotOnlyWorld : World :=
  { orders := fun _ => KitchenOrder.new "" "" none 1 1,
    shelves := fun _ => { kind := some "hot", capacity := 2, decayModifier := 1, _orders := [] },
    kitchen := { _orders := [], _shelfs := [0] },
    events := [] }

/-- A manager of `hotOnlyWorld` that has made no order and no courier yet. -/
def hotOnlyManager : ManagerState :=
  { world := hotOnlyWorld,
    couriers := fun _ => Courier.new "",
    _couriers := [],
    nextOrder := 0,
    nextCourier := 0 }

/-- The argument of `processOrder` for a hot order that never expires: shelf
life 100 and decay rate 0, with the given id. -/
def lastingOrder (id : String) : OrderParams :=
  { id := id, name := "Order", temp := some "hot", shelfLife := 100, decayRate := 0 }

/-- Three hot orders that never expire are submitted together. Each is cooked at
1 ms and reaches its shelf at 2 ms; the first two are stored, get the couriers 0
and 1 and are delivered at 2005 ms and 2008 ms. -/
def saturationSchedule : List Action :=
  [Action.processOrder (lastingOrder "a"), Action.processOrder (lastingOrder "b"),
   Action.processOrder (lastingOrder "c"),
   Action.resume 0 (Inputs.at 1), Action.resume 1 (Inputs.at 1), Action.resume 2 (Inputs.at 1),
   Action.resume 0 (Inputs.at 2), Action.resume 1 (Inputs.at 2), Action.resume 2 (Inputs.at 2),
   Action.resume 0 (Inputs.at 3), Action.resume 1 (Inputs.at 3),
   Action.resume 0 (Inputs.at 2003), Action.resume 0 (Inputs.at 2004),
   Action.resume 0 (Inputs.at 2005),
   Action.resume 1 (Inputs.at 2006), Action.resume 1 (Inputs.at 2007),
   Action.resume 1 (Inputs.at 2008)]

/-- A batch of hot orders that never expire, one per id, each with the clock
readings 1 ms to 5 ms for the resumptions of its call and the index 0 for a
forced clean. -/
def lastingBatch (ids : List String) : List (OrderParams × List Inputs) :=
  ids.map (fun id =>
    (lastingOrder id, [Inputs.at 1, Inputs.at 2, Inputs.at 3, Inputs.at 4, Inputs.at 5]))

/-- A hot order of shelf life 3 and decay rate 1 with the id "a" is submitted and
cooked at 1 ms, stored at 2 ms and gets the new courier 0 at 3 ms. The courier
arrives at 2980 ms, when the value of the order is 0.007, so the check of
`_deliverOrder` passes. A second hot order, submitted at 2988 ms and cooked at
2989 ms, reaches the hot shelf at 2990 ms, when the value of the first order is
below 0.005. The first call then goes on: pick-up at 2991 ms and delivery at
2992 ms. -/
def raceSchedule : List Action :=
  [Action.processOrder
     { id := "a", name := "Order", temp := some "hot", shelfLife := 3, decayRate := 1 },
   Action.resume 0 (Inputs.at 1), Action.resume 0 (Inputs.at 2), Action.resume 0 (Inputs.at 3),
   Action.resume 0 (Inputs.at 2980),
   Action.processOrder (hotOrder "b"),
   Action.resume 1 (Inputs.at 2989), Action.resume 1 (Inputs.at 2990),
   Action.resume 0 (Inputs.at 2991), Action.resume 0 (Inputs.at 2992)]

/-- A hot order of shelf life 3 and decay rate 1 with the id "a" is submitted,
cooked at 1 ms and stored at 2 ms; no courier is idle, so its call waits to make
one. A second hot order is submitted, cooked at 2989 ms and reaches the hot
shelf at 2990 ms, when the first order is expired: the clean removes the first
order. The call for the first order then makes its courier at 2991 ms. -/
def staleSchedule : List Action :=
  [Action.processOrder
     { id := "a", name := "Order", temp := some "hot", shelfLife := 3, decayRate := 1 },
   Action.resume 0 (Inputs.at 1), Action.resume 0 (Inputs.at 2),
   Action.processOrder (hotOrder "b"),
   Action.resume 1 (Inputs.at 2989), Action.resume 1 (Inputs.at 2990),
   Action.resume 0 (Inputs.at 2991)]

/-- A manager whose kitchen has a single shelf, a hot shelf of capacity 2 that
holds the orders 0 and 1 (ids "a" and "b", shelf life 100, stored at time 0),
and whose registry holds the order 2 (id "c"), prepared at 1 ms. -/
def fullHotManager : ManagerState :=
  { world :=
      { orders := fun r =>
          if r = 2 then
            { KitchenOrder.new "c" "Order" (some "hot") 100 1 with
              status := StatusField.member KitchenOrderStatus.AWAITING_PREPARATION,
              prepared := some 1 }
          else
            { KitchenOrder.new (if r = 0 then "a" else "b") "Order" (some "hot") 100 1 with
              status := StatusField.member KitchenOrderStatus.AWAITING_COURIER,
              prepared := some 0,
              _decayHistory := [{ decayModifier := 1, date := 0 }] },
        shelves := fun _ =>
          { kind := some "hot", capacity := 2, decayModifier := 1, _orders := [0, 1] },
        kitchen := { _orders := [2], _shelfs := [0] },
        events := [] },
    couriers := fun _ => Courier.new "",
    _couriers := [],
    nextOrder := 3,
    nextCourier := 0 }

/-- A manager whose kitchen has a single shelf, a hot shelf of capacity 2 that
holds the orders 0 and 1 (ids "a" and "b", shelf life 100, stored at time 0),
and whose registry holds the order 2, prepared at 1 ms, which has the id "a"
too. -/
def sameIdManager : ManagerState :=
  { fullHotManager with
    world :=
      { fullHotManager.world with
        orders := fun r =>
          if r = 2 then { fullHotManager.world.orders 2 with id := "a" }
          else fullHotManager.world.orders r } }

/-- A kitchen whose hot shelf, of capacity 1, holds the order 0, which is in the
registry too. -/
def trackedTwiceWorld : World :=
  { orders := fun _ =>
      { KitchenOrder.new "a" "Order" (some "hot") 100 1 with
        prepared := some 0,
        _decayHistory := [{ decayModifier := 1, date := 0 }] },
    shelves := fun _ => { kind := some "hot", capacity := 1, decayModifier := 1, _orders := [0] },
    kitchen := { _orders := [0], _shelfs := [0] },
    events := [] }

/-- Two calls of `processOrder` on a fresh manager, for the hot orders "a"
(order 0) and "b" (order 1), started together: where the first call is, and the
state, once both orders are cooked (at 1 ms) and the first is stored (at 2 ms)
while the second call waits in `_cleanShelf`. -/
def interleavedStored : Pipeline × ManagerState :=
  (Pipeline.cleaning 0 0).resume (Inputs.at 2)
    ((Pipeline.cooking 1).resume (Inputs.at 1)
      ((Pipeline.cooking 0).resume (Inputs.at 1)
        (KitchenManager.processOrder (hotOrder "b")
          (KitchenManager.processOrder (hotOrder "a") freshManager).2).2).2).2

/-- The run of the call for the order "a" among the steps of the call for the
order "b": the second call starts before the first is resumed at 1 ms, the
second order is cooked before the first call is resumed at 2 ms, and the first
call then goes on alone, as `deliverySchedule` tells. -/
def interleavedTrace : List (Inputs × ManagerState) :=
  (Inputs.at 1,
    (KitchenManager.processOrder (hotOrder "b")
      (KitchenManager.processOrder (hotOrder "a") freshManager).2).2)
  :: (Inputs.at 2,
    ((Pipeline.cooking 1).resume (Inputs.at 1)
      ((Pipeline.cooking 0).resume (Inputs.at 1)
        (KitchenManager.processOrder (hotOrder "b")
          (KitchenManager.processOrder (hotOrder "a") freshManager).2).2).2).2)
  :: Pipeline.alone [Inputs.at 3, Inputs.at 2003, Inputs.at 2004, Inputs.at 2005]
      interleavedStored

/-- A manager whose kitchen has a hot shelf of capacity 2 that holds the orders
0 and 1 and an overflow shelf of capacity 2 that holds the orders 2 and 3 (ids
"a" to "d", shelf life 100, stored at time 0), and whose registry holds the
order 4 (id "e"), prepared at 1 ms. -/
def saturatedManager : ManagerState :=
  { world :=
      { orders := fun r =>
          if r = 4 then
            { KitchenOrder.new "e" "Order" (some "hot") 100 1 with
              status := StatusField.member KitchenOrderStatus.AWAITING_PREPARATION,
              prepared := some 1 }
          else
            { KitchenOrder.new (if r = 0 then "a" else if r = 1 then "b" else if r = 2 then "c"
                else "d") "Order" (some "hot") 100 1 with
              status := StatusField.member KitchenOrderStatus.AWAITING_COURIER,
              prepared := some 0,
              _decayHistory := [{ decayModifier := if r = 0 ∨ r = 1 then 1 else 2, date := 0 }] },
        shelves := fun s =>
          if s = 0 then { kind := some "hot", capacity := 2, decayModifier := 1, _orders := [0, 1] }
          else { kind := none, capacity := 2, decayModifier := 2, _orders := [2, 3] },
        kitchen := { _orders := [4], _shelfs := [0, 1] },
        events := [] },
    couriers := fun _ => Courier.new "",
    _couriers := [],
    nextOrder := 5,
    nextCourier := 0 }

/-! ## Theorems -/

/-! ### The value of an order -/

/-- The date left in `oldDate` by the `reduce` of `getValue` and the value it
returns, in closed form. -/
theorem foldl_getValueStep (o : KitchenOrder) (hs : o.shelfLife ≠ 0) (h : List DecayEntry)
    (v : ℚ) (d : Int) :
    h.foldl o.getValueStep (v, d)
      = (v - o.decayRate / o.shelfLife * reduceCharge d h,
         (h.getLast?.map DecayEntry.date).getD d) := by
  induction h generalizing v d with
  | nil => simp [reduceCharge]
  | cons e rest ih =>
    rw [List.foldl_cons, KitchenOrder.getValueStep, ih]
    refine Prod.ext ?_ ?_
    · simp only [KitchenOrder._valueForAgeAndDecayModifier, reduceCharge]
      field_simp
      ring
    · cases rest with
      | nil => simp
      | cons e2 rest2 =>
        rw [List.getLast?_cons_cons,
          List.getLast?_eq_getLast (e2 :: rest2) (List.cons_ne_nil e2 rest2)]
        simp

/-- What `getValue` computes, in closed form, for a prepared order with a
non-empty history: the time before each history entry is charged at that
entry's modifier, the time after the last entry at the last modifier. -/
theorem getValue_closed_form (o : KitchenOrder) (hs : o.shelfLife ≠ 0) (p : Int)
    (hp : o.prepared = some p) (last : DecayEntry)
    (hl : o._decayHistory.getLast? = some last) (now : Int) :
    o.getValue now
      = 1 - o.decayRate / o.shelfLife *
          (reduceCharge p o._decayHistory
            + last.decayModifier * (((o.removed.getD now - last.date : Int) : ℚ) / 1000)) := by
  unfold KitchenOrder.getValue
  simp only [hp, Option.getD_some, foldl_getValueStep o hs, hl, Option.map_some']
  simp only [KitchenOrder._valueForAgeAndDecayModifier]
  field_simp
  ring

theorem reduceCharge_append (d : Int) (h : List DecayEntry) (e : DecayEntry) :
    reduceCharge d (h ++ [e])
      = reduceCharge d h
        + e.decayModifier * (((e.date - (h.getLast?.map DecayEntry.date).getD d : Int) : ℚ) / 1000) := by
  induction h generalizing d with
  | nil => simp [reduceCharge]
  | cons x rest ih =>
    rw [List.cons_append, reduceCharge, ih, reduceCharge]
    cases rest with
    | nil => simp [reduceCharge]
    | cons y rest2 =>
      rw [List.getLast?_cons_cons,
        List.getLast?_eq_getLast (y :: rest2) (List.cons_ne_nil y rest2)]
      simp only [Option.map_some', Option.getD_some]
      ring

/-- The size of the jump of `getValue` when an entry `(m, t)` is pushed on a
non-empty history and the value is read at `t`: the time since the last entry is
re-charged at `m` instead of the last modifier. -/
theorem getValue_push_entry (o : KitchenOrder) (hs : o.shelfLife ≠ 0) (p : Int)
    (hp : o.prepared = some p) (hr : o.removed = none) (last : DecayEntry)
    (hl : o._decayHistory.getLast? = some last) (m : ℚ) (t : Int) :
    ({ o with _decayHistory := o._decayHistory ++ [{ decayModifier := m, date := t }] }
        : KitchenOrder).getValue t
      = o.getValue t
        - o.decayRate / o.shelfLife
          * ((m - last.decayModifier) * (((t - last.date : Int) : ℚ) / 1000)) := by
  rw [getValue_closed_form o hs p hp last hl,
    getValue_closed_form
      { o with _decayHistory := o._decayHistory ++ [{ decayModifier := m, date := t }] }
      hs p hp { decayModifier := m, date := t } (by simp)]
  simp only [hr, Option.getD_none, reduceCharge_append, hl, Option.map_some', Option.getD_some,
    sub_self, Int.cast_zero, zero_div, mul_zero, add_zero]
  ring

/-- C1 (code defect): moving an order between shelves changes its value at the
transition instant. An order worth 9/10 after ten seconds on a shelf of modifier 1
is moved by `Kitchen.assignOrdersToShelf` to a shelf of modifier 2; evaluated at
the same instant, right after the move, `getValue` is 4/5: the ten seconds spent
on the first shelf are now charged at the modifier of the second. -/
theorem getValue_jumps_on_shelf_change :
    (twoShelfWorld.orders 0).getValue 10000 = 9 / 10 ∧
    (Kitchen.assignOrdersToShelf (JsValue.order 0) (JsValue.shelf 1) 10000 twoShelfWorld).1
      = Except.ok () ∧
    ((Kitchen.assignOrdersToShelf (JsValue.order 0) (JsValue.shelf 1) 10000
        twoShelfWorld).2.orders 0).getValue 10000 = 4 / 5 := by
  norm_num [Kitchen.assignOrdersToShelf, Kitchen.removeOrders, toModelPredicate,
    Kitchen.removeOrdersLoop, Kitchen.removeOrdersShelves, KitchenShelf.removeOrders,
    KitchenShelf.removeOrdersLoop, twoShelfWorld, World.setShelf, World.setOrder, World.emit,
    Kitchen.assignOrdersLoop, KitchenShelf.insertOrder, KitchenOrder.insertDecayModifier,
    JsValue.isKitchenOrder, Function.update, shelvedOrder, KitchenOrder.new,
    KitchenOrder.getValue, KitchenOrder.getValueStep, KitchenOrder._valueForAgeAndDecayModifier]

/-- C2 (code defect): on the history (1, 0 s), (2, 10 s) evaluated at 20 s,
with shelf life 100 and decay rate 1, the specification charges the first ten
seconds at modifier 1 and the next ten at modifier 2, value 7/10, whereas
`getValue` charges the first ten seconds at modifier 2 as well, value 3/5. -/
theorem getValue_charges_later_modifier :
    movedOrder.getValue 20000 = 3 / 5 ∧ specValue movedOrder 20000 = 7 / 10 ∧
    movedOrder.getValue 20000 ≠ specValue movedOrder 20000 := by
  norm_num [movedOrder, KitchenOrder.getValue, KitchenOrder.new,
    KitchenOrder.getValueStep, KitchenOrder._valueForAgeAndDecayModifier, specValue, specCharge]

/-- C3: for a prepared order with positive shelf life, non-negative decay rate,
non-negative modifiers in its history and no removal timestamp, the value read
at a later clock instant is at most the value read at an earlier one (whether or
not the instants lie after the last history entry). -/
theorem getValue_nonincreasing (o : KitchenOrder) (p t1 t2 : Int)
    (hs : 0 < o.shelfLife) (hd : 0 ≤ o.decayRate)
    (hm : ∀ e ∈ o._decayHistory, 0 ≤ e.decayModifier)
    (hp : o.prepared = some p) (hr : o.removed = none) (h12 : t1 ≤ t2) :
    o.getValue t2 ≤ o.getValue t1 := by
  cases hl : o._decayHistory.getLast? with
  | none =>
    have hnil : o._decayHistory = [] := List.getLast?_eq_none_iff.mp hl
    simp [KitchenOrder.getValue, hp, hnil]
  | some last =>
    have hmem : last ∈ o._decayHistory := List.mem_of_getLast?_eq_some hl
    have hlast : 0 ≤ last.decayModifier := hm last hmem
    rw [getValue_closed_form o (ne_of_gt hs) p hp last hl,
      getValue_closed_form o (ne_of_gt hs) p hp last hl]
    simp only [hr, Option.getD_none]
    have hcast : ((t1 - last.date : Int) : ℚ) ≤ ((t2 - last.date : Int) : ℚ) := by
      exact_mod_cast Int.sub_le_sub_right h12 last.date
    have hq : 0 ≤ o.decayRate / o.shelfLife := div_nonneg hd (le_of_lt hs)
    have hstep : last.decayModifier * (((t1 - last.date : Int) : ℚ) / 1000)
        ≤ last.decayModifier * (((t2 - last.date : Int) : ℚ) / 1000) := by
      apply mul_le_mul_of_nonneg_left _ hlast
      exact div_le_div_of_nonneg_right hcast (by norm_num)
    have hmul := mul_le_mul_of_nonneg_left
      (add_le_add_left hstep (reduceCharge p o._decayHistory)) hq
    linarith

/-- A witness of `getValue_nonincreasing`: `shelvedOrder` read at 10 s and at 20 s. -/
theorem getValue_nonincreasing_witness :
    shelvedOrder.getValue 20000 ≤ shelvedOrder.getValue 10000 :=
  getValue_nonincreasing shelvedOrder 0 10000 20000
    (by norm_num [shelvedOrder, KitchenOrder.new])
    (by norm_num [shelvedOrder, KitchenOrder.new])
    (by simp [shelvedOrder, KitchenOrder.new])
    (by simp [shelvedOrder, KitchenOrder.new])
    (by simp [shelvedOrder, KitchenOrder.new])
    (by norm_num)

/-! ### Rounding to a double -/

theorem bitLength_zero (fuel : Nat) : bitLength fuel 0 = 0 := by
  cases fuel <;> simp [bitLength]

theorem bitLength_lt (fuel n : Nat) (h : n ≤ fuel) : n < 2 ^ bitLength fuel n := by
  induction fuel generalizing n with
  | zero =>
    have : n = 0 := by omega
    subst this
    simp [bitLength]
  | succ fuel ih =>
    unfold bitLength
    by_cases hn : n = 0
    · simp [hn]
    · simp only [hn, if_false]
      have := ih (n / 2) (by omega)
      rw [pow_succ]
      omega

theorem bitLength_le (fuel n : Nat) (h : n ≤ fuel) (hn : n ≠ 0) :
    2 ^ (bitLength fuel n - 1) ≤ n := by
  induction fuel generalizing n with
  | zero => omega
  | succ fuel ih =>
    unfold bitLength
    simp only [hn, if_false, Nat.add_sub_cancel]
    by_cases h2 : n / 2 = 0
    · rw [h2, bitLength_zero]
      simp
      omega
    · have := ih (n / 2) (by omega) h2
      have hpos : 1 ≤ bitLength fuel (n / 2) := by
        cases fuel with
        | zero => omega
        | succ f =>
          unfold bitLength
          simp [h2]
      have hk : bitLength fuel (n / 2) = (bitLength fuel (n / 2) - 1) + 1 := by omega
      rw [hk, pow_succ]
      omega

theorem log2Floor_spec (x : ℚ) (hx : 0 < x) :
    (2 : ℚ) ^ log2Floor x ≤ x ∧ x < (2 : ℚ) ^ (log2Floor x + 1) := by
  have hnum : 0 < x.num := Rat.num_pos.mpr hx
  have hN : x.num.natAbs ≠ 0 := by omega
  have hD : x.den ≠ 0 := x.den_nz
  have hxe : x = (x.num.natAbs : ℚ) / (x.den : ℚ) := by
    have h1 : ((x.num.natAbs : Int) : ℚ) = (x.num : ℚ) := by
      rw [Int.natAbs_of_nonneg hnum.le]
    have h2 : ((x.num.natAbs : Int) : ℚ) = (x.num.natAbs : ℚ) := Int.cast_natCast _
    rw [← h2, h1, Rat.num_div_den]
  have ha1 := bitLength_lt x.num.natAbs x.num.natAbs le_rfl
  have ha2 := bitLength_le x.num.natAbs x.num.natAbs le_rfl hN
  have hb1 := bitLength_lt x.den x.den le_rfl
  have hb2 := bitLength_le x.den x.den le_rfl hD
  set a := bitLength x.num.natAbs x.num.natAbs with ha
  set b := bitLength x.den x.den with hb
  set N := x.num.natAbs with hNdef
  set D := x.den with hDdef
  have hapos : 1 ≤ a := by
    by_contra hc
    have : a = 0 := by omega
    rw [this] at ha1
    simp at ha1
    omega
  have hbpos : 1 ≤ b := by
    by_contra hc
    have : b = 0 := by omega
    rw [this] at hb1
    simp at hb1
    omega
  have hDq : (0 : ℚ) < D := by exact_mod_cast Nat.pos_of_ne_zero hD
  have hNlt : (N : ℚ) < 2 ^ a := by exact_mod_cast ha1
  have hNge : (2 : ℚ) ^ (a - 1) ≤ N := by exact_mod_cast ha2
  have hDlt : (D : ℚ) < 2 ^ b := by exact_mod_cast hb1
  have hDge : (2 : ℚ) ^ (b - 1) ≤ D := by exact_mod_cast hb2
  have two_pos : ∀ k : ℤ, (0 : ℚ) < 2 ^ k := fun k => zpow_pos (by norm_num) k
  -- bounds with integer exponents
  have hupper : x < (2 : ℚ) ^ ((a : ℤ) - b + 1) := by
    rw [hxe, div_lt_iff₀ hDq]
    have e1 : (2 : ℚ) ^ ((a : ℤ) - b + 1) = 2 ^ (a : ℤ) / 2 ^ ((b : ℤ) - 1) := by
      rw [← zpow_sub₀ (by norm_num : (2 : ℚ) ≠ 0)]
      congr 1
      ring
    have e2 : (2 : ℚ) ^ ((b : ℤ) - 1) = 2 ^ (b - 1 : ℕ) := by
      rw [← zpow_natCast]
      congr 1
      omega
    rw [e1, e2, zpow_natCast]
    have hp : (0 : ℚ) < 2 ^ (b - 1) := by positivity
    calc (N : ℚ) < 2 ^ a := hNlt
      _ = 2 ^ a / 2 ^ (b - 1) * 2 ^ (b - 1) := by field_simp
      _ ≤ 2 ^ a / 2 ^ (b - 1) * D := by
        apply mul_le_mul_of_nonneg_left hDge
        positivity
  have hlower : (2 : ℚ) ^ ((a : ℤ) - b - 1) ≤ x := by
    rw [hxe, le_div_iff₀ hDq]
    have e1 : (2 : ℚ) ^ ((a : ℤ) - b - 1) = 2 ^ ((a : ℤ) - 1) / 2 ^ (b : ℤ) := by
      rw [← zpow_sub₀ (by norm_num : (2 : ℚ) ≠ 0)]
      congr 1
      ring
    have e2 : (2 : ℚ) ^ ((a : ℤ) - 1) = 2 ^ (a - 1 : ℕ) := by
      rw [← zpow_natCast]
      congr 1
      omega
    rw [e1, e2, zpow_natCast]
    have hp : (0 : ℚ) < 2 ^ b := by positivity
    calc (2 : ℚ) ^ (a - 1) / 2 ^ b * D ≤ 2 ^ (a - 1) / 2 ^ b * 2 ^ b := by
          apply mul_le_mul_of_nonneg_left hDlt.le
          positivity
      _ = 2 ^ (a - 1) := by field_simp
      _ ≤ N := hNge
  unfold log2Floor
  simp only [← ha, ← hb]
  split_ifs with hc
  · exact ⟨hc, hupper⟩
  · refine ⟨hlower, ?_⟩
    rw [sub_add_cancel]
    exact not_le.mp hc

theorem two_zpow_pos (k : ℤ) : (0 : ℚ) < 2 ^ k := zpow_pos (by norm_num) k

theorem two_zpow_le {a b : ℤ} (h : a ≤ b) : (2 : ℚ) ^ a ≤ 2 ^ b :=
  zpow_le_zpow_right₀ (by norm_num) h

theorem two_zpow_lt_iff {a b : ℤ} : (2 : ℚ) ^ a < 2 ^ b ↔ a < b :=
  zpow_lt_zpow_iff_right₀ (by norm_num)

theorem cast_two_pow (n : ℕ) : (((2 : ℤ) ^ n : ℤ) : ℚ) = (2 : ℚ) ^ (n : ℤ) := by
  rw [zpow_natCast]
  push_cast
  rfl

theorem log2Floor_ge (x : ℚ) (hx : 0 < x) (k : ℤ) (h : (2 : ℚ) ^ k ≤ x) : k ≤ log2Floor x := by
  have := (log2Floor_spec x hx).2
  have hlt : (2 : ℚ) ^ k < 2 ^ (log2Floor x + 1) := lt_of_le_of_lt h this
  rw [two_zpow_lt_iff] at hlt
  omega

theorem log2Floor_lt (x : ℚ) (hx : 0 < x) (k : ℤ) (h : x < (2 : ℚ) ^ k) : log2Floor x < k := by
  have := (log2Floor_spec x hx).1
  have hlt : (2 : ℚ) ^ log2Floor x < 2 ^ k := lt_of_le_of_lt this h
  rwa [two_zpow_lt_iff] at hlt

theorem log2Floor_mono (x y : ℚ) (hx : 0 < x) (h : x ≤ y) : log2Floor x ≤ log2Floor y :=
  log2Floor_ge y (lt_of_lt_of_le hx h) _ (le_trans (log2Floor_spec x hx).1 h)

theorem ulpExponent_mono (x y : ℚ) (hx : 0 < x) (h : x ≤ y) : ulpExponent x ≤ ulpExponent y := by
  unfold ulpExponent
  have := log2Floor_mono x y hx h
  omega

theorem roundHalfEven_intCast (k : ℤ) : roundHalfEven (k : ℚ) = k := by
  unfold roundHalfEven
  simp

theorem floor_le_roundHalfEven (x : ℚ) : ⌊x⌋ ≤ roundHalfEven x := by
  unfold roundHalfEven
  split_ifs <;> omega

theorem roundHalfEven_le_floor_succ (x : ℚ) : roundHalfEven x ≤ ⌊x⌋ + 1 := by
  unfold roundHalfEven
  split_ifs <;> omega

theorem le_roundHalfEven (x : ℚ) (k : ℤ) (h : (k : ℚ) ≤ x) : k ≤ roundHalfEven x :=
  le_trans (Int.le_floor.mpr h) (floor_le_roundHalfEven x)

theorem roundHalfEven_le (x : ℚ) (k : ℤ) (h : x ≤ (k : ℚ)) : roundHalfEven x ≤ k := by
  rcases eq_or_lt_of_le h with heq | hlt
  · rw [heq, roundHalfEven_intCast]
  · have : ⌊x⌋ < k := Int.floor_lt.mpr hlt
    have := roundHalfEven_le_floor_succ x
    omega

/-- A rational is on the grid of step `2 ^ u` when it is an integer multiple of
the step. -/
theorem grid_coarser (c : ℚ) (k : ℤ) (u v : ℤ) (h : c = k * 2 ^ u) (hv : v ≤ u) :
    ∃ k2 : ℤ, c = k2 * 2 ^ v := by
  refine ⟨k * 2 ^ (u - v).toNat, ?_⟩
  have e : (2 : ℚ) ^ u = 2 ^ ((u - v).toNat : ℤ) * 2 ^ v := by
    rw [← zpow_add₀ (by norm_num : (2 : ℚ) ≠ 0)]
    congr 1
    rw [Int.toNat_of_nonneg (by omega)]
    ring
  rw [h, e, zpow_natCast]
  push_cast
  ring

theorem ulpExponent_le_of_representable (c : ℚ) (hc : 0 < c) (m : ℕ) (e : ℤ)
    (hm : m < 2 ^ 53) (he : -1074 ≤ e) (h : c = m * 2 ^ e) : ulpExponent c ≤ e := by
  unfold ulpExponent
  have hlt : c < (2 : ℚ) ^ (53 + e) := by
    rw [h, zpow_add₀ (by norm_num : (2 : ℚ) ≠ 0)]
    apply mul_lt_mul_of_pos_right _ (two_zpow_pos e)
    have : (m : ℚ) < 2 ^ (53 : ℕ) := by exact_mod_cast hm
    rw [← zpow_natCast] at this
    exact_mod_cast this
  have := log2Floor_lt c hc _ hlt
  omega

theorem grid_of_representable (c : ℚ) (hc : 0 < c) (hr : Representable c) :
    ∃ k : ℤ, c = k * 2 ^ ulpExponent c := by
  obtain ⟨m, e, hm, he, h⟩ := hr
  rw [abs_of_pos hc] at h
  have hu := ulpExponent_le_of_representable c hc m e hm he h
  exact grid_coarser c m e _ (by simpa using h) hu

theorem roundMagnitude_eq (x : ℚ) :
    roundMagnitude x = (roundHalfEven (x / 2 ^ ulpExponent x) : ℚ) * 2 ^ ulpExponent x := rfl

theorem roundMagnitude_of_grid (x : ℚ) (k : ℤ) (h : x = k * 2 ^ ulpExponent x) :
    roundMagnitude x = x := by
  have hs : x / 2 ^ ulpExponent x = k := by
    rw [div_eq_iff (two_zpow_pos _).ne']
    exact h
  rw [roundMagnitude_eq, hs, roundHalfEven_intCast]
  exact h.symm

theorem roundMagnitude_representable (x : ℚ) (hx : 0 < x) (hr : Representable x) :
    roundMagnitude x = x := by
  obtain ⟨k, hk⟩ := grid_of_representable x hx hr
  exact roundMagnitude_of_grid x k hk

theorem roundMagnitude_nonneg (x : ℚ) (hx : 0 ≤ x) : 0 ≤ roundMagnitude x := by
  rw [roundMagnitude_eq]
  apply mul_nonneg _ (two_zpow_pos _).le
  have : (0 : ℤ) ≤ roundHalfEven (x / 2 ^ ulpExponent x) :=
    le_roundHalfEven _ 0 (by simpa using div_nonneg hx (two_zpow_pos _).le)
  exact_mod_cast this

/-- Rounding does not cross a representable number from above. -/
theorem le_roundMagnitude (c x : ℚ) (hc : 0 < c) (hr : Representable c) (h : c ≤ x) :
    c ≤ roundMagnitude x := by
  have hx : 0 < x := lt_of_lt_of_le hc h
  have hmono := ulpExponent_mono c x hc h
  rcases eq_or_lt_of_le hmono with heq | hlt
  · obtain ⟨k, hk⟩ := grid_of_representable c hc hr
    rw [heq] at hk
    have hk2 : (k : ℚ) ≤ x / 2 ^ ulpExponent x := by
      rw [le_div_iff₀ (two_zpow_pos _), ← hk]
      exact h
    have := le_roundHalfEven _ k hk2
    rw [roundMagnitude_eq, hk]
    apply mul_le_mul_of_nonneg_right _ (two_zpow_pos _).le
    exact_mod_cast this
  · -- the exponent of `x` is larger: `x` lies in a higher binade
    have hu : ulpExponent x = log2Floor x - 52 := by
      unfold ulpExponent at hlt ⊢
      omega
    have hL : log2Floor c < log2Floor x := by
      unfold ulpExponent at hlt
      omega
    have hs : ((2 ^ 52 : ℤ) : ℚ) ≤ x / 2 ^ ulpExponent x := by
      rw [le_div_iff₀ (two_zpow_pos _), hu]
      have e : (((2 : ℤ) ^ 52 : ℤ) : ℚ) * 2 ^ (log2Floor x - 52) = 2 ^ log2Floor x := by
        rw [cast_two_pow, ← zpow_add₀ (by norm_num : (2 : ℚ) ≠ 0)]
        congr 1
        push_cast
        ring
      rw [e]
      exact (log2Floor_spec x hx).1
    have hM := le_roundHalfEven _ _ hs
    have hy : (2 : ℚ) ^ log2Floor x ≤ roundMagnitude x := by
      rw [roundMagnitude_eq]
      have e : (2 : ℚ) ^ log2Floor x = ((2 ^ 52 : ℤ) : ℚ) * 2 ^ ulpExponent x := by
        rw [hu, cast_two_pow, ← zpow_add₀ (by norm_num : (2 : ℚ) ≠ 0)]
        congr 1
        push_cast
        ring
      rw [e]
      apply mul_le_mul_of_nonneg_right _ (two_zpow_pos _).le
      exact_mod_cast hM
    have hc2 : c < (2 : ℚ) ^ (log2Floor c + 1) := (log2Floor_spec c hc).2
    have : (2 : ℚ) ^ (log2Floor c + 1) ≤ 2 ^ log2Floor x := two_zpow_le (by omega)
    linarith

/-- Rounding does not cross a representable number from below. -/
theorem roundMagnitude_le (c x : ℚ) (hx : 0 < x) (hr : Representable c) (h : x ≤ c) :
    roundMagnitude x ≤ c := by
  have hc : 0 < c := lt_of_lt_of_le hx h
  have hmono := ulpExponent_mono x c hx h
  obtain ⟨k0, hk0⟩ := grid_of_representable c hc hr
  obtain ⟨k, hk⟩ := grid_coarser c k0 _ _ hk0 hmono
  have hk2 : x / 2 ^ ulpExponent x ≤ (k : ℚ) := by
    rw [div_le_iff₀ (two_zpow_pos _), ← hk]
    exact h
  have := roundHalfEven_le _ k hk2
  rw [roundMagnitude_eq, hk]
  apply mul_le_mul_of_nonneg_right _ (two_zpow_pos _).le
  exact_mod_cast this

theorem roundMagnitude_significand (x : ℚ) (hx : 0 < x) :
    roundHalfEven (x / 2 ^ ulpExponent x) ≤ 2 ^ 53 := by
  apply roundHalfEven_le
  rw [div_le_iff₀ (two_zpow_pos _)]
  have h1 := (log2Floor_spec x hx).2
  have hu : log2Floor x - 52 ≤ ulpExponent x := by
    unfold ulpExponent
    omega
  have e : (((2 : ℤ) ^ 53 : ℤ) : ℚ) * 2 ^ ulpExponent x = 2 ^ (53 + ulpExponent x) := by
    rw [cast_two_pow, ← zpow_add₀ (by norm_num : (2 : ℚ) ≠ 0)]
    congr 1
  rw [e]
  exact le_trans h1.le (two_zpow_le (by omega))

/-- What rounding returns is representable. -/
theorem representable_roundMagnitude (x : ℚ) (hx : 0 < x) :
    Representable (roundMagnitude x) := by
  have hM := roundMagnitude_significand x hx
  have hM0 : (0 : ℤ) ≤ roundHalfEven (x / 2 ^ ulpExponent x) :=
    le_roundHalfEven _ 0 (by simpa using div_nonneg hx.le (two_zpow_pos _).le)
  have hu : -1074 ≤ ulpExponent x := by
    unfold ulpExponent
    omega
  have hnn := roundMagnitude_nonneg x hx.le
  rcases eq_or_lt_of_le hM with heq | hlt
  · refine ⟨2 ^ 52, ulpExponent x + 1, by norm_num, by omega, ?_⟩
    rw [abs_of_nonneg hnn, roundMagnitude_eq, heq,
      zpow_add₀ (by norm_num : (2 : ℚ) ≠ 0)]
    push_cast
    ring
  · refine ⟨(roundHalfEven (x / 2 ^ ulpExponent x)).toNat, ulpExponent x, ?_, hu, ?_⟩
    · have : ((roundHalfEven (x / 2 ^ ulpExponent x)).toNat : ℤ) < 2 ^ 53 := by
        rw [Int.toNat_of_nonneg hM0]
        exact hlt
      exact_mod_cast this
    · rw [abs_of_nonneg hnn, roundMagnitude_eq]
      congr 1
      have : (((roundHalfEven (x / 2 ^ ulpExponent x)).toNat : ℤ) : ℚ)
          = (roundHalfEven (x / 2 ^ ulpExponent x) : ℚ) := by
        rw [Int.toNat_of_nonneg hM0]
      rw [← this]
      exact (Int.cast_natCast _).symm

theorem ofRat_zero : JsNumber.ofRat 0 = JsNumber.real 0 := by
  simp [JsNumber.ofRat]

theorem ofRat_ne_nan (x : ℚ) : JsNumber.ofRat x ≠ JsNumber.nan := by
  unfold JsNumber.ofRat
  split_ifs <;> simp

theorem representable_zero : Representable 0 :=
  ⟨0, 0, by norm_num, by norm_num, by simp⟩

theorem representable_neg (x : ℚ) (h : Representable x) : Representable (-x) := by
  obtain ⟨m, e, hm, he, hx⟩ := h
  exact ⟨m, e, hm, he, by rwa [abs_neg]⟩

theorem representable_intCast (k : ℤ) (h : |k| < 2 ^ 53) : Representable (k : ℚ) := by
  refine ⟨k.natAbs, 0, ?_, by norm_num, ?_⟩
  · have : (k.natAbs : ℤ) < 2 ^ 53 := by rwa [Int.natCast_natAbs]
    exact_mod_cast this
  · rw [zpow_zero, mul_one, ← Int.cast_abs, ← Int.natCast_natAbs, Int.cast_natCast]

theorem representable_one : Representable 1 := by
  simpa using representable_intCast 1 (by norm_num)

/-- A representable rational below the overflow threshold is a double. -/
theorem ofRat_representable (x : ℚ) (hr : Representable x) (hlt : |x| < 2 ^ (1024 : ℕ)) :
    JsNumber.ofRat x = JsNumber.real x := by
  unfold JsNumber.ofRat
  by_cases h0 : x = 0
  · simp [h0]
  · have habs : 0 < |x| := abs_pos.mpr h0
    have hrm : roundMagnitude |x| = |x| :=
      roundMagnitude_representable |x| habs (by
        obtain ⟨m, e, hm, he, hx⟩ := hr
        exact ⟨m, e, hm, he, by rwa [abs_abs]⟩)
    simp only [h0, if_false, hrm, not_le.mpr hlt, habs.ne']
    by_cases hneg : x < 0
    · simp [hneg, abs_of_neg hneg]
    · simp [hneg, abs_of_nonneg (not_lt.mp hneg)]

theorem ofRat_intCast (k : ℤ) (h : |k| < 2 ^ 53) : JsNumber.ofRat (k : ℚ) = JsNumber.real k := by
  apply ofRat_representable _ (representable_intCast k h)
  have h1 : ((|k| : ℤ) : ℚ) < ((2 ^ 53 : ℤ) : ℚ) := by exact_mod_cast h
  rw [Int.cast_abs] at h1
  refine lt_trans h1 ?_
  norm_num

/-- The real results of `ofRat` are representable and below the overflow
threshold. -/
theorem ofRat_real (x y : ℚ) (h : JsNumber.ofRat x = JsNumber.real y) :
    Representable y ∧ |y| < 2 ^ (1024 : ℕ) := by
  unfold JsNumber.ofRat at h
  by_cases h0 : x = 0
  · simp only [h0, if_true, JsNumber.real.injEq] at h
    subst h
    exact ⟨representable_zero, by norm_num⟩
  · have habs : 0 < |x| := abs_pos.mpr h0
    have hrep := representable_roundMagnitude |x| habs
    have hnn := roundMagnitude_nonneg |x| habs.le
    simp only [h0, if_false] at h
    by_cases hov : (2 : ℚ) ^ (1024 : ℕ) ≤ roundMagnitude |x|
    · simp [hov] at h
    · simp only [hov, if_false] at h
      by_cases hz : roundMagnitude |x| = 0
      · simp only [hz, if_true] at h
        by_cases hneg : x < 0
        · simp [hneg] at h
        · simp only [hneg, if_false, JsNumber.real.injEq] at h
          subst h
          exact ⟨representable_zero, by norm_num⟩
      · simp only [hz, if_false, JsNumber.real.injEq] at h
        by_cases hneg : x < 0
        · simp only [hneg, if_true] at h
          subst h
          refine ⟨representable_neg _ hrep, ?_⟩
          rw [abs_neg, abs_of_nonneg hnn]
          exact not_le.mp hov
        · simp only [hneg, if_false] at h
          subst h
          refine ⟨hrep, ?_⟩
          rw [abs_of_nonneg hnn]
          exact not_le.mp hov

/-- Rounding a double again returns it. -/
theorem ofRat_idem (x y : ℚ) (h : JsNumber.ofRat x = JsNumber.real y) :
    JsNumber.ofRat y = JsNumber.real y :=
  ofRat_representable y (ofRat_real x y h).1 (ofRat_real x y h).2

theorem atLeast_zero_ofRat (x : ℚ) (h : 0 ≤ x) : JsNumber.AtLeast 0 (JsNumber.ofRat x) := by
  unfold JsNumber.ofRat
  by_cases h0 : x = 0
  · exact Or.inr ⟨0, by simp [h0], le_refl 0⟩
  · have hneg : ¬ x < 0 := not_lt.mpr h
    have hnn := roundMagnitude_nonneg |x| (abs_nonneg x)
    simp only [h0, if_false, hneg, decide_False]
    split_ifs
    · exact Or.inl rfl
    · exact Or.inr ⟨0, rfl, le_refl 0⟩
    · exact Or.inr ⟨_, rfl, hnn⟩

theorem atLeast_ofRat (c x : ℚ) (hc : 0 < c) (hr : Representable c) (h : c ≤ x) :
    JsNumber.AtLeast c (JsNumber.ofRat x) := by
  have hx : 0 < x := lt_of_lt_of_le hc h
  have hge := le_roundMagnitude c x hc hr h
  unfold JsNumber.ofRat
  have hneg : ¬ x < 0 := not_lt.mpr hx.le
  simp only [hx.ne', if_false, hneg, decide_False, abs_of_pos hx]
  split_ifs with h1 h2
  · exact Or.inl rfl
  · exact absurd h2 (by linarith : roundMagnitude x ≠ 0)
  · exact Or.inr ⟨_, rfl, hge⟩

theorem atMost_zero_ofRat (x : ℚ) (h : x ≤ 0) : JsNumber.AtMost 0 (JsNumber.ofRat x) := by
  unfold JsNumber.ofRat
  by_cases h0 : x = 0
  · exact Or.inr (Or.inr ⟨0, by simp [h0], le_refl 0⟩)
  · have hneg : x < 0 := lt_of_le_of_ne h h0
    have hnn := roundMagnitude_nonneg |x| (abs_nonneg x)
    simp only [h0, if_false, hneg, decide_True, if_true]
    split_ifs
    · exact Or.inl rfl
    · exact Or.inr (Or.inl ⟨rfl, le_refl 0⟩)
    · exact Or.inr (Or.inr ⟨_, rfl, by linarith⟩)

theorem atMost_mono (c d : ℚ) (v : JsNumber) (h : JsNumber.AtMost c v) (hcd : c ≤ d)
    (hc : 0 ≤ c) : JsNumber.AtMost d v := by
  rcases h with h | ⟨h, _⟩ | ⟨y, h, hy⟩
  · exact Or.inl h
  · exact Or.inr (Or.inl ⟨h, le_trans hc hcd⟩)
  · exact Or.inr (Or.inr ⟨y, h, le_trans hy hcd⟩)

theorem atLeast_mono (c d : ℚ) (v : JsNumber) (h : JsNumber.AtLeast c v) (hcd : d ≤ c) :
    JsNumber.AtLeast d v := by
  rcases h with h | ⟨y, h, hy⟩
  · exact Or.inl h
  · exact Or.inr ⟨y, h, le_trans hcd hy⟩

theorem atMost_ofRat (c x : ℚ) (hc : 0 < c) (hr : Representable c) (hfin : c < 2 ^ (1024 : ℕ))
    (h : x ≤ c) : JsNumber.AtMost c (JsNumber.ofRat x) := by
  rcases le_or_lt x 0 with hx | hx
  · exact atMost_mono 0 c _ (atMost_zero_ofRat x hx) hc.le (le_refl 0)
  · have hle := roundMagnitude_le c x hx hr h
    unfold JsNumber.ofRat
    have hneg : ¬ x < 0 := not_lt.mpr hx.le
    simp only [hx.ne', if_false, hneg, decide_False, abs_of_pos hx]
    split_ifs with h1 h2
    · exact absurd h1 (not_le.mpr (lt_of_le_of_lt hle hfin))
    · exact Or.inr (Or.inr ⟨0, rfl, hc.le⟩)
    · exact Or.inr (Or.inr ⟨_, rfl, hle⟩)

theorem ofRat_one : JsNumber.ofRat 1 = JsNumber.real 1 :=
  ofRat_representable 1 representable_one (by norm_num)

theorem ofRat_hundred : JsNumber.ofRat 100 = JsNumber.real 100 := by
  simpa using ofRat_intCast 100 (by norm_num)

/-! ### The value of an order in doubles -/

theorem expired_eq_expiredOf (o : KitchenOrder) (now : Int) :
    o.expired now
      = expiredOf o.shelfLife o.decayRate o.prepared o.removed o._decayHistory now := rfl

/-- The test reads five fields of the order only. -/
theorem expired_congr (o1 o2 : KitchenOrder) (now : Int) (h1 : o1.shelfLife = o2.shelfLife)
    (h2 : o1.decayRate = o2.decayRate) (h3 : o1.prepared = o2.prepared)
    (h4 : o1.removed = o2.removed) (h5 : o1._decayHistory = o2._decayHistory) :
    o1.expired now = o2.expired now := by
  rw [expired_eq_expiredOf, expired_eq_expiredOf, h1, h2, h3, h4, h5]

theorem getValueDouble_removed_now (o : KitchenOrder) (now : Int) (h : o.removed = none) :
    ({ o with removed := some now } : KitchenOrder).getValueDouble now = o.getValueDouble now := by
  unfold KitchenOrder.getValueDouble
  simp only [h, Option.getD]
  rfl

theorem expired_removed_now (o : KitchenOrder) (now : Int) (h : o.removed = none) :
    ({ o with removed := some now } : KitchenOrder).expired now = o.expired now := by
  unfold KitchenOrder.expired
  rw [getValueDouble_removed_now o now h]

/-- The product of a zero and any number is a zero or `NaN`. -/
theorem zero_mul_cases (a b : JsNumber)
    (ha : a = JsNumber.nan ∨ a = JsNumber.real 0 ∨ a = JsNumber.negZero) :
    a.mul b = JsNumber.nan ∨ a.mul b = JsNumber.real 0 ∨ a.mul b = JsNumber.negZero := by
  rcases ha with rfl | rfl | rfl
  · left
    cases b <;> rfl
  · cases b with
    | nan => left; rfl
    | infinity t => left; simp [JsNumber.mul, JsNumber.toRat]
    | negZero => right; right; simp [JsNumber.mul, JsNumber.toRat, JsNumber.zero, JsNumber.isNegative]
    | real y =>
      by_cases hy : y < 0
      · right; right
        simp [JsNumber.mul, JsNumber.toRat, JsNumber.zero, JsNumber.isNegative, hy]
      · right; left
        simp [JsNumber.mul, JsNumber.toRat, JsNumber.zero, JsNumber.isNegative, hy]
  · cases b with
    | nan => left; rfl
    | infinity t => left; simp [JsNumber.mul, JsNumber.toRat]
    | negZero => right; left; simp [JsNumber.mul, JsNumber.toRat, JsNumber.zero, JsNumber.isNegative]
    | real y =>
      by_cases hy : y < 0
      · right; left
        simp [JsNumber.mul, JsNumber.toRat, JsNumber.zero, JsNumber.isNegative, hy]
      · right; right
        simp [JsNumber.mul, JsNumber.toRat, JsNumber.zero, JsNumber.isNegative, hy]

/-- With a decay rate of 0, `_valueForAgeAndDecayModifier` is 1 or `NaN`. -/
theorem valueForAge_unexpiring (O : KitchenOrder) (h : O.decayRate = 0)
    (age m : JsNumber) :
    O._valueForAgeAndDecayModifierDouble age m = JsNumber.nan
      ∨ O._valueForAgeAndDecayModifierDouble age m = JsNumber.real 1 := by
  unfold KitchenOrder._valueForAgeAndDecayModifierDouble
  rw [h, ofRat_zero]
  have hP := zero_mul_cases _ m (zero_mul_cases (JsNumber.real 0) age (Or.inr (Or.inl rfl)))
  generalize ((JsNumber.real 0).mul age).mul m = P at hP
  cases hs : JsNumber.ofRat O.shelfLife with
  | nan => exact absurd hs (ofRat_ne_nan _)
  | infinity s =>
    left
    rcases hP with rfl | rfl | rfl <;> simp [JsNumber.sub, JsNumber.div]
  | negZero =>
    left
    rcases hP with rfl | rfl | rfl <;> simp [JsNumber.sub, JsNumber.div, JsNumber.toRat]
  | real y =>
    have hy := ofRat_idem _ _ hs
    rcases hP with rfl | rfl | rfl
    · left
      simp [JsNumber.sub, JsNumber.div]
    · by_cases h0 : y = 0
      · left
        simp [JsNumber.sub, JsNumber.div, JsNumber.toRat, h0, ofRat_zero]
      · right
        simp [JsNumber.sub, JsNumber.div, JsNumber.toRat, h0, hy, ofRat_one]
    · by_cases h0 : y = 0
      · left
        simp [JsNumber.sub, JsNumber.div, JsNumber.toRat, h0, ofRat_zero]
      · right
        simp [JsNumber.sub, JsNumber.div, JsNumber.toRat, h0, hy, ofRat_one]

theorem sub_one_sub_unexpiring (v w : JsNumber)
    (hv : v = JsNumber.nan ∨ v = JsNumber.real 1) (hw : w = JsNumber.nan ∨ w = JsNumber.real 1) :
    v.sub ((JsNumber.real 1).sub w) = JsNumber.nan
      ∨ v.sub ((JsNumber.real 1).sub w) = JsNumber.real 1 := by
  rcases hv with rfl | rfl <;> rcases hw with rfl | rfl <;>
    simp [JsNumber.sub, ofRat_zero, ofRat_one]

theorem foldl_getValueStepDouble_unexpiring (O : KitchenOrder) (h : O.decayRate = 0)
    (hist : List DecayEntry) (v : JsNumber) (d : Int)
    (hv : v = JsNumber.nan ∨ v = JsNumber.real 1) :
    (hist.foldl O.getValueStepDouble (v, d)).1 = JsNumber.nan
      ∨ (hist.foldl O.getValueStepDouble (v, d)).1 = JsNumber.real 1 := by
  induction hist generalizing v d with
  | nil => exact hv
  | cons e rest ih =>
    rw [List.foldl_cons]
    exact ih _ _ (sub_one_sub_unexpiring _ _ (valueForAge_unexpiring O h _ _) hv)

/-- The value of an order of decay rate 0 is 1 or `NaN`. -/
theorem getValueDouble_unexpiring (O : KitchenOrder) (h : O.decayRate = 0) (now : Int) :
    O.getValueDouble now = JsNumber.nan ∨ O.getValueDouble now = JsNumber.real 1 := by
  unfold KitchenOrder.getValueDouble
  have hf := foldl_getValueStepDouble_unexpiring O h O._decayHistory (JsNumber.real 1)
    (O.prepared.getD now) (Or.inr rfl)
  cases O._decayHistory.getLast? with
  | none => exact hf
  | some last => exact sub_one_sub_unexpiring _ _ hf (valueForAge_unexpiring O h _ _)

/-- An order of decay rate 0 never expires. -/
theorem expired_unexpiring (O : KitchenOrder) (h : O.decayRate = 0) (now : Int) :
    O.expired now = false := by
  unfold KitchenOrder.expired
  rcases getValueDouble_unexpiring O h now with hv | hv <;> rw [hv]
  · rfl
  · simp [JsNumber.mul, JsNumber.toRat, ofRat_hundred, JsNumber.round, JsNumber.leZero]
    norm_num

theorem representable_thousand : Representable 1000 := by
  simpa using representable_intCast 1000 (by norm_num)

/-- The age between two valid dates in their order is not negative, and at least
1 when the dates are a second or more apart. -/
theorem seconds_atLeast (a b : Int) (ha : |a| < 2 ^ 53) (hb : |b| < 2 ^ 53) (hab : a ≤ b) :
    JsNumber.AtLeast 0 (JsNumber.seconds b a)
    ∧ (a + 1000 ≤ b → JsNumber.AtLeast 1 (JsNumber.seconds b a)) := by
  unfold JsNumber.seconds
  rw [ofRat_intCast a ha, ofRat_intCast b hb]
  have hsub : (JsNumber.real (b : ℚ)).sub (JsNumber.real (a : ℚ))
      = JsNumber.ofRat ((b : ℚ) - a) := rfl
  rw [hsub]
  have hnn : (0 : ℚ) ≤ (b : ℚ) - a := by
    have : (a : ℚ) ≤ b := by exact_mod_cast hab
    linarith
  constructor
  · rcases atLeast_zero_ofRat _ hnn with h | ⟨d, h, hd⟩
    · rw [h]
      left
      simp [JsNumber.div, JsNumber.isNegative]
    · rw [h]
      by_cases h0 : d = 0
      · right
        exact ⟨0, by simp [JsNumber.div, JsNumber.toRat, JsNumber.zero, JsNumber.isNegative, h0],
          le_refl 0⟩
      · have : (JsNumber.real d).div (JsNumber.real 1000) = JsNumber.ofRat (d / 1000) := by
          simp [JsNumber.div, JsNumber.toRat, h0]
        rw [this]
        exact atLeast_zero_ofRat _ (by positivity)
  · intro hlate
    have hge : (1000 : ℚ) ≤ (b : ℚ) - a := by
      have : ((a + 1000 : Int) : ℚ) ≤ b := by exact_mod_cast hlate
      push_cast at this
      linarith
    rcases atLeast_ofRat 1000 _ (by norm_num) representable_thousand hge with h | ⟨d, h, hd⟩
    · rw [h]
      left
      simp [JsNumber.div, JsNumber.isNegative]
    · rw [h]
      have h0 : d ≠ 0 := by linarith
      have : (JsNumber.real d).div (JsNumber.real 1000) = JsNumber.ofRat (d / 1000) := by
        simp [JsNumber.div, JsNumber.toRat, h0]
      rw [this]
      apply atLeast_ofRat 1 _ (by norm_num) representable_one
      rw [le_div_iff₀ (by norm_num)]
      linarith

theorem mul_real_atLeast (α : ℚ) (hα : 1 ≤ α) (b : JsNumber) (c : ℚ) (hc : c = 0 ∨ c = 1)
    (hb : JsNumber.AtLeast c b) : JsNumber.AtLeast c ((JsNumber.real α).mul b) := by
  have hα0 : α ≠ 0 := by linarith
  have hαn : ¬ α < 0 := by linarith
  rcases hb with rfl | ⟨y, rfl, hy⟩
  · left
    simp [JsNumber.mul, JsNumber.toRat, JsNumber.isNegative, hα0, hαn]
  · by_cases h0 : α * y = 0
    · have hy0 : y = 0 := by
        rcases mul_eq_zero.mp h0 with h | h
        · exact absurd h hα0
        · exact h
      subst hy0
      right
      refine ⟨0, by simp [JsNumber.mul, JsNumber.toRat, JsNumber.zero, JsNumber.isNegative, hαn],
        hy⟩
    · have : (JsNumber.real α).mul (JsNumber.real y) = JsNumber.ofRat (α * y) := by
        simp only [JsNumber.mul, JsNumber.toRat, h0, if_false]
      rw [this]
      rcases hc with rfl | rfl
      · exact atLeast_zero_ofRat _ (mul_nonneg (by linarith) hy)
      · apply atLeast_ofRat 1 _ (by norm_num) representable_one
        nlinarith

theorem mul_atLeast_real (a : JsNumber) (μ : ℚ) (hμ : 1 ≤ μ) (c : ℚ) (hc : c = 0 ∨ c = 1)
    (ha : JsNumber.AtLeast c a) : JsNumber.AtLeast c (a.mul (JsNumber.real μ)) := by
  have hμ0 : μ ≠ 0 := by linarith
  have hμn : ¬ μ < 0 := by linarith
  rcases ha with rfl | ⟨y, rfl, hy⟩
  · left
    simp [JsNumber.mul, JsNumber.toRat, JsNumber.isNegative, hμ0, hμn]
  · by_cases h0 : y * μ = 0
    · have hy0 : y = 0 := by
        rcases mul_eq_zero.mp h0 with h | h
        · exact h
        · exact absurd h hμ0
      subst hy0
      right
      refine ⟨0, by simp [JsNumber.mul, JsNumber.toRat, JsNumber.zero, JsNumber.isNegative, hμn],
        hy⟩
    · have : (JsNumber.real y).mul (JsNumber.real μ) = JsNumber.ofRat (y * μ) := by
        simp only [JsNumber.mul, JsNumber.toRat, h0, if_false]
      rw [this]
      rcases hc with rfl | rfl
      · exact atLeast_zero_ofRat _ (mul_nonneg hy (by linarith))
      · apply atLeast_ofRat 1 _ (by norm_num) representable_one
        nlinarith

theorem one_sub_atLeast (A : JsNumber) (c : ℚ) (hc : c = 0 ∨ c = 1)
    (hA : JsNumber.AtLeast c A) : JsNumber.AtMost (1 - c) ((JsNumber.real 1).sub A) := by
  rcases hA with rfl | ⟨y, rfl, hy⟩
  · left
    rfl
  · have : (JsNumber.real 1).sub (JsNumber.real y) = JsNumber.ofRat (1 - y) := rfl
    rw [this]
    rcases hc with rfl | rfl
    · rw [sub_zero]
      exact atMost_ofRat 1 _ (by norm_num) representable_one (by norm_num) (by linarith)
    · rw [sub_self]
      exact atMost_zero_ofRat _ (by linarith)

theorem atMost_div_one (v : JsNumber) (c : ℚ) (hc : c = 0 ∨ c = 1)
    (hv : JsNumber.AtMost c v) : JsNumber.AtMost c (v.div (JsNumber.real 1)) := by
  have hc0 : 0 ≤ c := by rcases hc with rfl | rfl <;> norm_num
  rcases hv with rfl | ⟨rfl, _⟩ | ⟨y, rfl, hy⟩
  · left
    simp [JsNumber.div, JsNumber.isNegative]
  · right; left
    exact ⟨by simp [JsNumber.div, JsNumber.toRat, JsNumber.zero, JsNumber.isNegative], hc0⟩
  · by_cases h0 : y = 0
    · right; right
      exact ⟨0, by simp [JsNumber.div, JsNumber.toRat, JsNumber.zero, JsNumber.isNegative, h0],
        hc0⟩
    · have : (JsNumber.real y).div (JsNumber.real 1) = JsNumber.ofRat (y / 1) := by
        simp [JsNumber.div, JsNumber.toRat, h0]
      rw [this, div_one]
      rcases hc with rfl | rfl
      · exact atMost_zero_ofRat _ hy
      · exact atMost_ofRat 1 _ (by norm_num) representable_one (by norm_num) hy

theorem atMost_sub_zero (v : JsNumber) (c : ℚ) (hc : c = 0 ∨ c = 1)
    (hv : JsNumber.AtMost c v) : JsNumber.AtMost c (v.sub (JsNumber.real 0)) := by
  have hc0 : 0 ≤ c := by rcases hc with rfl | rfl <;> norm_num
  rcases hv with rfl | ⟨rfl, _⟩ | ⟨y, rfl, hy⟩
  · left
    rfl
  · right; left
    exact ⟨by simp [JsNumber.sub], hc0⟩
  · have : (JsNumber.real y).sub (JsNumber.real 0) = JsNumber.ofRat (y - 0) := rfl
    rw [this, sub_zero]
    rcases hc with rfl | rfl
    · exact atMost_zero_ofRat _ hy
    · exact atMost_ofRat 1 _ (by norm_num) representable_one (by norm_num) hy

theorem one_sub_atMost (v : JsNumber) (c : ℚ) (hc : c = 0 ∨ c = 1)
    (hv : JsNumber.AtMost c v) : JsNumber.AtLeast (1 - c) ((JsNumber.real 1).sub v) := by
  rcases hv with rfl | ⟨rfl, _⟩ | ⟨y, rfl, hy⟩
  · left
    rfl
  · have : (JsNumber.real 1).sub JsNumber.negZero = JsNumber.ofRat 1 := rfl
    rw [this, ofRat_one]
    right
    exact ⟨1, rfl, by rcases hc with rfl | rfl <;> norm_num⟩
  · have : (JsNumber.real 1).sub (JsNumber.real y) = JsNumber.ofRat (1 - y) := rfl
    rw [this]
    rcases hc with rfl | rfl
    · rw [sub_zero]
      exact atLeast_ofRat 1 _ (by norm_num) representable_one (by linarith)
    · rw [sub_self]
      exact atLeast_zero_ofRat _ (by linarith)

theorem sub_atMost_zero (v u : JsNumber) (c1 c2 : ℚ) (h12 : c1 ≤ c2)
    (hv : JsNumber.AtMost c1 v) (hu : JsNumber.AtLeast c2 u) :
    JsNumber.AtMost 0 (v.sub u) := by
  rcases hv with rfl | ⟨rfl, hc1⟩ | ⟨x, rfl, hx⟩ <;> rcases hu with rfl | ⟨y, rfl, hy⟩
  · left; rfl
  · left; rfl
  · left; rfl
  · by_cases h0 : y = 0
    · right; left
      exact ⟨by simp [JsNumber.sub, h0], le_refl 0⟩
    · have : JsNumber.negZero.sub (JsNumber.real y) = JsNumber.ofRat (-y) := by
        simp [JsNumber.sub, h0]
      rw [this]
      exact atMost_zero_ofRat _ (by linarith)
  · left; rfl
  · have : (JsNumber.real x).sub (JsNumber.real y) = JsNumber.ofRat (x - y) := rfl
    rw [this]
    exact atMost_zero_ofRat _ (by linarith)

/-- A value that is not above 0 passes the test
`Math.round(value * 100.0) <= 0`. -/
theorem leZero_of_atMost_zero (v : JsNumber) (hv : JsNumber.AtMost 0 v) :
    (v.mul (JsNumber.real 100)).round.leZero = true := by
  have hround : ∀ w, JsNumber.AtMost 0 w → w.round.leZero = true := by
    intro w hw
    rcases hw with rfl | ⟨rfl, _⟩ | ⟨z, rfl, hz⟩
    · rfl
    · rfl
    · simp only [JsNumber.round]
      split_ifs
      · rfl
      · simp only [JsNumber.leZero, decide_eq_true_eq]
        have : ⌊z + 1 / 2⌋ ≤ 0 := by
          rw [← Int.lt_add_one_iff, Int.floor_lt]
          push_cast
          linarith
        exact_mod_cast this
  apply hround
  rcases hv with rfl | ⟨rfl, _⟩ | ⟨y, rfl, hy⟩
  · left
    simp [JsNumber.mul, JsNumber.toRat, JsNumber.isNegative]
  · right; left
    exact ⟨by simp [JsNumber.mul, JsNumber.toRat, JsNumber.zero, JsNumber.isNegative], le_refl 0⟩
  · by_cases h0 : y = 0
    · right; right
      exact ⟨0, by simp [JsNumber.mul, JsNumber.toRat, JsNumber.zero, JsNumber.isNegative, h0],
        le_refl 0⟩
    · have : (JsNumber.real y).mul (JsNumber.real 100) = JsNumber.ofRat (y * 100) := by
        simp [JsNumber.mul, JsNumber.toRat, h0]
      rw [this]
      exact atMost_zero_ofRat _ (by linarith)

/-- The value of an order of shelf life 1 and decay rate 1 after `age` seconds
on a shelf of finite modifier at least 1. -/
theorem valueForAge_perishable (o : KitchenOrder) (hs : o.shelfLife = 1) (hd : o.decayRate = 1)
    (age : JsNumber) (μ : ℚ) (hμ : 1 ≤ μ) (c : ℚ) (hc : c = 0 ∨ c = 1)
    (hage : JsNumber.AtLeast c age) :
    JsNumber.AtMost (1 - c) (o._valueForAgeAndDecayModifierDouble age (JsNumber.real μ)) := by
  unfold KitchenOrder._valueForAgeAndDecayModifierDouble
  rw [hs, hd, ofRat_one]
  have hc2 : 1 - c = 0 ∨ 1 - c = 1 := by rcases hc with rfl | rfl <;> norm_num
  exact atMost_div_one _ _ hc2
    (one_sub_atLeast _ c hc
      (mul_atLeast_real _ μ hμ c hc (mul_real_atLeast 1 (le_refl 1) age c hc hage)))

/-- The value of an order with shelf life 1 and decay rate 1, prepared at `p`,
stored at `t` on a shelf of finite modifier at least 1 and read at `now`, at
least two seconds after its preparation, passes the test
`Math.round(value * 100.0) <= 0`; the three dates are valid dates. -/
theorem perishable_order_expired (o : KitchenOrder) (p t now : Int) (m : ℚ)
    (hs : o.shelfLife = 1) (hd : o.decayRate = 1) (hp : o.prepared = some p)
    (hr : o.removed = none) (hh : o._decayHistory = [{ decayModifier := m, date := t }])
    (hm : 1 ≤ m) (hfin : JsNumber.ofRat m ≠ JsNumber.infinity false)
    (hpt : p ≤ t) (htn : t ≤ now) (hlate : p + 2000 ≤ now)
    (hdp : |p| < 2 ^ 53) (hdt : |t| < 2 ^ 53) (hdn : |now| < 2 ^ 53) :
    o.expired now = true := by
  obtain ⟨μ, hμe, hμ⟩ : ∃ μ, JsNumber.ofRat m = JsNumber.real μ ∧ 1 ≤ μ := by
    rcases atLeast_ofRat 1 m (by norm_num) representable_one hm with h | ⟨μ, h, hμ⟩
    · exact absurd h hfin
    · exact ⟨μ, h, hμ⟩
  have h1 := seconds_atLeast p t hdp hdt hpt
  have h2 := seconds_atLeast t now hdt hdn htn
  unfold KitchenOrder.expired
  apply leZero_of_atMost_zero
  unfold KitchenOrder.getValueDouble
  simp only [hp, hr, hh, Option.getD_some, Option.getD_none, List.foldl_cons, List.foldl_nil,
    KitchenOrder.getValueStepDouble, List.getLast?_singleton, hμe]
  have hzero : (JsNumber.real 1).sub (JsNumber.real 1) = JsNumber.real 0 := by
    show JsNumber.ofRat (1 - 1) = JsNumber.real 0
    rw [sub_self, ofRat_zero]
  rw [hzero]
  by_cases hcase : p + 1000 ≤ t
  · -- a second or more before the order was stored
    have v1 := valueForAge_perishable o hs hd _ μ hμ 1 (Or.inr rfl) (h1.2 hcase)
    have v2 := valueForAge_perishable o hs hd _ μ hμ 0 (Or.inl rfl) h2.1
    rw [sub_self] at v1
    rw [sub_zero] at v2
    have u := one_sub_atMost _ 1 (Or.inr rfl) v2
    rw [sub_self] at u
    exact sub_atMost_zero _ _ 0 0 (le_refl 0) (atMost_sub_zero _ 0 (Or.inl rfl) v1) u
  · -- a second or more on the shelf
    have hcase2 : t + 1000 ≤ now := by omega
    have v1 := valueForAge_perishable o hs hd _ μ hμ 0 (Or.inl rfl) h1.1
    have v2 := valueForAge_perishable o hs hd _ μ hμ 1 (Or.inr rfl) (h2.2 hcase2)
    rw [sub_zero] at v1
    rw [sub_self] at v2
    have u := one_sub_atMost _ 0 (Or.inl rfl) v2
    rw [sub_zero] at u
    exact sub_atMost_zero _ _ 1 1 (le_refl 1) (atMost_sub_zero _ 1 (Or.inr rfl) v1) u

/-- Rounding matters to the test: an order of shelf life 5 and decay rate 1,
prepared at 1 ms and stored at 2 ms on a shelf of modifier 1, has at 4976 ms the
exact value 1/200, which `Math.round` would take to 1; computed in doubles the
value is just below 1/200 and the order is expired. -/
theorem expired_at_rounded_value :
    KitchenOrder.getValue
        { KitchenOrder.new "" "" none 5 1 with
          prepared := some 1, _decayHistory := [{ decayModifier := 1, date := 2 }] } 4976
      = 1 / 200
    ∧ mathRound (1 / 200 * 100) = 1
    ∧ expiredOf 5 1 (some 1) none [{ decayModifier := 1, date := 2 }] 4976 = true := by
  refine ⟨?_, ?_, by decide!⟩
  · norm_num [KitchenOrder.getValue, KitchenOrder.getValueStep, KitchenOrder.new,
      KitchenOrder._valueForAgeAndDecayModifier]
  · norm_num [mathRound]

/-- An order of shelf life 0 and decay rate 0 has the value `NaN`, of which no
comparison holds: it is never expired. With the decay rate 1, stored one
millisecond after it was prepared, its value is `-Infinity` and it is expired. -/
theorem expired_of_zero_shelfLife :
    KitchenOrder.getValueDouble
        { KitchenOrder.new "" "" none 0 0 with
          prepared := some 0, _decayHistory := [{ decayModifier := 1, date := 0 }] } 5000
      = JsNumber.nan
    ∧ expiredOf 0 0 (some 0) none [{ decayModifier := 1, date := 0 }] 5000 = false
    ∧ KitchenOrder.getValueDouble
        { KitchenOrder.new "" "" none 0 1 with
          prepared := some 0, _decayHistory := [{ decayModifier := 1, date := 1 }] } 5000
      = JsNumber.infinity true
    ∧ expiredOf 0 1 (some 0) none [{ decayModifier := 1, date := 1 }] 5000 = true := by
  decide!
/-! ### The removal scan -/

theorem scan_removed_sublist (p : Predicate) (now : Int) (rs : List OrderRef) (index : Nat)
    (store : Store) : (scan p now rs index store).1.Sublist rs := by
  induction rs generalizing index store with
  | nil => simp [scan]
  | cons r rest ih =>
    unfold scan
    split
    · exact (ih _ _).cons₂ r
    · exact (ih _ _).cons r

theorem scan_kept_sublist (p : Predicate) (now : Int) (rs : List OrderRef) (index : Nat)
    (store : Store) : (scan p now rs index store).2.1.Sublist rs := by
  induction rs generalizing index store with
  | nil => simp [scan]
  | cons r rest ih =>
    unfold scan
    split
    · exact (ih _ _).cons r
    · exact (ih _ _).cons₂ r

/-- The store left by a scan: the removed orders are marked, nothing else changes. -/
theorem scan_store (p : Predicate) (now : Int) (rs : List OrderRef) (index : Nat)
    (store : Store) :
    (scan p now rs index store).2.2 = markRemoved store (scan p now rs index store).1 now := by
  induction rs generalizing index store with
  | nil => funext r; simp [scan, markRemoved]
  | cons r rest ih =>
    unfold scan
    split
    · simp only [ih]
      funext x
      by_cases hx : x = r
      · subst hx
        simp [markRemoved, Function.update_same]
      · simp [markRemoved, Function.update_noteq hx, hx]
    · simp only [ih]

theorem matchedAt_congr (p : Predicate) (s1 s2 : Store) (rs : List OrderRef) (index : Nat)
    (h : ∀ r ∈ rs, ∀ i, p r (s1 r) i = p r (s2 r) i) :
    matchedAt p s1 rs index = matchedAt p s2 rs index := by
  unfold matchedAt
  congr 1
  apply List.filter_congr
  intro ir hir
  exact h ir.2 (List.snd_mem_of_mem_enumFrom hir) ir.1

theorem keptAt_congr (p : Predicate) (s1 s2 : Store) (rs : List OrderRef) (index : Nat)
    (h : ∀ r ∈ rs, ∀ i, p r (s1 r) i = p r (s2 r) i) :
    keptAt p s1 rs index = keptAt p s2 rs index := by
  unfold keptAt
  congr 1
  apply List.filter_congr
  intro ir hir
  rw [h ir.2 (List.snd_mem_of_mem_enumFrom hir) ir.1]

/-- When the residents are distinct objects, or the predicate does not look at
removal timestamps, a scan removes the `o_i` with `p(o_i, i)` true and retains
the others, `p` being evaluated on the orders as they were before the scan. -/
theorem scan_eq (p : Predicate) (now : Int) (rs : List OrderRef) (index : Nat) (store : Store)
    (h : rs.Nodup ∨ p.IgnoresRemoved) :
    (scan p now rs index store).1 = matchedAt p store rs index ∧
    (scan p now rs index store).2.1 = keptAt p store rs index := by
  induction rs generalizing index store with
  | nil => simp [scan, matchedAt, keptAt]
  | cons r rest ih =>
    have hrest : rest.Nodup ∨ p.IgnoresRemoved := by
      rcases h with h | h
      · exact Or.inl (List.nodup_cons.mp h).2
      · exact Or.inr h
    unfold scan
    split
    · rename_i hp
      have hconv : ∀ x ∈ rest, ∀ i,
          p x (Function.update store r { store r with removed := some now } x) i
            = p x (store x) i := by
        intro x hx i
        by_cases hxr : x = r
        · subst hxr
          rcases h with h | h
          · exact absurd hx (List.nodup_cons.mp h).1
          · simp [Function.update_same, h x (store x) i (some now)]
        · simp [Function.update_noteq hxr]
      obtain ⟨h1, h2⟩ := ih (index + 1)
        (Function.update store r { store r with removed := some now }) hrest
      constructor
      · simp only [h1, matchedAt_congr p _ store rest (index + 1) hconv]
        simp [matchedAt, List.enumFrom_cons, List.filter_cons, hp]
      · simp only [h2, keptAt_congr p _ store rest (index + 1) hconv]
        simp [keptAt, List.enumFrom_cons, List.filter_cons, hp]
    · rename_i hp
      obtain ⟨h1, h2⟩ := ih (index + 1) store hrest
      constructor
      · simp only [h1]
        simp [matchedAt, List.enumFrom_cons, List.filter_cons, hp]
      · simp only [h2]
        simp [keptAt, List.enumFrom_cons, List.filter_cons, hp]

/-- A scan in which the predicate is false on every resident removes nothing. -/
theorem scan_no_match (p : Predicate) (now : Int) (rs : List OrderRef) (index : Nat)
    (store : Store)
    (h : ∀ ir ∈ rs.enumFrom index, p ir.2 (store ir.2) ir.1 = false) :
    scan p now rs index store = ([], rs, store) := by
  induction rs generalizing index with
  | nil => simp [scan]
  | cons r rest ih =>
    have hr : p r (store r) index = false := h (index, r) (by simp [List.enumFrom_cons])
    have hrest : ∀ ir ∈ rest.enumFrom (index + 1), p ir.2 (store ir.2) ir.1 = false := by
      intro ir hir
      exact h ir (by simp [List.enumFrom_cons, hir])
    unfold scan
    simp [hr, ih (index + 1) hrest]

/-- The loop of `KitchenShelf.removeOrders` in terms of the scan: it returns the
removed orders after `orders`, pushes the retained ones back on the shelf, and
emits one `removeOrder` event on the shelf per removed order. -/
theorem KitchenShelf.removeOrdersLoop_eq (self : ShelfRef) (p : Predicate)
    (err : Option JsError) (now : Int) (rs : List OrderRef) (index : Nat)
    (orders : List OrderRef) (w : World) :
    KitchenShelf.removeOrdersLoop self p err now rs index orders w
      = (orders ++ (scan p now rs index w.orders).1,
         { w with
           orders := (scan p now rs index w.orders).2.2,
           shelves := Function.update w.shelves self
             { w.shelves self with
               _orders := (w.shelves self)._orders ++ (scan p now rs index w.orders).2.1 },
           events := w.events ++ (scan p now rs index w.orders).1.map
             (fun r => Event.removeOrder (Emitter.shelf self) r err) }) := by
  induction rs generalizing index orders w with
  | nil =>
    simp [KitchenShelf.removeOrdersLoop, scan]
  | cons r rest ih =>
    unfold KitchenShelf.removeOrdersLoop scan
    by_cases hp : p r (w.orders r) index = true
    · simp [hp, ih, World.setOrder, World.emit]
    · simp [hp, ih, World.setShelf]

/-! ### KitchenShelf.insertOrder -/

/-- What `KitchenShelf.insertOrder` does with a `KitchenOrder`, in closed form. -/
theorem KitchenShelf.insertOrder_eq (self : ShelfRef) (r : OrderRef) (now : Int) (w : World) :
    KitchenShelf.insertOrder self (JsValue.order r) now w
      = if (w.shelves self).capacity ≤ (((w.shelves self)._orders.length : ℕ) : ℚ) then
          (Except.error { message := "out of capacity", kind := some ErrorCode.OUT_OF_CAPACITY }, w)
        else
          (Except.ok (),
            { w with
              orders := Function.update w.orders r
                { w.orders r with
                  removed := none,
                  _decayHistory := (w.orders r)._decayHistory
                    ++ [{ decayModifier := (w.shelves self).decayModifier, date := now }] },
              shelves := Function.update w.shelves self
                { w.shelves self with _orders := (w.shelves self)._orders ++ [r] },
              events := w.events ++ [Event.insertOrder (Emitter.shelf self) r] }) := by
  unfold KitchenShelf.insertOrder
  by_cases hcap : (w.shelves self).capacity ≤ (((w.shelves self)._orders.length : ℕ) : ℚ)
  · simp [hcap]
  · simp [hcap, World.setOrder, World.setShelf, World.emit, KitchenOrder.insertDecayModifier]

/-- C5: for a `KitchenOrder` argument, `KitchenShelf.insertOrder` throws an error
of kind `OUT_OF_CAPACITY` exactly when the resident count is at least the
capacity, and whenever it throws it leaves the world (the residents of the shelf,
the order and everything else) as it was. -/
theorem insertOrder_out_of_capacity_iff (self : ShelfRef) (r : OrderRef) (now : Int) (w : World) :
    ((∃ e, (KitchenShelf.insertOrder self (JsValue.order r) now w).1 = Except.error e
          ∧ e.kind = some ErrorCode.OUT_OF_CAPACITY)
      ↔ (w.shelves self).capacity ≤ (((w.shelves self)._orders.length : ℕ) : ℚ))
    ∧ (∀ e, (KitchenShelf.insertOrder self (JsValue.order r) now w).1 = Except.error e →
        e.kind = some ErrorCode.OUT_OF_CAPACITY
        ∧ (KitchenShelf.insertOrder self (JsValue.order r) now w).2 = w) := by
  rw [KitchenShelf.insertOrder_eq]
  by_cases hcap : (w.shelves self).capacity ≤ (((w.shelves self)._orders.length : ℕ) : ℚ)
  · rw [if_pos hcap]
    refine ⟨⟨fun _ => hcap, fun _ => ⟨_, rfl, rfl⟩⟩, ?_⟩
    intro e he
    cases he
    exact ⟨rfl, rfl⟩
  · rw [if_neg hcap]
    refine ⟨⟨?_, fun h => absurd h hcap⟩, ?_⟩
    · rintro ⟨e, he, _⟩
      cases he
    · intro e he
      cases he

/-- C6: on a shelf with fewer residents than its capacity, `insertOrder` returns
normally; afterwards the residents are the previous ones followed by the order,
the removal timestamp of the order is `null`, its decay history is the previous
history followed by the one entry (decay modifier of the shelf, now), its other
fields are as before, and one `insertOrder` event was emitted on the shelf. -/
theorem insertOrder_succeeds (self : ShelfRef) (r : OrderRef) (now : Int) (w : World)
    (hroom : (((w.shelves self)._orders.length : ℕ) : ℚ) < (w.shelves self).capacity) :
    (KitchenShelf.insertOrder self (JsValue.order r) now w).1 = Except.ok ()
    ∧ ((KitchenShelf.insertOrder self (JsValue.order r) now w).2.shelves self)._orders
        = (w.shelves self)._orders ++ [r]
    ∧ ((KitchenShelf.insertOrder self (JsValue.order r) now w).2.orders r).removed = none
    ∧ ((KitchenShelf.insertOrder self (JsValue.order r) now w).2.orders r)._decayHistory
        = (w.orders r)._decayHistory
            ++ [{ decayModifier := (w.shelves self).decayModifier, date := now }]
    ∧ (KitchenShelf.insertOrder self (JsValue.order r) now w).2.orders r
        = { w.orders r with
            removed := none,
            _decayHistory := (w.orders r)._decayHistory
              ++ [{ decayModifier := (w.shelves self).decayModifier, date := now }] }
    ∧ (KitchenShelf.insertOrder self (JsValue.order r) now w).2.events
        = w.events ++ [Event.insertOrder (Emitter.shelf self) r] := by
  rw [KitchenShelf.insertOrder_eq]
  simp [not_le.mpr hroom, Function.update_same]

/-- A witness of `insertOrder_succeeds`: inserting an order into a fresh shelf of
capacity 2. -/
theorem insertOrder_succeeds_witness :
    (KitchenShelf.insertOrder 0 (JsValue.order 0) 7 freshWorld).1 = Except.ok ()
    ∧ ((KitchenShelf.insertOrder 0 (JsValue.order 0) 7 freshWorld).2.shelves 0)._orders
        = (freshWorld.shelves 0)._orders ++ [0] :=
  have h := insertOrder_succeeds 0 0 7 freshWorld (by norm_num [freshWorld, freshShelf])
  ⟨h.1, h.2.1⟩

/-! ### KitchenShelf.removeOrders -/

/-- What `KitchenShelf.removeOrders` does once its argument has been turned into
a predicate, in terms of the scan of the residents. -/
theorem KitchenShelf.removeOrders_eq (self : ShelfRef) (arg : JsValue) (p : Predicate)
    (err : Option JsError) (now : Int) (w : World) (hp : toModelPredicate w arg = some p) :
    KitchenShelf.removeOrders self arg err now w
      = (Except.ok (scan p now (w.shelves self)._orders 0 w.orders).1,
         { w with
           orders := (scan p now (w.shelves self)._orders 0 w.orders).2.2,
           shelves := Function.update w.shelves self
             { w.shelves self with
               _orders := (scan p now (w.shelves self)._orders 0 w.orders).2.1 },
           events := w.events ++ (scan p now (w.shelves self)._orders 0 w.orders).1.map
             (fun r => Event.removeOrder (Emitter.shelf self) r err) }) := by
  unfold KitchenShelf.removeOrders
  simp [hp, KitchenShelf.removeOrdersLoop_eq, World.setShelf, Function.update_same]

/-! ### The capacity invariant -/

/-- One call on a shelf of natural capacity `n` holding at most `n` orders leaves
the capacity alone and the shelf with at most `n` orders. -/
theorem ShelfCall.run_preserves (self : ShelfRef) (n : ℕ) (w : World) (c : ShelfCall)
    (hcap : (w.shelves self).capacity = (n : ℚ))
    (hlen : (w.shelves self)._orders.length ≤ n) :
    ((c.run self w).shelves self).capacity = (n : ℚ)
    ∧ ((c.run self w).shelves self)._orders.length ≤ n := by
  cases c with
  | insertOrder order now =>
    cases order with
    | order r =>
      simp only [ShelfCall.run, KitchenShelf.insertOrder_eq]
      split
      · exact ⟨hcap, hlen⟩
      · rename_i hroom
        rw [hcap] at hroom
        have hlt : (w.shelves self)._orders.length < n := by
          have := not_le.mp hroom
          exact_mod_cast this
        simp only [Function.update_same, List.length_append, List.length_singleton]
        exact ⟨hcap, hlt⟩
    | shelf s => exact ⟨hcap, hlen⟩
    | str s => exact ⟨hcap, hlen⟩
    | fn f => exact ⟨hcap, hlen⟩
    | array models => exact ⟨hcap, hlen⟩
    | other => exact ⟨hcap, hlen⟩
  | removeOrders arg err now =>
    cases hp : toModelPredicate w arg with
    | none =>
      simp only [ShelfCall.run, KitchenShelf.removeOrders, hp]
      exact ⟨hcap, hlen⟩
    | some p =>
      simp only [ShelfCall.run, KitchenShelf.removeOrders_eq self arg p err now w hp,
        Function.update_same]
      exact ⟨hcap, le_trans (scan_kept_sublist p now _ 0 w.orders).length_le hlen⟩

/-- The capacity invariant holds along every sequence of calls. -/
theorem runShelfCalls_preserves (self : ShelfRef) (n : ℕ) (calls : List ShelfCall) (w : World)
    (hcap : (w.shelves self).capacity = (n : ℚ))
    (hlen : (w.shelves self)._orders.length ≤ n) :
    ((runShelfCalls self calls w).shelves self).capacity = (n : ℚ)
    ∧ ((runShelfCalls self calls w).shelves self)._orders.length ≤ n := by
  induction calls generalizing w with
  | nil => exact ⟨hcap, hlen⟩
  | cons c rest ih =>
    obtain ⟨h1, h2⟩ := ShelfCall.run_preserves self n w c hcap hlen
    exact ih (c.run self w) h1 h2

/-- C4: a shelf built by the constructor with a natural number as capacity holds,
after each call of any sequence of `insertOrder` and `removeOrders` calls on it
(with any arguments, whether the calls return or throw), at most as many orders
as its capacity. The state after the first `k` calls is the one after
`calls.take k`. -/
theorem shelf_never_exceeds_capacity (self : ShelfRef) (w : World) (kind : Option String)
    (n : ℕ) (decayModifier : ℚ) (shelf : KitchenShelf)
    (hnew : KitchenShelf.new kind (some (n : ℚ)) decayModifier = Except.ok shelf)
    (hw : w.shelves self = shelf) (calls : List ShelfCall) (k : ℕ) :
    ((((runShelfCalls self (calls.take k) w).shelves self)._orders.length : ℕ) : ℚ)
      ≤ ((runShelfCalls self (calls.take k) w).shelves self).capacity := by
  have hshelf : shelf.capacity = (n : ℚ) ∧ shelf._orders = [] := by
    unfold KitchenShelf.new at hnew
    split at hnew
    · cases hnew
    · simp only [Except.ok.injEq] at hnew
      subst hnew
      exact ⟨rfl, rfl⟩
  obtain ⟨h1, h2⟩ := runShelfCalls_preserves self n (calls.take k) w
    (by rw [hw]; exact hshelf.1) (by rw [hw, hshelf.2]; exact Nat.zero_le n)
  rw [h1]
  exact_mod_cast h2

/-- A witness of `shelf_never_exceeds_capacity`: three insertions into a fresh
shelf of capacity 2, the third of which throws, then a removal. -/
theorem shelf_never_exceeds_capacity_witness :
    ((((runShelfCalls 0
        ([ShelfCall.insertOrder (JsValue.order 0) 1, ShelfCall.insertOrder (JsValue.order 1) 2,
          ShelfCall.insertOrder (JsValue.order 2) 3,
          ShelfCall.removeOrders (JsValue.str "a") none 4].take 3)
        freshWorld).shelves 0)._orders.length : ℕ) : ℚ)
      ≤ ((runShelfCalls 0
        ([ShelfCall.insertOrder (JsValue.order 0) 1, ShelfCall.insertOrder (JsValue.order 1) 2,
          ShelfCall.insertOrder (JsValue.order 2) 3,
          ShelfCall.removeOrders (JsValue.str "a") none 4].take 3)
        freshWorld).shelves 0).capacity :=
  shelf_never_exceeds_capacity 0 freshWorld (some "hot") 2 1 freshShelf
    (by simp [KitchenShelf.new, KitchenShelf.isKind, KitchenShelfKind.values, freshShelf])
    (by simp [freshWorld]) _ 3

/-! ### What a removal from a shelf returns and leaves -/

theorem matchedAt_subset (p : Predicate) (store : Store) (rs : List OrderRef) (index : Nat)
    (r : OrderRef) (h : r ∈ matchedAt p store rs index) : r ∈ rs := by
  simp only [matchedAt, List.mem_map, List.mem_filter] at h
  obtain ⟨ir, ⟨hir, _⟩, rfl⟩ := h
  exact List.snd_mem_of_mem_enumFrom hir

theorem keptAt_subset (p : Predicate) (store : Store) (rs : List OrderRef) (index : Nat)
    (r : OrderRef) (h : r ∈ keptAt p store rs index) : r ∈ rs := by
  simp only [keptAt, List.mem_map, List.mem_filter] at h
  obtain ⟨ir, ⟨hir, _⟩, rfl⟩ := h
  exact List.snd_mem_of_mem_enumFrom hir

theorem matchedAt_cons (p : Predicate) (store : Store) (r : OrderRef) (rs : List OrderRef)
    (index : Nat) :
    matchedAt p store (r :: rs) index
      = if p r (store r) index then r :: matchedAt p store rs (index + 1)
        else matchedAt p store rs (index + 1) := by
  by_cases hp : p r (store r) index = true <;>
    simp [matchedAt, List.enumFrom_cons, List.filter_cons, hp]

theorem keptAt_cons (p : Predicate) (store : Store) (r : OrderRef) (rs : List OrderRef)
    (index : Nat) :
    keptAt p store (r :: rs) index
      = if p r (store r) index then keptAt p store rs (index + 1)
        else r :: keptAt p store rs (index + 1) := by
  by_cases hp : p r (store r) index = true <;>
    simp [keptAt, List.enumFrom_cons, List.filter_cons, hp]

/-- Among distinct residents, no retained order is also a removed one. -/
theorem keptAt_not_matchedAt (p : Predicate) (store : Store) (rs : List OrderRef) (index : Nat)
    (hnd : rs.Nodup) (r : OrderRef) (hk : r ∈ keptAt p store rs index) :
    r ∉ matchedAt p store rs index := by
  induction rs generalizing index with
  | nil => simp [matchedAt]
  | cons x rest ih =>
    obtain ⟨hx, hrest⟩ := List.nodup_cons.mp hnd
    rw [keptAt_cons] at hk
    rw [matchedAt_cons]
    by_cases hp : p x (store x) index = true
    · simp only [hp, if_true] at hk ⊢
      intro hm
      rcases List.mem_cons.mp hm with h | h
      · subst h
        exact hx (keptAt_subset p store rest (index + 1) r hk)
      · exact ih (index + 1) hrest hk h
    · simp only [hp] at hk ⊢
      intro hm
      rcases List.mem_cons.mp hk with h | h
      · subst h
        exact hx (matchedAt_subset p store rest (index + 1) r hm)
      · exact ih (index + 1) hrest h hm

/-- C7 (as amended): on a shelf whose residents `o_0..o_{k-1}` are pairwise
distinct objects, for every predicate function `p(order, index)` and every cause,
`removeOrders(p, cause)` returns the `o_i` with `p(o_i, i)` true in their
original order; afterwards the shelf holds the `o_i` with `p(o_i, i)` false in
their original order; every returned order differs from what it was only by its
removal timestamp, which is now; every retained order, and every order that was
not returned, is as it was; and the events emitted are one `removeOrder` on the
shelf per returned order, in order, each carrying the cause. -/
theorem removeOrders_partitions (self : ShelfRef) (p : Predicate) (err : Option JsError)
    (now : Int) (w : World) (hnd : (w.shelves self)._orders.Nodup) :
    (KitchenShelf.removeOrders self (JsValue.fn p) err now w).1
        = Except.ok (matchedAt p w.orders (w.shelves self)._orders 0)
    ∧ ((KitchenShelf.removeOrders self (JsValue.fn p) err now w).2.shelves self)._orders
        = keptAt p w.orders (w.shelves self)._orders 0
    ∧ (∀ r ∈ matchedAt p w.orders (w.shelves self)._orders 0,
        (KitchenShelf.removeOrders self (JsValue.fn p) err now w).2.orders r
          = { w.orders r with removed := some now })
    ∧ (∀ r ∈ keptAt p w.orders (w.shelves self)._orders 0,
        (KitchenShelf.removeOrders self (JsValue.fn p) err now w).2.orders r = w.orders r)
    ∧ (∀ r, r ∉ matchedAt p w.orders (w.shelves self)._orders 0 →
        (KitchenShelf.removeOrders self (JsValue.fn p) err now w).2.orders r = w.orders r)
    ∧ (KitchenShelf.removeOrders self (JsValue.fn p) err now w).2.events
        = w.events ++ (matchedAt p w.orders (w.shelves self)._orders 0).map
            (fun r => Event.removeOrder (Emitter.shelf self) r err) := by
  obtain ⟨h1, h2⟩ := scan_eq p now (w.shelves self)._orders 0 w.orders (Or.inl hnd)
  rw [KitchenShelf.removeOrders_eq self (JsValue.fn p) p err now w rfl]
  simp only [scan_store, h1, h2, Function.update_same]
  refine ⟨trivial, trivial, ?_, ?_, ?_, trivial⟩
  · intro r hr
    simp [markRemoved, hr]
  · intro r hr
    simp [markRemoved, keptAt_not_matchedAt p w.orders _ 0 hnd r hr]
  · intro r hr
    simp [markRemoved, hr]

/-- A witness of `removeOrders_partitions`: removing the resident at position 0
from a shelf holding two distinct orders. -/
theorem removeOrders_partitions_witness :
    (twoResidentsWorld.shelves 0)._orders.Nodup
    ∧ (KitchenShelf.removeOrders 0 (JsValue.fn (fun _ _ i => decide (i = 0))) none 5
        twoResidentsWorld).1
        = Except.ok (matchedAt (fun _ _ i => decide (i = 0)) twoResidentsWorld.orders
            (twoResidentsWorld.shelves 0)._orders 0) :=
  ⟨by decide,
   (removeOrders_partitions 0 (fun _ _ i => decide (i = 0)) none 5 twoResidentsWorld
      (by decide)).1⟩

/-- C7 (counterexample): a shelf of capacity 2 on which the same order was
inserted twice lists it at positions 0 and 1. Removing the resident at position 0
returns the order and retains it at the same time, and the retained order has
been modified: its removal timestamp, `null` before the call, is now set. -/
theorem removeOrders_modifies_retained_order :
    (twiceInsertedWorld.shelves 0)._orders = [0, 0]
    ∧ (twiceInsertedWorld.orders 0).removed = none
    ∧ (KitchenShelf.removeOrders 0 (JsValue.fn (fun _ _ i => decide (i = 0))) none 5
        twiceInsertedWorld).1 = Except.ok [0]
    ∧ ((KitchenShelf.removeOrders 0 (JsValue.fn (fun _ _ i => decide (i = 0))) none 5
        twiceInsertedWorld).2.shelves 0)._orders = [0]
    ∧ ((KitchenShelf.removeOrders 0 (JsValue.fn (fun _ _ i => decide (i = 0))) none 5
        twiceInsertedWorld).2.orders 0).removed = some 5 := by
  norm_num [twiceInsertedWorld, runShelfCalls, ShelfCall.run, KitchenShelf.insertOrder,
    KitchenOrder.insertDecayModifier, KitchenShelf.removeOrders, toModelPredicate,
    KitchenShelf.removeOrdersLoop, freshWorld, freshShelf, World.setShelf, World.setOrder,
    World.emit, KitchenOrder.new, Function.update]

/-- The truthiness of what the predicate built for an array returns: falsy only
when the callback holds for the first element of the array. -/
theorem truthyNumber_findIndex {α : Type} (xs : List α) (callback : α → Bool) :
    truthyNumber (findIndex xs callback)
      = match xs with
        | [] => true
        | x :: _ => !callback x := by
  cases xs with
  | nil => simp [findIndex, truthyNumber]
  | cons x rest =>
    by_cases hx : callback x = true
    · simp [findIndex, truthyNumber, List.findIdx?_cons, hx]
    · simp only [findIndex, List.findIdx?_cons, hx, List.findIdx?_succ]
      cases List.findIdx? callback rest 0 with
      | none => simp [truthyNumber]
      | some i =>
        have hx2 : callback x = false := by simpa using hx
        simp only [Option.map_some', truthyNumber, hx2]
        have hpos : ((i + 1 : ℕ) : Int) ≠ 0 := by omega
        simpa using hpos

/-- C8 (code defect): with residents "a" and "b" on the shelf and the array
`[a]` as argument, `removeOrders` returns "b", whose id is not in the array, and
keeps "a", whose id is: the predicate built for an array returns the number
given by `findIndex`, which is falsy for position 0 and truthy for -1. -/
theorem removeOrders_array_keeps_listed_order :
    (KitchenShelf.removeOrders 0 (JsValue.array [0]) none 5 twoResidentsWorld).1
        = Except.ok [1]
    ∧ ((KitchenShelf.removeOrders 0 (JsValue.array [0]) none 5 twoResidentsWorld).2.shelves
        0)._orders = [0]
    ∧ (twoResidentsWorld.orders 0).id = "a" ∧ (twoResidentsWorld.orders 1).id = "b" := by
  simp [KitchenShelf.removeOrders, toModelPredicate, KitchenShelf.removeOrdersLoop,
    twoResidentsWorld, World.setShelf, World.setOrder, World.emit, findIndex, truthyNumber,
    KitchenOrder.new, Function.update, List.findIdx?]

/-! ### Kitchen.removeOrders -/

/-- The first loop of `Kitchen.removeOrders` in terms of the scan. -/
theorem Kitchen.registryLoop_eq (p : Predicate) (now : Int) (rs : List OrderRef)
    (index : Nat) (orders : List OrderRef) (w : World) :
    Kitchen.removeOrdersLoop p now rs index orders w
      = (orders ++ (scan p now rs index w.orders).1,
         { w with
           orders := (scan p now rs index w.orders).2.2,
           kitchen := { w.kitchen with
             _orders := w.kitchen._orders ++ (scan p now rs index w.orders).2.1 } }) := by
  induction rs generalizing index orders w with
  | nil => simp [Kitchen.removeOrdersLoop, scan]
  | cons r rest ih =>
    unfold Kitchen.removeOrdersLoop scan
    by_cases hp : p r (w.orders r) index = true
    · simp [hp, ih, World.setOrder]
    · simp [hp, ih]

/-- The emission loop of `Kitchen.removeOrders` only extends the event log. -/
theorem foldl_emit_removeOrder (err : Option JsError) (orders : List OrderRef) (w : World) :
    orders.foldl (fun acc order => acc.emit (Event.removeOrder Emitter.kitchen order err)) w
      = { w with events := w.events
            ++ orders.map (fun order => Event.removeOrder Emitter.kitchen order err) } := by
  induction orders generalizing w with
  | nil => simp
  | cons r rest ih =>
    rw [List.foldl_cons, ih]
    simp [World.emit]

theorem idPredicate_ignoresRemoved (t : String) : (idPredicate t).IgnoresRemoved := by
  intro r o i x
  rfl

theorem matchedAt_idPredicate (t : String) (store : Store) (rs : List OrderRef) (index : Nat) :
    matchedAt (idPredicate t) store rs index = rs.filter (fun r => decide ((store r).id = t)) := by
  induction rs generalizing index with
  | nil => simp [matchedAt]
  | cons r rest ih =>
    rw [matchedAt_cons, ih, List.filter_cons]
    simp [idPredicate]

theorem keptAt_idPredicate (t : String) (store : Store) (rs : List OrderRef) (index : Nat) :
    keptAt (idPredicate t) store rs index = rs.filter (fun r => decide ((store r).id ≠ t)) := by
  induction rs generalizing index with
  | nil => simp [keptAt]
  | cons r rest ih =>
    rw [keptAt_cons, ih, List.filter_cons]
    by_cases h : (store r).id = t <;> simp [idPredicate, h]

theorem markRemoved_id (store : Store) (removed : List OrderRef) (now : Int) (r : OrderRef) :
    (markRemoved store removed now r).id = (store r).id := by
  unfold markRemoved
  split <;> rfl

theorem markRemoved_append (store : Store) (a b : List OrderRef) (now : Int) :
    markRemoved (markRemoved store a now) b now = markRemoved store (a ++ b) now := by
  funext r
  by_cases ha : r ∈ a <;> by_cases hb : r ∈ b <;> simp [markRemoved, ha, hb]

/-- The scan of a list of residents by id: the orders with the target id are
removed and marked, the others are retained in order. -/
theorem scan_idPredicate (t : String) (now : Int) (rs : List OrderRef) (store : Store) :
    scan (idPredicate t) now rs 0 store
      = (rs.filter (fun r => decide ((store r).id = t)),
         rs.filter (fun r => decide ((store r).id ≠ t)),
         markRemoved store (rs.filter (fun r => decide ((store r).id = t))) now) := by
  obtain ⟨h1, h2⟩ := scan_eq (idPredicate t) now rs 0 store (Or.inr (idPredicate_ignoresRemoved t))
  have h3 := scan_store (idPredicate t) now rs 0 store
  rw [h1] at h3
  rw [matchedAt_idPredicate] at h1 h3
  rw [keptAt_idPredicate] at h2
  exact Prod.ext h1 (Prod.ext h2 h3)

/-- The second loop of `Kitchen.removeOrders` for a predicate on the id: it
returns normally; the orders it removes are those with the target id on the
shelves visited, it marks them and changes no other order, and every shelf
visited keeps the orders with another id, in order. -/
theorem Kitchen.removeOrdersShelves_idPredicate (t : String) (err : Option JsError) (now : Int)
    (ss : List ShelfRef) (acc : List OrderRef) (w : World) :
    ∃ removed w2,
      Kitchen.removeOrdersShelves (idPredicate t) err now ss acc w
        = (Except.ok (acc ++ removed), w2)
      ∧ w2.kitchen = w.kitchen
      ∧ w2.orders = markRemoved w.orders removed now
      ∧ (∀ r ∈ removed, (w.orders r).id = t ∧ ∃ s ∈ ss, r ∈ (w.shelves s)._orders)
      ∧ (∀ s ∈ ss, ∀ r ∈ (w.shelves s)._orders, (w.orders r).id = t → r ∈ removed)
      ∧ (∀ s, w2.shelves s
          = if s ∈ ss then
              { w.shelves s with
                _orders := (w.shelves s)._orders.filter (fun r => decide ((w.orders r).id ≠ t)) }
            else w.shelves s) := by
  induction ss generalizing acc w with
  | nil =>
    refine ⟨[], w, by simp [Kitchen.removeOrdersShelves], rfl, ?_, ?_, ?_, ?_⟩
    · funext r; simp [markRemoved]
    · intro r hr; cases hr
    · intro s hs; cases hs
    · intro s; simp
  | cons s rest ih =>
    unfold Kitchen.removeOrdersShelves
    rw [KitchenShelf.removeOrders_eq s (JsValue.fn (idPredicate t)) (idPredicate t) err now w rfl,
      scan_idPredicate]
    simp only
    generalize hw1 : ({ w with
        orders := markRemoved w.orders
          ((w.shelves s)._orders.filter (fun r => decide ((w.orders r).id = t))) now,
        shelves := Function.update w.shelves s
          { w.shelves s with
            _orders := (w.shelves s)._orders.filter (fun r => decide ((w.orders r).id ≠ t)) },
        events := w.events ++ ((w.shelves s)._orders.filter
            (fun r => decide ((w.orders r).id = t))).map
          (fun r => Event.removeOrder (Emitter.shelf s) r err) } : World) = w1
    have ho : w1.orders = markRemoved w.orders
        ((w.shelves s)._orders.filter (fun r => decide ((w.orders r).id = t))) now := by
      rw [← hw1]
    have hsh : w1.shelves = Function.update w.shelves s
        { w.shelves s with
          _orders := (w.shelves s)._orders.filter (fun r => decide ((w.orders r).id ≠ t)) } := by
      rw [← hw1]
    have hk : w1.kitchen = w.kitchen := by rw [← hw1]
    have hid : ∀ r, (w1.orders r).id = (w.orders r).id := by
      intro r; rw [ho]; exact markRemoved_id _ _ _ _
    obtain ⟨removed, w2, heq, hk2, ho2, hin, hall, hshelves⟩ :=
      ih (acc ++ (w.shelves s)._orders.filter (fun r => decide ((w.orders r).id = t))) w1
    refine ⟨(w.shelves s)._orders.filter (fun r => decide ((w.orders r).id = t)) ++ removed,
      w2, ?_, ?_, ?_, ?_, ?_, ?_⟩
    · rw [heq, List.append_assoc]
    · rw [hk2, hk]
    · rw [ho2, ho, markRemoved_append]
    · intro r hr
      rcases List.mem_append.mp hr with h | h
      · obtain ⟨hmem, hidr⟩ := List.mem_filter.mp h
        exact ⟨by simpa using hidr, s, List.mem_cons_self s rest, hmem⟩
      · obtain ⟨hidr, s2, hs2, hmem⟩ := hin r h
        refine ⟨by rw [← hid r]; exact hidr, s2, List.mem_cons_of_mem s hs2, ?_⟩
        rw [hsh] at hmem
        by_cases hss : s2 = s
        · subst hss
          rw [Function.update_same] at hmem
          exact (List.mem_filter.mp hmem).1
        · rw [Function.update_noteq hss] at hmem
          exact hmem
    · intro s2 hs2 r hmem hidr
      by_cases hss : s2 = s
      · subst hss
        exact List.mem_append_left _ (List.mem_filter.mpr ⟨hmem, by simpa using hidr⟩)
      · have hs2rest : s2 ∈ rest := by
          rcases List.mem_cons.mp hs2 with h | h
          · exact absurd h hss
          · exact h
        refine List.mem_append_right _ (hall s2 hs2rest r ?_ (by rw [hid r]; exact hidr))
        rw [hsh, Function.update_noteq hss]
        exact hmem
    · intro s2
      rw [hshelves s2]
      have hfilter : ∀ l : List OrderRef,
          l.filter (fun r => decide ((w1.orders r).id ≠ t))
            = l.filter (fun r => decide ((w.orders r).id ≠ t)) := by
        intro l
        apply List.filter_congr
        intro r _
        rw [hid r]
      rw [hfilter, hsh]
      by_cases hss : s2 = s
      · subst hss
        by_cases hrest : s2 ∈ rest
        · simp [hrest, Function.update_same, List.filter_filter]
        · simp [hrest, Function.update_same]
      · have hiff : s2 ∈ s :: rest ↔ s2 ∈ rest := by
          simp [hss]
        by_cases hrest : s2 ∈ rest
        · simp [hrest, hss, Function.update_noteq hss]
        · simp [hrest, hss, Function.update_noteq hss]

/-- The effect of `Kitchen.removeOrders` when its argument stands for the
predicate "the id is `t`": it returns normally; the registry and every shelf of
the kitchen keep the orders with another id, in order; the orders marked as
removed are the tracked orders with id `t`, and no other order changes. -/
theorem Kitchen.removeOrders_idPredicate (arg : JsValue) (t : String) (err : Option JsError)
    (now : Int) (w : World) (hp : toModelPredicate w arg = some (idPredicate t)) :
    ∃ out w2 removed,
      Kitchen.removeOrders arg err now w = (Except.ok out, w2)
      ∧ w2.kitchen = { w.kitchen with
          _orders := w.kitchen._orders.filter (fun r => decide ((w.orders r).id ≠ t)) }
      ∧ (∀ s, w2.shelves s
          = if s ∈ w.kitchen._shelfs then
              { w.shelves s with
                _orders := (w.shelves s)._orders.filter (fun r => decide ((w.orders r).id ≠ t)) }
            else w.shelves s)
      ∧ w2.orders = markRemoved w.orders removed now
      ∧ (∀ r ∈ removed, (w.orders r).id = t ∧ Tracked w r)
      ∧ (∀ r, (w.orders r).id = t → Tracked w r → r ∈ removed) := by
  unfold Kitchen.removeOrders
  simp only [hp, Kitchen.registryLoop_eq, scan_idPredicate, List.nil_append]
  obtain ⟨removed, w2, heq, hk, ho, hin, hall, hshelves⟩ :=
    Kitchen.removeOrdersShelves_idPredicate t err now w.kitchen._shelfs
      (List.filter (fun r => decide ((w.orders r).id = t)) w.kitchen._orders)
      { orders := markRemoved w.orders
          (List.filter (fun r => decide ((w.orders r).id = t)) w.kitchen._orders) now,
        shelves := w.shelves,
        kitchen :=
          { _orders := List.filter (fun r => decide ((w.orders r).id ≠ t)) w.kitchen._orders,
            _shelfs := w.kitchen._shelfs },
        events := w.events }
  rw [heq]
  simp only [foldl_emit_removeOrder]
  have hfilter : ∀ l : List OrderRef,
      l.filter (fun r => decide ((markRemoved w.orders
          (List.filter (fun r => decide ((w.orders r).id = t)) w.kitchen._orders) now r).id ≠ t))
        = l.filter (fun r => decide ((w.orders r).id ≠ t)) := by
    intro l
    apply List.filter_congr
    intro r _
    rw [markRemoved_id]
  have hprops :
      w2.kitchen = { w.kitchen with
          _orders := w.kitchen._orders.filter (fun r => decide ((w.orders r).id ≠ t)) }
      ∧ (∀ s, w2.shelves s
          = if s ∈ w.kitchen._shelfs then
              { w.shelves s with
                _orders := (w.shelves s)._orders.filter (fun r => decide ((w.orders r).id ≠ t)) }
            else w.shelves s)
      ∧ w2.orders = markRemoved w.orders
          (List.filter (fun r => decide ((w.orders r).id = t)) w.kitchen._orders ++ removed) now
      ∧ (∀ r ∈ List.filter (fun r => decide ((w.orders r).id = t)) w.kitchen._orders ++ removed,
          (w.orders r).id = t ∧ Tracked w r)
      ∧ (∀ r, (w.orders r).id = t → Tracked w r →
          r ∈ List.filter (fun r => decide ((w.orders r).id = t)) w.kitchen._orders ++ removed) := by
    refine ⟨hk, ?_, ?_, ?_, ?_⟩
    · intro s
      rw [hshelves s]
      simp only [hfilter]
    · rw [ho, markRemoved_append]
    · intro r hr
      rcases List.mem_append.mp hr with h | h
      · obtain ⟨hmem, hidr⟩ := List.mem_filter.mp h
        exact ⟨by simpa using hidr, Or.inl hmem⟩
      · obtain ⟨hidr, s, hs, hmem⟩ := hin r h
        rw [markRemoved_id] at hidr
        exact ⟨hidr, Or.inr ⟨s, hs, hmem⟩⟩
    · intro r hidr htracked
      rcases htracked with h | ⟨s, hs, hmem⟩
      · exact List.mem_append_left _ (List.mem_filter.mpr ⟨h, by simpa using hidr⟩)
      · exact List.mem_append_right _ (hall s hs r hmem (by rw [markRemoved_id]; exact hidr))
  cases arg with
  | order r0 =>
    simp only
    split
    · exact ⟨_, _, _, rfl, hprops⟩
    · exact ⟨_, _, _, rfl, hprops⟩
  | shelf s => exact ⟨_, _, _, rfl, hprops⟩
  | str s => exact ⟨_, _, _, rfl, hprops⟩
  | fn f => exact ⟨_, _, _, rfl, hprops⟩
  | array models => exact ⟨_, _, _, rfl, hprops⟩
  | other => exact ⟨_, _, _, rfl, hprops⟩

/-- C9: for an argument that is a single `KitchenOrder` or an id string, with
`t` the id it designates, `Kitchen.removeOrders` returns normally and afterwards:
the registry and every shelf of the kitchen hold exactly the orders they held
whose id is not `t`, in the same relative order, so no order with id `t` remains;
every order whose id is not `t` is unchanged, its removal timestamp included; and
every tracked order with id `t` has its removal timestamp set to now. -/
theorem Kitchen.removeOrders_by_id (arg : JsValue) (t : String) (err : Option JsError)
    (now : Int) (w : World)
    (harg : (∃ r0, arg = JsValue.order r0 ∧ t = (w.orders r0).id) ∨ arg = JsValue.str t) :
    (∃ out, (Kitchen.removeOrders arg err now w).1 = Except.ok out)
    ∧ (Kitchen.removeOrders arg err now w).2.kitchen._shelfs = w.kitchen._shelfs
    ∧ (Kitchen.removeOrders arg err now w).2.kitchen._orders
        = w.kitchen._orders.filter (fun r => decide ((w.orders r).id ≠ t))
    ∧ (∀ s ∈ w.kitchen._shelfs,
        ((Kitchen.removeOrders arg err now w).2.shelves s)._orders
          = (w.shelves s)._orders.filter (fun r => decide ((w.orders r).id ≠ t)))
    ∧ (∀ r ∈ (Kitchen.removeOrders arg err now w).2.kitchen._orders,
        ((Kitchen.removeOrders arg err now w).2.orders r).id ≠ t)
    ∧ (∀ s ∈ w.kitchen._shelfs,
        ∀ r ∈ ((Kitchen.removeOrders arg err now w).2.shelves s)._orders,
          ((Kitchen.removeOrders arg err now w).2.orders r).id ≠ t)
    ∧ (∀ r, (w.orders r).id ≠ t → (Kitchen.removeOrders arg err now w).2.orders r = w.orders r)
    ∧ (∀ r, (w.orders r).id = t → Tracked w r →
        ((Kitchen.removeOrders arg err now w).2.orders r).removed = some now) := by
  have hp : toModelPredicate w arg = some (idPredicate t) := by
    rcases harg with ⟨r0, rfl, rfl⟩ | rfl <;> rfl
  obtain ⟨out, w2, removed, heq, hk, hshelves, ho, hin, hall⟩ :=
    Kitchen.removeOrders_idPredicate arg t err now w hp
  rw [heq]
  simp only [hk, ho]
  refine ⟨⟨out, rfl⟩, trivial, trivial, ?_, ?_, ?_, ?_, ?_⟩
  · intro s hs
    rw [hshelves s]
    simp [hs]
  · intro r hr
    rw [markRemoved_id]
    simpa using (List.mem_filter.mp hr).2
  · intro s hs r hr
    rw [hshelves s] at hr
    simp only [hs, if_true] at hr
    rw [markRemoved_id]
    simpa using (List.mem_filter.mp hr).2
  · intro r hr
    have hnot : r ∉ removed := fun hmem => hr (hin r hmem).1
    simp [markRemoved, hnot]
  · intro r hr htracked
    simp [markRemoved, hall r hr htracked]

/-- A witness of `Kitchen.removeOrders_by_id`: removing the order with id "a"
from a kitchen whose shelf holds the orders "a" and "b" keeps "b". -/
theorem Kitchen.removeOrders_by_id_witness :
    ((Kitchen.removeOrders (JsValue.str "a") none 9 twoResidentsWorld).2.shelves 0)._orders
      = (twoResidentsWorld.shelves 0)._orders.filter
          (fun r => decide ((twoResidentsWorld.orders r).id ≠ "a")) :=
  (Kitchen.removeOrders_by_id (JsValue.str "a") "a" none 9 twoResidentsWorld
    (Or.inr rfl)).2.2.2.1 0 (by simp [twoResidentsWorld])

/-! ### Kitchen.assignOrdersToShelf when nothing tracked matches -/

/-- A removal from a shelf none of whose residents satisfies the predicate
returns the empty list and changes nothing. -/
theorem KitchenShelf.removeOrders_nothing_matched (self : ShelfRef) (p : Predicate)
    (err : Option JsError) (now : Int) (w : World)
    (h : ∀ ir ∈ (w.shelves self)._orders.enumFrom 0, p ir.2 (w.orders ir.2) ir.1 = false) :
    KitchenShelf.removeOrders self (JsValue.fn p) err now w = (Except.ok [], w) := by
  rw [KitchenShelf.removeOrders_eq self (JsValue.fn p) p err now w rfl,
    scan_no_match p now _ 0 w.orders h]
  simp

theorem Kitchen.removeOrdersShelves_no_match (p : Predicate) (err : Option JsError) (now : Int)
    (ss : List ShelfRef) (acc : List OrderRef) (w : World)
    (h : ∀ s ∈ ss, ∀ ir ∈ (w.shelves s)._orders.enumFrom 0, p ir.2 (w.orders ir.2) ir.1 = false) :
    Kitchen.removeOrdersShelves p err now ss acc w = (Except.ok acc, w) := by
  induction ss generalizing acc with
  | nil => simp [Kitchen.removeOrdersShelves]
  | cons s rest ih =>
    unfold Kitchen.removeOrdersShelves
    rw [KitchenShelf.removeOrders_nothing_matched s p err now w (h s (List.mem_cons_self s rest))]
    simp only [List.append_nil]
    exact ih acc (fun s2 hs2 => h s2 (List.mem_cons_of_mem s hs2))

/-- When nothing tracked satisfies the predicate of the argument,
`Kitchen.removeOrders` changes nothing and returns the empty list, or the
argument itself when it is a single `KitchenOrder`. -/
theorem Kitchen.removeOrders_no_match (arg : JsValue) (p : Predicate) (err : Option JsError)
    (now : Int) (w : World) (hp : toModelPredicate w arg = some p) (h : NothingTracked w p) :
    Kitchen.removeOrders arg err now w
      = (Except.ok (match arg with
          | JsValue.order r => [r]
          | _ => []), w) := by
  unfold Kitchen.removeOrders
  simp only [hp, Kitchen.registryLoop_eq, scan_no_match p now _ 0 w.orders h.1,
    List.nil_append]
  rw [Kitchen.removeOrdersShelves_no_match p err now w.kitchen._shelfs [] w h.2]
  cases arg <;> simp

/-- C10 (as amended): when nothing tracked matches, `Kitchen.assignOrdersToShelf`
throws an error of kind `ORDER_NOT_FOUND` and leaves the world as it was, hence
inserts nothing into the target shelf, if its first argument is an id string or
a predicate function; if it is a single `KitchenOrder`, the call hands that
order to `insertOrder` of the target shelf instead: it throws `OUT_OF_CAPACITY`
when the shelf is full and otherwise returns normally with the order appended to
the shelf. -/
theorem Kitchen.assignOrdersToShelf_nothing_tracked (s : ShelfRef) (now : Int) (w : World) :
    (∀ t, NothingTracked w (idPredicate t) →
      Kitchen.assignOrdersToShelf (JsValue.str t) (JsValue.shelf s) now w
        = (Except.error { message := "order not found", kind := some ErrorCode.ORDER_NOT_FOUND },
           w))
    ∧ (∀ f, NothingTracked w f →
      Kitchen.assignOrdersToShelf (JsValue.fn f) (JsValue.shelf s) now w
        = (Except.error { message := "order not found", kind := some ErrorCode.ORDER_NOT_FOUND },
           w))
    ∧ (∀ r, NothingTracked w (idPredicate (w.orders r).id) →
      Kitchen.assignOrdersToShelf (JsValue.order r) (JsValue.shelf s) now w
        = if (w.shelves s).capacity ≤ (((w.shelves s)._orders.length : ℕ) : ℚ) then
            (Except.error { message := "out of capacity", kind := some ErrorCode.OUT_OF_CAPACITY },
             w)
          else
            (Except.ok (),
              { w with
                orders := Function.update w.orders r
                  { w.orders r with
                    removed := none,
                    _decayHistory := (w.orders r)._decayHistory
                      ++ [{ decayModifier := (w.shelves s).decayModifier, date := now }] },
                shelves := Function.update w.shelves s
                  { w.shelves s with _orders := (w.shelves s)._orders ++ [r] },
                events := w.events ++ [Event.insertOrder (Emitter.shelf s) r,
                  Event.assignOrderToShelf Emitter.kitchen r s] })) := by
  refine ⟨?_, ?_, ?_⟩
  · intro t h
    unfold Kitchen.assignOrdersToShelf
    rw [Kitchen.removeOrders_no_match (JsValue.str t) (idPredicate t) none now w rfl h]
    simp [JsValue.isKitchenOrder]
  · intro f h
    unfold Kitchen.assignOrdersToShelf
    rw [Kitchen.removeOrders_no_match (JsValue.fn f) f none now w rfl h]
    simp [JsValue.isKitchenOrder]
  · intro r h
    unfold Kitchen.assignOrdersToShelf
    rw [Kitchen.removeOrders_no_match (JsValue.order r) (idPredicate (w.orders r).id) none now w
      rfl h]
    by_cases hcap : (w.shelves s).capacity ≤ (((w.shelves s)._orders.length : ℕ) : ℚ)
    · simp [Kitchen.assignOrdersLoop, KitchenShelf.insertOrder_eq, hcap]
    · simp [Kitchen.assignOrdersLoop, KitchenShelf.insertOrder_eq, hcap, World.emit]

/-- A witness of `Kitchen.assignOrdersToShelf_nothing_tracked`: in a kitchen that
tracks nothing, placing by the id string "a" throws `ORDER_NOT_FOUND`. -/
theorem Kitchen.assignOrdersToShelf_nothing_tracked_witness :
    NothingTracked freshWorld (idPredicate "a")
    ∧ Kitchen.assignOrdersToShelf (JsValue.str "a") (JsValue.shelf 0) 7 freshWorld
        = (Except.error { message := "order not found", kind := some ErrorCode.ORDER_NOT_FOUND },
           freshWorld) :=
  have h : NothingTracked freshWorld (idPredicate "a") := by
    simp [NothingTracked, freshWorld, freshShelf]
  ⟨h, (Kitchen.assignOrdersToShelf_nothing_tracked 0 7 freshWorld).1 "a" h⟩

/-- C10 (counterexample): in a kitchen whose registry and shelves are empty,
`assignOrdersToShelf` called with a single `KitchenOrder` does not throw
`ORDER_NOT_FOUND`: it returns normally and the order is on the target shelf. -/
theorem Kitchen.assignOrdersToShelf_untracked_order :
    freshWorld.kitchen._orders = []
    ∧ (∀ s, (freshWorld.shelves s)._orders = [])
    ∧ (Kitchen.assignOrdersToShelf (JsValue.order 0) (JsValue.shelf 0) 7 freshWorld).1
        = Except.ok ()
    ∧ ((Kitchen.assignOrdersToShelf (JsValue.order 0) (JsValue.shelf 0) 7
        freshWorld).2.shelves 0)._orders = [0] := by
  norm_num [Kitchen.assignOrdersToShelf, Kitchen.removeOrders, toModelPredicate,
    Kitchen.removeOrdersLoop, Kitchen.removeOrdersShelves, KitchenShelf.removeOrders,
    KitchenShelf.removeOrdersLoop, freshWorld, freshShelf, World.setShelf, World.setOrder,
    World.emit, Kitchen.assignOrdersLoop, KitchenShelf.insertOrder,
    KitchenOrder.insertDecayModifier, JsValue.isKitchenOrder, Function.update, KitchenOrder.new]

/-! ### Kitchen.removeOrders: what it returns -/

/-- C11 (code defect): the registry holds one order, of id "a", and the argument
is an array holding one order of id "c", so nothing tracked has an id listed in
the array. `Kitchen.removeOrders` does not return the empty list: it returns the
order "a", takes it out of the registry, sets its removal timestamp and emits a
`removeOrder` event. The predicate built for an array is truthy for every order
whose id is not that of the first element of the array. -/
theorem Kitchen.removeOrders_array_removes_unlisted :
    (registryWorld.orders 0).id = "a" ∧ (registryWorld.orders 1).id = "c"
    ∧ registryWorld.kitchen._orders = [0] ∧ registryWorld.kitchen._shelfs = []
    ∧ (Kitchen.removeOrders (JsValue.array [1]) none 5 registryWorld).1 = Except.ok [0]
    ∧ (Kitchen.removeOrders (JsValue.array [1]) none 5 registryWorld).2.kitchen._orders = []
    ∧ ((Kitchen.removeOrders (JsValue.array [1]) none 5 registryWorld).2.orders 0).removed
        = some 5
    ∧ (Kitchen.removeOrders (JsValue.array [1]) none 5 registryWorld).2.events
        = [Event.removeOrder Emitter.kitchen 0 none] := by
  simp [Kitchen.removeOrders, toModelPredicate, Kitchen.removeOrdersLoop,
    Kitchen.removeOrdersShelves, registryWorld, World.setOrder, World.emit, findIndex,
    truthyNumber, KitchenOrder.new, Function.update, List.findIdx?]

/-! ### KitchenOrder.insertDecayModifier -/

/-- C12: `insertDecayModifier(m)` throws exactly when the removal timestamp of the
order is set, and then nothing changes, the decay history included; otherwise it
returns normally, the history of the order is the previous one followed by the
one entry `(m, now)`, no other field of the order changes, and nothing else
changes. -/
theorem insertDecayModifier_iff (r : OrderRef) (m : ℚ) (now : Int) (w : World) :
    ((∃ e, (w.insertDecayModifier r m now).1 = Except.error e) ↔ (w.orders r).removed ≠ none)
    ∧ ((w.orders r).removed ≠ none → (w.insertDecayModifier r m now).2 = w)
    ∧ ((w.orders r).removed = none →
        w.insertDecayModifier r m now
          = (Except.ok (),
             { w with
               orders := Function.update w.orders r
                 { w.orders r with
                   _decayHistory := (w.orders r)._decayHistory
                     ++ [{ decayModifier := m, date := now }] } })) := by
  unfold World.insertDecayModifier KitchenOrder.insertDecayModifier
  by_cases h : (w.orders r).removed = none
  · simp [h, World.setOrder]
  · simp [h]

/-! ### The events of a removal -/

/-- The second loop of `Kitchen.removeOrders` returns normally and emits only
`removeOrder` events. -/
theorem Kitchen.removeOrdersShelves_events (p : Predicate) (err : Option JsError) (now : Int)
    (ss : List ShelfRef) (acc : List OrderRef) (w : World) :
    ∃ out w2 extra,
      Kitchen.removeOrdersShelves p err now ss acc w = (Except.ok out, w2)
      ∧ w2.events = w.events ++ extra
      ∧ ∀ e ∈ extra, e.isRemoveOrder = true := by
  induction ss generalizing acc w with
  | nil => exact ⟨acc, w, [], rfl, by simp, by simp⟩
  | cons s rest ih =>
    unfold Kitchen.removeOrdersShelves
    rw [KitchenShelf.removeOrders_eq s (JsValue.fn p) p err now w rfl]
    simp only
    obtain ⟨out, w2, extra, heq, hev, hall⟩ := ih
      (acc ++ (scan p now (w.shelves s)._orders 0 w.orders).1)
      { w with
        orders := (scan p now (w.shelves s)._orders 0 w.orders).2.2,
        shelves := Function.update w.shelves s
          { w.shelves s with _orders := (scan p now (w.shelves s)._orders 0 w.orders).2.1 },
        events := w.events ++ (scan p now (w.shelves s)._orders 0 w.orders).1.map
          (fun r => Event.removeOrder (Emitter.shelf s) r err) }
    refine ⟨out, w2, (scan p now (w.shelves s)._orders 0 w.orders).1.map
      (fun r => Event.removeOrder (Emitter.shelf s) r err) ++ extra, heq, ?_, ?_⟩
    · rw [hev, List.append_assoc]
    · intro e he
      rcases List.mem_append.mp he with h | h
      · obtain ⟨r, _, rfl⟩ := List.mem_map.mp h
        rfl
      · exact hall e h

/-- Every event that `Kitchen.removeOrders` emits is a `removeOrder` event. -/
theorem Kitchen.removeOrders_events (arg : JsValue) (err : Option JsError) (now : Int)
    (w : World) :
    ∃ extra, (Kitchen.removeOrders arg err now w).2.events = w.events ++ extra
      ∧ ∀ e ∈ extra, e.isRemoveOrder = true := by
  unfold Kitchen.removeOrders
  cases hp : toModelPredicate w arg with
  | none => exact ⟨[], by simp, by simp⟩
  | some p =>
    simp only [Kitchen.registryLoop_eq, List.nil_append]
    obtain ⟨out, w2, extra, heq, hev, hall⟩ :=
      Kitchen.removeOrdersShelves_events p err now w.kitchen._shelfs
        (scan p now w.kitchen._orders 0 w.orders).1
        { orders := (scan p now w.kitchen._orders 0 w.orders).2.2,
          shelves := w.shelves,
          kitchen :=
            { _orders := (scan p now w.kitchen._orders 0 w.orders).2.1,
              _shelfs := w.kitchen._shelfs },
          events := w.events }
    rw [heq]
    simp only [foldl_emit_removeOrder]
    have hfinal : (w2.events ++ out.map (fun order => Event.removeOrder Emitter.kitchen order err))
        = w.events ++ (extra ++ out.map (fun order => Event.removeOrder Emitter.kitchen order err))
        ∧ ∀ e ∈ extra ++ out.map (fun order => Event.removeOrder Emitter.kitchen order err),
            e.isRemoveOrder = true := by
      refine ⟨by rw [hev, List.append_assoc], ?_⟩
      intro e he
      rcases List.mem_append.mp he with h | h
      · exact hall e h
      · obtain ⟨r, _, rfl⟩ := List.mem_map.mp h
        rfl
    cases arg with
    | order r0 =>
      simp only
      split <;> exact ⟨_, hfinal.1, hfinal.2⟩
    | shelf s => exact ⟨_, hfinal.1, hfinal.2⟩
    | str s => exact ⟨_, hfinal.1, hfinal.2⟩
    | fn f => exact ⟨_, hfinal.1, hfinal.2⟩
    | array models => exact ⟨_, hfinal.1, hfinal.2⟩
    | other => exact ⟨_, hfinal.1, hfinal.2⟩

/-! ### Math.round -/

theorem mathRound_le_zero_iff (x : ℚ) : mathRound x ≤ 0 ↔ x < 1 / 2 := by
  unfold mathRound
  rw [← Int.lt_add_one_iff, zero_add, Int.floor_lt]
  constructor <;> intro h <;> push_cast at h ⊢ <;> linarith

/-! ### KitchenManager._deliverOrder -/

/-- C13: when the test `Math.round(order.getValue() * 100.0) <= 0` holds of the
order of the courier at the check, the value being computed in doubles as the
engine computes it, `_deliverOrder` throws an error of kind `ORDER_EXPIRED`; the
status of the order is then `DISCARDED`, the order is neither in the registry nor
on a shelf of the kitchen, every event emitted is a `removeOrder` event (so no
`deliverOrder` event is emitted), the delivered timestamp of the order is as it
was, and the couriers are as they were. An order of shelf life 1 and decay rate 1
that was prepared, then stored on a shelf of modifier at least 1 (a finite
number) and is checked at least two seconds after its preparation is such an
order, whatever the rounding; the three dates are dates that a `Date` can hold. -/
theorem deliverOrder_expired (courier : CourierRef) (order : OrderRef) (now : Int)
    (st : ManagerState) (hc : (st.couriers courier).order = some order)
    (hexp : (st.world.orders order).expired now = true
      ∨ ∃ p t m, (st.world.orders order).shelfLife = 1 ∧ (st.world.orders order).decayRate = 1
          ∧ (st.world.orders order).prepared = some p ∧ (st.world.orders order).removed = none
          ∧ (st.world.orders order)._decayHistory = [{ decayModifier := m, date := t }]
          ∧ 1 ≤ m ∧ JsNumber.ofRat m ≠ JsNumber.infinity false
          ∧ p ≤ t ∧ t ≤ now ∧ p + 2000 ≤ now
          ∧ |p| < 2 ^ 53 ∧ |t| < 2 ^ 53 ∧ |now| < 2 ^ 53) :
    ∃ st2 extra,
      KitchenManager._deliverOrder courier now st
        = (Except.error KitchenManager.deliverExpiredError, st2)
      ∧ KitchenManager.deliverExpiredError.kind = some ErrorCode.ORDER_EXPIRED
      ∧ (st2.world.orders order).status = StatusField.member KitchenOrderStatus.DISCARDED
      ∧ order ∉ st2.world.kitchen._orders
      ∧ (∀ s ∈ st2.world.kitchen._shelfs, order ∉ (st2.world.shelves s)._orders)
      ∧ st2.world.events = st.world.events ++ extra
      ∧ (∀ e ∈ extra, e.isRemoveOrder = true)
      ∧ (∀ e ∈ extra, e.isDeliverOrderOf order = false)
      ∧ (st2.world.orders order).delivered = (st.world.orders order).delivered
      ∧ st2.couriers = st.couriers ∧ st2._couriers = st._couriers := by
  have hround : (st.world.orders order).expired now = true := by
    rcases hexp with h | ⟨p, t, m, hs, hd, hp, hr, hh, hm, hfin, hpt, htn, hlate, hdp, hdt, hdn⟩
    · exact h
    · exact perishable_order_expired _ p t now m hs hd hp hr hh hm hfin hpt htn hlate hdp hdt hdn
  obtain ⟨out, w2, removed, heq, hk, hshelves, ho, hin, hall⟩ :=
    Kitchen.removeOrders_idPredicate (JsValue.order order) (st.world.orders order).id
      (some KitchenManager.deliverExpiredError) now st.world rfl
  obtain ⟨extra, hev, hrem⟩ := Kitchen.removeOrders_events (JsValue.order order)
    (some KitchenManager.deliverExpiredError) now st.world
  rw [heq] at hev
  refine ⟨{ st with
      world := w2.setOrder order
        { w2.orders order with status := StatusField.member KitchenOrderStatus.DISCARDED } },
    extra, ?_, rfl, ?_, ?_, ?_, ?_, hrem, ?_, ?_, ?_, ?_⟩
  · unfold KitchenManager._deliverOrder
    simp only [hc, hround, if_true, heq]
  · simp [World.setOrder]
  · simp only [World.setOrder, hk]
    intro hmem
    simpa using (List.mem_filter.mp hmem).2
  · simp only [World.setOrder, hk]
    intro s hs hmem
    rw [hshelves s] at hmem
    simp only [hs, if_true] at hmem
    simpa using (List.mem_filter.mp hmem).2
  · simpa [World.setOrder] using hev
  · intro e he
    have := hrem e he
    cases e <;> simp_all [Event.isRemoveOrder, Event.isDeliverOrderOf]
  · simp only [World.setOrder, Function.update_same, ho]
    unfold markRemoved
    split <;> rfl
  · rfl
  · rfl

/-- A witness of `deliverOrder_expired`: an order of shelf life 1 stored at time 0
and checked at 2500 ms. -/
theorem deliverOrder_expired_witness :
    ∃ st2 extra,
      KitchenManager._deliverOrder 0 2500 perishableManager
        = (Except.error KitchenManager.deliverExpiredError, st2)
      ∧ KitchenManager.deliverExpiredError.kind = some ErrorCode.ORDER_EXPIRED
      ∧ (st2.world.orders 0).status = StatusField.member KitchenOrderStatus.DISCARDED
      ∧ 0 ∉ st2.world.kitchen._orders
      ∧ (∀ s ∈ st2.world.kitchen._shelfs, 0 ∉ (st2.world.shelves s)._orders)
      ∧ st2.world.events = perishableManager.world.events ++ extra
      ∧ (∀ e ∈ extra, e.isRemoveOrder = true)
      ∧ (∀ e ∈ extra, e.isDeliverOrderOf 0 = false)
      ∧ (st2.world.orders 0).delivered = (perishableManager.world.orders 0).delivered
      ∧ st2.couriers = perishableManager.couriers
      ∧ st2._couriers = perishableManager._couriers :=
  deliverOrder_expired 0 0 2500 perishableManager
    (by simp [perishableManager, Courier.new])
    (Or.inr ⟨0, 0, 1, by simp [perishableManager, KitchenOrder.new],
      by simp [perishableManager, KitchenOrder.new],
      by simp [perishableManager, KitchenOrder.new],
      by simp [perishableManager, KitchenOrder.new],
      by simp [perishableManager, KitchenOrder.new], le_refl 1,
      by rw [ofRat_one]; simp, by norm_num, by norm_num, by norm_num, by norm_num, by norm_num,
      by norm_num⟩)

/-- C14: when the order of the courier is not expired but was never prepared or
has a removal timestamp, `_deliverOrder` throws an error of kind
`ORDER_NOT_FOUND` and leaves the whole state as it was: the order, the courier,
the pool, the registry, the shelves and the event log. -/
theorem deliverOrder_not_found (courier : CourierRef) (order : OrderRef) (now : Int)
    (st : ManagerState) (hc : (st.couriers courier).order = some order)
    (hval : (st.world.orders order).expired now = false)
    (hgone : (st.world.orders order).prepared = none ∨ (st.world.orders order).removed ≠ none) :
    KitchenManager._deliverOrder courier now st
      = (Except.error KitchenManager.deliverNotFoundError, st)
    ∧ KitchenManager.deliverNotFoundError.kind = some ErrorCode.ORDER_NOT_FOUND := by
  unfold KitchenManager._deliverOrder
  simp only [hc, hval, Bool.false_eq_true, if_false, hgone, if_true]
  exact ⟨trivial, rfl⟩

/-- A witness of `deliverOrder_not_found`: the courier carries an order that was
never prepared, whose value is 1. -/
theorem deliverOrder_not_found_witness :
    KitchenManager._deliverOrder 0 9 unpreparedManager
      = (Except.error KitchenManager.deliverNotFoundError, unpreparedManager)
    ∧ KitchenManager.deliverNotFoundError.kind = some ErrorCode.ORDER_NOT_FOUND :=
  deliverOrder_not_found 0 0 9 unpreparedManager
    (by simp [unpreparedManager, Courier.new])
    (by decide!)
    (Or.inl (by simp [unpreparedManager, freshManager, managedWorld, KitchenOrder.new]))

/-- The timestamps of the courier after `pickUp` at `t1` followed by `release`:
the order, the arrival and the dispatch are cleared, the departure is not. -/
theorem release_keeps_departed (courier : CourierRef) (order : OrderRef) (t1 t2 : Int)
    (st : ManagerState) :
    ((KitchenManager.release courier order t2
        (KitchenManager.pickUp courier order t1 st).2).couriers courier)
      = { st.couriers courier with
          order := none, arrived := none, dispatched := none, departed := some t1 } := by
  unfold KitchenManager.release KitchenManager.pickUp
  split <;> simp [Function.update_same]

/-- The check at the entry of `_deliverOrder` passes for a courier whose order is
not expired, was prepared and has no removal timestamp. -/
theorem deliverOrder_ok (courier : CourierRef) (order : OrderRef) (now : Int)
    (st : ManagerState) (hc : (st.couriers courier).order = some order)
    (hval : (st.world.orders order).expired now = false)
    (hprep : (st.world.orders order).prepared ≠ none)
    (hrem : (st.world.orders order).removed = none) :
    KitchenManager._deliverOrder courier now st = (Except.ok order, st) := by
  unfold KitchenManager._deliverOrder
  simp [hc, hval, hprep, hrem]

theorem resume_travelling_ok (order : OrderRef) (courier : CourierRef) (carried : OrderRef)
    (inp : Inputs) (st : ManagerState) (hc : (st.couriers courier).order = some carried)
    (hval : (st.world.orders carried).expired inp.now = false)
    (hprep : (st.world.orders carried).prepared ≠ none)
    (hrem : (st.world.orders carried).removed = none) :
    (Pipeline.travelling order courier).resume inp st
      = (Pipeline.pickingUp order courier carried,
         { st with
           couriers := Function.update st.couriers courier
             { st.couriers courier with arrived := some inp.now } }) := by
  simp only [Pipeline.resume]
  rw [deliverOrder_ok courier carried inp.now
    { st with
      couriers := Function.update st.couriers courier
        { st.couriers courier with arrived := some inp.now } }
    (by simp [Function.update_same, hc]) hval hprep hrem]

/-- The removal by a single order never throws. -/
theorem Kitchen.removeOrders_order_ok (r : OrderRef) (err : Option JsError) (now : Int)
    (w : World) : ∃ out, (Kitchen.removeOrders (JsValue.order r) err now w).1 = Except.ok out := by
  obtain ⟨out, w2, removed, heq, _⟩ :=
    Kitchen.removeOrders_idPredicate (JsValue.order r) (w.orders r).id err now w rfl
  exact ⟨out, by rw [heq]⟩

theorem pickUp_ok (courier : CourierRef) (order : OrderRef) (now : Int) (st : ManagerState) :
    (KitchenManager.pickUp courier order now st).1 = Except.ok () := by
  obtain ⟨out, hout⟩ := Kitchen.removeOrders_order_ok order none now st.world
  unfold KitchenManager.pickUp
  split
  · rename_i e w1 heq
    rw [heq] at hout
    cases hout
  · rfl

theorem resume_pickingUp (order : OrderRef) (courier : CourierRef) (carried : OrderRef)
    (inp : Inputs) (st : ManagerState) :
    (Pipeline.pickingUp order courier carried).resume inp st
      = (Pipeline.delivering order courier carried,
         (KitchenManager.pickUp courier carried inp.now st).2) := by
  have h := pickUp_ok courier carried inp.now st
  simp only [Pipeline.resume]
  split
  · rename_i e st1 heq
    rw [heq] at h
    cases h
  · rename_i u st1 heq
    rw [heq]

theorem resume_delivering (order : OrderRef) (courier : CourierRef) (carried : OrderRef)
    (inp : Inputs) (st : ManagerState) :
    (Pipeline.delivering order courier carried).resume inp st
      = (Pipeline.resolved order, KitchenManager.release courier carried inp.now st) := rfl

/-- C16 (code defect): a delivery that succeeds, from the arrival of the courier
at 1000 ms to the end of `_deliverOrder`, with the pick-up at 1001 ms. The call
returns, the order, the arrival and the dispatch of the courier are `null`, but
its departure timestamp is still the pick-up time: `_deliverOrder` never clears
`departed`. -/
theorem deliverOrder_leaves_departed :
    (Pipeline.run [{ now := 1000, random := 0, uuid := "" }, { now := 1001, random := 0, uuid := "" },
        { now := 1002, random := 0, uuid := "" }]
      (Pipeline.travelling 0 0, waitingManager)).1 = Pipeline.resolved 0
    ∧ (Pipeline.run [{ now := 1000, random := 0, uuid := "" }, { now := 1001, random := 0, uuid := "" },
        { now := 1002, random := 0, uuid := "" }]
      (Pipeline.travelling 0 0, waitingManager)).2.couriers 0
      = { id := "c0", dispatched := none, arrived := none, departed := some 1001, order := none,
          delivered := some none } := by
  have h1 := resume_travelling_ok 0 0 0 { now := 1000, random := 0, uuid := "" } waitingManager
    (by simp [waitingManager, Courier.new])
    (by decide!)
    (by simp [waitingManager, KitchenOrder.new])
    (by simp [waitingManager, KitchenOrder.new])
  simp only [Pipeline.run, List.foldl_cons, List.foldl_nil, h1, resume_pickingUp,
    resume_delivering, release_keeps_departed]
  simp [waitingManager, Courier.new, Function.update_same]

/-! ### KitchenManager._dispatchCourier -/

/-- Sorting couriers that all have a `null` dispatched timestamp changes nothing:
the comparator returns 0 for every pair. -/
theorem sortByDispatched_idle (st : ManagerState) (l : List CourierRef)
    (h : ∀ c ∈ l, (st.couriers c).dispatched = none) :
    KitchenManager.sortByDispatched st l = l := by
  unfold KitchenManager.sortByDispatched
  apply List.Sorted.insertionSort_eq
  apply List.pairwise_of_forall_mem_list
  intro a ha b hb
  simp [h a ha, h b hb, dateNumber]

/-- The selection of `_dispatchCourier`: the first courier of the pool, in pool
order, whose dispatched timestamp is `null`. -/
theorem dispatchCourier_eq (order : OrderRef) (now : Int) (st : ManagerState) :
    KitchenManager._dispatchCourier order now st
      = match (st._couriers.filter (fun c => decide ((st.couriers c).dispatched = none))).head? with
        | none => (Pipeline.contacting order, st)
        | some courier => KitchenManager.dispatch order courier now st := by
  unfold KitchenManager._dispatchCourier
  rw [sortByDispatched_idle]
  intro c hc
  simpa using (List.mem_filter.mp hc).2

/-! ### The couriers along a resumption -/

/-- A resumption that leaves the couriers alone and holds none. -/
theorem stepEffect_untouched (st st2 : ManagerState) (h1 : st2.couriers = st.couriers)
    (h2 : st2._couriers = st._couriers) (h3 : st2.nextCourier = st.nextCourier) :
    StepEffect none st none st2 := by
  refine ⟨?_, ?_, ?_, Or.inl ⟨h2, h3⟩⟩
  · intro c _ _
    rw [h1]
  · intro c h
    cases h
  · intro c h
    cases h

theorem stepEffect_of_untouched (st : ManagerState) (r : Pipeline × ManagerState)
    (h : r.1.courier = none ∧ r.2.couriers = st.couriers ∧ r.2._couriers = st._couriers
      ∧ r.2.nextCourier = st.nextCourier) :
    StepEffect none st r.1.courier r.2 := by
  rw [h.1]
  exact stepEffect_untouched st r.2 h.2.1 h.2.2.1 h.2.2.2

theorem assignOrderToShelf_untouched (order : OrderRef) (shelf : Option ShelfRef)
    (st : ManagerState) :
    (KitchenManager._assignOrderToShelf order shelf st).1.courier = none
    ∧ (KitchenManager._assignOrderToShelf order shelf st).2.couriers = st.couriers
    ∧ (KitchenManager._assignOrderToShelf order shelf st).2._couriers = st._couriers
    ∧ (KitchenManager._assignOrderToShelf order shelf st).2.nextCourier = st.nextCourier := by
  unfold KitchenManager._assignOrderToShelf
  cases shelf <;> exact ⟨rfl, rfl, rfl, rfl⟩

theorem retryOnOverflow_untouched (order : OrderRef) (now : Int) (st : ManagerState) :
    (KitchenManager.retryOnOverflow order now st).1.courier = none
    ∧ (KitchenManager.retryOnOverflow order now st).2.couriers = st.couriers
    ∧ (KitchenManager.retryOnOverflow order now st).2._couriers = st._couriers
    ∧ (KitchenManager.retryOnOverflow order now st).2.nextCourier = st.nextCourier := by
  unfold KitchenManager.retryOnOverflow
  split
  · split <;> exact ⟨rfl, rfl, rfl, rfl⟩
  · exact assignOrderToShelf_untouched order _ st

/-- The effect of `_dispatchCourier` on the couriers: it holds nothing and
changes nothing when no courier is idle, and otherwise holds an idle courier of
the pool. -/
theorem dispatchCourier_effect (order : OrderRef) (now : Int) (st : ManagerState) :
    StepEffect none st (KitchenManager._dispatchCourier order now st).1.courier
      (KitchenManager._dispatchCourier order now st).2 := by
  rw [dispatchCourier_eq]
  cases hhead : (st._couriers.filter
      (fun c => decide ((st.couriers c).dispatched = none))).head? with
  | none => exact stepEffect_untouched st st rfl rfl rfl
  | some c0 =>
    have hmem := List.mem_filter.mp (List.mem_of_mem_head? hhead)
    have hidle : (st.couriers c0).dispatched = none := by simpa using hmem.2
    simp only [KitchenManager.dispatch, Pipeline.courier]
    refine ⟨?_, ?_, ?_, Or.inl ⟨rfl, rfl⟩⟩
    · intro c _ hc
      have hne : c ≠ c0 := fun h => hc (by rw [h])
      simp [Function.update_noteq hne]
    · intro c h
      cases h
    · intro c hc _
      have hcc : c0 = c := by simpa using hc
      subst hcc
      exact ⟨rfl, by simp [Function.update_same], Or.inl ⟨hmem.1, hidle⟩⟩

theorem cleanAndAssign_effect (order : OrderRef) (shelf : ShelfRef) (inp : Inputs)
    (st : ManagerState) :
    StepEffect none st (KitchenManager.cleanAndAssign order shelf inp st).1.courier
      (KitchenManager.cleanAndAssign order shelf inp st).2 := by
  unfold KitchenManager.cleanAndAssign
  split
  · exact stepEffect_untouched st _ rfl rfl rfl
  · split
    · exact dispatchCourier_effect order inp.now _
    · split
      · exact stepEffect_untouched st _ rfl rfl rfl
      · split
        · exact stepEffect_untouched st _ rfl rfl rfl
        · exact stepEffect_of_untouched st _ (retryOnOverflow_untouched order inp.now _)

theorem deliverOrder_untouched (courier : CourierRef) (now : Int) (st : ManagerState) :
    (KitchenManager._deliverOrder courier now st).2.couriers = st.couriers
    ∧ (KitchenManager._deliverOrder courier now st).2._couriers = st._couriers
    ∧ (KitchenManager._deliverOrder courier now st).2.nextCourier = st.nextCourier := by
  unfold KitchenManager._deliverOrder
  split
  · exact ⟨rfl, rfl, rfl⟩
  · split
    · split <;> exact ⟨rfl, rfl, rfl⟩
    · split <;> exact ⟨rfl, rfl, rfl⟩

/-- A resumption that only rewrites the courier it holds, without touching its
dispatched timestamp if it keeps it. -/
theorem stepEffect_held (c0 : CourierRef) (held2 : Option CourierRef) (st st2 : ManagerState)
    (hheld : held2 = some c0 ∨ held2 = none)
    (h1 : ∀ c, c ≠ c0 → st2.couriers c = st.couriers c)
    (hd : held2 = some c0 → (st2.couriers c0).dispatched = (st.couriers c0).dispatched)
    (h2 : st2._couriers = st._couriers) (h3 : st2.nextCourier = st.nextCourier) :
    StepEffect (some c0) st held2 st2 := by
  refine ⟨?_, ?_, ?_, Or.inl ⟨h2, h3⟩⟩
  · intro c hc _
    exact h1 c (fun h => hc (by rw [h]))
  · intro c hc hc2
    have : c0 = c := by simpa using hc
    subst this
    exact hd hc2
  · intro c hc hne
    rcases hheld with h | h
    · rw [h] at hc
      exact absurd hc hne
    · rw [h] at hc
      cases hc

/-- The effect on the couriers of the resumption of a call that waits for its
courier to arrive. -/
theorem resume_travelling_effect (order : OrderRef) (courier : CourierRef) (inp : Inputs)
    (st : ManagerState) :
    StepEffect (some courier) st ((Pipeline.travelling order courier).resume inp st).1.courier
      ((Pipeline.travelling order courier).resume inp st).2 := by
  simp only [Pipeline.resume]
  obtain ⟨h1, h2, h3⟩ := deliverOrder_untouched courier inp.now
    { st with
      couriers := Function.update st.couriers courier
        { st.couriers courier with arrived := some inp.now } }
  cases hres : KitchenManager._deliverOrder courier inp.now
    { st with
      couriers := Function.update st.couriers courier
        { st.couriers courier with arrived := some inp.now } } with
  | mk r st1 =>
    rw [hres] at h1 h2 h3
    simp only at h1 h2 h3
    cases r with
    | error e =>
      refine stepEffect_held courier none st st1 (Or.inr rfl) ?_ (fun h => by cases h) h2 h3
      intro c hc
      rw [h1, Function.update_noteq hc]
    | ok carried =>
      refine stepEffect_held courier (some courier) st st1 (Or.inl rfl) ?_ ?_ h2 h3
      · intro c hc
        rw [h1, Function.update_noteq hc]
      · intro _
        rw [h1, Function.update_same]

/-- The effect on the couriers of any resumption of any call of `processOrder`. -/
theorem resume_effect (p : Pipeline) (inp : Inputs) (st : ManagerState) :
    StepEffect p.courier st (p.resume inp st).1.courier (p.resume inp st).2 := by
  cases p with
  | cooking order =>
    simp only [Pipeline.resume, Pipeline.courier]
    exact stepEffect_of_untouched st _ (assignOrderToShelf_untouched order _ _)
  | cleaning order shelf =>
    simp only [Pipeline.resume, Pipeline.courier]
    exact cleanAndAssign_effect order shelf inp st
  | forcedCleaning order shelf =>
    simp only [Pipeline.resume]
    cases hres : KitchenManager._cleanShelf shelf true inp.now inp.random st.world with
    | mk r w1 =>
      cases r with
      | error e => exact stepEffect_untouched st _ rfl rfl rfl
      | ok removed =>
        exact stepEffect_of_untouched st _ (retryOnOverflow_untouched order inp.now _)
  | contacting order =>
    simp only [Pipeline.resume, Pipeline.courier, KitchenManager.allocateCourier,
      KitchenManager.dispatch]
    refine ⟨?_, ?_, ?_, Or.inr ⟨rfl, rfl⟩⟩
    · intro c _ hc
      have hne : c ≠ st.nextCourier := fun h => hc (by rw [h])
      simp [Function.update_noteq hne]
    · intro c h
      cases h
    · intro c hc _
      have hcc : st.nextCourier = c := by simpa using hc
      subst hcc
      exact ⟨rfl, by simp [Function.update_same], Or.inr ⟨rfl, rfl⟩⟩
  | travelling order courier => exact resume_travelling_effect order courier inp st
  | pickingUp order courier carried =>
    rw [resume_pickingUp]
    simp only [Pipeline.courier]
    refine stepEffect_held courier (some courier) st _ (Or.inl rfl) ?_ ?_ ?_ ?_
    · intro c hc
      unfold KitchenManager.pickUp
      split <;> simp [Function.update_noteq hc]
    · intro _
      unfold KitchenManager.pickUp
      split <;> simp [Function.update_same]
    · unfold KitchenManager.pickUp
      split <;> rfl
    · unfold KitchenManager.pickUp
      split <;> rfl
  | delivering order courier carried =>
    rw [resume_delivering]
    simp only [Pipeline.courier]
    refine stepEffect_held courier none st _ (Or.inr rfl) ?_ (fun h => by cases h) rfl rfl
    intro c hc
    simp [KitchenManager.release, Function.update_noteq hc]
  | resolved order =>
    simp only [Pipeline.resume, Pipeline.courier]
    exact stepEffect_untouched st st rfl rfl rfl
  | rejected err =>
    simp only [Pipeline.resume, Pipeline.courier]
    exact stepEffect_untouched st st rfl rfl rfl

theorem processOrder_untouched (params : OrderParams) (st : ManagerState) :
    (KitchenManager.processOrder params st).1.courier = none
    ∧ (KitchenManager.processOrder params st).2.couriers = st.couriers
    ∧ (KitchenManager.processOrder params st).2._couriers = st._couriers
    ∧ (KitchenManager.processOrder params st).2.nextCourier = st.nextCourier := by
  unfold KitchenManager.processOrder
  simp only []
  split <;> exact ⟨rfl, rfl, rfl, rfl⟩

/-- A courier that a resumption newly hands to its call was neither dispatched
nor made before. -/
theorem stepEffect_fresh {held held2 : Option CourierRef} {st st2 : ManagerState}
    (E : StepEffect held st held2 st2) (c : CourierRef) (h2 : held2 = some c)
    (hne : held ≠ some c) (hd : (st.couriers c).dispatched ≠ none)
    (hlt : c < st.nextCourier) : False := by
  obtain ⟨_, _, h⟩ := E.2.2.1 c h2 hne
  rcases h with ⟨_, hidle⟩ | ⟨heq, _⟩
  · exact hd hidle
  · rw [heq] at hlt
    exact lt_irrefl _ hlt

theorem stepEffect_pool {held held2 : Option CourierRef} {st st2 : ManagerState}
    (E : StepEffect held st held2 st2) :
    st.nextCourier ≤ st2.nextCourier
    ∧ st._couriers <+: st2._couriers
    ∧ (∀ c ∈ st2._couriers, c ∈ st._couriers ∨ c = st.nextCourier)
    ∧ (st2._couriers ≠ st._couriers → st2.nextCourier = st.nextCourier + 1) := by
  rcases E.2.2.2 with ⟨h1, h2⟩ | ⟨h1, h2⟩
  · rw [h1, h2]
    exact ⟨le_refl _, List.prefix_refl _, fun c hc => Or.inl hc, fun h => absurd rfl h⟩
  · rw [h1, h2]
    refine ⟨Nat.le_succ _, List.prefix_append _ _, ?_, fun _ => rfl⟩
    intro c hc
    rcases List.mem_append.mp hc with h | h
    · exact Or.inl h
    · exact Or.inr (by simpa using h)

/-- The couriers stay consistent when a call of `processOrder` is resumed. -/
theorem resume_consistent (s : System) (i : Nat) (inp : Inputs) (p : Pipeline)
    (hp : s.pipelines[i]? = some p) (h : s.CouriersConsistent) :
    System.CouriersConsistent
      { state := (p.resume inp s.state).2, pipelines := s.pipelines.set i (p.resume inp s.state).1 } := by
  obtain ⟨H1, H2, H3⟩ := h
  have E := resume_effect p inp s.state
  obtain ⟨hle, _, hpool, _⟩ := stepEffect_pool E
  have hpmem : p ∈ s.pipelines := List.mem_iff_getElem?.mpr ⟨i, hp⟩
  -- a courier newly handed to the resumed call is held by no call
  have hfresh : ∀ (q : Pipeline) (c : CourierRef), q ∈ s.pipelines → q.courier = some c →
      (p.resume inp s.state).1.courier = some c → p.courier = some c := by
    intro q c hq hqc h2
    by_contra hne
    exact stepEffect_fresh E c h2 hne (H2 q hq c hqc).1 (H2 q hq c hqc).2
  have hother : ∀ (j : Nat) (q : Pipeline), i ≠ j →
      (s.pipelines.set i (p.resume inp s.state).1)[j]? = some q → s.pipelines[j]? = some q := by
    intro j q hij hq
    rw [List.getElem?_set, if_neg hij] at hq
    exact hq
  have hself : ∀ (q : Pipeline),
      (s.pipelines.set i (p.resume inp s.state).1)[i]? = some q →
      q = (p.resume inp s.state).1 := by
    intro q hq
    rw [List.getElem?_set, if_pos rfl] at hq
    split at hq
    · exact (Option.some.inj hq).symm
    · cases hq
  refine ⟨?_, ?_, ?_⟩
  · intro a b pa pb c ha hb hac hbc
    by_contra hab
    by_cases hai : i = a
    · subst hai
      have hpa := hself pa ha
      have hb2 := hother b pb hab hb
      rw [hpa] at hac
      have hpc := hfresh pb c (List.mem_iff_getElem?.mpr ⟨b, hb2⟩) hbc hac
      exact hab (H1 i b p pb c hp hb2 hpc hbc)
    · have ha2 := hother a pa hai ha
      by_cases hbi : i = b
      · subst hbi
        have hpb := hself pb hb
        rw [hpb] at hbc
        have hpc := hfresh pa c (List.mem_iff_getElem?.mpr ⟨a, ha2⟩) hac hbc
        exact hab (H1 a i pa p c ha2 hp hac hpc)
      · exact hab (H1 a b pa pb c ha2 (hother b pb hbi hb) hac hbc)
  · intro q hq c hqc
    obtain ⟨j, hj⟩ := List.mem_iff_getElem?.mp hq
    show ((p.resume inp s.state).2.couriers c).dispatched ≠ none
      ∧ c < (p.resume inp s.state).2.nextCourier
    by_cases hji : i = j
    · subst hji
      have hq2 := hself q hj
      rw [hq2] at hqc
      by_cases hpc : p.courier = some c
      · rw [E.2.1 c hpc hqc]
        exact ⟨(H2 p hpmem c hpc).1, lt_of_lt_of_le (H2 p hpmem c hpc).2 hle⟩
      · obtain ⟨_, hd, hsrc⟩ := E.2.2.1 c hqc hpc
        refine ⟨hd, ?_⟩
        rcases hsrc with ⟨hmem, _⟩ | ⟨heq, hnext⟩
        · exact lt_of_lt_of_le (H3 c hmem) hle
        · rw [heq, hnext]
          exact Nat.lt_succ_self _
    · have hj2 := hother j q hji hj
      have hqmem : q ∈ s.pipelines := List.mem_iff_getElem?.mpr ⟨j, hj2⟩
      have hpc : p.courier ≠ some c := fun hpc => hji (H1 i j p q c hp hj2 hpc hqc)
      have hp2c : (p.resume inp s.state).1.courier ≠ some c :=
        fun h2 => hpc (hfresh q c hqmem hqc h2)
      rw [E.1 c hpc hp2c]
      exact ⟨(H2 q hqmem c hqc).1, lt_of_lt_of_le (H2 q hqmem c hqc).2 hle⟩
  · intro c hc
    show c < (p.resume inp s.state).2.nextCourier
    rcases hpool c hc with h | h
    · exact lt_of_lt_of_le (H3 c h) hle
    · rcases E.2.2.2 with ⟨h1, _⟩ | ⟨_, h2⟩
      · have hc2 : c ∈ s.state._couriers := by
          have hc3 : c ∈ (p.resume inp s.state).2._couriers := hc
          rw [h1] at hc3
          exact hc3
        exact lt_of_lt_of_le (H3 c hc2) hle
      · rw [h, h2]
        exact Nat.lt_succ_self _

/-- The couriers stay consistent along one action of the event loop. -/
theorem step_consistent (s : System) (a : Action) (h : s.CouriersConsistent) :
    (s.step a).CouriersConsistent := by
  cases a with
  | processOrder params =>
    obtain ⟨H1, H2, H3⟩ := h
    obtain ⟨h0, h1, h2, h3⟩ := processOrder_untouched params s.state
    simp only [System.step]
    have hold : ∀ (j : Nat) (q : Pipeline) (c : CourierRef),
        (s.pipelines ++ [(KitchenManager.processOrder params s.state).1])[j]? = some q →
        q.courier = some c → s.pipelines[j]? = some q := by
      intro j q c hq hqc
      rw [List.getElem?_append] at hq
      split at hq
      · exact hq
      · have hmem : q ∈ [(KitchenManager.processOrder params s.state).1] :=
          List.mem_iff_getElem?.mpr ⟨_, hq⟩
        rw [List.mem_singleton] at hmem
        rw [hmem, h0] at hqc
        cases hqc
    refine ⟨?_, ?_, ?_⟩
    · intro a b pa pb c ha hb hac hbc
      exact H1 a b pa pb c (hold a pa c ha hac) (hold b pb c hb hbc) hac hbc
    · intro q hq c hqc
      obtain ⟨j, hj⟩ := List.mem_iff_getElem?.mp hq
      have hqmem : q ∈ s.pipelines := List.mem_iff_getElem?.mpr ⟨j, hold j q c hj hqc⟩
      show ((KitchenManager.processOrder params s.state).2.couriers c).dispatched ≠ none
        ∧ c < (KitchenManager.processOrder params s.state).2.nextCourier
      rw [h1, h3]
      exact H2 q hqmem c hqc
    · intro c hc
      show c < (KitchenManager.processOrder params s.state).2.nextCourier
      have hc2 : c ∈ (KitchenManager.processOrder params s.state).2._couriers := hc
      rw [h2] at hc2
      rw [h3]
      exact H3 c hc2
  | resume i inp =>
    simp only [System.step]
    cases hp : s.pipelines[i]? with
    | none => exact h
    | some p => exact resume_consistent s i inp p hp h

theorem run_consistent (schedule : List Action) (s : System) (h : s.CouriersConsistent) :
    (System.run schedule s).CouriersConsistent := by
  induction schedule generalizing s with
  | nil => exact h
  | cons a rest ih => exact ih (s.step a) (step_consistent s a h)

/-- No action of the event loop removes a courier from the pool. -/
theorem step_pool (s : System) (a : Action) :
    s.state._couriers <+: (s.step a).state._couriers := by
  cases a with
  | processOrder params =>
    simp only [System.step]
    rw [(processOrder_untouched params s.state).2.2.1]
  | resume i inp =>
    simp only [System.step]
    cases hp : s.pipelines[i]? with
    | none => exact List.prefix_refl _
    | some p => exact (stepEffect_pool (resume_effect p inp s.state)).2.1

theorem run_pool (schedule : List Action) (s : System) :
    s.state._couriers <+: (System.run schedule s).state._couriers := by
  induction schedule generalizing s with
  | nil => exact List.prefix_refl _
  | cons a rest ih => exact List.IsPrefix.trans (step_pool s a) (ih (s.step a))

/-! ### KitchenManager._cleanShelf -/

/-- A scan removes the `o_i` with `p(o_i, i)` true also when the answer of the
predicate on each resident is the same once its removal timestamp is `now`. -/
theorem scan_eq_stable (p : Predicate) (now : Int) (rs : List OrderRef) (index : Nat)
    (store : Store)
    (h : ∀ r ∈ rs, ∀ i, p r { store r with removed := some now } i = p r (store r) i) :
    (scan p now rs index store).1 = matchedAt p store rs index ∧
    (scan p now rs index store).2.1 = keptAt p store rs index := by
  induction rs generalizing index store with
  | nil => simp [scan, matchedAt, keptAt]
  | cons r rest ih =>
    unfold scan
    split
    · rename_i hp
      have hconv : ∀ x ∈ rest, ∀ i,
          p x (Function.update store r { store r with removed := some now } x) i
            = p x (store x) i := by
        intro x hx i
        by_cases hxr : x = r
        · subst hxr
          rw [Function.update_same]
          exact h x (List.mem_cons_self _ _) i
        · simp [Function.update_noteq hxr]
      have hstable : ∀ x ∈ rest, ∀ i,
          p x { Function.update store r { store r with removed := some now } x with
              removed := some now } i
            = p x (Function.update store r { store r with removed := some now } x) i := by
        intro x hx i
        by_cases hxr : x = r
        · subst hxr
          simp [Function.update_same]
        · simp only [Function.update_noteq hxr]
          exact h x (List.mem_cons_of_mem _ hx) i
      obtain ⟨h1, h2⟩ := ih (index + 1)
        (Function.update store r { store r with removed := some now }) hstable
      constructor
      · simp only [h1, matchedAt_congr p _ store rest (index + 1) hconv]
        simp [matchedAt, List.enumFrom_cons, List.filter_cons, hp]
      · simp only [h2, keptAt_congr p _ store rest (index + 1) hconv]
        simp [keptAt, List.enumFrom_cons, List.filter_cons, hp]
    · rename_i hp
      obtain ⟨h1, h2⟩ := ih (index + 1) store
        (fun x hx i => h x (List.mem_cons_of_mem _ hx) i)
      constructor
      · simp only [h1]
        simp [matchedAt, List.enumFrom_cons, List.filter_cons, hp]
      · simp only [h2]
        simp [keptAt, List.enumFrom_cons, List.filter_cons, hp]

/-- The matched residents of a predicate that does not read the index. -/
theorem matchedAt_eq_filter (p : Predicate) (store : Store) (q : OrderRef → Bool)
    (rs : List OrderRef) (index : Nat) (h : ∀ r i, p r (store r) i = q r) :
    matchedAt p store rs index = rs.filter q
    ∧ keptAt p store rs index = rs.filter (fun r => !q r) := by
  induction rs generalizing index with
  | nil => simp [matchedAt, keptAt]
  | cons r rest ih =>
    have h1 := (ih (index + 1)).1
    have h2 := (ih (index + 1)).2
    unfold matchedAt at h1 ⊢
    unfold keptAt at h2 ⊢
    simp only [h] at h1 h2
    by_cases hq : q r = true
    · simp [List.enumFrom_cons, List.filter_cons, h, hq, h1, h2]
    · simp [List.enumFrom_cons, List.filter_cons, h, hq, h1, h2]

theorem discardAll_eq (orders : List OrderRef) (w : World) :
    KitchenManager.discardAll orders w
      = { w with
          orders := fun r =>
            if r ∈ orders then
              { w.orders r with status := StatusField.member KitchenOrderStatus.DISCARDED }
            else w.orders r } := by
  unfold KitchenManager.discardAll
  induction orders generalizing w with
  | nil => simp
  | cons x rest ih =>
    rw [List.foldl_cons, ih]
    simp only [World.setOrder]
    congr 1
    funext r
    by_cases hr : r = x
    · subst hr
      by_cases hrest : r ∈ rest <;> simp [hrest, Function.update_same]
    · by_cases hrest : r ∈ rest <;> simp [hrest, hr, Function.update_noteq hr]

theorem emitRemoved_eq (orders : List OrderRef) (err : JsError) (w : World) :
    KitchenManager.emitRemoved orders err w
      = { w with
          events := w.events
            ++ orders.map (fun r => Event.removeOrder Emitter.manager r (some err)) } := by
  unfold KitchenManager.emitRemoved
  induction orders generalizing w with
  | nil => simp
  | cons x rest ih =>
    rw [List.foldl_cons, ih]
    simp [World.emit]

/-- What `_cleanShelf` does without the forced flag, in terms of the scan of the
residents of the shelf. -/
theorem cleanShelf_unforced_eq (shelf : ShelfRef) (now random : Int) (w : World) :
    KitchenManager._cleanShelf shelf false now random w
      = (Except.ok (scan (KitchenManager.isExpired now) now (w.shelves shelf)._orders 0
            w.orders).1,
         { w with
           orders := fun r =>
             if r ∈ (scan (KitchenManager.isExpired now) now (w.shelves shelf)._orders 0
                 w.orders).1 then
               { (scan (KitchenManager.isExpired now) now (w.shelves shelf)._orders 0
                   w.orders).2.2 r with
                 status := StatusField.member KitchenOrderStatus.DISCARDED }
             else
               (scan (KitchenManager.isExpired now) now (w.shelves shelf)._orders 0
                 w.orders).2.2 r,
           shelves := Function.update w.shelves shelf
             { w.shelves shelf with
               _orders := (scan (KitchenManager.isExpired now) now (w.shelves shelf)._orders 0
                 w.orders).2.1 },
           events := w.events
             ++ (scan (KitchenManager.isExpired now) now (w.shelves shelf)._orders 0
                 w.orders).1.map
               (fun r => Event.removeOrder (Emitter.shelf shelf) r
                 (some KitchenManager.expiredError))
             ++ (scan (KitchenManager.isExpired now) now (w.shelves shelf)._orders 0
                 w.orders).1.map
               (fun r => Event.removeOrder Emitter.manager r
                 (some KitchenManager.expiredError)) }) := by
  unfold KitchenManager._cleanShelf
  rw [KitchenShelf.removeOrders_eq shelf (JsValue.fn (KitchenManager.isExpired now))
    (KitchenManager.isExpired now) (some KitchenManager.expiredError) now w rfl]
  simp [discardAll_eq, emitRemoved_eq]

/-- C18 (code defect): in the run `recencySchedule`, couriers 0 and 1 are both
idle when the third order reaches `_dispatchCourier`, and courier 1 is the one
used most recently (it last departed at 6004 ms, courier 0 at 2004 ms). The
third order gets courier 0, the first idle courier of the pool, and courier 1
stays idle: the sort by `dispatched` runs on couriers whose `dispatched` is
`null`. -/
theorem dispatchCourier_takes_first_idle :
    (System.run recencySchedule { state := freshManager, pipelines := [] }).pipelines
      = [Pipeline.resolved 0, Pipeline.resolved 1, Pipeline.travelling 2 0]
    ∧ ((System.run recencySchedule { state := freshManager, pipelines := [] }).state.couriers
        0).departed = some 2004
    ∧ ((System.run recencySchedule { state := freshManager, pipelines := [] }).state.couriers
        1).departed = some 6004
    ∧ ((System.run recencySchedule { state := freshManager, pipelines := [] }).state.couriers
        1).dispatched = none := by
  decide!

/-- C17: `_dispatchCourier` goes on to make a new courier exactly when no courier
of the pool has a `null` dispatched timestamp at the selection, and then leaves
the manager as it was until its `sleep` returns; the courier it makes after the
`sleep` is put at the end of the pool, which grows by that one courier, and is
bound to the order with the current time as dispatched timestamp. When some
courier of the pool is idle, the call returns a courier of the pool whose
dispatched timestamp was `null`, bound to the order with the current time as
dispatched timestamp, and the pool is unchanged. Along every schedule of the
event loop the pool only grows at its end, so no courier is ever removed. -/
theorem dispatchCourier_creates_iff_none_idle (order : OrderRef) (now : Int)
    (st : ManagerState) :
    ((KitchenManager._dispatchCourier order now st).1 = Pipeline.contacting order
      ↔ ∀ c ∈ st._couriers, (st.couriers c).dispatched ≠ none)
    ∧ ((∀ c ∈ st._couriers, (st.couriers c).dispatched ≠ none) →
        (KitchenManager._dispatchCourier order now st).2 = st)
    ∧ (∀ (inp : Inputs) (st1 : ManagerState),
        ((Pipeline.contacting order).resume inp st1).1
          = Pipeline.travelling order st1.nextCourier
        ∧ ((Pipeline.contacting order).resume inp st1).2._couriers
          = st1._couriers ++ [st1.nextCourier]
        ∧ (((Pipeline.contacting order).resume inp st1).2.couriers st1.nextCourier).order
          = some order
        ∧ (((Pipeline.contacting order).resume inp st1).2.couriers st1.nextCourier).dispatched
          = some inp.now)
    ∧ ((∃ c ∈ st._couriers, (st.couriers c).dispatched = none) →
        ∃ c ∈ st._couriers, (st.couriers c).dispatched = none
          ∧ (KitchenManager._dispatchCourier order now st).1 = Pipeline.travelling order c
          ∧ (KitchenManager._dispatchCourier order now st).2._couriers = st._couriers
          ∧ ((KitchenManager._dispatchCourier order now st).2.couriers c).order = some order
          ∧ ((KitchenManager._dispatchCourier order now st).2.couriers c).dispatched
            = some now)
    ∧ (∀ (schedule : List Action) (s : System),
        s.state._couriers <+: (System.run schedule s).state._couriers) := by
  have hnone : (∀ c ∈ st._couriers, (st.couriers c).dispatched ≠ none) →
      (st._couriers.filter (fun c => decide ((st.couriers c).dispatched = none))).head?
        = none := by
    intro h
    rw [List.head?_eq_none_iff, List.filter_eq_nil_iff]
    intro c hc
    simpa using h c hc
  have hsome : (∃ c ∈ st._couriers, (st.couriers c).dispatched = none) →
      ∃ c0, (st._couriers.filter (fun c => decide ((st.couriers c).dispatched = none))).head?
        = some c0 := by
    rintro ⟨c, hc, hidle⟩
    cases hhead : (st._couriers.filter
        (fun c => decide ((st.couriers c).dispatched = none))).head? with
    | some c0 => exact ⟨c0, rfl⟩
    | none =>
      rw [List.head?_eq_none_iff, List.filter_eq_nil_iff] at hhead
      exact absurd (by simpa using hidle) (hhead c hc)
  refine ⟨⟨?_, ?_⟩, ?_, ?_, ?_, fun schedule s => run_pool schedule s⟩
  · intro hcont c hc hidle
    obtain ⟨c0, hc0⟩ := hsome ⟨c, hc, hidle⟩
    rw [dispatchCourier_eq, hc0] at hcont
    simp [KitchenManager.dispatch] at hcont
  · intro h
    rw [dispatchCourier_eq, hnone h]
  · intro h
    rw [dispatchCourier_eq, hnone h]
  · intro inp st1
    simp [Pipeline.resume, KitchenManager.allocateCourier, KitchenManager.dispatch]
  · intro h
    obtain ⟨c0, hc0⟩ := hsome h
    have hmem := List.mem_filter.mp (List.mem_of_mem_head? hc0)
    refine ⟨c0, hmem.1, by simpa using hmem.2, ?_⟩
    rw [dispatchCourier_eq, hc0]
    simp [KitchenManager.dispatch]

/-- C17, on the manager `waitingManager`, whose only courier is dispatched: a
second order waits for a new courier, and the manager is unchanged until then. -/
theorem dispatchCourier_creates_iff_none_idle_witness :
    (∀ c ∈ waitingManager._couriers, (waitingManager.couriers c).dispatched ≠ none)
    ∧ (KitchenManager._dispatchCourier 1 5 waitingManager).1 = Pipeline.contacting 1
    ∧ (KitchenManager._dispatchCourier 1 5 waitingManager).2 = waitingManager :=
  ⟨by simp [waitingManager],
    (dispatchCourier_creates_iff_none_idle 1 5 waitingManager).1.mpr (by simp [waitingManager]),
    (dispatchCourier_creates_iff_none_idle 1 5 waitingManager).2.1 (by simp [waitingManager])⟩

/-- C19: start from a manager on which no call of `processOrder` is running and
whose pool holds couriers made before. After every schedule of the event loop,
that is in every interleaving of calls of `processOrder` cut at their `sleep`s,
two different calls never hold the same courier, and every courier held by a
call has a dispatched timestamp. A courier that `_dispatchCourier` selects is in
the pool with a `null` dispatched timestamp at the selection, and a courier made
after the `sleep` is a new reference, given to the call that made it. -/
theorem couriers_never_shared (schedule : List Action) (st0 : ManagerState)
    (hpool : ∀ c ∈ st0._couriers, c < st0.nextCourier) :
    (∀ (i j : Nat) (p q : Pipeline) (c : CourierRef),
        (System.run schedule { state := st0, pipelines := [] }).pipelines[i]? = some p →
        (System.run schedule { state := st0, pipelines := [] }).pipelines[j]? = some q →
        p.courier = some c → q.courier = some c → i = j)
    ∧ (System.run schedule { state := st0, pipelines := [] }).CouriersConsistent
    ∧ (∀ (order : OrderRef) (now : Int) (st : ManagerState) (c : CourierRef),
        (KitchenManager._dispatchCourier order now st).1.courier = some c →
        c ∈ st._couriers ∧ (st.couriers c).dispatched = none)
    ∧ (∀ (order : OrderRef) (inp : Inputs) (st : ManagerState),
        ((Pipeline.contacting order).resume inp st).1.courier = some st.nextCourier
        ∧ ((Pipeline.contacting order).resume inp st).2.nextCourier = st.nextCourier + 1) := by
  have h0 : System.CouriersConsistent { state := st0, pipelines := [] } := by
    refine ⟨?_, ?_, hpool⟩
    · intro i j p q c hi
      simp at hi
    · intro p hp
      simp at hp
  have hrun := run_consistent schedule _ h0
  refine ⟨hrun.1, hrun, ?_, ?_⟩
  · intro order now st c hc
    rw [dispatchCourier_eq] at hc
    cases hhead : (st._couriers.filter
        (fun c => decide ((st.couriers c).dispatched = none))).head? with
    | none =>
      rw [hhead] at hc
      simp [Pipeline.courier] at hc
    | some c0 =>
      rw [hhead] at hc
      have hmem := List.mem_filter.mp (List.mem_of_mem_head? hhead)
      have hcc : c0 = c := by simpa [KitchenManager.dispatch, Pipeline.courier] using hc
      subst hcc
      exact ⟨hmem.1, by simpa using hmem.2⟩
  · intro order inp st
    simp [Pipeline.resume, KitchenManager.allocateCourier, KitchenManager.dispatch,
      Pipeline.courier]

/-- C19, on the schedule `recencySchedule` run on a fresh manager. -/
theorem couriers_never_shared_witness :
    (∀ c ∈ freshManager._couriers, c < freshManager.nextCourier)
    ∧ (∀ (i j : Nat) (p q : Pipeline) (c : CourierRef),
        (System.run recencySchedule { state := freshManager, pipelines := [] }).pipelines[i]?
          = some p →
        (System.run recencySchedule { state := freshManager, pipelines := [] }).pipelines[j]?
          = some q →
        p.courier = some c → q.courier = some c → i = j) :=
  ⟨by simp [freshManager],
    (couriers_never_shared recencySchedule freshManager (by simp [freshManager])).1⟩

theorem notifications_shelf_removeOrder (shelf : ShelfRef) (err : Option JsError)
    (orders : List OrderRef) :
    KitchenManager.notifications
      (orders.map (fun r => Event.removeOrder (Emitter.shelf shelf) r err)) = [] := by
  induction orders with
  | nil => rfl
  | cons x rest ih =>
    unfold KitchenManager.notifications at ih ⊢
    simp [List.filter_cons, ih]

theorem notifications_manager_removeOrder (err : Option JsError) (orders : List OrderRef) :
    KitchenManager.notifications
      (orders.map (fun r => Event.removeOrder Emitter.manager r err))
      = orders.map (fun r => Event.removeOrder Emitter.manager r err) := by
  induction orders with
  | nil => rfl
  | cons x rest ih =>
    unfold KitchenManager.notifications at ih ⊢
    simp [List.filter_cons, ih]

/-- C20: take a shelf whose residents are pairwise distinct orders, or whose
residents all have no removal timestamp. Without the forced flag `_cleanShelf`
returns, in their order on the shelf, exactly the residents `o` of which the
test `Math.round(o.getValue() * 100) <= 0` holds, the value being computed in
doubles as the engine computes it (`KitchenOrder.expired`); the shelf keeps the
other residents in their order; every removed order has status `DISCARDED` and
the current time as removal timestamp and every other order is as it was; the
shelf emits one `removeOrder` event per removed order, and the listeners of the
manager receive exactly one `removeOrder` notification of cause `ORDER_EXPIRED`
per removed order and nothing else; the other shelves and the kitchen are as
they were. In exact arithmetic the test `Math.round(v * 100) <= 0` on a value
`v` is `v < 1/200 = 0.005`. -/
theorem cleanShelf_removes_expired (shelf : ShelfRef) (now random : Int) (w : World)
    (h : (w.shelves shelf)._orders.Nodup
      ∨ ∀ r ∈ (w.shelves shelf)._orders, (w.orders r).removed = none) :
    (KitchenManager._cleanShelf shelf false now random w).1
      = Except.ok ((w.shelves shelf)._orders.filter
          (fun r => (w.orders r).expired now))
    ∧ ((KitchenManager._cleanShelf shelf false now random w).2.shelves shelf)._orders
      = (w.shelves shelf)._orders.filter
          (fun r => !(w.orders r).expired now)
    ∧ (∀ r ∈ (w.shelves shelf)._orders, (w.orders r).expired now = true →
        (KitchenManager._cleanShelf shelf false now random w).2.orders r
          = { w.orders r with
              removed := some now,
              status := StatusField.member KitchenOrderStatus.DISCARDED })
    ∧ (∀ r, ¬ (r ∈ (w.shelves shelf)._orders
          ∧ (w.orders r).expired now = true) →
        (KitchenManager._cleanShelf shelf false now random w).2.orders r = w.orders r)
    ∧ (KitchenManager._cleanShelf shelf false now random w).2.events
      = w.events
        ++ ((w.shelves shelf)._orders.filter
            (fun r => (w.orders r).expired now)).map
          (fun r => Event.removeOrder (Emitter.shelf shelf) r (some KitchenManager.expiredError))
        ++ ((w.shelves shelf)._orders.filter
            (fun r => (w.orders r).expired now)).map
          (fun r => Event.removeOrder Emitter.manager r (some KitchenManager.expiredError))
    ∧ KitchenManager.notifications
        ((KitchenManager._cleanShelf shelf false now random w).2.events.drop w.events.length)
      = ((w.shelves shelf)._orders.filter
            (fun r => (w.orders r).expired now)).map
          (fun r => Event.removeOrder Emitter.manager r (some KitchenManager.expiredError))
    ∧ KitchenManager.expiredError.kind = some ErrorCode.ORDER_EXPIRED
    ∧ (∀ v : ℚ, mathRound (v * 100) ≤ 0 ↔ v < 1 / 200)
    ∧ (∀ s, s ≠ shelf →
        (KitchenManager._cleanShelf shelf false now random w).2.shelves s = w.shelves s)
    ∧ (KitchenManager._cleanShelf shelf false now random w).2.kitchen = w.kitchen := by
  have hscan : (scan (KitchenManager.isExpired now) now (w.shelves shelf)._orders 0 w.orders).1
        = matchedAt (KitchenManager.isExpired now) w.orders (w.shelves shelf)._orders 0
      ∧ (scan (KitchenManager.isExpired now) now (w.shelves shelf)._orders 0 w.orders).2.1
        = keptAt (KitchenManager.isExpired now) w.orders (w.shelves shelf)._orders 0 := by
    rcases h with hn | hu
    · exact scan_eq _ now _ 0 w.orders (Or.inl hn)
    · apply scan_eq_stable
      intro r hr i
      show ({ w.orders r with removed := some now } : KitchenOrder).expired now
        = (w.orders r).expired now
      rw [expired_removed_now _ now (hu r hr)]
  have hfilter := matchedAt_eq_filter (KitchenManager.isExpired now) w.orders
    (fun r => (w.orders r).expired now)
    (w.shelves shelf)._orders 0 (fun r i => rfl)
  have hstore := scan_store (KitchenManager.isExpired now) now (w.shelves shelf)._orders 0
    w.orders
  rw [hscan.1, hfilter.1] at hstore
  rw [cleanShelf_unforced_eq]
  simp only [hstore, hscan.1, hscan.2, hfilter.1, hfilter.2]
  refine ⟨trivial, ?_, ?_, ?_, trivial, ?_, rfl, ?_, ?_, trivial⟩
  · simp [Function.update_same]
  · intro r hr hexp
    simp [markRemoved, List.mem_filter, hr, hexp]
  · intro r hr
    have hnot : r ∉ (w.shelves shelf)._orders.filter
        (fun r => (w.orders r).expired now) := by
      intro hmem
      rw [List.mem_filter] at hmem
      exact hr ⟨hmem.1, by simpa using hmem.2⟩
    simp only [markRemoved, if_neg hnot]
  · rw [List.append_assoc, List.drop_left]
    unfold KitchenManager.notifications
    rw [List.filter_append]
    have h1 := notifications_shelf_removeOrder shelf (some KitchenManager.expiredError)
      ((w.shelves shelf)._orders.filter
        (fun r => (w.orders r).expired now))
    have h2 := notifications_manager_removeOrder (some KitchenManager.expiredError)
      ((w.shelves shelf)._orders.filter
        (fun r => (w.orders r).expired now))
    unfold KitchenManager.notifications at h1 h2
    rw [h1, h2, List.nil_append]
  · intro v
    rw [mathRound_le_zero_iff]
    constructor <;> intro hlt <;> linarith
  · intro s hs
    simp [Function.update_noteq hs]

/-- C20, on the shelf of `mixedShelfWorld` three seconds after the orders were
stored: order 0, of shelf life 1, is removed and order 1 stays. -/
theorem cleanShelf_removes_expired_witness :
    (∀ r ∈ (mixedShelfWorld.shelves 0)._orders, (mixedShelfWorld.orders r).removed = none)
    ∧ (KitchenManager._cleanShelf 0 false 3000 0 mixedShelfWorld).1 = Except.ok [0]
    ∧ ((KitchenManager._cleanShelf 0 false 3000 0 mixedShelfWorld).2.shelves 0)._orders
      = [1] := by
  have hfresh : ∀ r ∈ (mixedShelfWorld.shelves 0)._orders,
      (mixedShelfWorld.orders r).removed = none := by
    simp [mixedShelfWorld, KitchenOrder.new]
  have T := cleanShelf_removes_expired 0 3000 0 mixedShelfWorld (Or.inr hfresh)
  refine ⟨hfresh, ?_, ?_⟩
  · rw [T.1]
    exact congrArg Except.ok (by decide!)
  · rw [T.2.1]
    decide!

/-! ### A call of processOrder among other calls -/

theorem insertCount_append (o : OrderRef) (a b : List Event) :
    KitchenManager.insertCount o (a ++ b)
      = KitchenManager.insertCount o a + KitchenManager.insertCount o b := by
  unfold KitchenManager.insertCount KitchenManager.notifications
  rw [List.filter_append, List.countP_append]

theorem deliverCount_append (o : OrderRef) (a b : List Event) :
    KitchenManager.deliverCount o (a ++ b)
      = KitchenManager.deliverCount o a + KitchenManager.deliverCount o b := by
  unfold KitchenManager.deliverCount KitchenManager.notifications
  rw [List.filter_append, List.countP_append]

/-- Events that are all `removeOrder` events hold no `insertOrder` and no
`deliverOrder` notification. -/
theorem counts_of_removeOrder (o : OrderRef) (l : List Event)
    (h : ∀ e ∈ l, e.isRemoveOrder = true) :
    KitchenManager.insertCount o l = 0 ∧ KitchenManager.deliverCount o l = 0 := by
  unfold KitchenManager.insertCount KitchenManager.deliverCount
  constructor
  · rw [List.countP_eq_zero]
    intro e he
    have hr := h e (List.mem_of_mem_filter he)
    cases e <;> simp_all [Event.isRemoveOrder, Event.isInsertOrderOf]
  · rw [List.countP_eq_zero]
    intro e he
    have hr := h e (List.mem_of_mem_filter he)
    cases e <;> simp_all [Event.isRemoveOrder, Event.isDeliverOrderOf]

/-- The facts a call knows about its order are kept by the other calls. -/
theorem orderState_rely {o : OrderRef} {O : KitchenOrder} {n : Nat} {sh : Option ShelfRef}
    {base : List Event} {kI kD : Nat} {S T : ManagerState} {p : Pipeline}
    (h : OrderState o O n sh base kI kD S) (r : Rely o p S T) :
    OrderState o O n sh base kI kD T := by
  obtain ⟨h1, h2, h3, extra, h4, h5, h6⟩ := h
  obtain ⟨r1, r2, r3, _, _, _, _, _, extra2, r4, r5, r6⟩ := r
  refine ⟨by rw [r1, h1], by rw [r2, h2], fun s => by rw [r3, h3], extra ++ extra2, ?_, ?_, ?_⟩
  · rw [r4, h4, List.append_assoc]
  · rw [insertCount_append, h5, r5, Nat.add_zero]
  · rw [deliverCount_append, h6, r6, Nat.add_zero]

theorem sameShelves_rely {o : OrderRef} {W0 : World} {S T : ManagerState} {p : Pipeline}
    (h : SameShelves W0 S.world) (r : Rely o p S T) : SameShelves W0 T.world := by
  obtain ⟨_, _, _, _, r1, r2, _⟩ := r
  refine ⟨by rw [r1, h.1], fun s => ⟨by rw [(r2 s).1, (h.2 s).1], by rw [(r2 s).2, (h.2 s).2]⟩⟩

theorem getShelf_sameShelves {W0 W : World} (h : SameShelves W0 W) (kind : Option String) :
    Kitchen.getShelf kind W = Kitchen.getShelf kind W0 := by
  unfold Kitchen.getShelf
  rw [h.1]
  congr 1
  funext s
  rw [(h.2 s).1]

theorem getShelf_mem {kind : Option String} {W : World} {sh : ShelfRef}
    (h : Kitchen.getShelf kind W = some sh) : sh ∈ W.kitchen._shelfs := by
  unfold Kitchen.getShelf at h
  exact List.mem_of_find?_eq_some h

/-- The method `processOrder` up to its first `sleep`, in closed form. -/
theorem processOrder_eq (params : OrderParams) (st : ManagerState) :
    KitchenManager.processOrder params st
      = (Pipeline.cooking st.nextOrder,
         { st with
           world :=
             { st.world with
               orders := Function.update st.world.orders st.nextOrder
                 { KitchenOrder.new params.id params.name params.temp params.shelfLife
                     params.decayRate with
                   status := StatusField.member KitchenOrderStatus.AWAITING_PREPARATION },
               kitchen := { st.world.kitchen with
                 _orders := st.world.kitchen._orders ++ [st.nextOrder] },
               events := st.world.events
                 ++ [Event.insertOrder Emitter.kitchen st.nextOrder] },
           nextOrder := st.nextOrder + 1 }) := by
  simp [KitchenManager.processOrder, Kitchen.insertOrder, World.setOrder, World.emit]

/-- The state of a new order when `processOrder` first sleeps. -/
theorem processOrder_state (params : OrderParams) (st : ManagerState)
    (hreg : st.nextOrder ∉ st.world.kitchen._orders)
    (hshelf : ∀ s, st.nextOrder ∉ (st.world.shelves s)._orders) :
    (KitchenManager.processOrder params st).1 = Pipeline.cooking st.nextOrder
    ∧ OrderState st.nextOrder
        { KitchenOrder.new params.id params.name params.temp params.shelfLife
            params.decayRate with
          status := StatusField.member KitchenOrderStatus.AWAITING_PREPARATION }
        1 none st.world.events 1 0 (KitchenManager.processOrder params st).2
    ∧ SameShelves st.world (KitchenManager.processOrder params st).2.world := by
  rw [processOrder_eq]
  refine ⟨rfl, ⟨?_, ?_, ?_, [Event.insertOrder Emitter.kitchen st.nextOrder], rfl, ?_, ?_⟩,
    rfl, fun s => ⟨rfl, rfl⟩⟩
  · simp [Function.update_same]
  · simp [List.count_eq_zero_of_not_mem hreg]
  · intro s
    simp [List.count_eq_zero_of_not_mem (hshelf s)]
  · simp [KitchenManager.insertCount, KitchenManager.notifications, Event.isInsertOrderOf]
  · simp [KitchenManager.deliverCount, KitchenManager.notifications, Event.isDeliverOrderOf]

/-- The resumption of a call that was cooking: the order is prepared and the
call goes on to clean the shelf of its temperature. -/
theorem resume_cooking_state (o : OrderRef) (O : KitchenOrder) (sh : ShelfRef) (inp : Inputs)
    (T : ManagerState) (base : List Event)
    (hO : OrderState o O 1 none base 1 0 T)
    (hget : Kitchen.getShelf O.temp T.world = some sh) :
    ((Pipeline.cooking o).resume inp T).1 = Pipeline.cleaning o sh
    ∧ OrderState o { O with prepared := some inp.now, status := StatusField.undefined }
        1 none base 1 0 ((Pipeline.cooking o).resume inp T).2
    ∧ SameShelves T.world ((Pipeline.cooking o).resume inp T).2.world := by
  obtain ⟨h1, h2, h3, extra, h4, h5, h6⟩ := hO
  subst h1
  have hg : Kitchen.getShelf
      (((T.world.setOrder o { T.world.orders o with prepared := some inp.now }).emit
        (Event.prepareOrder Emitter.manager o)).orders o).temp
      ((T.world.setOrder o { T.world.orders o with prepared := some inp.now }).emit
        (Event.prepareOrder Emitter.manager o)) = some sh := by
    unfold Kitchen.getShelf at hget ⊢
    simpa [World.setOrder, World.emit, Function.update_same] using hget
  simp only [Pipeline.resume, hg, KitchenManager._assignOrderToShelf]
  refine ⟨trivial, ⟨?_, ?_, ?_, extra ++ [Event.prepareOrder Emitter.manager o], ?_, ?_, ?_⟩,
    rfl, fun s => ⟨rfl, rfl⟩⟩
  · simp [World.setOrder, World.emit, Function.update_same]
  · simpa [World.setOrder, World.emit] using h2
  · intro s
    simpa [World.setOrder, World.emit] using h3 s
  · simp [World.setOrder, World.emit, h4]
  · rw [insertCount_append, h5]
    simp [KitchenManager.insertCount, KitchenManager.notifications, Event.isInsertOrderOf]
  · rw [deliverCount_append, h6]
    simp [KitchenManager.deliverCount, KitchenManager.notifications, Event.isDeliverOrderOf]

/-- The removal of an order that is in the registry once, when no other tracked
order has its id: the call returns the order alone, takes it out of the registry,
sets its removal timestamp and emits one `removeOrder` event. -/
theorem Kitchen.removeOrders_registered (o : OrderRef) (err : Option JsError) (now : Int)
    (w : World) (hcount : w.kitchen._orders.count o = 1)
    (hreg : ∀ r ∈ w.kitchen._orders, r ≠ o → (w.orders r).id ≠ (w.orders o).id)
    (hsh : ∀ s ∈ w.kitchen._shelfs, ∀ r ∈ (w.shelves s)._orders,
      (w.orders r).id ≠ (w.orders o).id) :
    Kitchen.removeOrders (JsValue.order o) err now w
      = (Except.ok [o],
         { w with
           orders := Function.update w.orders o { w.orders o with removed := some now },
           kitchen := { w.kitchen with _orders := w.kitchen._orders.filter (fun r => decide (r ≠ o)) },
           events := w.events ++ [Event.removeOrder Emitter.kitchen o err] }) := by
  have hp : toModelPredicate w (JsValue.order o) = some (idPredicate (w.orders o).id) := rfl
  have hmatch : w.kitchen._orders.filter (fun r => decide ((w.orders r).id = (w.orders o).id))
      = [o] := by
    have h1 : w.kitchen._orders.filter (fun r => decide ((w.orders r).id = (w.orders o).id))
        = w.kitchen._orders.filter (fun r => r == o) := by
      apply List.filter_congr
      intro r hr
      by_cases hro : r = o
      · subst hro
        simp
      · simp [hro, hreg r hr hro]
    rw [h1, List.filter_beq, hcount]
    rfl
  have hkeep : w.kitchen._orders.filter (fun r => decide ((w.orders r).id ≠ (w.orders o).id))
      = w.kitchen._orders.filter (fun r => decide (r ≠ o)) := by
    apply List.filter_congr
    intro r hr
    by_cases hro : r = o
    · subst hro
      simp
    · simp [hro, hreg r hr hro]
  have hmark : markRemoved w.orders [o] now
      = Function.update w.orders o { w.orders o with removed := some now } := by
    funext r
    by_cases hro : r = o
    · subst hro
      simp [markRemoved, Function.update_same]
    · simp [markRemoved, hro, Function.update_noteq hro]
  unfold Kitchen.removeOrders
  simp only [hp, Kitchen.registryLoop_eq, scan_idPredicate, List.nil_append, hmatch, hkeep, hmark]
  rw [Kitchen.removeOrdersShelves_no_match]
  · simp [World.emit]
  · intro s hs ir hir
    have hmem : ir.2 ∈ (w.shelves s)._orders := List.snd_mem_of_mem_enumFrom hir
    have hne := hsh s hs ir.2 hmem
    have hno : ir.2 ≠ o := fun h => hne (by rw [h])
    simp [idPredicate, Function.update_noteq hno, hne]

/-- What `_cleanShelf` without the forced flag leaves alone: it returns, the
kitchen and the other shelves are as they were, the shelf keeps its kind,
capacity and modifier and a sublist of its residents, no id changes, the orders
that were not on the shelf are as they were, and every event emitted is a
`removeOrder` event. -/
theorem cleanShelf_frame (shelf : ShelfRef) (now random : Int) (w : World) :
    ∃ removed w2,
      KitchenManager._cleanShelf shelf false now random w = (Except.ok removed, w2)
      ∧ w2.kitchen = w.kitchen
      ∧ (∀ r, (w2.orders r).id = (w.orders r).id)
      ∧ (∀ r, r ∉ (w.shelves shelf)._orders → w2.orders r = w.orders r)
      ∧ (∀ s, s ≠ shelf → w2.shelves s = w.shelves s)
      ∧ (w2.shelves shelf)._orders.Sublist (w.shelves shelf)._orders
      ∧ (w2.shelves shelf).kind = (w.shelves shelf).kind
      ∧ (w2.shelves shelf).capacity = (w.shelves shelf).capacity
      ∧ (w2.shelves shelf).decayModifier = (w.shelves shelf).decayModifier
      ∧ ∃ extra, w2.events = w.events ++ extra ∧ ∀ e ∈ extra, e.isRemoveOrder = true := by
  rw [cleanShelf_unforced_eq]
  refine ⟨_, _, rfl, rfl, ?_, ?_, ?_, ?_, ?_, ?_, ?_, _, List.append_assoc _ _ _, ?_⟩
  · intro r
    simp only [scan_store]
    split <;> simp [markRemoved_id]
  · intro r hr
    have hnot : r ∉ (scan (KitchenManager.isExpired now) now (w.shelves shelf)._orders 0
        w.orders).1 :=
      fun h => hr ((scan_removed_sublist _ now _ 0 w.orders).subset h)
    simp only [scan_store, if_neg hnot, markRemoved]
  · intro s hs
    simp [Function.update_noteq hs]
  · simp only [Function.update_same]
    exact scan_kept_sublist _ now _ 0 w.orders
  · simp [Function.update_same]
  · simp [Function.update_same]
  · simp [Function.update_same]
  · intro e he
    rcases List.mem_append.mp he with h | h
    · obtain ⟨r, _, rfl⟩ := List.mem_map.mp h
      rfl
    · obtain ⟨r, _, rfl⟩ := List.mem_map.mp h
      rfl

/-- The resumption of a call that was about to clean the shelf `sh` and store
its order there: when the order is in the registry once and on no shelf, no
other tracked order has its id and the shelf has room, the order is stored on
the shelf with status `AWAITING_COURIER` and the call goes on with
`_dispatchCourier`. -/
theorem cleanAndAssign_stored (o : OrderRef) (O : KitchenOrder) (sh : ShelfRef) (inp : Inputs)
    (T : ManagerState) (base : List Event)
    (hO : OrderState o O 1 none base 1 0 T)
    (hfresh : O.removed = none)
    (hothers : ∀ r, r ≠ o → Tracked T.world r → (T.world.orders r).id ≠ O.id)
    (hroom : (((T.world.shelves sh)._orders.length : ℕ) : ℚ) < (T.world.shelves sh).capacity) :
    ∃ W2 : World,
      KitchenManager.cleanAndAssign o sh inp T
        = KitchenManager._dispatchCourier o inp.now { T with world := W2 }
      ∧ OrderState o
          { O with
            removed := none,
            _decayHistory := O._decayHistory
              ++ [{ decayModifier := (T.world.shelves sh).decayModifier, date := inp.now }],
            status := StatusField.member KitchenOrderStatus.AWAITING_COURIER }
          0 (some sh) base 1 0 { T with world := W2 }
      ∧ SameShelves T.world W2 := by
  obtain ⟨h1, h2, h3, extra, h4, h5, h6⟩ := hO
  subst h1
  have hnot : ∀ s, o ∉ (T.world.shelves s)._orders := by
    intro s
    have := h3 s
    simp only [if_false] at this
    exact List.count_eq_zero.mp (by simpa using this)
  obtain ⟨removed, Wc, hclean, hck, hcid, hcord, hcsh, hcsub, hckind, hccap, hcmod, cextra,
    hcev, hcrem⟩ := cleanShelf_frame sh inp.now inp.random T.world
  have hco : Wc.orders o = T.world.orders o := hcord o (hnot sh)
  have hsubset : ∀ s, ∀ r ∈ (Wc.shelves s)._orders, r ∈ (T.world.shelves s)._orders := by
    intro s r hr
    by_cases hs : s = sh
    · subst hs
      exact hcsub.subset hr
    · rw [hcsh s hs] at hr
      exact hr
  have hremove := Kitchen.removeOrders_registered o none inp.now Wc
    (by rw [hck]; exact h2)
    (by
      intro r hr hro
      rw [hcid, hco]
      exact hothers r hro (Or.inl (by rw [hck] at hr; exact hr)))
    (by
      intro s hs r hr
      have hrT := hsubset s r hr
      have hro : r ≠ o := fun h => hnot s (h ▸ hrT)
      rw [hcid, hco]
      exact hothers r hro (Or.inr ⟨s, by rw [hck] at hs; exact hs, hrT⟩))
  have hcap : ¬ (Wc.shelves sh).capacity ≤ (((Wc.shelves sh)._orders.length : ℕ) : ℚ) := by
    rw [hccap, not_le]
    have hle : (Wc.shelves sh)._orders.length ≤ (T.world.shelves sh)._orders.length :=
      hcsub.length_le
    have hle2 : (((Wc.shelves sh)._orders.length : ℕ) : ℚ)
        ≤ (((T.world.shelves sh)._orders.length : ℕ) : ℚ) := by exact_mod_cast hle
    exact lt_of_le_of_lt hle2 hroom
  refine ⟨?W2, ?heq, ?hst, ?hsame⟩
  case heq =>
    unfold KitchenManager.cleanAndAssign
    rw [hclean]
    simp only [Kitchen.assignOrdersToShelf, hremove]
    simp only [List.length_singleton, one_ne_zero, false_and, if_false,
      Kitchen.assignOrdersLoop, KitchenShelf.insertOrder_eq, hcap]
    exact rfl
  case hst =>
    refine ⟨?_, ?_, ?_, extra ++ (cextra ++ [Event.removeOrder Emitter.kitchen o none,
      Event.insertOrder (Emitter.shelf sh) o, Event.assignOrderToShelf Emitter.kitchen o sh]),
      ?_, ?_, ?_⟩
    · simp [World.setOrder, World.emit, Function.update_same, hco, hcmod]
    · simp only [World.setOrder, World.emit]
      rw [List.count_eq_zero]
      intro hmem
      have := (List.mem_filter.mp hmem).2
      simp at this
    · intro s
      by_cases hs : sh = s
      · subst hs
        simp only [World.setOrder, World.emit, Function.update_same, if_true]
        rw [List.count_append, List.count_eq_zero.mpr (fun h => hnot sh (hcsub.subset h))]
        simp
      · have hs2 : s ≠ sh := fun h => hs h.symm
        have hs3 : ¬ (some sh = some s) := fun h => hs (Option.some.inj h)
        simp only [World.setOrder, World.emit, Function.update_noteq hs2, if_neg hs3]
        rw [hcsh s hs2]
        exact List.count_eq_zero.mpr (hnot s)
    · simp [World.setOrder, World.emit, hcev, h4]
    · rw [insertCount_append, insertCount_append, h5, (counts_of_removeOrder o cextra hcrem).1]
      simp [KitchenManager.insertCount, KitchenManager.notifications, Event.isInsertOrderOf]
    · rw [deliverCount_append, deliverCount_append, h6,
        (counts_of_removeOrder o cextra hcrem).2]
      simp [KitchenManager.deliverCount, KitchenManager.notifications, Event.isDeliverOrderOf]
  case hsame =>
    refine ⟨?_, ?_⟩
    · simp [World.setOrder, World.emit, hck]
    · intro s
      by_cases hs : s = sh
      · subst hs
        simp [World.setOrder, World.emit, Function.update_same, hckind, hcmod]
      · simp [World.setOrder, World.emit, Function.update_noteq hs, hcsh s hs]

/-- Binding a courier to the order changes nothing the call knows about its
order. -/
theorem dispatch_state (o : OrderRef) (O : KitchenOrder) (n : Nat) (sh : Option ShelfRef)
    (base : List Event) (kI kD : Nat) (c : CourierRef) (now : Int) (S : ManagerState)
    (h : OrderState o O n sh base kI kD S) :
    (KitchenManager.dispatch o c now S).1 = Pipeline.travelling o c
    ∧ OrderState o O n sh base kI kD (KitchenManager.dispatch o c now S).2
    ∧ ((KitchenManager.dispatch o c now S).2.couriers c).order = some o
    ∧ SameShelves S.world (KitchenManager.dispatch o c now S).2.world := by
  obtain ⟨h1, h2, h3, extra, h4, h5, h6⟩ := h
  unfold KitchenManager.dispatch
  refine ⟨rfl, ⟨h1, h2, h3, extra ++ [Event.dispatchCourier Emitter.manager c (some o)],
    ?_, ?_, ?_⟩, ?_, rfl, fun s => ⟨rfl, rfl⟩⟩
  · simp [World.emit, h4]
  · rw [insertCount_append, h5]
    simp [KitchenManager.insertCount, KitchenManager.notifications, Event.isInsertOrderOf]
  · rw [deliverCount_append, h6]
    simp [KitchenManager.deliverCount, KitchenManager.notifications, Event.isDeliverOrderOf]
  · simp [Function.update_same]

/-- The selection of `_dispatchCourier`, for what the call knows about its
order: the call waits to make a courier and the state is as it was, or it has a
courier bound to the order. -/
theorem dispatchCourier_state (o : OrderRef) (O : KitchenOrder) (n : Nat)
    (sh : Option ShelfRef) (base : List Event) (kI kD : Nat) (now : Int) (S : ManagerState)
    (h : OrderState o O n sh base kI kD S) :
    KitchenManager._dispatchCourier o now S = (Pipeline.contacting o, S)
    ∨ ∃ c, (KitchenManager._dispatchCourier o now S).1 = Pipeline.travelling o c
      ∧ OrderState o O n sh base kI kD (KitchenManager._dispatchCourier o now S).2
      ∧ ((KitchenManager._dispatchCourier o now S).2.couriers c).order = some o
      ∧ SameShelves S.world (KitchenManager._dispatchCourier o now S).2.world := by
  rw [dispatchCourier_eq]
  cases (S._couriers.filter (fun c => decide ((S.couriers c).dispatched = none))).head? with
  | none => exact Or.inl rfl
  | some c => exact Or.inr ⟨c, dispatch_state o O n sh base kI kD c now S h⟩

/-- The resumption of a call that was waiting to make a courier. -/
theorem resume_contacting_state (o : OrderRef) (O : KitchenOrder) (n : Nat)
    (sh : Option ShelfRef) (base : List Event) (kI kD : Nat) (inp : Inputs) (T : ManagerState)
    (h : OrderState o O n sh base kI kD T) :
    ((Pipeline.contacting o).resume inp T).1 = Pipeline.travelling o T.nextCourier
    ∧ OrderState o O n sh base kI kD ((Pipeline.contacting o).resume inp T).2
    ∧ (((Pipeline.contacting o).resume inp T).2.couriers T.nextCourier).order = some o
    ∧ SameShelves T.world ((Pipeline.contacting o).resume inp T).2.world := by
  obtain ⟨h1, h2, h3, extra, h4, h5, h6⟩ := h
  simp only [Pipeline.resume, KitchenManager.allocateCourier]
  exact dispatch_state o O n sh base kI kD T.nextCourier inp.now _
    ⟨h1, h2, h3, extra ++ [Event.allocateCourier Emitter.manager T.nextCourier],
      by simp [World.emit, h4],
      by
        rw [insertCount_append, h5]
        simp [KitchenManager.insertCount, KitchenManager.notifications, Event.isInsertOrderOf],
      by
        rw [deliverCount_append, h6]
        simp [KitchenManager.deliverCount, KitchenManager.notifications,
          Event.isDeliverOrderOf]⟩

/-- The resumption of a call whose courier arrives, for an order that is not
expired, was prepared and is not removed. -/
theorem resume_travelling_state (o : OrderRef) (O : KitchenOrder) (n : Nat)
    (sh : Option ShelfRef) (base : List Event) (kI kD : Nat) (c : CourierRef) (inp : Inputs)
    (T : ManagerState) (h : OrderState o O n sh base kI kD T)
    (hc : (T.couriers c).order = some o)
    (hval : O.expired inp.now = false)
    (hprep : O.prepared ≠ none) (hrem : O.removed = none) :
    ((Pipeline.travelling o c).resume inp T).1 = Pipeline.pickingUp o c o
    ∧ OrderState o O n sh base kI kD ((Pipeline.travelling o c).resume inp T).2
    ∧ (((Pipeline.travelling o c).resume inp T).2.couriers c).order = some o
    ∧ SameShelves T.world ((Pipeline.travelling o c).resume inp T).2.world := by
  have h1 := h.1
  subst h1
  rw [resume_travelling_ok o c o inp T hc hval hprep hrem]
  exact ⟨rfl, h, by simp [Function.update_same, hc], rfl, fun s => ⟨rfl, rfl⟩⟩

/-- The resumption of a call whose courier picks the order up: the order leaves
the registry and every shelf, and no `insertOrder` or `deliverOrder` event is
emitted. -/
theorem resume_pickingUp_state (o : OrderRef) (O : KitchenOrder) (n : Nat) (sh : ShelfRef)
    (base : List Event) (kI kD : Nat) (c : CourierRef) (inp : Inputs) (T : ManagerState)
    (h : OrderState o O n (some sh) base kI kD T)
    (hsh : sh ∈ T.world.kitchen._shelfs)
    (hc : (T.couriers c).order = some o) :
    ((Pipeline.pickingUp o c o).resume inp T).1 = Pipeline.delivering o c o
    ∧ OrderState o (((Pipeline.pickingUp o c o).resume inp T).2.world.orders o) 0 none base
        kI kD ((Pipeline.pickingUp o c o).resume inp T).2
    ∧ (((Pipeline.pickingUp o c o).resume inp T).2.couriers c).order = some o := by
  obtain ⟨h1, h2, h3, extra, h4, h5, h6⟩ := h
  rw [resume_pickingUp]
  obtain ⟨out, w2, removed, heq, hk, hshelves, ho, hin, hall⟩ :=
    Kitchen.removeOrders_idPredicate (JsValue.order o) (T.world.orders o).id none inp.now
      T.world rfl
  obtain ⟨extra2, hev, hrem⟩ := Kitchen.removeOrders_events (JsValue.order o) none inp.now
    T.world
  rw [heq] at hev
  simp only [KitchenManager.pickUp, heq]
  refine ⟨trivial, ⟨rfl, ?_, ?_, extra ++ extra2, ?_, ?_, ?_⟩, ?_⟩
  · show w2.kitchen._orders.count o = 0
    rw [hk, List.count_eq_zero]
    intro hmem
    have := (List.mem_filter.mp hmem).2
    simp at this
  · intro s
    show (w2.shelves s)._orders.count o = if (none : Option ShelfRef) = some s then 1 else 0
    have hnone : ¬ ((none : Option ShelfRef) = some s) := fun hcontra => by cases hcontra
    rw [hshelves s, if_neg hnone]
    by_cases hs : s ∈ T.world.kitchen._shelfs
    · rw [if_pos hs]
      show List.count o ((T.world.shelves s)._orders.filter
        (fun r => decide ((T.world.orders r).id ≠ (T.world.orders o).id))) = 0
      rw [List.count_eq_zero]
      intro hmem
      have := (List.mem_filter.mp hmem).2
      simp at this
    · have hne : ¬ (some sh = some s) := fun heq2 => hs (Option.some.inj heq2 ▸ hsh)
      rw [if_neg hs, h3 s, if_neg hne]
  · show w2.events = base ++ (extra ++ extra2)
    rw [hev, h4, List.append_assoc]
  · rw [insertCount_append, h5, (counts_of_removeOrder o extra2 hrem).1, Nat.add_zero]
  · rw [deliverCount_append, h6, (counts_of_removeOrder o extra2 hrem).2, Nat.add_zero]
  · simp [Function.update_same, hc]

/-- The last resumption of a call: the order is delivered and one `deliverOrder`
event is emitted for it. -/
theorem resume_delivering_state (o : OrderRef) (O : KitchenOrder) (base : List Event)
    (kI kD : Nat) (c : CourierRef) (inp : Inputs) (T : ManagerState)
    (h : OrderState o O 0 none base kI kD T)
    (hc : (T.couriers c).order = some o) :
    ((Pipeline.delivering o c o).resume inp T).1 = Pipeline.resolved o
    ∧ OrderState o
        { O with
          status := StatusField.member KitchenOrderStatus.DELIVERED,
          delivered := some inp.now }
        0 none base kI (kD + 1) ((Pipeline.delivering o c o).resume inp T).2 := by
  obtain ⟨h1, h2, h3, extra, h4, h5, h6⟩ := h
  subst h1
  rw [resume_delivering]
  refine ⟨rfl, ?_, h2, h3, extra ++ [Event.deliverOrder Emitter.manager c (some o)], ?_, ?_, ?_⟩
  · simp [KitchenManager.release, World.setOrder, World.emit, Function.update_same]
  · simp [KitchenManager.release, World.setOrder, World.emit, h4, hc]
  · rw [insertCount_append, h5]
    simp [KitchenManager.insertCount, KitchenManager.notifications, Event.isInsertOrderOf]
  · rw [deliverCount_append, h6]
    simp [KitchenManager.deliverCount, KitchenManager.notifications, Event.isDeliverOrderOf]

/-- Once the call has returned, further resumptions change nothing and the other
calls keep what is known about the order. -/
theorem runAmong_resolved (o : OrderRef) (O : KitchenOrder) (base : List Event) (kI kD : Nat)
    (rest : List (Inputs × ManagerState)) (S : ManagerState) (final : Pipeline × ManagerState)
    (h : OrderState o O 0 none base kI kD S)
    (hrun : Pipeline.runAmong (Rely o) rest (Pipeline.resolved o, S) final) :
    final.1 = Pipeline.resolved o ∧ OrderState o O 0 none base kI kD final.2 := by
  induction rest generalizing S with
  | nil =>
    simp only [Pipeline.runAmong] at hrun
    rw [hrun]
    exact ⟨rfl, h⟩
  | cons x rest ih =>
    obtain ⟨inp, T⟩ := x
    simp only [Pipeline.runAmong, Pipeline.resume] at hrun
    exact ih T (orderState_rely h hrun.1) hrun.2

theorem sameShelves_trans {W0 W1 W2 : World} (h1 : SameShelves W0 W1) (h2 : SameShelves W1 W2) :
    SameShelves W0 W2 :=
  ⟨by rw [h2.1, h1.1],
    fun s => ⟨by rw [(h2.2 s).1, (h1.2 s).1], by rw [(h2.2 s).2, (h1.2 s).2]⟩⟩

/-- A call that waits for its courier to arrive, among calls that leave its
order alone: when the order is on a shelf of the kitchen and is not expired
when the courier arrives, three resumptions deliver it. -/
theorem runAmong_travelling (o : OrderRef) (O : KitchenOrder) (n : Nat) (sh : ShelfRef)
    (base : List Event) (c : CourierRef) (S : ManagerState)
    (xs : List (Inputs × ManagerState)) (final : Pipeline × ManagerState)
    (h : OrderState o O n (some sh) base 1 0 S)
    (hsh : sh ∈ S.world.kitchen._shelfs)
    (hc : (S.couriers c).order = some o)
    (hprep : O.prepared ≠ none) (hrem : O.removed = none)
    (hlen : 3 ≤ xs.length)
    (hlive : ∀ x ∈ xs, (x.2.world.orders o).expired x.1.now = false)
    (hrun : Pipeline.runAmong (Rely o) xs (Pipeline.travelling o c, S) final) :
    final.1 = Pipeline.resolved o
    ∧ ∃ Ofinal : KitchenOrder,
        Ofinal.status = StatusField.member KitchenOrderStatus.DELIVERED
        ∧ Ofinal.delivered ≠ none
        ∧ OrderState o Ofinal 0 none base 1 1 final.2 := by
  match xs, hlen with
  | (ix, Tx) :: (iy, Ty) :: (iz, Tz) :: rest, _ =>
    simp only [Pipeline.runAmong] at hrun
    obtain ⟨rx, hrun⟩ := hrun
    -- the courier arrives
    have hTx := orderState_rely h rx
    have hcx : (Tx.couriers c).order = some o := by
      rw [rx.2.2.2.2.2.2.1 c rfl]
      exact hc
    have hshx : sh ∈ Tx.world.kitchen._shelfs := by
      rw [rx.2.2.2.2.1]
      exact hsh
    have hval : O.expired ix.now = false := by
      have := hlive (ix, Tx) (by simp)
      rw [hTx.1] at this
      exact this
    obtain ⟨e1, e2, e3, e4⟩ :=
      resume_travelling_state o O n (some sh) base 1 0 c ix Tx hTx hcx hval hprep hrem
    generalize (Pipeline.travelling o c).resume ix Tx = Px at e1 e2 e3 e4 hrun
    obtain ⟨px, Sx⟩ := Px
    simp only at e1 e2 e3 e4 hrun
    subst e1
    obtain ⟨ry, hrun⟩ := hrun
    -- the courier picks the order up
    have hTy := orderState_rely e2 ry
    have hcy : (Ty.couriers c).order = some o := by
      rw [ry.2.2.2.2.2.2.1 c rfl]
      exact e3
    have hshy : sh ∈ Ty.world.kitchen._shelfs := by
      rw [ry.2.2.2.2.1, e4.1]
      exact hshx
    obtain ⟨f1, f2, f3⟩ := resume_pickingUp_state o O n sh base 1 0 c iy Ty hTy hshy hcy
    generalize (Pipeline.pickingUp o c o).resume iy Ty = Py at f1 f2 f3 hrun
    obtain ⟨py, Sy⟩ := Py
    simp only at f1 f2 f3 hrun
    subst f1
    obtain ⟨rz, hrun⟩ := hrun
    -- the courier delivers the order
    have hTz := orderState_rely f2 rz
    have hcz : (Tz.couriers c).order = some o := by
      rw [rz.2.2.2.2.2.2.1 c rfl]
      exact f3
    obtain ⟨g1, g2⟩ := resume_delivering_state o _ base 1 0 c iz Tz hTz hcz
    generalize (Pipeline.delivering o c o).resume iz Tz = Pz at g1 g2 hrun
    obtain ⟨pz, Sz⟩ := Pz
    simp only at g1 g2 hrun
    subst g1
    obtain ⟨k1, k2⟩ := runAmong_resolved o _ base 1 1 rest Sz final g2 hrun
    exact ⟨k1, _, rfl, by simp, k2⟩

/-- C15: a call of `processOrder` makes the order `st.nextOrder`, a reference
that is in no container, in a kitchen that has a shelf `sh` of the temperature of
the order. The call is resumed at least six times, and between its resumptions
the other calls act as `Rely` allows: they leave the order object, its place in
the registry and on the shelves and the courier of the call alone (so the order
is never evicted), they track no other order of the same id, they emit no
`insertOrder` or `deliverOrder` notification for the order, and the shelf `sh`
has room when the call stores the order. If the order is not expired at each
resumption from the third on, then the call returns the order; the order has
status `DELIVERED` and a delivered timestamp and is neither in the registry nor
on any shelf; and among the events emitted since the call started the listeners
of the manager receive exactly one `insertOrder` and exactly one `deliverOrder`
notification for the order. -/
theorem processOrder_delivers (params : OrderParams) (st : ManagerState) (sh : ShelfRef)
    (i1 i2 : Inputs) (T1 T2 : ManagerState) (rest : List (Inputs × ManagerState))
    (final : Pipeline × ManagerState)
    (hreg : st.nextOrder ∉ st.world.kitchen._orders)
    (hshelf : ∀ s, st.nextOrder ∉ (st.world.shelves s)._orders)
    (hget : Kitchen.getShelf params.temp st.world = some sh)
    (hlen : 4 ≤ rest.length)
    (hlive : ∀ x ∈ rest,
      (x.2.world.orders st.nextOrder).expired x.1.now = false)
    (hrun : Pipeline.runAmong (Rely st.nextOrder) ((i1, T1) :: (i2, T2) :: rest)
      (KitchenManager.processOrder params st) final) :
    final.1 = Pipeline.resolved st.nextOrder
    ∧ (final.2.world.orders st.nextOrder).status
      = StatusField.member KitchenOrderStatus.DELIVERED
    ∧ (final.2.world.orders st.nextOrder).delivered ≠ none
    ∧ st.nextOrder ∉ final.2.world.kitchen._orders
    ∧ (∀ s, st.nextOrder ∉ (final.2.world.shelves s)._orders)
    ∧ ∃ extra, final.2.world.events = st.world.events ++ extra
        ∧ KitchenManager.insertCount st.nextOrder extra = 1
        ∧ KitchenManager.deliverCount st.nextOrder extra = 1 := by
  -- it is enough to know the order at the end
  suffices hend : final.1 = Pipeline.resolved st.nextOrder
      ∧ ∃ Ofinal : KitchenOrder,
          Ofinal.status = StatusField.member KitchenOrderStatus.DELIVERED
          ∧ Ofinal.delivered ≠ none
          ∧ OrderState st.nextOrder Ofinal 0 none st.world.events 1 1 final.2 by
    obtain ⟨k1, Ofinal, k2, k3, k4, k5, k6, k7⟩ := hend
    refine ⟨k1, by rw [k4, k2], by rw [k4]; exact k3, List.count_eq_zero.mp k5, ?_, k7⟩
    intro s
    have := k6 s
    simp only [if_false] at this
    exact List.count_eq_zero.mp (by simpa using this)
  obtain ⟨a1, a2, a3⟩ := processOrder_state params st hreg hshelf
  generalize KitchenManager.processOrder params st = P0 at a1 a2 a3 hrun
  obtain ⟨p0, S0⟩ := P0
  simp only at a1 a2 a3
  subst a1
  simp only [Pipeline.runAmong] at hrun
  obtain ⟨r1, r2, hrun⟩ := hrun
  -- the order is cooked
  have hT1 := orderState_rely a2 r1
  have hs1 := sameShelves_rely a3 r1
  obtain ⟨b1, b2, b3⟩ := resume_cooking_state st.nextOrder _ sh i1 T1 st.world.events hT1
    (by rw [getShelf_sameShelves hs1]; exact hget)
  have hs1b := sameShelves_trans hs1 b3
  generalize (Pipeline.cooking st.nextOrder).resume i1 T1 = P1 at b1 b2 hs1b r2 hrun
  obtain ⟨p1, S1⟩ := P1
  simp only at b1 b2 hs1b r2 hrun
  subst b1
  -- the shelf is cleaned and the order is stored
  have hT2 := orderState_rely b2 r2
  have hs2 := sameShelves_rely hs1b r2
  have hothers : ∀ r, r ≠ st.nextOrder → Tracked T2.world r →
      (T2.world.orders r).id ≠ params.id := by
    intro r hr ht
    have := r2.2.2.2.1 r hr ht
    rw [b2.1] at this
    exact this
  have hroom := r2.2.2.2.2.2.2.2.1 st.nextOrder sh rfl
  obtain ⟨W2, c1, c2, c3⟩ := cleanAndAssign_stored st.nextOrder _ sh i2 T2 st.world.events
    hT2 rfl hothers hroom
  have hs2b := sameShelves_trans hs2 c3
  have hmem : sh ∈ W2.kitchen._shelfs := by
    rw [hs2b.1]
    exact getShelf_mem hget
  have hrun2 : Pipeline.runAmong (Rely st.nextOrder) rest
      (KitchenManager._dispatchCourier st.nextOrder i2.now { T2 with world := W2 }) final := by
    rw [← c1]
    exact hrun
  rcases dispatchCourier_state st.nextOrder _ 0 (some sh) st.world.events 1 0 i2.now
    { T2 with world := W2 } c2 with hd | ⟨c, d1, d2, d3, d4⟩
  · -- no courier is idle: the call makes one
    rw [hd] at hrun2
    match rest, hlen, hlive, hrun2 with
    | (i3, T3) :: more, hlen3, hlive3, hrun3 =>
      simp only [Pipeline.runAmong] at hrun3
      obtain ⟨r3, hrun3⟩ := hrun3
      have hT3 := orderState_rely c2 r3
      obtain ⟨e1, e2, e3, e4⟩ := resume_contacting_state st.nextOrder _ 0 (some sh)
        st.world.events 1 0 i3 T3 hT3
      have hmem3 : sh ∈ ((Pipeline.contacting st.nextOrder).resume i3 T3).2.world.kitchen._shelfs := by
        rw [e4.1, r3.2.2.2.2.1]
        exact hmem
      generalize (Pipeline.contacting st.nextOrder).resume i3 T3 = P3 at e1 e2 e3 hmem3 hrun3
      obtain ⟨p3, S3⟩ := P3
      simp only at e1 e2 e3 hmem3 hrun3
      subst e1
      exact runAmong_travelling st.nextOrder _ 0 sh st.world.events T3.nextCourier S3 more
        final e2 hmem3 e3 (by simp) rfl
        (by simp only [List.length_cons] at hlen3; omega)
        (fun x hx => hlive3 x (List.mem_cons_of_mem _ hx)) hrun3
  · -- an idle courier is taken from the pool
    have hmem3 : sh ∈ (KitchenManager._dispatchCourier st.nextOrder i2.now
        { T2 with world := W2 }).2.world.kitchen._shelfs := by
      rw [d4.1]
      exact hmem
    generalize KitchenManager._dispatchCourier st.nextOrder i2.now { T2 with world := W2 } = P3
      at d1 d2 d3 hmem3 hrun2
    obtain ⟨p3, S3⟩ := P3
    simp only at d1 d2 d3 hmem3 hrun2
    subst d1
    exact runAmong_travelling st.nextOrder _ 0 sh st.world.events c S3 rest final d2 hmem3 d3
      (by simp) rfl (by omega) hlive hrun2

/-- The other calls leave the order alone when there are none, as long as no
other tracked order has the id of the order and the shelf has room when it is
needed. -/
theorem rely_refl (o : OrderRef) (p : Pipeline) (S : ManagerState)
    (hid : ∀ r, r ≠ o → Tracked S.world r → (S.world.orders r).id ≠ (S.world.orders o).id)
    (hroom : match p with
      | Pipeline.cleaning _ shelf =>
        (((S.world.shelves shelf)._orders.length : ℕ) : ℚ) < (S.world.shelves shelf).capacity
      | _ => True) :
    Rely o p S S := by
  refine ⟨rfl, rfl, fun _ => rfl, hid, rfl, fun _ => ⟨rfl, rfl⟩, fun _ _ => rfl, ?_, [],
    by simp, by simp [KitchenManager.insertCount, KitchenManager.notifications],
    by simp [KitchenManager.deliverCount, KitchenManager.notifications]⟩
  intro order shelf hp
  subst hp
  exact hroom

theorem runAmong_alone (R : Pipeline → ManagerState → ManagerState → Prop)
    (inputs : List Inputs) (start : Pipeline × ManagerState)
    (h : ∀ (k : Nat), k < inputs.length →
      R (Pipeline.run (inputs.take k) start).1 (Pipeline.run (inputs.take k) start).2
        (Pipeline.run (inputs.take k) start).2) :
    Pipeline.runAmong R (Pipeline.alone inputs start) start (Pipeline.run inputs start) := by
  induction inputs generalizing start with
  | nil => simp [Pipeline.alone, Pipeline.runAmong, Pipeline.run]
  | cons inp rest ih =>
    simp only [Pipeline.alone, Pipeline.runAmong]
    refine ⟨h 0 (by simp), ?_⟩
    have := ih (start.1.resume inp start.2) (fun k hk => by
      have := h (k + 1) (by simpa using hk)
      simpa [Pipeline.run] using this)
    simpa [Pipeline.run] using this

/-- Where the call is suspended before each resumption of `deliverySchedule`. -/
theorem deliverySchedule_stage (k : Nat) (hk : k < 6) :
    (Pipeline.run (deliverySchedule.take k)
        (KitchenManager.processOrder (hotOrder "a") freshManager)).1
      = (([Pipeline.cooking 0, Pipeline.cleaning 0 0, Pipeline.contacting 0,
          Pipeline.travelling 0 0, Pipeline.pickingUp 0 0 0,
          Pipeline.delivering 0 0 0] : List Pipeline).get? k).getD (Pipeline.resolved 0) := by
  interval_cases k <;> decide!

theorem expiredOf_hot_2003 :
    expiredOf 100 1 (some 1) none [{ decayModifier := 1, date := 2 }] 2003 = false := by
  decide!

theorem deliverySchedule_rely (k : Nat) (hk : k < 6) :
    Rely 0
      (Pipeline.run (deliverySchedule.take k)
        (KitchenManager.processOrder (hotOrder "a") freshManager)).1
      (Pipeline.run (deliverySchedule.take k)
        (KitchenManager.processOrder (hotOrder "a") freshManager)).2
      (Pipeline.run (deliverySchedule.take k)
        (KitchenManager.processOrder (hotOrder "a") freshManager)).2 := by
  apply rely_refl
  · interval_cases k <;>
    norm_num [deliverySchedule, Tracked, Pipeline.run, Inputs.at, hotOrder,
    Pipeline.resume, KitchenManager._deliverOrder, KitchenManager.pickUp,
    KitchenManager.release, freshManager, managedWorld, Courier.new, KitchenOrder.new,
    expired_eq_expiredOf, expiredOf_hot_2003, Kitchen.removeOrders, toModelPredicate,
    Kitchen.removeOrdersLoop, Kitchen.removeOrdersShelves, KitchenShelf.removeOrders,
    KitchenShelf.removeOrdersLoop, World.setShelf, World.setOrder, World.emit, Function.update,
    Option.some_ne_none, KitchenManager.processOrder, Kitchen.insertOrder,
    KitchenManager._assignOrderToShelf, Kitchen.getShelf, KitchenManager.cleanAndAssign,
    KitchenManager._cleanShelf, KitchenManager.isExpired, KitchenManager.discardAll,
    KitchenManager.emitRemoved, Kitchen.assignOrdersToShelf, Kitchen.assignOrdersLoop,
    KitchenShelf.insertOrder, KitchenOrder.insertDecayModifier, JsValue.isKitchenOrder,
    dispatchCourier_eq, KitchenManager.dispatch,
    KitchenManager.allocateCourier, KitchenManager.retryOnOverflow,
    (by decide : ("" : String) ≠ "a"), (by decide : ("a" : String) ≠ "")]
    all_goals
      intro r h1 h2
      exact absurd h2 h1
  · rw [deliverySchedule_stage k hk]
    interval_cases k <;> trivial

theorem deliverySchedule_live (k : Nat) (hk : k < 6) :
    ((Pipeline.run (deliverySchedule.take k)
        (KitchenManager.processOrder (hotOrder "a") freshManager)).2.world.orders 0).expired
      ((deliverySchedule.get? k).getD (Inputs.at 0)).now = false := by
  interval_cases k <;> decide!

/-- C15, on a fresh manager with one hot order and no other call: the order made
by `processOrder` is delivered by the six resumptions of `deliverySchedule`. -/
theorem processOrder_delivers_witness :
    (Pipeline.run deliverySchedule
        (KitchenManager.processOrder (hotOrder "a") freshManager)).1 = Pipeline.resolved 0
    ∧ ((Pipeline.run deliverySchedule
        (KitchenManager.processOrder (hotOrder "a") freshManager)).2.world.orders 0).status
      = StatusField.member KitchenOrderStatus.DELIVERED
    ∧ ((Pipeline.run deliverySchedule
        (KitchenManager.processOrder (hotOrder "a") freshManager)).2.world.orders 0).delivered
      ≠ none
    ∧ 0 ∉ (Pipeline.run deliverySchedule
        (KitchenManager.processOrder (hotOrder "a") freshManager)).2.world.kitchen._orders
    ∧ (∀ s, 0 ∉ ((Pipeline.run deliverySchedule
        (KitchenManager.processOrder (hotOrder "a") freshManager)).2.world.shelves s)._orders)
    ∧ ∃ extra, (Pipeline.run deliverySchedule
          (KitchenManager.processOrder (hotOrder "a") freshManager)).2.world.events
        = freshManager.world.events ++ extra
        ∧ KitchenManager.insertCount 0 extra = 1
        ∧ KitchenManager.deliverCount 0 extra = 1 :=
  processOrder_delivers (hotOrder "a") freshManager 0 (Inputs.at 1) (Inputs.at 2)
    (KitchenManager.processOrder (hotOrder "a") freshManager).2
    (Pipeline.run [Inputs.at 1] (KitchenManager.processOrder (hotOrder "a") freshManager)).2
    (Pipeline.alone [Inputs.at 3, Inputs.at 2003, Inputs.at 2004, Inputs.at 2005]
      (Pipeline.run [Inputs.at 1, Inputs.at 2]
        (KitchenManager.processOrder (hotOrder "a") freshManager)))
    (Pipeline.run deliverySchedule (KitchenManager.processOrder (hotOrder "a") freshManager))
    (by simp [freshManager, managedWorld])
    (by
      intro s
      by_cases hs : s = 0 <;> simp [freshManager, managedWorld, hs])
    (by simp [Kitchen.getShelf, hotOrder, freshManager, managedWorld])
    (by simp [Pipeline.alone])
    (by
      intro x hx
      simp only [Pipeline.alone, List.mem_cons, List.mem_singleton, List.not_mem_nil,
        or_false] at hx
      rcases hx with rfl | rfl | rfl | rfl
      · exact deliverySchedule_live 2 (by norm_num)
      · exact deliverySchedule_live 3 (by norm_num)
      · exact deliverySchedule_live 4 (by norm_num)
      · exact deliverySchedule_live 5 (by norm_num))
    (runAmong_alone (Rely 0) deliverySchedule
      (KitchenManager.processOrder (hotOrder "a") freshManager)
      (fun k hk => deliverySchedule_rely k hk))

/-! ### Removing nothing, twice -/

/-- C29: take a shelf and an argument of `removeOrders` whose predicate is false
on every resident at its position. The call returns the empty list and leaves
the whole state as it was: the residents of the shelf and their order, every
order object with its removal timestamp, and the event log, to which nothing is
added. A second call, in the state the first one left, does the same. -/
theorem removeOrders_empty_idempotent (self : ShelfRef) (arg : JsValue) (p : Predicate)
    (err1 err2 : Option JsError) (now1 now2 : Int) (w : World)
    (hp : toModelPredicate w arg = some p)
    (h : ∀ ir ∈ (w.shelves self)._orders.enumFrom 0, p ir.2 (w.orders ir.2) ir.1 = false) :
    KitchenShelf.removeOrders self arg err1 now1 w = (Except.ok [], w)
    ∧ KitchenShelf.removeOrders self arg err2 now2
        (KitchenShelf.removeOrders self arg err1 now1 w).2 = (Except.ok [], w) := by
  have hcall : ∀ (err : Option JsError) (now : Int),
      KitchenShelf.removeOrders self arg err now w = (Except.ok [], w) := by
    intro err now
    rw [KitchenShelf.removeOrders_eq self arg p err now w hp,
      scan_no_match p now _ 0 w.orders h]
    simp
  rw [hcall err1 now1]
  exact ⟨rfl, hcall err2 now2⟩

/-- C29, on a shelf holding the orders "a" and "b", for the id "z". -/
theorem removeOrders_empty_idempotent_witness :
    KitchenShelf.removeOrders 0 (JsValue.str "z") none 5 twoResidentsWorld
      = (Except.ok [], twoResidentsWorld)
    ∧ KitchenShelf.removeOrders 0 (JsValue.str "z") none 6
        (KitchenShelf.removeOrders 0 (JsValue.str "z") none 5 twoResidentsWorld).2
      = (Except.ok [], twoResidentsWorld) :=
  removeOrders_empty_idempotent 0 (JsValue.str "z") (fun _ o _ => decide (o.id = "z"))
    none none 5 6 twoResidentsWorld rfl
    (by
      intro ir hir
      simp [twoResidentsWorld, List.enumFrom] at hir
      rcases hir with rfl | rfl <;> simp [twoResidentsWorld, KitchenOrder.new])

/-! ### The forced clean -/

/-! ### The forced clean -/

/-- A scan removes something as soon as one resident satisfies the predicate
before the scan. -/
theorem scan_nonempty (p : Predicate) (now : Int) (rs : List OrderRef) (index : Nat)
    (store : Store) (h : ∃ ir ∈ rs.enumFrom index, p ir.2 (store ir.2) ir.1 = true) :
    (scan p now rs index store).1 ≠ [] := by
  induction rs generalizing index with
  | nil =>
    obtain ⟨ir, hir, _⟩ := h
    simp at hir
  | cons r rest ih =>
    unfold scan
    split
    · simp
    · rename_i hp
      obtain ⟨ir, hir, hpir⟩ := h
      simp only [List.enumFrom_cons, List.mem_cons] at hir
      rcases hir with rfl | hir
      · exact absurd hpir hp
      · exact ih (index + 1) ⟨ir, hir, hpir⟩

theorem isAtIndex_ignoresRemoved (k : Int) : (KitchenManager.isAtIndex k).IgnoresRemoved := by
  intro r o i t
  rfl

/-- The residents matched and kept by the predicate `(_, i) => i === j`, for a
position `j` at or after the position `index` of the first resident. -/
theorem matchedAt_isAtIndex (j : Nat) (store : Store) (rs : List OrderRef) (index : Nat)
    (h : index ≤ j) :
    matchedAt (KitchenManager.isAtIndex (j : Int)) store rs index
      = (rs.get? (j - index)).toList
    ∧ keptAt (KitchenManager.isAtIndex (j : Int)) store rs index = rs.eraseIdx (j - index) := by
  induction rs generalizing index with
  | nil => simp [matchedAt, keptAt]
  | cons r rest ih =>
    rw [matchedAt_cons, keptAt_cons]
    by_cases hj : index = j
    · subst hj
      have hnone : ∀ (l : List OrderRef) (k : Nat), index < k →
          matchedAt (KitchenManager.isAtIndex (index : Int)) store l k = []
          ∧ keptAt (KitchenManager.isAtIndex (index : Int)) store l k = l := by
        intro l
        induction l with
        | nil => intro k _; simp [matchedAt, keptAt]
        | cons x xs ihx =>
          intro k hk
          rw [matchedAt_cons, keptAt_cons]
          have hne : ¬ ((k : Int) = (index : Int)) := by
            intro hcontra
            have : k = index := by exact_mod_cast hcontra
            omega
          simp [KitchenManager.isAtIndex, hne, ihx (k + 1) (by omega)]
      simp [KitchenManager.isAtIndex, hnone rest (index + 1) (by omega)]
    · have hlt : index < j := lt_of_le_of_ne h hj
      have hne : ¬ ((index : Int) = (j : Int)) := by
        intro hcontra
        exact hj (by exact_mod_cast hcontra)
      obtain ⟨i1, i2⟩ := ih (index + 1) (by omega)
      have hsub : j - index = (j - (index + 1)) + 1 := by omega
      rw [hsub]
      simp [KitchenManager.isAtIndex, hne, i1, i2]

/-- When some resident is expired, the forced clean is the clean without the
forced flag. -/
theorem cleanShelf_forced_of_expired (shelf : ShelfRef) (now random : Int) (w : World)
    (h : ∃ r ∈ (w.shelves shelf)._orders, (w.orders r).expired now = true) :
    KitchenManager._cleanShelf shelf true now random w
      = KitchenManager._cleanShelf shelf false now random w := by
  have hne : (scan (KitchenManager.isExpired now) now (w.shelves shelf)._orders 0 w.orders).1
      ≠ [] := by
    apply scan_nonempty
    obtain ⟨r, hr, hexp⟩ := h
    obtain ⟨i, hi⟩ := List.mem_iff_getElem?.mp hr
    refine ⟨(0 + i, r), ?_, ?_⟩
    · rw [List.mem_iff_getElem?]
      exact ⟨i, by rw [List.getElem?_enumFrom, hi]; rfl⟩
    · simpa [KitchenManager.isExpired] using hexp
  have hlen : ¬ ((scan (KitchenManager.isExpired now) now (w.shelves shelf)._orders 0
      w.orders).1.length = 0) := by
    rw [List.length_eq_zero]
    exact hne
  unfold KitchenManager._cleanShelf
  rw [KitchenShelf.removeOrders_eq shelf (JsValue.fn (KitchenManager.isExpired now))
    (KitchenManager.isExpired now) (some KitchenManager.expiredError) now w rfl]
  simp [hlen]

/-- When no resident is expired, the forced clean removes the resident at the
drawn position, if there is one. -/
theorem cleanShelf_forced_of_live (shelf : ShelfRef) (now : Int) (j : Nat) (w : World)
    (h : ∀ r ∈ (w.shelves shelf)._orders, (w.orders r).expired now = false) :
    KitchenManager._cleanShelf shelf true now (j : Int) w
      = (Except.ok ((w.shelves shelf)._orders.get? j).toList,
         { w with
           orders := fun r =>
             if r ∈ ((w.shelves shelf)._orders.get? j).toList then
               { w.orders r with
                 removed := some now,
                 status := StatusField.member KitchenOrderStatus.DISCARDED }
             else w.orders r,
           shelves := Function.update w.shelves shelf
             { w.shelves shelf with _orders := (w.shelves shelf)._orders.eraseIdx j },
           events := w.events
             ++ (((w.shelves shelf)._orders.get? j).toList.map
               (fun r => Event.removeOrder (Emitter.shelf shelf) r
                 (some KitchenManager.outOfCapacityError))
             ++ ((w.shelves shelf)._orders.get? j).toList.map
               (fun r => Event.removeOrder Emitter.manager r
                 (some KitchenManager.outOfCapacityError))) }) := by
  have hnone : ∀ ir ∈ (w.shelves shelf)._orders.enumFrom 0,
      KitchenManager.isExpired now ir.2 (w.orders ir.2) ir.1 = false := by
    intro ir hir
    have hpos := h ir.2 (List.snd_mem_of_mem_enumFrom hir)
    simp [KitchenManager.isExpired, hpos]
  obtain ⟨s1, s2⟩ := scan_eq (KitchenManager.isAtIndex (j : Int)) now (w.shelves shelf)._orders 0
    w.orders (Or.inr (isAtIndex_ignoresRemoved _))
  obtain ⟨m1, m2⟩ := matchedAt_isAtIndex j w.orders (w.shelves shelf)._orders 0 (Nat.zero_le j)
  have s3 := scan_store (KitchenManager.isAtIndex (j : Int)) now (w.shelves shelf)._orders 0
    w.orders
  rw [s1, m1] at s3
  rw [m1] at s1
  rw [m2] at s2
  simp only [Nat.sub_zero] at s1 s2 s3
  unfold KitchenManager._cleanShelf
  rw [KitchenShelf.removeOrders_nothing_matched shelf _ _ now w hnone]
  simp only [List.length_nil, true_and, if_true, discardAll_eq, List.not_mem_nil, if_false,
    List.nil_append]
  rw [KitchenShelf.removeOrders_eq shelf (JsValue.fn (KitchenManager.isAtIndex (j : Int)))
    (KitchenManager.isAtIndex (j : Int)) (some KitchenManager.outOfCapacityError) now w rfl]
  simp only [s1, s2, s3, discardAll_eq, emitRemoved_eq]
  congr 1
  congr 1
  · funext r
    by_cases hr : r ∈ ((w.shelves shelf)._orders.get? j).toList
    · simp only [markRemoved, if_pos hr]
    · simp only [markRemoved, if_neg hr]
  · rw [List.append_assoc]

/-- C21: take a shelf whose resident count is its capacity, at least 1, none of
whose residents is expired, and a position `random` drawn in `0..capacity-1`;
a resident is expired when the test `Math.round(o.getValue() * 100) <= 0` holds
of it, the value being computed in doubles as the engine computes it
(`KitchenOrder.expired`). The forced clean returns exactly the resident `e` at that position; the shelf
keeps the other residents in their order, one fewer than before; `e` gets
status `DISCARDED` and the current time as removal timestamp and no other order
changes; the shelf emits one `removeOrder` event and the listeners of the
manager receive exactly one notification, a `removeOrder` for `e` with a cause
of kind `OUT_OF_CAPACITY`. If instead some resident is expired, the forced clean
does exactly what the clean without the forced flag does, so nothing beyond the
expired residents is removed: when the residents are pairwise distinct or have
no removal timestamp, it returns the expired residents and the shelf keeps the
others. -/
theorem cleanShelf_forced_evicts_one (shelf : ShelfRef) (now random : Int) (w : World) :
    ((∀ r ∈ (w.shelves shelf)._orders, (w.orders r).expired now = false) →
      (((w.shelves shelf)._orders.length : ℕ) : ℚ) = (w.shelves shelf).capacity →
      1 ≤ (w.shelves shelf).capacity →
      0 ≤ random → (random : ℚ) ≤ (w.shelves shelf).capacity - 1 →
      ∃ e, (w.shelves shelf)._orders.get? random.toNat = some e
        ∧ (KitchenManager._cleanShelf shelf true now random w).1 = Except.ok [e]
        ∧ ((KitchenManager._cleanShelf shelf true now random w).2.shelves shelf)._orders
          = (w.shelves shelf)._orders.eraseIdx random.toNat
        ∧ ((KitchenManager._cleanShelf shelf true now random w).2.shelves shelf)._orders.length
            + 1 = (w.shelves shelf)._orders.length
        ∧ (KitchenManager._cleanShelf shelf true now random w).2.orders e
          = { w.orders e with
              removed := some now,
              status := StatusField.member KitchenOrderStatus.DISCARDED }
        ∧ (∀ r, r ≠ e →
            (KitchenManager._cleanShelf shelf true now random w).2.orders r = w.orders r)
        ∧ (KitchenManager._cleanShelf shelf true now random w).2.events
          = w.events
            ++ [Event.removeOrder (Emitter.shelf shelf) e
                  (some KitchenManager.outOfCapacityError),
                Event.removeOrder Emitter.manager e (some KitchenManager.outOfCapacityError)]
        ∧ KitchenManager.notifications
            ((KitchenManager._cleanShelf shelf true now random w).2.events.drop w.events.length)
          = [Event.removeOrder Emitter.manager e (some KitchenManager.outOfCapacityError)]
        ∧ KitchenManager.outOfCapacityError.kind = some ErrorCode.OUT_OF_CAPACITY)
    ∧ ((∃ r ∈ (w.shelves shelf)._orders, (w.orders r).expired now = true) →
        KitchenManager._cleanShelf shelf true now random w
          = KitchenManager._cleanShelf shelf false now random w
        ∧ (((w.shelves shelf)._orders.Nodup
            ∨ ∀ r ∈ (w.shelves shelf)._orders, (w.orders r).removed = none) →
          (KitchenManager._cleanShelf shelf true now random w).1
            = Except.ok ((w.shelves shelf)._orders.filter
                (fun r => (w.orders r).expired now))
          ∧ ((KitchenManager._cleanShelf shelf true now random w).2.shelves shelf)._orders
            = (w.shelves shelf)._orders.filter
                (fun r => !(w.orders r).expired now))) := by
  constructor
  · intro hlive hfull hcap h0 h1
    have hj : ((random.toNat : ℕ) : Int) = random := Int.toNat_of_nonneg h0
    have hlt : random.toNat < (w.shelves shelf)._orders.length := by
      have h2 : (random : ℚ) ≤ (((w.shelves shelf)._orders.length : ℕ) : ℚ) - 1 := by
        rw [hfull]
        exact h1
      have h3 : (random : ℚ) < (((w.shelves shelf)._orders.length : ℕ) : ℚ) := by linarith
      have h4 : random < (((w.shelves shelf)._orders.length : ℕ) : Int) := by exact_mod_cast h3
      omega
    obtain ⟨e, he⟩ : ∃ e, (w.shelves shelf)._orders.get? random.toNat = some e :=
      ⟨_, List.get?_eq_get hlt⟩
    have heq := cleanShelf_forced_of_live shelf now random.toNat w hlive
    rw [hj] at heq
    rw [heq, he]
    refine ⟨e, rfl, rfl, ?_, ?_, ?_, ?_, ?_, ?_, rfl⟩
    · simp [Function.update_same]
    · simp only [Function.update_same, List.length_eraseIdx, if_pos hlt]
      omega
    · simp
    · intro r hr
      simp [hr]
    · simp
    · simp [KitchenManager.notifications]
  · intro hexp
    have heq := cleanShelf_forced_of_expired shelf now random w hexp
    refine ⟨heq, ?_⟩
    intro h
    have hscan : (scan (KitchenManager.isExpired now) now (w.shelves shelf)._orders 0
          w.orders).1
          = matchedAt (KitchenManager.isExpired now) w.orders (w.shelves shelf)._orders 0
        ∧ (scan (KitchenManager.isExpired now) now (w.shelves shelf)._orders 0 w.orders).2.1
          = keptAt (KitchenManager.isExpired now) w.orders (w.shelves shelf)._orders 0 := by
      rcases h with hn | hu
      · exact scan_eq _ now _ 0 w.orders (Or.inl hn)
      · apply scan_eq_stable
        intro r hr i
        show ({ w.orders r with removed := some now } : KitchenOrder).expired now
        = (w.orders r).expired now
        rw [expired_removed_now _ now (hu r hr)]
    have hfilter := matchedAt_eq_filter (KitchenManager.isExpired now) w.orders
      (fun r => (w.orders r).expired now)
      (w.shelves shelf)._orders 0 (fun r i => rfl)
    rw [heq, cleanShelf_unforced_eq]
    simp only [hscan.1, hscan.2, hfilter.1, hfilter.2, Function.update_same]
    exact ⟨trivial, trivial⟩

/-- C21, on the shelf of `mixedShelfWorld` 100 ms after its two orders were
stored, neither being expired yet: with the position 1 drawn, order 1 is
evicted. -/
theorem cleanShelf_forced_evicts_one_witness :
    (KitchenManager._cleanShelf 0 true 100 1 mixedShelfWorld).1 = Except.ok [1]
    ∧ ((KitchenManager._cleanShelf 0 true 100 1 mixedShelfWorld).2.shelves 0)._orders = [0] := by
  obtain ⟨e, he, h1, h2, _⟩ := (cleanShelf_forced_evicts_one 0 100 1 mixedShelfWorld).1
    (by decide!)
    (by norm_num [mixedShelfWorld])
    (by norm_num [mixedShelfWorld])
    (by norm_num)
    (by norm_num [mixedShelfWorld])
  have he1 : e = 1 := by
    have : (mixedShelfWorld.shelves 0)._orders.get? (1 : Int).toNat = some 1 := by
      simp [mixedShelfWorld]
    rw [this] at he
    exact (Option.some.inj he).symm
  subst he1
  refine ⟨h1, ?_⟩
  rw [h2]
  simp [mixedShelfWorld]

/-! ### The notifications concerning one order -/

theorem concerning_append (o : OrderRef) (a b : List Event) :
    KitchenManager.concerning o (a ++ b)
      = KitchenManager.concerning o a ++ KitchenManager.concerning o b := by
  unfold KitchenManager.concerning KitchenManager.notifications
  rw [List.filter_append, List.filter_append]

/-- Events `removeOrder` of orders other than `o` do not concern `o`. -/
theorem concerning_of_others (o : OrderRef) (l : List Event)
    (h : ∀ e ∈ l, ∃ src r err, e = Event.removeOrder src r err ∧ r ≠ o) :
    KitchenManager.concerning o l = [] := by
  unfold KitchenManager.concerning
  rw [List.filter_eq_nil_iff]
  intro e he
  obtain ⟨src, r, err, rfl, hr⟩ := h e (List.mem_of_mem_filter he)
  simp [Event.concerns, hr]

theorem sameConfig_refl (W : World) : SameConfig W W :=
  ⟨rfl, fun _ => ⟨rfl, rfl, rfl⟩⟩

theorem sameConfig_trans {W0 W1 W2 : World} (h1 : SameConfig W0 W1) (h2 : SameConfig W1 W2) :
    SameConfig W0 W2 :=
  ⟨by rw [h2.1, h1.1],
    fun s => ⟨by rw [(h2.2 s).1, (h1.2 s).1], by rw [(h2.2 s).2.1, (h1.2 s).2.1],
      by rw [(h2.2 s).2.2, (h1.2 s).2.2]⟩⟩

theorem getShelf_sameConfig {W0 W : World} (h : SameConfig W0 W) (kind : Option String) :
    Kitchen.getShelf kind W = Kitchen.getShelf kind W0 := by
  unfold Kitchen.getShelf
  rw [h.1]
  congr 1
  funext s
  rw [(h.2 s).1]

/-- The clean without the forced flag on a shelf none of whose residents is
expired removes nothing and changes nothing. -/
theorem cleanShelf_unforced_of_live (shelf : ShelfRef) (now random : Int) (w : World)
    (h : ∀ r ∈ (w.shelves shelf)._orders, (w.orders r).expired now = false) :
    KitchenManager._cleanShelf shelf false now random w = (Except.ok [], w) := by
  have hnone : ∀ ir ∈ (w.shelves shelf)._orders.enumFrom 0,
      KitchenManager.isExpired now ir.2 (w.orders ir.2) ir.1 = false := by
    intro ir hir
    have hpos := h ir.2 (List.snd_mem_of_mem_enumFrom hir)
    simp [KitchenManager.isExpired, hpos]
  unfold KitchenManager._cleanShelf
  rw [KitchenShelf.removeOrders_nothing_matched shelf _ _ now w hnone]
  simp [discardAll_eq, emitRemoved_eq]

theorem scan_lengths (p : Predicate) (now : Int) (rs : List OrderRef) (index : Nat)
    (store : Store) :
    (scan p now rs index store).1.length + (scan p now rs index store).2.1.length
      = rs.length := by
  induction rs generalizing index store with
  | nil => simp [scan]
  | cons r rest ih =>
    unfold scan
    split
    · have h := ih (index + 1) (Function.update store r { store r with removed := some now })
      simp only [List.length_cons] at h ⊢
      omega
    · have h := ih (index + 1) store
      simp only [List.length_cons] at h ⊢
      omega

theorem cleanShelf_unforced_cleaned (shelf : ShelfRef) (now random : Int) (w : World) :
    KitchenManager._cleanShelf shelf false now random w
      = (Except.ok (scan (KitchenManager.isExpired now) now (w.shelves shelf)._orders 0
            w.orders).1,
         KitchenManager.cleaned shelf (KitchenManager.isExpired now) KitchenManager.expiredError
           now w) := by
  rw [cleanShelf_unforced_eq]
  unfold KitchenManager.cleaned
  simp only [List.append_assoc]

theorem cleanShelf_forced_cleaned (shelf : ShelfRef) (now random : Int) (w : World)
    (h : ∀ r ∈ (w.shelves shelf)._orders, (w.orders r).expired now = false) :
    KitchenManager._cleanShelf shelf true now random w
      = (Except.ok (scan (KitchenManager.isAtIndex random) now (w.shelves shelf)._orders 0
            w.orders).1,
         KitchenManager.cleaned shelf (KitchenManager.isAtIndex random)
           KitchenManager.outOfCapacityError now w) := by
  have hnone : ∀ ir ∈ (w.shelves shelf)._orders.enumFrom 0,
      KitchenManager.isExpired now ir.2 (w.orders ir.2) ir.1 = false := by
    intro ir hir
    have hpos := h ir.2 (List.snd_mem_of_mem_enumFrom hir)
    simp [KitchenManager.isExpired, hpos]
  unfold KitchenManager._cleanShelf
  rw [KitchenShelf.removeOrders_nothing_matched shelf _ _ now w hnone]
  simp only [List.length_nil, true_and, if_true, discardAll_eq, List.not_mem_nil, if_false,
    List.nil_append]
  rw [KitchenShelf.removeOrders_eq shelf (JsValue.fn (KitchenManager.isAtIndex random))
    (KitchenManager.isAtIndex random) (some KitchenManager.outOfCapacityError) now w rfl]
  simp only [discardAll_eq, emitRemoved_eq]
  unfold KitchenManager.cleaned
  simp only [List.append_assoc]

/-- The frame of the world left by a clean. -/
theorem cleaned_frame (o : OrderRef) (shelf : ShelfRef) (p : Predicate) (err : JsError)
    (now : Int) (w : World) (ho : o ∉ (w.shelves shelf)._orders) :
    CleanFrame o shelf w (KitchenManager.cleaned shelf p err now w)
    ∧ ((KitchenManager.cleaned shelf p err now w).shelves shelf)._orders.length
        + (scan p now (w.shelves shelf)._orders 0 w.orders).1.length
      = (w.shelves shelf)._orders.length := by
  have hsub := scan_removed_sublist p now (w.shelves shelf)._orders 0 w.orders
  have hnot : o ∉ (scan p now (w.shelves shelf)._orders 0 w.orders).1 :=
    fun h => ho (hsub.subset h)
  unfold KitchenManager.cleaned
  refine ⟨⟨rfl, ?_, ?_, ?_, ?_, ?_, ?_, ?_, _, rfl, ?_⟩, ?_⟩
  · intro r
    simp only [scan_store]
    split <;> simp [markRemoved_id]
  · simp only [scan_store, if_neg hnot, markRemoved]
  · intro s hs
    simp [Function.update_noteq hs]
  · simp only [Function.update_same]
    exact scan_kept_sublist _ now _ 0 w.orders
  · simp [Function.update_same]
  · simp [Function.update_same]
  · simp [Function.update_same]
  · rw [concerning_append]
    have h1 : ∀ (src : Emitter), KitchenManager.concerning o
        ((scan p now (w.shelves shelf)._orders 0 w.orders).1.map
          (fun r => Event.removeOrder src r (some err))) = [] := by
      intro src
      apply concerning_of_others
      intro e he
      obtain ⟨r, hr, rfl⟩ := List.mem_map.mp he
      exact ⟨src, r, some err, rfl, fun h => hnot (h ▸ hr)⟩
    rw [h1, h1]
    rfl
  · simp only [Function.update_same]
    have := scan_lengths p now (w.shelves shelf)._orders 0 w.orders
    omega

/-- Every clean, forced or not, returns; it leaves the frame alone and the
residents it returns are those the shelf loses. A forced clean of a shelf with
a resident at the drawn position returns at least one resident. -/
theorem cleanShelf_frame_all (o : OrderRef) (shelf : ShelfRef) (forced : Bool)
    (now random : Int) (w : World) (ho : o ∉ (w.shelves shelf)._orders) :
    ∃ removed w2,
      KitchenManager._cleanShelf shelf forced now random w = (Except.ok removed, w2)
      ∧ CleanFrame o shelf w w2
      ∧ (w2.shelves shelf)._orders.length + removed.length = (w.shelves shelf)._orders.length
      ∧ (forced = true → 0 ≤ random →
          random.toNat < (w.shelves shelf)._orders.length → removed ≠ []) := by
  by_cases hexp : ∃ r ∈ (w.shelves shelf)._orders,
      (w.orders r).expired now = true
  · have hun := cleanShelf_unforced_cleaned shelf now random w
    have heq : KitchenManager._cleanShelf shelf forced now random w
        = KitchenManager._cleanShelf shelf false now random w := by
      cases forced with
      | false => rfl
      | true => exact cleanShelf_forced_of_expired shelf now random w hexp
    obtain ⟨f1, f2⟩ := cleaned_frame o shelf (KitchenManager.isExpired now)
      KitchenManager.expiredError now w ho
    refine ⟨_, _, heq.trans hun, f1, f2, ?_⟩
    intro _ _ _
    apply scan_nonempty
    obtain ⟨r, hr, hr2⟩ := hexp
    obtain ⟨i, hi⟩ := List.mem_iff_getElem?.mp hr
    refine ⟨(0 + i, r), ?_, ?_⟩
    · rw [List.mem_iff_getElem?]
      exact ⟨i, by rw [List.getElem?_enumFrom, hi]; rfl⟩
    · simpa [KitchenManager.isExpired] using hr2
  · have hlive : ∀ r ∈ (w.shelves shelf)._orders,
        (w.orders r).expired now = false := by
      intro r hr
      by_contra hcon
      exact hexp ⟨r, hr, by simpa using hcon⟩
    cases forced with
    | false =>
      rw [cleanShelf_unforced_cleaned]
      obtain ⟨f1, f2⟩ := cleaned_frame o shelf (KitchenManager.isExpired now)
        KitchenManager.expiredError now w ho
      exact ⟨_, _, rfl, f1, f2, fun h => by cases h⟩
    | true =>
      rw [cleanShelf_forced_cleaned shelf now random w hlive]
      obtain ⟨f1, f2⟩ := cleaned_frame o shelf (KitchenManager.isAtIndex random)
        KitchenManager.outOfCapacityError now w ho
      refine ⟨_, _, rfl, f1, f2, ?_⟩
      intro _ h0 hlt
      apply scan_nonempty
      refine ⟨(0 + random.toNat, (w.shelves shelf)._orders.get ⟨random.toNat, hlt⟩), ?_, ?_⟩
      · rw [List.mem_iff_getElem?]
        exact ⟨random.toNat, by
          rw [List.getElem?_enumFrom, List.getElem?_eq_getElem hlt]
          rfl⟩
      · simp [KitchenManager.isAtIndex, Int.toNat_of_nonneg h0]

/-! ### The removal of an order by its own call -/

theorem filter_ne_of_not_mem (o : OrderRef) (l : List OrderRef) (h : o ∉ l) :
    l.filter (fun r => decide (r ≠ o)) = l := by
  rw [List.filter_eq_self]
  intro r hr
  simpa using fun heq : r = o => h (heq ▸ hr)

/-- The removal of an order that is in the registry at most once and on no
shelf, when no other tracked order has its id: the call returns the order alone;
if the order was in the registry it leaves it, gets a removal timestamp and one
`removeOrder` event of the kitchen is emitted; otherwise nothing changes. -/
theorem Kitchen.removeOrders_own (o : OrderRef) (err : Option JsError) (now : Int)
    (w : World) (a : Nat) (ha : a ≤ 1) (hcount : w.kitchen._orders.count o = a)
    (hshelf : ∀ s, o ∉ (w.shelves s)._orders)
    (hid : ∀ r, r ≠ o → Tracked w r → (w.orders r).id ≠ (w.orders o).id) :
    ∃ wd, Kitchen.removeOrders (JsValue.order o) err now w = (Except.ok [o], wd)
      ∧ wd.shelves = w.shelves
      ∧ wd.kitchen._shelfs = w.kitchen._shelfs
      ∧ wd.kitchen._orders = w.kitchen._orders.filter (fun r => decide (r ≠ o))
      ∧ (∀ r, r ≠ o → wd.orders r = w.orders r)
      ∧ wd.orders o = (if a = 1 then { w.orders o with removed := some now } else w.orders o)
      ∧ wd.events = w.events
          ++ (if a = 1 then [Event.removeOrder Emitter.kitchen o err] else []) := by
  have hsh : ∀ s ∈ w.kitchen._shelfs, ∀ r ∈ (w.shelves s)._orders,
      (w.orders r).id ≠ (w.orders o).id := by
    intro s hs r hr
    exact hid r (fun h => hshelf s (h ▸ hr)) (Or.inr ⟨s, hs, hr⟩)
  have hreg : ∀ r ∈ w.kitchen._orders, r ≠ o → (w.orders r).id ≠ (w.orders o).id :=
    fun r hr hro => hid r hro (Or.inl hr)
  by_cases h1 : a = 1
  · subst h1
    rw [Kitchen.removeOrders_registered o err now w hcount hreg hsh]
    refine ⟨_, rfl, rfl, rfl, rfl, ?_, ?_, ?_⟩
    · intro r hr
      simp [Function.update_noteq hr]
    · simp [Function.update_same]
    · simp
  · have h0 : a = 0 := by omega
    subst h0
    have hnot : o ∉ w.kitchen._orders := List.count_eq_zero.mp hcount
    have hnt : NothingTracked w (idPredicate (w.orders o).id) := by
      constructor
      · intro ir hir
        have hmem : ir.2 ∈ w.kitchen._orders := List.snd_mem_of_mem_enumFrom hir
        have hne : ir.2 ≠ o := fun h => hnot (h ▸ hmem)
        simp [idPredicate, hreg ir.2 hmem hne]
      · intro s hs ir hir
        have hmem : ir.2 ∈ (w.shelves s)._orders := List.snd_mem_of_mem_enumFrom hir
        simp [idPredicate, hsh s hs ir.2 hmem]
    rw [Kitchen.removeOrders_no_match (JsValue.order o) (idPredicate (w.orders o).id) err now w
      rfl hnt]
    refine ⟨w, rfl, rfl, rfl, (filter_ne_of_not_mem o _ hnot).symm, fun _ _ => rfl, ?_, ?_⟩
    · simp
    · simp

/-! ### One attempt to store the order -/

theorem tracked_of_cleanFrame {o : OrderRef} {sh : ShelfRef} {w wc : World}
    (hf : CleanFrame o sh w wc) (r : OrderRef) (h : Tracked wc r) : Tracked w r := by
  obtain ⟨hk, _, _, hsame, hsub, _⟩ := hf
  rcases h with h | ⟨s, hs, hr⟩
  · exact Or.inl (by rw [hk] at h; exact h)
  · refine Or.inr ⟨s, by rw [hk] at hs; exact hs, ?_⟩
    by_cases hss : s = sh
    · subst hss
      exact hsub.subset hr
    · rw [hsame s hss] at hr
      exact hr

/-- The resumption of a call that cleans the shelf `sh` and tries to store its
order there, for an order that is in the registry at most once and on no shelf
and whose id no other tracked order has. After the clean, which leaves the frame
`CleanFrame` alone, either the shelf has room: the order is stored at its end
with status `AWAITING_COURIER`, and the call goes on with `_dispatchCourier`; or
it has none: the order is out of the registry and the call goes on with a forced
clean when the shelf is the overflow shelf and with the overflow shelf otherwise.
If the order was in the registry, one `removeOrder` notification without cause is
emitted for it before anything else. -/
theorem cleanAndAssign_outcome (o : OrderRef) (sh : ShelfRef) (inp : Inputs)
    (T : ManagerState) (base seen : List Event) (a : Nat) (ha : a ≤ 1)
    (h : OrderTrace o a none base seen T.world) :
    ∃ wc : World,
      (KitchenManager._cleanShelf sh false inp.now inp.random T.world).2 = wc
      ∧ CleanFrame o sh T.world wc
      ∧ ((((wc.shelves sh)._orders.length : ℕ) : ℚ) < (wc.shelves sh).capacity →
          ∃ w2, KitchenManager.cleanAndAssign o sh inp T
              = KitchenManager._dispatchCourier o inp.now { T with world := w2 }
            ∧ OrderTrace o 0 (some sh) base
                (seen ++ (if a = 1 then [Event.removeOrder Emitter.kitchen o none] else [])
                  ++ [Event.assignOrderToShelf Emitter.kitchen o sh]) w2
            ∧ w2.orders o
              = { T.world.orders o with
                  removed := none,
                  _decayHistory := (T.world.orders o)._decayHistory
                    ++ [{ decayModifier := (T.world.shelves sh).decayModifier, date := inp.now }],
                  status := StatusField.member KitchenOrderStatus.AWAITING_COURIER }
            ∧ (∀ r, r ≠ o → w2.orders r = wc.orders r)
            ∧ w2.kitchen._shelfs = wc.kitchen._shelfs
            ∧ w2.shelves = Function.update wc.shelves sh
                { wc.shelves sh with _orders := (wc.shelves sh)._orders ++ [o] }
            ∧ w2.events = wc.events
                ++ ((if a = 1 then [Event.removeOrder Emitter.kitchen o none] else [])
                  ++ [Event.insertOrder (Emitter.shelf sh) o,
                      Event.assignOrderToShelf Emitter.kitchen o sh])
            ∧ w2.kitchen._orders = wc.kitchen._orders.filter (fun r => decide (r ≠ o)))
      ∧ ((wc.shelves sh).capacity ≤ (((wc.shelves sh)._orders.length : ℕ) : ℚ) →
          ∃ wr, KitchenManager.cleanAndAssign o sh inp T
              = (if (wc.shelves sh).kind = none then
                  (Pipeline.forcedCleaning o sh, { T with world := wr })
                else KitchenManager.retryOnOverflow o inp.now { T with world := wr })
            ∧ OrderTrace o 0 none base
                (seen ++ (if a = 1 then [Event.removeOrder Emitter.kitchen o none] else [])) wr
            ∧ (wr.orders o).id = (T.world.orders o).id
            ∧ (∀ r, r ≠ o → wr.orders r = wc.orders r)
            ∧ wr.kitchen._shelfs = wc.kitchen._shelfs
            ∧ wr.shelves = wc.shelves
            ∧ wr.events = wc.events
                ++ (if a = 1 then [Event.removeOrder Emitter.kitchen o none] else [])
            ∧ wr.kitchen._orders = wc.kitchen._orders.filter (fun r => decide (r ≠ o))
            ∧ wr.orders o
              = (if a = 1 then { T.world.orders o with removed := some inp.now }
                else T.world.orders o)) := by
  obtain ⟨h2, h3, hid, extra, h4, h5⟩ := h
  have hnot : ∀ s, o ∉ (T.world.shelves s)._orders := by
    intro s
    have := h3 s
    simp only [if_false] at this
    exact List.count_eq_zero.mp (by simpa using this)
  obtain ⟨removed, wc, hclean, hframe, _, _⟩ :=
    cleanShelf_frame_all o sh false inp.now inp.random T.world (hnot sh)
  have hframe2 := hframe
  obtain ⟨hck, hcid, hco, hcsh, hcsub, hckind, hccap, hcmod, cextra, hcev, hcq⟩ := hframe
  have hsubset : ∀ s, ∀ r ∈ (wc.shelves s)._orders, r ∈ (T.world.shelves s)._orders := by
    intro s r hr
    by_cases hs : s = sh
    · subst hs
      exact hcsub.subset hr
    · rw [hcsh s hs] at hr
      exact hr
  have hnotc : ∀ s, o ∉ (wc.shelves s)._orders := fun s hmem => hnot s (hsubset s o hmem)
  have hidc : ∀ r, r ≠ o → Tracked wc r → (wc.orders r).id ≠ (wc.orders o).id := by
    intro r hr ht
    rw [hcid, hcid]
    exact hid r hr (tracked_of_cleanFrame hframe2 r ht)
  obtain ⟨wd, hrem, hdsh, hdshelfs, hdreg, hdord, hdo, hdev⟩ :=
    Kitchen.removeOrders_own o none inp.now wc a ha (by rw [hck]; exact h2) hnotc hidc
  have hregcount : (wd.kitchen._orders).count o = 0 := by
    rw [hdreg, List.count_eq_zero]
    intro hmem
    have := (List.mem_filter.mp hmem).2
    simp at this
  have htracked_d : ∀ r, r ≠ o → Tracked wd r → Tracked wc r := by
    intro r _ ht
    rcases ht with ht | ⟨s, hs, hr⟩
    · rw [hdreg] at ht
      exact Or.inl (List.mem_filter.mp ht).1
    · exact Or.inr ⟨s, by rw [hdshelfs] at hs; exact hs, by rw [hdsh] at hr; exact hr⟩
  have hdoid : (wd.orders o).id = (T.world.orders o).id := by
    rw [hdo, ← hco]
    split <;> rfl
  have hseen : KitchenManager.concerning o
      (extra ++ (cextra
        ++ (if a = 1 then [Event.removeOrder Emitter.kitchen o none] else [])))
      = seen ++ (if a = 1 then [Event.removeOrder Emitter.kitchen o none] else []) := by
    rw [concerning_append, concerning_append, h5, hcq]
    split <;> simp [KitchenManager.concerning, KitchenManager.notifications, Event.concerns]
  refine ⟨wc, by rw [hclean], hframe2, ?_, ?_⟩
  · intro hroom
    have hcap : ¬ (wd.shelves sh).capacity ≤ (((wd.shelves sh)._orders.length : ℕ) : ℚ) := by
      rw [hdsh]
      exact not_le.mpr hroom
    refine ⟨?W2, ?heq, ?hst, ?ho, ?hothers, ?hshelfs, ?hsh, ?hev, ?hreg⟩
    case heq =>
      unfold KitchenManager.cleanAndAssign
      rw [hclean]
      simp only [Kitchen.assignOrdersToShelf, hrem]
      simp only [List.length_singleton, one_ne_zero, false_and, if_false,
        Kitchen.assignOrdersLoop, KitchenShelf.insertOrder_eq, hcap]
      exact rfl
    case hst =>
      refine ⟨?_, ?_, ?_, extra ++ (cextra
        ++ (if a = 1 then [Event.removeOrder Emitter.kitchen o none] else []))
        ++ [Event.insertOrder (Emitter.shelf sh) o,
            Event.assignOrderToShelf Emitter.kitchen o sh], ?_, ?_⟩
      · simpa [World.setOrder, World.emit] using hregcount
      · intro s
        by_cases hs : sh = s
        · subst hs
          simp only [World.setOrder, World.emit, Function.update_same, if_true, hdsh]
          rw [List.count_append, List.count_eq_zero.mpr (hnotc sh)]
          simp
        · have hs2 : s ≠ sh := fun h => hs h.symm
          have hs3 : ¬ (some sh = some s) := fun h => hs (Option.some.inj h)
          simp only [World.setOrder, World.emit, Function.update_noteq hs2, if_neg hs3, hdsh]
          exact List.count_eq_zero.mpr (hnotc s)
      · intro r hr ht
        have hT : Tracked wd r := by
          rcases ht with ht | ⟨s, hs, hmem⟩
          · exact Or.inl (by simpa [World.setOrder, World.emit] using ht)
          · refine Or.inr ⟨s, by simpa [World.setOrder, World.emit] using hs, ?_⟩
            by_cases hss : s = sh
            · subst hss
              have : r ∈ (wd.shelves s)._orders ++ [o] := by
                simpa [World.setOrder, World.emit, Function.update_same] using hmem
              rcases List.mem_append.mp this with h1 | h1
              · exact h1
              · exact absurd (List.mem_singleton.mp h1) hr
            · simpa [World.setOrder, World.emit, Function.update_noteq hss] using hmem
        have hne := hidc r hr (htracked_d r hr hT)
        simp only [World.setOrder, World.emit, Function.update_same, Function.update_noteq hr,
          hdord r hr]
        rw [hdoid, ← hco]
        exact hne
      · simp [World.setOrder, World.emit, hdev, hcev, h4]
      · rw [concerning_append, hseen]
        simp [KitchenManager.concerning, KitchenManager.notifications, Event.concerns]
    case ho =>
      simp only [World.setOrder, World.emit, Function.update_same, hdo, hdsh, hcmod, hco]
      split <;> rfl
    case hothers =>
      intro r hr
      simp only [World.setOrder, World.emit, Function.update_noteq hr, hdord r hr]
    case hshelfs =>
      simp only [World.setOrder, World.emit, hdshelfs]
    case hsh =>
      simp only [World.setOrder, World.emit, hdsh]
    case hev =>
      simp only [World.setOrder, World.emit, hdev, List.append_assoc]
      rfl
    case hreg =>
      simp only [World.setOrder, World.emit, hdreg]
  · intro hfull
    have hcap : (wd.shelves sh).capacity ≤ (((wd.shelves sh)._orders.length : ℕ) : ℚ) := by
      rw [hdsh]
      exact hfull
    refine ⟨wd, ?_, ⟨hregcount, ?_, ?_, extra ++ (cextra
        ++ (if a = 1 then [Event.removeOrder Emitter.kitchen o none] else [])), ?_, hseen⟩,
      hdoid, hdord, hdshelfs, hdsh, hdev, hdreg, by rw [hdo, hco]⟩
    · unfold KitchenManager.cleanAndAssign
      rw [hclean]
      simp only [Kitchen.assignOrdersToShelf, hrem]
      simp only [List.length_singleton, one_ne_zero, false_and, if_false,
        Kitchen.assignOrdersLoop, KitchenShelf.insertOrder_eq, hcap, if_true]
      simp [hdsh]
    · intro s
      have hn : ¬ ((none : Option ShelfRef) = some s) := fun hx => by cases hx
      rw [hdsh, if_neg hn]
      exact List.count_eq_zero.mpr (hnotc s)
    · intro r hr ht
      rw [hdord r hr, hdoid, ← hco]
      exact hidc r hr (htracked_d r hr ht)
    · rw [hdev, hcev, h4]
      simp only [List.append_assoc]

theorem orderTrace_not_mem {o : OrderRef} {a : Nat} {base seen : List Event} {w : World}
    (h : OrderTrace o a none base seen w) (s : ShelfRef) : o ∉ (w.shelves s)._orders := by
  have hn : ¬ ((none : Option ShelfRef) = some s) := fun hx => by cases hx
  have := h.2.1 s
  rw [if_neg hn] at this
  exact List.count_eq_zero.mp this

/-- A clean keeps what a call knows about its order, when the order is on no
shelf. -/
theorem orderTrace_cleanFrame {o : OrderRef} {a : Nat} {base seen : List Event}
    {sh : ShelfRef} {w wc : World}
    (h : OrderTrace o a none base seen w) (hf : CleanFrame o sh w wc) :
    OrderTrace o a none base seen wc := by
  have hnot := orderTrace_not_mem h
  have hf2 := hf
  obtain ⟨h2, h3, hid, extra, h4, h5⟩ := h
  obtain ⟨hck, hcid, hco, hcsh, hcsub, _, _, _, cextra, hcev, hcq⟩ := hf
  refine ⟨by rw [hck]; exact h2, ?_, ?_, extra ++ cextra, ?_, ?_⟩
  · intro s
    have hn : ¬ ((none : Option ShelfRef) = some s) := fun hx => by cases hx
    rw [if_neg hn, List.count_eq_zero]
    by_cases hs : s = sh
    · subst hs
      exact fun hmem => hnot s (hcsub.subset hmem)
    · rw [hcsh s hs]
      exact hnot s
  · intro r hr ht
    rw [hcid, hcid]
    exact hid r hr (tracked_of_cleanFrame hf2 r ht)
  · rw [hcev, h4, List.append_assoc]
  · rw [concerning_append, h5, hcq, List.append_nil]

/-- Writing the status of the order keeps what a call knows about it. -/
theorem orderTrace_setStatus {o : OrderRef} {a : Nat} {sh : Option ShelfRef}
    {base seen : List Event} {w : World} (status : StatusField)
    (h : OrderTrace o a sh base seen w) :
    OrderTrace o a sh base seen (w.setOrder o { w.orders o with status := status }) := by
  obtain ⟨h2, h3, hid, extra, h4, h5⟩ := h
  refine ⟨h2, h3, ?_, extra, h4, h5⟩
  intro r hr ht
  have ht2 : Tracked w r := ht
  simp only [World.setOrder, Function.update_same, Function.update_noteq hr]
  exact hid r hr ht2

theorem nothingTracked_of_trace {o : OrderRef} {base seen : List Event} {w : World}
    (h : OrderTrace o 0 none base seen w) : NothingTracked w (idPredicate (w.orders o).id) := by
  have hnot := orderTrace_not_mem h
  obtain ⟨h2, _, hid, _⟩ := h
  have hreg : o ∉ w.kitchen._orders := List.count_eq_zero.mp h2
  constructor
  · intro ir hir
    have hmem : ir.2 ∈ w.kitchen._orders := List.snd_mem_of_mem_enumFrom hir
    have hne : ir.2 ≠ o := fun hx => hreg (hx ▸ hmem)
    simp [idPredicate, hid ir.2 hne (Or.inl hmem)]
  · intro s hs ir hir
    have hmem : ir.2 ∈ (w.shelves s)._orders := List.snd_mem_of_mem_enumFrom hir
    have hne : ir.2 ≠ o := fun hx => hnot s (hx ▸ hmem)
    simp [idPredicate, hid ir.2 hne (Or.inr ⟨s, hs, hmem⟩)]

/-- The end of the `catch` block of `_assignOrderToShelf` for an order that is
tracked nowhere: without an overflow shelf the order is discarded, no event is
emitted and the call throws an error of kind `OUT_OF_CAPACITY`; with one, the
call starts again with the overflow shelf. -/
theorem retryOnOverflow_eq (o : OrderRef) (now : Int) (S : ManagerState)
    (base seen : List Event) (h : OrderTrace o 0 none base seen S.world) :
    KitchenManager.retryOnOverflow o now S
      = match Kitchen.getShelf none S.world with
        | none =>
          (Pipeline.rejected KitchenManager.outOfCapacityError,
            { S with
              world := S.world.setOrder o
                ({ S.world.orders o with
                  status := StatusField.member KitchenOrderStatus.DISCARDED }) })
        | some overflow =>
          (Pipeline.cleaning o overflow,
            { S with
              world := S.world.setOrder o
                ({ S.world.orders o with status := StatusField.undefined }) }) := by
  unfold KitchenManager.retryOnOverflow
  cases hget : Kitchen.getShelf none S.world with
  | none =>
    simp only
    rw [Kitchen.removeOrders_no_match (JsValue.order o) (idPredicate (S.world.orders o).id)
      (some KitchenManager.outOfCapacityError) now S.world rfl (nothingTracked_of_trace h)]
  | some overflow => rfl

/-- The resumption of a call that was about to run the forced clean. -/
theorem resume_forcedCleaning (o : OrderRef) (sh : ShelfRef) (inp : Inputs) (T : ManagerState)
    (base seen : List Event) (h : OrderTrace o 0 none base seen T.world) :
    ∃ (removed : List OrderRef) (wf : World),
      KitchenManager._cleanShelf sh true inp.now inp.random T.world = (Except.ok removed, wf)
      ∧ (Pipeline.forcedCleaning o sh).resume inp T
        = KitchenManager.retryOnOverflow o inp.now { T with world := wf }
      ∧ CleanFrame o sh T.world wf
      ∧ OrderTrace o 0 none base seen wf
      ∧ (wf.shelves sh)._orders.length + removed.length = (T.world.shelves sh)._orders.length
      ∧ (0 ≤ inp.random → inp.random.toNat < (T.world.shelves sh)._orders.length →
          removed ≠ []) := by
  obtain ⟨removed, wf, hclean, hframe, hlen, hne⟩ :=
    cleanShelf_frame_all o sh true inp.now inp.random T.world (orderTrace_not_mem h sh)
  refine ⟨removed, wf, hclean, ?_, hframe, orderTrace_cleanFrame h hframe, hlen, hne rfl⟩
  simp only [Pipeline.resume, hclean]

/-- What `_dispatchCourier` does to the world: it emits `dispatchCourier` for a
courier bound to the order, or nothing while the call waits to make a courier. -/
theorem dispatchCourier_world (o : OrderRef) (now : Int) (S : ManagerState) :
    ((KitchenManager._dispatchCourier o now S).1 = Pipeline.contacting o
      ∧ (KitchenManager._dispatchCourier o now S).2 = S)
    ∨ ∃ c, (KitchenManager._dispatchCourier o now S).1 = Pipeline.travelling o c
      ∧ (KitchenManager._dispatchCourier o now S).2.world
        = S.world.emit (Event.dispatchCourier Emitter.manager c (some o))
      ∧ ((KitchenManager._dispatchCourier o now S).2.couriers c).order = some o := by
  rw [dispatchCourier_eq]
  cases (S._couriers.filter (fun c => decide ((S.couriers c).dispatched = none))).head? with
  | none => exact Or.inl ⟨rfl, rfl⟩
  | some c =>
    refine Or.inr ⟨c, rfl, rfl, ?_⟩
    simp [KitchenManager.dispatch, Function.update_same]

/-! ### A full shelf and no overflow shelf -/

theorem getShelf_congr (kind : Option String) (w1 w2 : World)
    (h1 : w2.kitchen._shelfs = w1.kitchen._shelfs)
    (h2 : ∀ s, (w2.shelves s).kind = (w1.shelves s).kind) :
    Kitchen.getShelf kind w2 = Kitchen.getShelf kind w1 := by
  unfold Kitchen.getShelf
  rw [h1]
  congr 1
  funext s
  rw [h2 s]

/-- `Kitchen.removeOrders` called with a single order never returns an empty
list: when nothing matched, the order itself is returned. -/
theorem Kitchen.removeOrders_order_ne_nil (o : OrderRef) (err : Option JsError) (now : Int)
    (w : World) (out : List OrderRef) (w2 : World)
    (h : Kitchen.removeOrders (JsValue.order o) err now w = (Except.ok out, w2)) :
    out ≠ [] := by
  unfold Kitchen.removeOrders at h
  simp only [toModelPredicate] at h
  split at h
  · cases h
  · split_ifs at h with hl
    · obtain ⟨h1, _⟩ := Prod.mk.inj h
      have := Except.ok.inj h1
      rw [← this]
      simp
    · obtain ⟨h1, _⟩ := Prod.mk.inj h
      have := Except.ok.inj h1
      rw [← this]
      intro hnil
      exact hl (by rw [hnil]; rfl)

/-- `Kitchen.assignOrdersToShelf` called with an order and a shelf that holds at
least as many orders as its capacity, none of them with the id of the order:
the call throws an error of kind `OUT_OF_CAPACITY` and leaves the world as
`Kitchen.removeOrders` left it. -/
theorem Kitchen.assignOrdersToShelf_full (o : OrderRef) (s : ShelfRef) (now : Int) (w : World)
    (hfull : (w.shelves s).capacity ≤ (((w.shelves s)._orders.length : ℕ) : ℚ))
    (htarget : ∀ r ∈ (w.shelves s)._orders, (w.orders r).id ≠ (w.orders o).id) :
    ∃ out w2 removed,
      Kitchen.removeOrders (JsValue.order o) none now w = (Except.ok out, w2)
      ∧ Kitchen.assignOrdersToShelf (JsValue.order o) (JsValue.shelf s) now w
        = (Except.error KitchenManager.outOfCapacityError, w2)
      ∧ w2.kitchen = { w.kitchen with
          _orders := w.kitchen._orders.filter (fun r => decide ((w.orders r).id ≠ (w.orders o).id)) }
      ∧ (∀ s2, w2.shelves s2
          = if s2 ∈ w.kitchen._shelfs then
              { w.shelves s2 with
                _orders := (w.shelves s2)._orders.filter
                  (fun r => decide ((w.orders r).id ≠ (w.orders o).id)) }
            else w.shelves s2)
      ∧ w2.orders = markRemoved w.orders removed now
      ∧ w2.shelves s = w.shelves s := by
  obtain ⟨out, w2, removed, heq, hk, hsh, hord, _, _⟩ :=
    Kitchen.removeOrders_idPredicate (JsValue.order o) (w.orders o).id none now w rfl
  have hne := Kitchen.removeOrders_order_ne_nil o none now w out w2 heq
  have hlen : ¬ (out.length = 0) := fun h => hne (List.length_eq_zero.mp h)
  have hkeep : (w.shelves s)._orders.filter
      (fun r => decide ((w.orders r).id ≠ (w.orders o).id)) = (w.shelves s)._orders := by
    rw [List.filter_eq_self]
    intro r hr
    simpa using htarget r hr
  have hs : w2.shelves s = w.shelves s := by
    rw [hsh s]
    split
    · rw [hkeep]
    · rfl
  have hfull2 : (((w2.shelves s)._orders.length : ℕ) : ℚ) ≥ (w2.shelves s).capacity := by
    rw [hs]
    exact hfull
  refine ⟨out, w2, removed, heq, ?_, hk, hsh, hord, hs⟩
  unfold Kitchen.assignOrdersToShelf
  simp only [heq, hlen, false_and, if_false]
  cases out with
  | nil => exact absurd rfl hne
  | cons first rest =>
    simp only [Kitchen.assignOrdersLoop, KitchenShelf.insertOrder, hfull2, if_true]
    rfl

/-- C22 (counterexample to the claim as stated): the hot shelf of
`sameIdManager` is full of orders that are not expired and there is no overflow
shelf, but the resident 0 has the id of the order 2. The call throws
`OUT_OF_CAPACITY` and the shelf has lost the resident 0: it holds the order 1
only. -/
theorem assignOrderToShelf_loses_resident :
    Kitchen.getShelf none sameIdManager.world = none
    ∧ (sameIdManager.world.shelves 0)._orders = [0, 1]
    ∧ (sameIdManager.world.shelves 0).capacity = 2
    ∧ (∀ r ∈ (sameIdManager.world.shelves 0)._orders,
        (sameIdManager.world.orders r).expired 2 = false)
    ∧ (Pipeline.run [Inputs.at 2]
        (KitchenManager._assignOrderToShelf 2 (some 0) sameIdManager)).1
      = Pipeline.rejected KitchenManager.outOfCapacityError
    ∧ ((Pipeline.run [Inputs.at 2]
        (KitchenManager._assignOrderToShelf 2 (some 0) sameIdManager)).2.world.shelves 0)._orders
      = [1] := by
  decide!

/-- C22 (as amended): the kitchen has no overflow shelf, and `_assignOrderToShelf`
is called for an order with a shelf `sh` of a kind other than overflow that is
full, none of whose residents is expired when the clean runs and none of whose
residents has the id of the order. Run alone up to its end, the call throws an
error of kind `OUT_OF_CAPACITY`; the order has status `DISCARDED` and is neither
in the registry nor on a shelf of the kitchen nor on `sh`; the shelf `sh` is as
it was, with the residents it had; and so is every shelf that is not a shelf of
the kitchen. -/
theorem assignOrderToShelf_no_overflow (o : OrderRef) (sh : ShelfRef) (inp : Inputs)
    (st : ManagerState)
    (hkind : (st.world.shelves sh).kind ≠ none)
    (hnone : Kitchen.getShelf none st.world = none)
    (hfull : (st.world.shelves sh).capacity
      ≤ (((st.world.shelves sh)._orders.length : ℕ) : ℚ))
    (hlive : ∀ r ∈ (st.world.shelves sh)._orders,
      (st.world.orders r).expired inp.now = false)
    (htarget : ∀ r ∈ (st.world.shelves sh)._orders,
      (st.world.orders r).id ≠ (st.world.orders o).id) :
    (Pipeline.run [inp] (KitchenManager._assignOrderToShelf o (some sh) st)).1
      = Pipeline.rejected KitchenManager.outOfCapacityError
    ∧ KitchenManager.outOfCapacityError.kind = some ErrorCode.OUT_OF_CAPACITY
    ∧ ((Pipeline.run [inp] (KitchenManager._assignOrderToShelf o (some sh) st)).2.world.orders
        o).status = StatusField.member KitchenOrderStatus.DISCARDED
    ∧ o ∉ (Pipeline.run [inp]
        (KitchenManager._assignOrderToShelf o (some sh) st)).2.world.kitchen._orders
    ∧ (∀ s ∈ st.world.kitchen._shelfs, o ∉ ((Pipeline.run [inp]
        (KitchenManager._assignOrderToShelf o (some sh) st)).2.world.shelves s)._orders)
    ∧ o ∉ ((Pipeline.run [inp]
        (KitchenManager._assignOrderToShelf o (some sh) st)).2.world.shelves sh)._orders
    ∧ (Pipeline.run [inp] (KitchenManager._assignOrderToShelf o (some sh) st)).2.world.shelves sh
      = st.world.shelves sh
    ∧ (∀ s, s ∉ st.world.kitchen._shelfs →
        (Pipeline.run [inp] (KitchenManager._assignOrderToShelf o (some sh) st)).2.world.shelves s
          = st.world.shelves s) := by
  have hnot : o ∉ (st.world.shelves sh)._orders := fun hmem => htarget o hmem rfl
  -- the world after the status is written
  have hid0 : ∀ r, ((st.world.setOrder o
      { st.world.orders o with status := StatusField.undefined }).orders r).id
      = (st.world.orders r).id := by
    intro r
    by_cases hr : r = o
    · subst hr
      simp [World.setOrder, Function.update_same]
    · simp [World.setOrder, Function.update_noteq hr]
  have hlive0 : ∀ r ∈ ((st.world.setOrder o
        { st.world.orders o with status := StatusField.undefined }).shelves sh)._orders,
      ((st.world.setOrder o
        { st.world.orders o with status := StatusField.undefined }).orders r).expired inp.now
        = false := by
    intro r hr
    have hr2 : r ∈ (st.world.shelves sh)._orders := hr
    have hne : r ≠ o := fun hx => hnot (hx ▸ hr2)
    simp only [World.setOrder, Function.update_noteq hne]
    exact hlive r hr2
  have htarget0 : ∀ r ∈ ((st.world.setOrder o
        { st.world.orders o with status := StatusField.undefined }).shelves sh)._orders,
      ((st.world.setOrder o
        { st.world.orders o with status := StatusField.undefined }).orders r).id
      ≠ ((st.world.setOrder o
        { st.world.orders o with status := StatusField.undefined }).orders o).id := by
    intro r hr
    rw [hid0 r, hid0 o]
    exact htarget r hr
  obtain ⟨out, w2, removed, _, hassign, hk2, hsh2, hord2, hs2⟩ :=
    Kitchen.assignOrdersToShelf_full o sh inp.now
      (st.world.setOrder o { st.world.orders o with status := StatusField.undefined })
      hfull htarget0
  -- the second removal, in the `catch` block
  obtain ⟨out3, w3, removed3, heq3, hk3, hsh3, hord3, _, _⟩ :=
    Kitchen.removeOrders_idPredicate (JsValue.order o) (w2.orders o).id
      (some KitchenManager.outOfCapacityError) inp.now w2 rfl
  have hid2 : ∀ r, (w2.orders r).id = (st.world.orders r).id := by
    intro r
    rw [hord2, markRemoved_id, hid0]
  have hshelfs2 : w2.kitchen._shelfs = st.world.kitchen._shelfs := by
    rw [hk2]
    rfl
  have hkinds2 : ∀ s, (w2.shelves s).kind = (st.world.shelves s).kind := by
    intro s
    rw [hsh2 s]
    split <;> rfl
  have hget2 : Kitchen.getShelf none w2 = none := by
    rw [getShelf_congr none st.world w2 hshelfs2 hkinds2]
    exact hnone
  have hkind2 : ¬ ((w2.shelves sh).kind = none) := by
    rw [hkinds2 sh]
    exact hkind
  have hrun : Pipeline.run [inp] (KitchenManager._assignOrderToShelf o (some sh) st)
      = (Pipeline.rejected KitchenManager.outOfCapacityError,
          { st with
            world := w3.setOrder o
              ({ w3.orders o with
                status := StatusField.member KitchenOrderStatus.DISCARDED }) }) := by
    simp only [Pipeline.run, KitchenManager._assignOrderToShelf, List.foldl_cons, List.foldl_nil,
      Pipeline.resume, KitchenManager.cleanAndAssign]
    rw [cleanShelf_unforced_of_live sh inp.now inp.random _ hlive0]
    simp only [hassign, KitchenManager.outOfCapacityError, ne_eq, not_true_eq_false, if_false,
      hkind2, KitchenManager.retryOnOverflow, hget2]
    have heq3b := heq3
    simp only [KitchenManager.outOfCapacityError] at heq3b
    rw [heq3b]
  rw [hrun]
  have hfilter3 : ∀ l : List OrderRef,
      o ∉ l.filter (fun r => decide ((w2.orders r).id ≠ (w2.orders o).id)) := by
    intro l hmem
    have := (List.mem_filter.mp hmem).2
    simp at this
  refine ⟨rfl, rfl, ?_, ?_, ?_, ?_, ?_, ?_⟩
  · simp [World.setOrder, Function.update_same]
  · show o ∉ w3.kitchen._orders
    rw [hk3]
    exact hfilter3 _
  · intro s hs
    show o ∉ (w3.shelves s)._orders
    rw [hsh3 s, if_pos (by rw [hshelfs2]; exact hs)]
    exact hfilter3 _
  · show o ∉ (w3.shelves sh)._orders
    rw [hsh3 sh]
    split
    · exact hfilter3 _
    · rw [hs2]
      exact hnot
  · show w3.shelves sh = st.world.shelves sh
    have hkeep : (w2.shelves sh)._orders.filter
        (fun r => decide ((w2.orders r).id ≠ (w2.orders o).id)) = (w2.shelves sh)._orders := by
      rw [List.filter_eq_self]
      intro r hr
      rw [hs2] at hr
      rw [hid2 r, hid2 o]
      simpa using htarget r hr
    rw [hsh3 sh]
    split
    · rw [hkeep]
      exact hs2
    · exact hs2
  · intro s hs
    show w3.shelves s = st.world.shelves s
    have hs0 : s ∉ (st.world.setOrder o
        { st.world.orders o with status := StatusField.undefined }).kitchen._shelfs := hs
    rw [hsh3 s, if_neg (by rw [hshelfs2]; exact hs), hsh2 s, if_neg hs0]
    rfl

/-- C22 (as amended), on `fullHotManager`: the hot shelf holds the orders 0 and 1,
of ids "a" and "b", and the order 2 has the id "c". -/
theorem assignOrderToShelf_no_overflow_witness :
    (Pipeline.run [Inputs.at 2] (KitchenManager._assignOrderToShelf 2 (some 0) fullHotManager)).1
      = Pipeline.rejected KitchenManager.outOfCapacityError
    ∧ ((Pipeline.run [Inputs.at 2]
        (KitchenManager._assignOrderToShelf 2 (some 0) fullHotManager)).2.world.orders 2).status
      = StatusField.member KitchenOrderStatus.DISCARDED
    ∧ 2 ∉ (Pipeline.run [Inputs.at 2]
        (KitchenManager._assignOrderToShelf 2 (some 0) fullHotManager)).2.world.kitchen._orders
    ∧ (Pipeline.run [Inputs.at 2]
        (KitchenManager._assignOrderToShelf 2 (some 0) fullHotManager)).2.world.shelves 0
      = fullHotManager.world.shelves 0 := by
  have h := assignOrderToShelf_no_overflow 2 0 (Inputs.at 2) fullHotManager
    (by decide!) (by decide!) (by decide!) (by decide!) (by decide!)
  exact ⟨h.1, h.2.2.1, h.2.2.2.1, h.2.2.2.2.2.2.1⟩

/-! ### The end of `_assignOrderToShelf` -/

theorem getShelf_some {kind : Option String} {w : World} {s : ShelfRef}
    (h : Kitchen.getShelf kind w = some s) :
    (w.shelves s).kind = kind ∧ s ∈ w.kitchen._shelfs := by
  unfold Kitchen.getShelf at h
  exact ⟨by simpa using List.find?_some h, List.mem_of_find?_eq_some h⟩

theorem store_stop (inps : List Inputs) (x : Pipeline × ManagerState)
    (h : x.1.isStoring = false) : Pipeline.store inps x = (0, x) := by
  cases inps with
  | nil => rfl
  | cons inp rest => simp [Pipeline.store, h]

theorem store_cleaning (inp : Inputs) (rest : List Inputs) (o : OrderRef) (s : ShelfRef)
    (T : ManagerState) :
    Pipeline.store (inp :: rest) (Pipeline.cleaning o s, T)
      = ((Pipeline.store rest (KitchenManager.cleanAndAssign o s inp T)).1 + 1,
          (Pipeline.store rest (KitchenManager.cleanAndAssign o s inp T)).2) := by
  simp [Pipeline.store, Pipeline.isStoring, Pipeline.attempt, Pipeline.resume]

theorem store_forcedCleaning (inp : Inputs) (rest : List Inputs) (o : OrderRef) (s : ShelfRef)
    (T : ManagerState) :
    Pipeline.store (inp :: rest) (Pipeline.forcedCleaning o s, T)
      = Pipeline.store rest ((Pipeline.forcedCleaning o s).resume inp T) := by
  simp [Pipeline.store, Pipeline.isStoring, Pipeline.attempt]

/-- A clean changes no configuration and lengthens no shelf. -/
theorem cleanFrame_config {o : OrderRef} {sh : ShelfRef} {w w2 : World}
    (hf : CleanFrame o sh w w2) :
    SameConfig w w2 ∧ ∀ s, (w2.shelves s)._orders.length ≤ (w.shelves s)._orders.length := by
  obtain ⟨hk, _, _, hsame, hsub, hkind, hcap, hmod, _⟩ := hf
  refine ⟨⟨by rw [hk], ?_⟩, ?_⟩
  · intro s
    by_cases hs : s = sh
    · subst hs
      exact ⟨hkind, hcap, hmod⟩
    · rw [hsame s hs]
      exact ⟨rfl, rfl, rfl⟩
  · intro s
    by_cases hs : s = sh
    · subst hs
      exact hsub.length_le
    · rw [hsame s hs]

theorem overflowReady_mono {w w2 : World} {inps inps2 : List Inputs}
    (hc : SameConfig w w2)
    (hl : ∀ s, (w2.shelves s)._orders.length ≤ (w.shelves s)._orders.length)
    (hsub : ∀ inp ∈ inps2, inp ∈ inps)
    (h : OverflowReady w inps) : OverflowReady w2 inps2 := by
  intro V hV
  rw [getShelf_sameConfig hc] at hV
  obtain ⟨⟨n, hn, hcap⟩, hlen, hr⟩ := h V hV
  have hcapeq := (hc.2 V).2.1
  refine ⟨⟨n, hn, by rw [hcapeq]; exact hcap⟩, ?_, ?_⟩
  · rw [hcapeq]
    refine le_trans ?_ hlen
    exact_mod_cast hl V
  · intro inp hinp
    rw [hcapeq]
    exact hr inp (hsub inp hinp)

theorem stored_of_dispatch (o : OrderRef) (sh : ShelfRef) (now : Int) (T : ManagerState)
    (w2 : World) (base seen : List Event)
    (htr : OrderTrace o 0 (some sh) base seen w2)
    (hst : (w2.orders o).status = StatusField.member KitchenOrderStatus.AWAITING_COURIER) :
    OrderStored o (KitchenManager._dispatchCourier o now { T with world := w2 })
    ∧ (KitchenManager._dispatchCourier o now { T with world := w2 }).1.isStoring = false := by
  have hshelf : ∀ t, (w2.shelves t)._orders.count o = if t = sh then 1 else 0 := by
    intro t
    rw [htr.2.1 t]
    by_cases ht : t = sh
    · subst ht
      simp
    · have : ¬ (some sh = some t) := fun hx => ht (Option.some.inj hx).symm
      rw [if_neg this, if_neg ht]
  have hreg : o ∉ w2.kitchen._orders := List.count_eq_zero.mp htr.1
  rcases dispatchCourier_world o now { T with world := w2 } with ⟨h1, h2⟩ | ⟨c, h1, h2, _⟩
  · refine ⟨⟨Or.inl h1, ?_, ?_, sh, ?_⟩, ?_⟩
    · rw [h2]; exact hst
    · rw [h2]; exact hreg
    · rw [h2]; exact hshelf
    · rw [h1]; rfl
  · refine ⟨⟨Or.inr ⟨c, h1⟩, ?_, ?_, sh, ?_⟩, ?_⟩
    · rw [h2]; exact hst
    · rw [h2]; exact hreg
    · rw [h2]; exact hshelf
    · rw [h1]; rfl

/-- An attempt that finds room after the clean stores the order. -/
theorem store_room (o : OrderRef) (sh : ShelfRef) (inp : Inputs) (rest : List Inputs)
    (T : ManagerState) (base seen : List Event) (a : Nat) (ha : a ≤ 1)
    (h : OrderTrace o a none base seen T.world)
    (hroom : ((((KitchenManager._cleanShelf sh false inp.now inp.random T.world).2.shelves
        sh)._orders.length : ℕ) : ℚ)
      < ((KitchenManager._cleanShelf sh false inp.now inp.random T.world).2.shelves sh).capacity) :
    (Pipeline.store (inp :: rest) (Pipeline.cleaning o sh, T)).1 = 1
    ∧ OrderStored o (Pipeline.store (inp :: rest) (Pipeline.cleaning o sh, T)).2 := by
  obtain ⟨wc, hwc, _, hr, _⟩ := cleanAndAssign_outcome o sh inp T base seen a ha h
  rw [hwc] at hroom
  obtain ⟨w2, heq, htr, ho, _⟩ := hr hroom
  have hst : (w2.orders o).status = StatusField.member KitchenOrderStatus.AWAITING_COURIER := by
    rw [ho]
  obtain ⟨hs1, hs2⟩ := stored_of_dispatch o sh inp.now T w2 base _ htr hst
  rw [store_cleaning, heq, store_stop rest _ hs2]
  exact ⟨rfl, hs1⟩

/-- The call goes on with the overflow shelf, if there is one: with at most two
more attempts the order is stored. -/
theorem store_retry (o : OrderRef) (now : Int) (Y : ManagerState) (i j k : Inputs)
    (rest : List Inputs) (base seen : List Event)
    (h : OrderTrace o 0 none base seen Y.world)
    (hover : OverflowReady Y.world [j]) :
    (Kitchen.getShelf none Y.world = none
      ∧ Pipeline.store (i :: j :: k :: rest) (KitchenManager.retryOnOverflow o now Y)
        = (0, (Pipeline.rejected KitchenManager.outOfCapacityError,
            { Y with
              world := Y.world.setOrder o
                ({ Y.world.orders o with
                  status := StatusField.member KitchenOrderStatus.DISCARDED }) })))
    ∨ ((Pipeline.store (i :: j :: k :: rest) (KitchenManager.retryOnOverflow o now Y)).1 ≤ 2
      ∧ OrderStored o
        (Pipeline.store (i :: j :: k :: rest) (KitchenManager.retryOnOverflow o now Y)).2) := by
  rw [retryOnOverflow_eq o now Y base seen h]
  cases hget : Kitchen.getShelf none Y.world with
  | none =>
    left
    exact ⟨rfl, store_stop _ _ rfl⟩
  | some V =>
    right
    simp only
    obtain ⟨⟨n, hn, hcap⟩, hlen, hrand⟩ := hover V hget
    obtain ⟨hkindV, _⟩ := getShelf_some hget
    have h1 := orderTrace_setStatus StatusField.undefined h
    obtain ⟨wc, hwc, hframe, hroomcase, hfullcase⟩ := cleanAndAssign_outcome o V i
      { Y with
        world := Y.world.setOrder o { Y.world.orders o with status := StatusField.undefined } }
      base seen 0 (by omega) h1
    obtain ⟨hcfg, hlens⟩ := cleanFrame_config hframe
    by_cases hroom : ((((wc.shelves V)._orders.length : ℕ) : ℚ) < (wc.shelves V).capacity)
    · have := store_room o V i (j :: k :: rest) _ base seen 0 (by omega) h1
        (by rw [hwc]; exact hroom)
      exact ⟨by rw [this.1]; omega, this.2⟩
    · have hfull := not_lt.mp hroom
      obtain ⟨wr, heq, htr, _, _, hshelfs, hshelves, _, _⟩ := hfullcase hfull
      have hkc : (wc.shelves V).kind = none := by
        rw [(hcfg.2 V).1]
        exact hkindV
      rw [if_pos hkc] at heq
      obtain ⟨removed, wf, _, hres, hframe2, htr2, hlen2, hne⟩ :=
        resume_forcedCleaning o V j
          { Y with world := wr } base _ htr
      obtain ⟨hcfg2, hlens2⟩ := cleanFrame_config hframe2
      have hcfgr : SameConfig Y.world wr :=
        ⟨by rw [hshelfs]; exact hcfg.1, fun s => by rw [hshelves]; exact hcfg.2 s⟩
      have hcfgf : SameConfig Y.world wf := sameConfig_trans hcfgr hcfg2
      have hgetf : Kitchen.getShelf none wf = some V := by
        rw [getShelf_sameConfig hcfgf]
        exact hget
      have hcapY : (Y.world.shelves V).capacity = n := hcap
      have hcapr : (wr.shelves V).capacity = n := by
        rw [(hcfgr.2 V).2.1]
        exact hcapY
      have hlenr : (wr.shelves V)._orders.length = n := by
        have h1 : ((n : ℕ) : ℚ) ≤ (((wr.shelves V)._orders.length : ℕ) : ℚ) := by
          have hcapc : (wc.shelves V).capacity = (Y.world.shelves V).capacity := (hcfg.2 V).2.1
          rw [hshelves, ← hcapY, ← hcapc]
          exact hfull
        have h2 : (((wr.shelves V)._orders.length : ℕ) : ℚ) ≤ ((n : ℕ) : ℚ) := by
          rw [← hcapY]
          refine le_trans ?_ hlen
          rw [hshelves]
          exact_mod_cast hlens V
        have h3 : n ≤ (wr.shelves V)._orders.length := by exact_mod_cast h1
        have h4 : (wr.shelves V)._orders.length ≤ n := by exact_mod_cast h2
        omega
      obtain ⟨hr0, hr1⟩ := hrand j (List.mem_singleton.mpr rfl)
      have hr2 : j.random ≤ (n : Int) - 1 := by
        have : ((j.random : Int) : ℚ) ≤ ((n : ℕ) : ℚ) - 1 := by
          rw [← hcapY]
          exact hr1
        exact_mod_cast this
      have hremoved : removed ≠ [] := by
        apply hne hr0
        show j.random.toNat < (wr.shelves V)._orders.length
        rw [hlenr]
        omega
      have hlenf : (wf.shelves V)._orders.length < n := by
        have hpos : 0 < removed.length := List.length_pos.mpr hremoved
        have : (wf.shelves V)._orders.length + removed.length = n := by
          rw [← hlenr]
          exact hlen2
        omega
      have h3 := orderTrace_setStatus StatusField.undefined htr2
      obtain ⟨wc3, hwc3, hframe3, _, _⟩ := cleanAndAssign_outcome o V k
        { Y with
          world := wf.setOrder o { wf.orders o with status := StatusField.undefined } }
        base _ 0 (by omega) h3
      obtain ⟨hcfg3, hlens3⟩ := cleanFrame_config hframe3
      have hroom3 : ((((wc3.shelves V)._orders.length : ℕ) : ℚ) < (wc3.shelves V).capacity) := by
        rw [(hcfg3.2 V).2.1]
        show _ < (wf.shelves V).capacity
        rw [(hcfgf.2 V).2.1, hcapY]
        have : (wc3.shelves V)._orders.length < n := lt_of_le_of_lt (hlens3 V) hlenf
        exact_mod_cast this
      have hfin := store_room o V k rest
        { Y with
          world := wf.setOrder o { wf.orders o with status := StatusField.undefined } }
        base _ 0 (by omega) h3 (by rw [hwc3]; exact hroom3)
      rw [store_cleaning, heq, store_forcedCleaning, hres,
        retryOnOverflow_eq o j.now _ base _ htr2]
      simp only [hgetf]
      exact ⟨by rw [hfin.1], hfin.2⟩

/-- C30: `_assignOrderToShelf` is called, with no other call interleaved, for an
order that is in the registry at most once and on no shelf and whose id no other
tracked order has; the overflow shelf of the kitchen, if there is one, has a
capacity that is a natural number of at least 1 and holds no more orders than
that, and every index drawn lies in `0..capacity - 1` of it. Resumed at most five
times, the call has left `_assignOrderToShelf` after at most three calls of
`Kitchen.assignOrdersToShelf`: either the order is stored (it is once on one
shelf and on no other, out of the registry, with status `AWAITING_COURIER`), or
the kitchen has no overflow shelf and the call has thrown an error of kind
`OUT_OF_CAPACITY`. -/
theorem assignOrderToShelf_terminates (o : OrderRef) (sh : ShelfRef) (st : ManagerState)
    (inps : List Inputs) (hlen : 5 ≤ inps.length)
    (hcount : st.world.kitchen._orders.count o ≤ 1)
    (hshelf : ∀ s, o ∉ (st.world.shelves s)._orders)
    (hid : ∀ r, r ≠ o → Tracked st.world r → (st.world.orders r).id ≠ (st.world.orders o).id)
    (hover : ∀ V, Kitchen.getShelf none st.world = some V →
      (∃ n : ℕ, 1 ≤ n ∧ (st.world.shelves V).capacity = n)
      ∧ (((st.world.shelves V)._orders.length : ℕ) : ℚ) ≤ (st.world.shelves V).capacity
      ∧ ∀ inp ∈ inps,
          0 ≤ inp.random ∧ ((inp.random : Int) : ℚ) ≤ (st.world.shelves V).capacity - 1) :
    (Pipeline.store inps (KitchenManager._assignOrderToShelf o (some sh) st)).1 ≤ 3
    ∧ (Pipeline.store inps
        (KitchenManager._assignOrderToShelf o (some sh) st)).2.1.isStoring = false
    ∧ (OrderStored o (Pipeline.store inps (KitchenManager._assignOrderToShelf o (some sh) st)).2
      ∨ (Kitchen.getShelf none st.world = none
        ∧ (Pipeline.store inps (KitchenManager._assignOrderToShelf o (some sh) st)).2.1
          = Pipeline.rejected KitchenManager.outOfCapacityError
        ∧ KitchenManager.outOfCapacityError.kind = some ErrorCode.OUT_OF_CAPACITY)) := by
  obtain ⟨i1, i2, i3, i4, i5, rest, rfl⟩ :
      ∃ i1 i2 i3 i4 i5 rest, inps = i1 :: i2 :: i3 :: i4 :: i5 :: rest := by
    match inps, hlen with
    | i1 :: i2 :: i3 :: i4 :: i5 :: rest, _ => exact ⟨i1, i2, i3, i4, i5, rest, rfl⟩
  have hready : OverflowReady st.world (i1 :: i2 :: i3 :: i4 :: i5 :: rest) := hover
  have hnotStoring : ∀ x : Pipeline × ManagerState, OrderStored o x → x.1.isStoring = false := by
    intro x hx
    rcases hx.1 with h | ⟨c, h⟩ <;> rw [h] <;> rfl
  have h0 : OrderTrace o (st.world.kitchen._orders.count o) none st.world.events [] st.world := by
    refine ⟨rfl, ?_, hid, [], by simp, rfl⟩
    intro s
    have hn : ¬ ((none : Option ShelfRef) = some s) := fun hx => by cases hx
    rw [if_neg hn]
    exact List.count_eq_zero.mpr (hshelf s)
  have h1 := orderTrace_setStatus StatusField.undefined h0
  obtain ⟨wc, hwc, hframe, _, hfullcase⟩ := cleanAndAssign_outcome o sh i1
    { st with
      world := st.world.setOrder o { st.world.orders o with status := StatusField.undefined } }
    st.world.events [] (st.world.kitchen._orders.count o) hcount h1
  obtain ⟨hcfg, hlens⟩ := cleanFrame_config hframe
  have hcfg0 : SameConfig st.world wc := hcfg
  have hlens0 : ∀ s, (wc.shelves s)._orders.length ≤ (st.world.shelves s)._orders.length := hlens
  show (Pipeline.store (i1 :: i2 :: i3 :: i4 :: i5 :: rest) (Pipeline.cleaning o sh, _)).1 ≤ 3
    ∧ (Pipeline.store (i1 :: i2 :: i3 :: i4 :: i5 :: rest)
        (Pipeline.cleaning o sh, _)).2.1.isStoring = false
    ∧ (OrderStored o (Pipeline.store (i1 :: i2 :: i3 :: i4 :: i5 :: rest)
        (Pipeline.cleaning o sh, _)).2
      ∨ (Kitchen.getShelf none st.world = none
        ∧ (Pipeline.store (i1 :: i2 :: i3 :: i4 :: i5 :: rest) (Pipeline.cleaning o sh, _)).2.1
          = Pipeline.rejected KitchenManager.outOfCapacityError
        ∧ KitchenManager.outOfCapacityError.kind = some ErrorCode.OUT_OF_CAPACITY))
  by_cases hroom : ((((wc.shelves sh)._orders.length : ℕ) : ℚ) < (wc.shelves sh).capacity)
  · have := store_room o sh i1 (i2 :: i3 :: i4 :: i5 :: rest) _ st.world.events [] _ hcount h1
      (by rw [hwc]; exact hroom)
    exact ⟨by rw [this.1]; omega, hnotStoring _ this.2, Or.inl this.2⟩
  · obtain ⟨wr, heq, htr, _, _, hshelfs, hshelves, _, _⟩ := hfullcase (not_lt.mp hroom)
    have hcfgr : SameConfig st.world wr :=
      ⟨by rw [hshelfs]; exact hcfg0.1, fun s => by rw [hshelves]; exact hcfg0.2 s⟩
    have hlensr : ∀ s, (wr.shelves s)._orders.length ≤ (st.world.shelves s)._orders.length := by
      intro s
      rw [hshelves]
      exact hlens0 s
    rw [store_cleaning, heq]
    by_cases hk : (wc.shelves sh).kind = none
    · rw [if_pos hk, store_forcedCleaning]
      obtain ⟨removed, wf, _, hres, hframe2, htr2, _, _⟩ :=
        resume_forcedCleaning o sh i2
          { st with world := wr } st.world.events _ htr
      obtain ⟨hcfg2, hlens2⟩ := cleanFrame_config hframe2
      have hcfgf : SameConfig st.world wf := sameConfig_trans hcfgr hcfg2
      have hlensf : ∀ s, (wf.shelves s)._orders.length ≤ (st.world.shelves s)._orders.length :=
        fun s => le_trans (hlens2 s) (hlensr s)
      have hreadyf : OverflowReady wf [i4] :=
        overflowReady_mono hcfgf hlensf (fun inp hinp => by
          rw [List.mem_singleton.mp hinp]; simp) hready
      rw [hres]
      rcases store_retry o i2.now { st with world := wf } i3 i4 i5 rest st.world.events _ htr2
        hreadyf with ⟨hnone, hrej⟩ | ⟨hle, hstored⟩
      · rw [hrej]
        refine ⟨by omega, rfl, Or.inr ⟨?_, rfl, rfl⟩⟩
        rw [← getShelf_sameConfig hcfgf]
        exact hnone
      · exact ⟨Nat.add_le_add_right hle 1, hnotStoring _ hstored, Or.inl hstored⟩
    · rw [if_neg hk]
      have hreadyr : OverflowReady wr [i3] :=
        overflowReady_mono hcfgr hlensr (fun inp hinp => by
          rw [List.mem_singleton.mp hinp]; simp) hready
      rcases store_retry o i1.now { st with world := wr } i2 i3 i4 (i5 :: rest) st.world.events _
        htr hreadyr with ⟨hnone, hrej⟩ | ⟨hle, hstored⟩
      · rw [hrej]
        refine ⟨by omega, rfl, Or.inr ⟨?_, rfl, rfl⟩⟩
        rw [← getShelf_sameConfig hcfgr]
        exact hnone
      · exact ⟨Nat.add_le_add_right hle 1, hnotStoring _ hstored, Or.inl hstored⟩

/-- C30, on `saturatedManager`: both shelves are full when the order 4 is to be
stored on the hot shelf. -/
theorem assignOrderToShelf_terminates_witness :
    (Pipeline.store [Inputs.at 2, Inputs.at 3, Inputs.at 4, Inputs.at 5, Inputs.at 6]
      (KitchenManager._assignOrderToShelf 4 (some 0) saturatedManager)).1 ≤ 3
    ∧ OrderStored 4
      (Pipeline.store [Inputs.at 2, Inputs.at 3, Inputs.at 4, Inputs.at 5, Inputs.at 6]
        (KitchenManager._assignOrderToShelf 4 (some 0) saturatedManager)).2 := by
  have h := assignOrderToShelf_terminates 4 0 saturatedManager
    [Inputs.at 2, Inputs.at 3, Inputs.at 4, Inputs.at 5, Inputs.at 6]
    (by decide)
    (by simp [saturatedManager])
    (by
      intro s
      by_cases hs : s = 0 <;> simp [saturatedManager, hs])
    (by
      intro r hr ht
      have hr2 : r = 0 ∨ r = 1 ∨ r = 2 ∨ r = 3 := by
        rcases ht with ht | ⟨s, hs, hmem⟩
        · exact absurd (by simpa [saturatedManager] using ht) hr
        · have hs2 : s = 0 ∨ s = 1 := by simpa [saturatedManager] using hs
          rcases hs2 with rfl | rfl
          · have : r = 0 ∨ r = 1 := by simpa [saturatedManager] using hmem
            tauto
          · have : r = 2 ∨ r = 3 := by simpa [saturatedManager] using hmem
            tauto
      rcases hr2 with rfl | rfl | rfl | rfl <;> simp [saturatedManager, KitchenOrder.new])
    (by
      intro V hV
      have hV2 : V = 1 := by
        have : Kitchen.getShelf none saturatedManager.world = some 1 := by
          simp [Kitchen.getShelf, saturatedManager]
        rw [this] at hV
        exact (Option.some.inj hV).symm
      subst hV2
      refine ⟨⟨2, by decide, by norm_num [saturatedManager]⟩, by norm_num [saturatedManager], ?_⟩
      intro inp hinp
      simp only [List.mem_cons, List.mem_singleton, List.not_mem_nil, or_false] at hinp
      rcases hinp with rfl | rfl | rfl | rfl | rfl <;> norm_num [saturatedManager, Inputs.at])
  refine ⟨h.1, ?_⟩
  rcases h.2.2 with hs | ⟨hnone, _⟩
  · exact hs
  · have : Kitchen.getShelf none saturatedManager.world = some 1 := by
      simp [Kitchen.getShelf, saturatedManager]
    rw [this] at hnone
    cases hnone

/-! ### The removal of an order from its shelf by its own call -/

theorem filter_id_eq_singleton (o : OrderRef) (store : Store) (rs : List OrderRef)
    (hcount : rs.count o = 1)
    (hid : ∀ r ∈ rs, r ≠ o → (store r).id ≠ (store o).id) :
    rs.filter (fun r => decide ((store r).id = (store o).id)) = [o]
    ∧ rs.filter (fun r => decide ((store r).id ≠ (store o).id))
      = rs.filter (fun r => decide (r ≠ o)) := by
  constructor
  · have h1 : rs.filter (fun r => decide ((store r).id = (store o).id))
        = rs.filter (fun r => r == o) := by
      apply List.filter_congr
      intro r hr
      by_cases hro : r = o
      · subst hro
        simp
      · simp [hro, hid r hr hro]
    rw [h1, List.filter_beq, hcount]
    rfl
  · apply List.filter_congr
    intro r hr
    by_cases hro : r = o
    · subst hro
      simp
    · simp [hro, hid r hr hro]

theorem markRemoved_singleton (store : Store) (o : OrderRef) (now : Int) :
    markRemoved store [o] now
      = Function.update store o { store o with removed := some now } := by
  funext r
  by_cases hro : r = o
  · subst hro
    simp [markRemoved, Function.update_same]
  · simp [markRemoved, hro, Function.update_noteq hro]

/-- The second loop of `Kitchen.removeOrders` for the id of an order that is
once on the shelf `sh` and on no other shelf, when no other resident of the
shelves visited has that id: if `sh` is visited the order is removed from it,
and nothing else changes. -/
theorem Kitchen.removeOrdersShelves_shelved (o : OrderRef) (sh : ShelfRef)
    (err : Option JsError) (now : Int) (ss : List ShelfRef) (acc : List OrderRef) (w : World)
    (hcount : (w.shelves sh)._orders.count o = 1)
    (hother : ∀ s, s ≠ sh → o ∉ (w.shelves s)._orders)
    (hid : ∀ s ∈ ss, ∀ r ∈ (w.shelves s)._orders, r ≠ o → (w.orders r).id ≠ (w.orders o).id) :
    Kitchen.removeOrdersShelves (idPredicate (w.orders o).id) err now ss acc w
      = if sh ∈ ss then
          (Except.ok (acc ++ [o]),
            { w with
              orders := Function.update w.orders o { w.orders o with removed := some now },
              shelves := Function.update w.shelves sh
                { w.shelves sh with
                  _orders := (w.shelves sh)._orders.filter (fun r => decide (r ≠ o)) },
              events := w.events ++ [Event.removeOrder (Emitter.shelf sh) o err] })
        else (Except.ok acc, w) := by
  induction ss generalizing acc with
  | nil => simp [Kitchen.removeOrdersShelves]
  | cons s rest ih =>
    by_cases hs : s = sh
    · subst hs
      obtain ⟨hmatch, hkeep⟩ := filter_id_eq_singleton o w.orders (w.shelves s)._orders hcount
        (hid s (List.mem_cons_self s rest))
      rw [if_pos (List.mem_cons_self s rest)]
      unfold Kitchen.removeOrdersShelves
      rw [KitchenShelf.removeOrders_eq s (JsValue.fn (idPredicate (w.orders o).id))
        (idPredicate (w.orders o).id) err now w rfl]
      simp only [scan_idPredicate, hmatch, hkeep, markRemoved_singleton, List.map_cons,
        List.map_nil]
      rw [Kitchen.removeOrdersShelves_no_match]
      intro s2 hs2 ir hir
      have hmem := List.snd_mem_of_mem_enumFrom hir
      have hne : ir.2 ≠ o := by
        by_cases hss : s2 = s
        · subst hss
          have : ir.2 ∈ (w.shelves s2)._orders.filter (fun r => decide (r ≠ o)) := by
            simpa [Function.update_same] using hmem
          simpa using (List.mem_filter.mp this).2
        · have : ir.2 ∈ (w.shelves s2)._orders := by
            simpa [Function.update_noteq hss] using hmem
          exact fun hx => hother s2 hss (hx ▸ this)
      have hmem2 : ir.2 ∈ (w.shelves s2)._orders := by
        by_cases hss : s2 = s
        · subst hss
          have : ir.2 ∈ (w.shelves s2)._orders.filter (fun r => decide (r ≠ o)) := by
            simpa [Function.update_same] using hmem
          exact (List.mem_filter.mp this).1
        · simpa [Function.update_noteq hss] using hmem
      have := hid s2 (List.mem_cons_of_mem s hs2) ir.2 hmem2 hne
      simp [idPredicate, Function.update_noteq hne, this]
    · have hno : ∀ ir ∈ (w.shelves s)._orders.enumFrom 0,
          idPredicate (w.orders o).id ir.2 (w.orders ir.2) ir.1 = false := by
        intro ir hir
        have hmem := List.snd_mem_of_mem_enumFrom hir
        have hne : ir.2 ≠ o := fun hx => hother s hs (hx ▸ hmem)
        simp [idPredicate, hid s (List.mem_cons_self s rest) ir.2 hmem hne]
      unfold Kitchen.removeOrdersShelves
      rw [KitchenShelf.removeOrders_nothing_matched s _ err now w hno]
      simp only [List.append_nil]
      rw [ih acc (fun s2 hs2 => hid s2 (List.mem_cons_of_mem s hs2))]
      have hiff : (sh ∈ s :: rest) ↔ sh ∈ rest := by
        simp [List.mem_cons, Ne.symm hs]
      by_cases hin : sh ∈ rest
      · rw [if_pos hin, if_pos (hiff.mpr hin)]
      · rw [if_neg hin, if_neg (fun hx => hin (hiff.mp hx))]

/-- The removal of an order that is once on a shelf of the kitchen, on no other
shelf and not in the registry, when no other tracked order has its id: the call
returns the order alone, takes it off its shelf, sets its removal timestamp, and
the shelf and then the kitchen emit one `removeOrder` event each. -/
theorem Kitchen.removeOrders_shelved (o : OrderRef) (sh : ShelfRef) (err : Option JsError)
    (now : Int) (w : World) (hsh : sh ∈ w.kitchen._shelfs)
    (hreg : w.kitchen._orders.count o = 0)
    (hcount : ∀ s, (w.shelves s)._orders.count o = if some sh = some s then 1 else 0)
    (hid : ∀ r, r ≠ o → Tracked w r → (w.orders r).id ≠ (w.orders o).id) :
    Kitchen.removeOrders (JsValue.order o) err now w
      = (Except.ok [o],
          { w with
            orders := Function.update w.orders o { w.orders o with removed := some now },
            shelves := Function.update w.shelves sh
              { w.shelves sh with
                _orders := (w.shelves sh)._orders.filter (fun r => decide (r ≠ o)) },
            events := w.events
              ++ [Event.removeOrder (Emitter.shelf sh) o err,
                  Event.removeOrder Emitter.kitchen o err] }) := by
  have hp : toModelPredicate w (JsValue.order o) = some (idPredicate (w.orders o).id) := rfl
  have hnotreg : o ∉ w.kitchen._orders := List.count_eq_zero.mp hreg
  have hnone : ∀ ir ∈ w.kitchen._orders.enumFrom 0,
      idPredicate (w.orders o).id ir.2 (w.orders ir.2) ir.1 = false := by
    intro ir hir
    have hmem := List.snd_mem_of_mem_enumFrom hir
    have hne : ir.2 ≠ o := fun hx => hnotreg (hx ▸ hmem)
    simp [idPredicate, hid ir.2 hne (Or.inl hmem)]
  have hc1 : (w.shelves sh)._orders.count o = 1 := by
    rw [hcount sh]
    simp
  have hc0 : ∀ s, s ≠ sh → o ∉ (w.shelves s)._orders := by
    intro s hs
    have := hcount s
    have hn : ¬ (some sh = some s) := fun hx => hs (Option.some.inj hx).symm
    rw [if_neg hn] at this
    exact List.count_eq_zero.mp this
  unfold Kitchen.removeOrders
  simp only [hp, Kitchen.registryLoop_eq, scan_no_match (idPredicate (w.orders o).id) now _ 0
    w.orders hnone, List.nil_append]
  have hw : World.mk w.orders w.shelves (Kitchen.mk w.kitchen._orders w.kitchen._shelfs)
      w.events = w := rfl
  rw [hw, Kitchen.removeOrdersShelves_shelved o sh err now w.kitchen._shelfs [] w hc1 hc0
    (fun s hs r hr hne => hid r hne (Or.inr ⟨s, hs, hr⟩)), if_pos hsh]
  simp [World.emit]

/-! ### The notifications of a call that runs alone -/

theorem orderTrace_emit {o : OrderRef} {a : Nat} {sh : Option ShelfRef}
    {base seen : List Event} {w : World} (e : Event)
    (h : OrderTrace o a sh base seen w) :
    OrderTrace o a sh base (seen ++ KitchenManager.concerning o [e]) (w.emit e) := by
  obtain ⟨h2, h3, hid, extra, h4, h5⟩ := h
  refine ⟨h2, h3, hid, extra ++ [e], ?_, ?_⟩
  · simp [World.emit, h4]
  · rw [concerning_append, h5]

theorem orderTrace_setOrder {o : OrderRef} {a : Nat} {sh : Option ShelfRef}
    {base seen : List Event} {w : World} (O : KitchenOrder) (hO : O.id = (w.orders o).id)
    (h : OrderTrace o a sh base seen w) :
    OrderTrace o a sh base seen (w.setOrder o O) := by
  obtain ⟨h2, h3, hid, extra, h4, h5⟩ := h
  refine ⟨h2, h3, ?_, extra, h4, h5⟩
  intro r hr ht
  have ht2 : Tracked w r := ht
  simp only [World.setOrder, Function.update_same, Function.update_noteq hr]
  rw [hO]
  exact hid r hr ht2

theorem seenSince_emit {o : OrderRef} {base seen : List Event} {w : World} (e : Event)
    (h : SeenSince o base seen w) :
    SeenSince o base (seen ++ KitchenManager.concerning o [e]) (w.emit e) := by
  obtain ⟨extra, h4, h5⟩ := h
  refine ⟨extra ++ [e], ?_, ?_⟩
  · simp [World.emit, h4]
  · rw [concerning_append, h5]

theorem callTrace_mk (o : OrderRef) (base : List Event) (x : Pipeline × ManagerState)
    (p : Pipeline) (hp : x.1 = p) (h : CallTrace o base (p, x.2)) : CallTrace o base x := by
  obtain ⟨q, S⟩ := x
  simp only at hp
  subst hp
  exact h

/-- The call goes on with `_dispatchCourier` once the order is stored. -/
theorem dispatchCourier_trace (o : OrderRef) (sh : ShelfRef) (now : Int) (S : ManagerState)
    (base : List Event) (hsh : sh ∈ S.world.kitchen._shelfs)
    (h : OrderTrace o 0 (some sh) base
      [Event.insertOrder Emitter.kitchen o, Event.prepareOrder Emitter.manager o,
       Event.removeOrder Emitter.kitchen o none,
       Event.assignOrderToShelf Emitter.kitchen o sh] S.world) :
    CallTrace o base (KitchenManager._dispatchCourier o now S) := by
  rcases dispatchCourier_world o now S with ⟨h1, h2⟩ | ⟨c, h1, h2, h3⟩
  · apply callTrace_mk o base _ _ h1
    rw [h2]
    exact ⟨sh, 0, none, rfl, hsh, h⟩
  · apply callTrace_mk o base _ _ h1
    refine ⟨sh, c, none, rfl, rfl, ?_, h3, ?_⟩
    · rw [h2]
      exact hsh
    · rw [h2]
      have := orderTrace_emit (Event.dispatchCourier Emitter.manager c (some o)) h
      simpa [KitchenManager.concerning, KitchenManager.notifications, Event.concerns,
        KitchenManager.lifecycle] using this

/-- The end of the `catch` block, for an order that has left the registry. -/
theorem retryOnOverflow_trace (o : OrderRef) (now : Int) (S : ManagerState)
    (base : List Event)
    (h : OrderTrace o 0 none base
      [Event.insertOrder Emitter.kitchen o, Event.prepareOrder Emitter.manager o,
       Event.removeOrder Emitter.kitchen o none] S.world) :
    CallTrace o base (KitchenManager.retryOnOverflow o now S) := by
  rw [retryOnOverflow_eq o now S base _ h]
  cases hget : Kitchen.getShelf none S.world with
  | none =>
    obtain ⟨_, _, _, extra, h4, h5⟩ := h
    exact ⟨0, 0, none, 3, by omega, extra, h4, h5⟩
  | some V =>
    refine ⟨0, 0, none, rfl, (getShelf_some hget).2, Or.inr ?_⟩
    exact orderTrace_setStatus StatusField.undefined h

/-- An attempt to store the order. -/
theorem cleanAndAssign_trace (o : OrderRef) (s : ShelfRef) (inp : Inputs) (T : ManagerState)
    (base seen : List Event) (a : Nat) (ha : a ≤ 1)
    (hs : s ∈ T.world.kitchen._shelfs)
    (h : OrderTrace o a none base seen T.world)
    (hseen : seen ++ (if a = 1 then [Event.removeOrder Emitter.kitchen o none] else [])
      = [Event.insertOrder Emitter.kitchen o, Event.prepareOrder Emitter.manager o,
         Event.removeOrder Emitter.kitchen o none]) :
    CallTrace o base (KitchenManager.cleanAndAssign o s inp T) := by
  obtain ⟨wc, _, hframe, hroomcase, hfullcase⟩ :=
    cleanAndAssign_outcome o s inp T base seen a ha h
  have hck : wc.kitchen = T.world.kitchen := hframe.1
  by_cases hroom : ((((wc.shelves s)._orders.length : ℕ) : ℚ) < (wc.shelves s).capacity)
  · obtain ⟨w2, heq, htr, _, _, hshelfs, _⟩ := hroomcase hroom
    rw [heq]
    apply dispatchCourier_trace o s inp.now _ base
    · show s ∈ w2.kitchen._shelfs
      rw [hshelfs, hck]
      exact hs
    · rw [hseen] at htr
      exact htr
  · obtain ⟨wr, heq, htr, _, _, _, _, _, _⟩ := hfullcase (not_lt.mp hroom)
    rw [hseen] at htr
    rw [heq]
    by_cases hk : (wc.shelves s).kind = none
    · rw [if_pos hk]
      exact ⟨0, 0, none, rfl, htr⟩
    · rw [if_neg hk]
      exact retryOnOverflow_trace o inp.now _ base htr

/-- The removal of the order from its shelf by `_deliverOrder`. -/
theorem removeOrders_trace (o : OrderRef) (sh : ShelfRef) (c : CourierRef)
    (err : Option JsError) (now : Int) (w : World) (base : List Event)
    (hsh : sh ∈ w.kitchen._shelfs)
    (h : OrderTrace o 0 (some sh) base ((KitchenManager.lifecycle o sh c none).take 5) w) :
    ∃ out w1, Kitchen.removeOrders (JsValue.order o) err now w = (Except.ok out, w1)
      ∧ SeenSince o base ((KitchenManager.lifecycle o sh c err).take 6) w1 := by
  obtain ⟨h2, h3, hid, extra, h4, h5⟩ := h
  refine ⟨_, _, Kitchen.removeOrders_shelved o sh err now w hsh h2 h3 hid, ?_⟩
  refine ⟨extra ++ [Event.removeOrder (Emitter.shelf sh) o err,
    Event.removeOrder Emitter.kitchen o err], ?_, ?_⟩
  · simp [h4]
  · rw [concerning_append, h5]
    simp [KitchenManager.concerning, KitchenManager.notifications, Event.concerns,
      KitchenManager.lifecycle]

/-- One resumption keeps `CallTrace`. -/
theorem resume_trace (o : OrderRef) (base : List Event) (inp : Inputs)
    (x : Pipeline × ManagerState) (h : CallTrace o base x) :
    CallTrace o base (x.1.resume inp x.2) := by
  obtain ⟨p, S⟩ := x
  obtain ⟨sh, c, cause, h⟩ := h
  cases p with
  | cooking r =>
    obtain ⟨rfl, htr⟩ := h
    have h1 := orderTrace_emit (Event.prepareOrder Emitter.manager r)
      (orderTrace_setOrder { S.world.orders r with prepared := some inp.now } rfl htr)
    have h2 : OrderTrace r 1 none base
        [Event.insertOrder Emitter.kitchen r, Event.prepareOrder Emitter.manager r]
        ((S.world.setOrder r { S.world.orders r with prepared := some inp.now }).emit
          (Event.prepareOrder Emitter.manager r)) := by
      simpa [KitchenManager.concerning, KitchenManager.notifications, Event.concerns,
        KitchenManager.lifecycle] using h1
    simp only [Pipeline.resume]
    cases hget : Kitchen.getShelf
        ((((S.world.setOrder r { S.world.orders r with prepared := some inp.now }).emit
          (Event.prepareOrder Emitter.manager r)).orders r).temp)
        ((S.world.setOrder r { S.world.orders r with prepared := some inp.now }).emit
          (Event.prepareOrder Emitter.manager r)) with
    | none =>
      obtain ⟨_, _, _, extra, h4, h5⟩ := h2
      exact ⟨0, 0, none, 2, by omega, extra, h4, h5⟩
    | some s =>
      refine ⟨0, 0, none, rfl, (getShelf_some hget).2, Or.inl ?_⟩
      exact orderTrace_setStatus StatusField.undefined h2
  | cleaning r s =>
    obtain ⟨rfl, hs, htr | htr⟩ := h
    · exact cleanAndAssign_trace r s inp S base _ 1 (by omega) hs htr rfl
    · exact cleanAndAssign_trace r s inp S base _ 0 (by omega) hs htr rfl
  | forcedCleaning r s =>
    obtain ⟨rfl, htr⟩ := h
    obtain ⟨removed, wf, _, hres, _, htr2, _, _⟩ :=
      resume_forcedCleaning r s inp S base _ htr
    show CallTrace r base ((Pipeline.forcedCleaning r s).resume inp S)
    rw [hres]
    exact retryOnOverflow_trace r inp.now _ base htr2
  | contacting r =>
    obtain ⟨rfl, hsh, htr⟩ := h
    have h1 := orderTrace_emit (Event.dispatchCourier Emitter.manager S.nextCourier (some r))
      (orderTrace_emit (Event.allocateCourier Emitter.manager S.nextCourier) htr)
    refine ⟨sh, S.nextCourier, none, rfl, rfl, hsh, ?_, ?_⟩
    · simp [Pipeline.resume, KitchenManager.allocateCourier, KitchenManager.dispatch,
        Function.update_same]
    · simpa [KitchenManager.concerning, KitchenManager.notifications, Event.concerns,
        KitchenManager.lifecycle] using h1
  | travelling r k =>
    obtain ⟨rfl, rfl, hsh, hc0, htr⟩ := h
    have hc : (S.couriers k).order = some r := hc0
    have hsh : sh ∈ S.world.kitchen._shelfs := hsh
    have htr5 : OrderTrace r 0 (some sh) base ((KitchenManager.lifecycle r sh k none).take 5)
        S.world := htr
    simp only [Pipeline.resume, KitchenManager._deliverOrder, Function.update_same, hc]
    by_cases hexp : (S.world.orders r).expired inp.now = true
    · obtain ⟨out, w1, heq, extra, h4, h5⟩ := removeOrders_trace r sh k
        (some KitchenManager.deliverExpiredError) inp.now S.world base hsh htr5
      simp only [if_pos hexp, heq]
      exact ⟨sh, k, some KitchenManager.deliverExpiredError, 6, by omega, extra, h4, h5⟩
    · simp only [if_neg hexp]
      obtain ⟨_, _, _, extra, h4, h5⟩ := htr
      by_cases hnf : (S.world.orders r).prepared = none ∨ (S.world.orders r).removed ≠ none
      · simp only [if_pos hnf]
        exact ⟨sh, k, cause, 5, by omega, extra, h4, h5⟩
      · simp only [if_neg hnf]
        refine ⟨sh, k, cause, rfl, rfl, hsh, ?_, htr5⟩
        simp [Function.update_same, hc]
  | pickingUp r k carried =>
    obtain ⟨rfl, rfl, hsh, hc0, htr⟩ := h
    have hc : (S.couriers k).order = some carried := hc0
    have hsh : sh ∈ S.world.kitchen._shelfs := hsh
    have htr5 : OrderTrace carried 0 (some sh) base
        ((KitchenManager.lifecycle carried sh k none).take 5) S.world := htr
    obtain ⟨out, w1, heq, hseen⟩ := removeOrders_trace carried sh k none inp.now S.world base
      hsh htr5
    simp only [Pipeline.resume, KitchenManager.pickUp, heq]
    refine ⟨sh, k, none, rfl, rfl, ?_, hseen⟩
    simp [Function.update_same, hc]
  | delivering r k carried =>
    obtain ⟨rfl, rfl, hc0, hseen⟩ := h
    have hc : (S.couriers k).order = some carried := hc0
    have hseen : SeenSince carried base ((KitchenManager.lifecycle carried sh k none).take 6)
        S.world := hseen
    have h1 := seenSince_emit (Event.deliverOrder Emitter.manager k (some carried)) hseen
    simp only [Pipeline.resume, KitchenManager.release, hc]
    obtain ⟨extra, h4, h5⟩ := h1
    refine ⟨sh, k, none, extra, ?_, ?_⟩
    · simpa [World.emit, World.setOrder] using h4
    · simpa [KitchenManager.concerning, KitchenManager.notifications, Event.concerns,
        KitchenManager.lifecycle] using h5
  | resolved r => exact ⟨sh, c, cause, h⟩
  | rejected e => exact ⟨sh, c, cause, h⟩

/-! ### The order of the notifications -/

theorem processOrder_trace (params : OrderParams) (st : ManagerState)
    (hreg : st.nextOrder ∉ st.world.kitchen._orders)
    (hshelf : ∀ s, st.nextOrder ∉ (st.world.shelves s)._orders)
    (hid : ∀ r, Tracked st.world r → (st.world.orders r).id ≠ params.id) :
    CallTrace st.nextOrder st.world.events (KitchenManager.processOrder params st) := by
  rw [processOrder_eq]
  refine ⟨0, 0, none, rfl, ?_, ?_, ?_, [Event.insertOrder Emitter.kitchen st.nextOrder], rfl, ?_⟩
  · show (st.world.kitchen._orders ++ [st.nextOrder]).count st.nextOrder = 1
    rw [List.count_append, List.count_eq_zero.mpr hreg]
    simp
  · intro s
    have hn : ¬ ((none : Option ShelfRef) = some s) := fun hx => by cases hx
    rw [if_neg hn]
    exact List.count_eq_zero.mpr (hshelf s)
  · intro r hr ht
    have ht2 : Tracked st.world r := by
      rcases ht with ht | ⟨s, hs, hmem⟩
      · have : r ∈ st.world.kitchen._orders ++ [st.nextOrder] := ht
        rcases List.mem_append.mp this with h1 | h1
        · exact Or.inl h1
        · exact absurd (List.mem_singleton.mp h1) hr
      · exact Or.inr ⟨s, hs, hmem⟩
    simp only [Function.update_same, Function.update_noteq hr]
    exact hid r ht2
  · simp [KitchenManager.concerning, KitchenManager.notifications, Event.concerns,
      KitchenManager.lifecycle]

theorem run_trace (o : OrderRef) (base : List Event) (inps : List Inputs)
    (x : Pipeline × ManagerState) (h : CallTrace o base x) :
    CallTrace o base (Pipeline.run inps x) := by
  induction inps generalizing x with
  | nil => exact h
  | cons inp rest ih =>
    have : Pipeline.run (inp :: rest) x = Pipeline.run rest (x.1.resume inp x.2) := rfl
    rw [this]
    exact ih _ (resume_trace o base inp x h)

theorem callTrace_initial (o : OrderRef) (base : List Event) (x : Pipeline × ManagerState)
    (h : CallTrace o base x) :
    ∃ sh c cause extra, x.2.world.events = base ++ extra
      ∧ KitchenManager.concerning o extra <+: KitchenManager.lifecycle o sh c cause
      ∧ (∀ r, x.1 = Pipeline.resolved r →
          KitchenManager.concerning o extra = KitchenManager.lifecycle o sh c none) := by
  obtain ⟨p, S⟩ := x
  obtain ⟨sh, c, cause, h⟩ := h
  cases p with
  | cooking r =>
    obtain ⟨_, _, _, _, extra, h4, h5⟩ := h
    exact ⟨sh, c, cause, extra, h4, by rw [h5]; exact List.take_prefix _ _,
      fun r hr => by cases hr⟩
  | cleaning r s =>
    obtain ⟨_, _, ⟨_, _, _, extra, h4, h5⟩ | ⟨_, _, _, extra, h4, h5⟩⟩ := h
    · exact ⟨sh, c, cause, extra, h4, by rw [h5]; exact List.take_prefix _ _,
        fun r hr => by cases hr⟩
    · exact ⟨sh, c, cause, extra, h4, by rw [h5]; exact List.take_prefix _ _,
        fun r hr => by cases hr⟩
  | forcedCleaning r s =>
    obtain ⟨_, _, _, _, extra, h4, h5⟩ := h
    exact ⟨sh, c, cause, extra, h4, by rw [h5]; exact List.take_prefix _ _,
      fun r hr => by cases hr⟩
  | contacting r =>
    obtain ⟨_, _, _, _, _, extra, h4, h5⟩ := h
    exact ⟨sh, c, cause, extra, h4, by rw [h5]; exact List.take_prefix _ _,
      fun r hr => by cases hr⟩
  | travelling r k =>
    obtain ⟨_, _, _, _, _, _, _, extra, h4, h5⟩ := h
    exact ⟨sh, c, cause, extra, h4, by rw [h5]; exact List.take_prefix _ _,
      fun r hr => by cases hr⟩
  | pickingUp r k carried =>
    obtain ⟨_, _, _, _, _, _, _, extra, h4, h5⟩ := h
    exact ⟨sh, c, cause, extra, h4, by rw [h5]; exact List.take_prefix _ _,
      fun r hr => by cases hr⟩
  | delivering r k carried =>
    obtain ⟨_, _, _, extra, h4, h5⟩ := h
    exact ⟨sh, c, none, extra, h4, by rw [h5]; exact List.take_prefix _ _,
      fun r hr => by cases hr⟩
  | resolved r =>
    obtain ⟨extra, h4, h5⟩ := h
    exact ⟨sh, c, none, extra, h4, by rw [h5], fun _ _ => h5⟩
  | rejected e =>
    obtain ⟨n, _, extra, h4, h5⟩ := h
    exact ⟨sh, c, cause, extra, h4, by rw [h5]; exact List.take_prefix _ _,
      fun r hr => by cases hr⟩

theorem orderTrace_undisturbed {o : OrderRef} {a : Nat} {sh : Option ShelfRef}
    {base seen : List Event} {p : Pipeline} {S T : ManagerState}
    (hu : Undisturbed o p S T) (h : OrderTrace o a sh base seen S.world) :
    OrderTrace o a sh base seen T.world := by
  obtain ⟨u1, u2, u3, _, _, more, u6, u7⟩ := hu
  obtain ⟨h2, h3, _, extra, h4, h5⟩ := h
  refine ⟨by rw [u1, h2], fun s => by rw [u2 s, h3 s], u3, extra ++ more, ?_, ?_⟩
  · rw [u6, h4, List.append_assoc]
  · rw [concerning_append, h5, u7, List.append_nil]

theorem seenSince_undisturbed {o : OrderRef} {base seen : List Event} {p : Pipeline}
    {S T : ManagerState} (hu : Undisturbed o p S T) (h : SeenSince o base seen S.world) :
    SeenSince o base seen T.world := by
  obtain ⟨_, _, _, _, _, more, u6, u7⟩ := hu
  obtain ⟨extra, h4, h5⟩ := h
  refine ⟨extra ++ more, ?_, ?_⟩
  · rw [u6, h4, List.append_assoc]
  · rw [concerning_append, h5, u7, List.append_nil]

/-- What the call knows about its order still holds when it is resumed, if the
other calls did not disturb the order. -/
theorem callTrace_undisturbed (o : OrderRef) (base : List Event) (p : Pipeline)
    (S T : ManagerState) (hu : Undisturbed o p S T) (h : CallTrace o base (p, S)) :
    CallTrace o base (p, T) := by
  obtain ⟨sh, c, cause, h⟩ := h
  have hsf : T.world.kitchen._shelfs = S.world.kitchen._shelfs := hu.2.2.2.1
  have hco : ∀ k, p.courier = some k → (T.couriers k).order = (S.couriers k).order :=
    hu.2.2.2.2.1
  cases p with
  | cooking r =>
    obtain ⟨hr, htr⟩ := h
    exact ⟨sh, c, cause, hr, orderTrace_undisturbed hu htr⟩
  | cleaning r s =>
    obtain ⟨hr, hs, htr | htr⟩ := h
    · exact ⟨sh, c, cause, hr, by rw [hsf]; exact hs, Or.inl (orderTrace_undisturbed hu htr)⟩
    · exact ⟨sh, c, cause, hr, by rw [hsf]; exact hs, Or.inr (orderTrace_undisturbed hu htr)⟩
  | forcedCleaning r s =>
    obtain ⟨hr, htr⟩ := h
    exact ⟨sh, c, cause, hr, orderTrace_undisturbed hu htr⟩
  | contacting r =>
    obtain ⟨hr, hs, htr⟩ := h
    exact ⟨sh, c, cause, hr, by rw [hsf]; exact hs, orderTrace_undisturbed hu htr⟩
  | travelling r k =>
    obtain ⟨hr, hk, hs, hc, htr⟩ := h
    refine ⟨sh, c, cause, hr, hk, by rw [hsf]; exact hs, ?_, orderTrace_undisturbed hu htr⟩
    have hc2 : (S.couriers c).order = some o := hc
    have hk2 : k = c := hk
    show (T.couriers c).order = some o
    rw [hco c (by rw [← hk2]; rfl), hc2]
  | pickingUp r k carried =>
    obtain ⟨hr, hk, hs, hc, htr⟩ := h
    refine ⟨sh, c, cause, hr, hk, by rw [hsf]; exact hs, ?_, orderTrace_undisturbed hu htr⟩
    have hc2 : (S.couriers c).order = some o := hc
    have hk2 : k = c := hk
    show (T.couriers c).order = some o
    rw [hco c (by rw [← hk2]; rfl), hc2]
  | delivering r k carried =>
    obtain ⟨hr, hk, hc, hseen⟩ := h
    refine ⟨sh, c, cause, hr, hk, ?_, seenSince_undisturbed hu hseen⟩
    have hc2 : (S.couriers c).order = some o := hc
    have hk2 : k = c := hk
    show (T.couriers c).order = some o
    rw [hco c (by rw [← hk2]; rfl), hc2]
  | resolved r =>
    have hseen : SeenSince o base (KitchenManager.lifecycle o sh c none) S.world := h
    exact ⟨sh, c, cause, seenSince_undisturbed hu hseen⟩
  | rejected e =>
    obtain ⟨n, hn, hseen⟩ := h
    exact ⟨sh, c, cause, n, hn, seenSince_undisturbed hu hseen⟩

/-- A run among calls that do not disturb the order keeps `CallTrace`. -/
theorem runAmong_trace (o : OrderRef) (base : List Event)
    (trace : List (Inputs × ManagerState)) (x final : Pipeline × ManagerState)
    (h : CallTrace o base x) (hrun : Pipeline.runAmong (Undisturbed o) trace x final) :
    CallTrace o base final := by
  induction trace generalizing x with
  | nil =>
    have : final = x := hrun
    rw [this]
    exact h
  | cons step rest ih =>
    obtain ⟨inp, T⟩ := step
    obtain ⟨hu, hrest⟩ := hrun
    obtain ⟨p, S⟩ := x
    exact ih _ (resume_trace o base inp (p, T) (callTrace_undisturbed o base p S T hu h)) hrest

/-- No call disturbs the order when there is no other call, as long as no other
tracked order has the id of the order. -/
theorem undisturbed_refl (o : OrderRef) (p : Pipeline) (S : ManagerState)
    (hid : ∀ r, r ≠ o → Tracked S.world r → (S.world.orders r).id ≠ (S.world.orders o).id) :
    Undisturbed o p S S :=
  ⟨rfl, fun _ => rfl, hid, rfl, fun _ _ => rfl, [], by simp,
    by simp [KitchenManager.concerning, KitchenManager.notifications]⟩

theorem tracked_iff (w : World) (r : OrderRef) : Tracked w r ↔ r ∈ w.tracked := by
  simp [Tracked, World.tracked, List.mem_flatMap]

/-- A way to show `Undisturbed` on given states. -/
theorem undisturbed_mk (o : OrderRef) (p : Pipeline) (S T : ManagerState) (extra : List Event)
    (h1 : T.world.kitchen._orders.count o = S.world.kitchen._orders.count o)
    (h2 : T.world.shelves = S.world.shelves)
    (h3 : ∀ r ∈ T.world.tracked, r ≠ o → (T.world.orders r).id ≠ (T.world.orders o).id)
    (h4 : T.world.kitchen._shelfs = S.world.kitchen._shelfs)
    (h5 : T.couriers = S.couriers)
    (h6 : T.world.events = S.world.events ++ extra)
    (h7 : KitchenManager.concerning o extra = []) :
    Undisturbed o p S T :=
  ⟨h1, fun s => by rw [h2], fun r hr ht => h3 r ((tracked_iff _ _).mp ht) hr, h4,
    fun c _ => by rw [h5], extra, h6, h7⟩

theorem resume_cooking_frame (r : OrderRef) (inp : Inputs) (S : ManagerState) :
    ((Pipeline.cooking r).resume inp S).2.world.shelves = S.world.shelves
    ∧ ((Pipeline.cooking r).resume inp S).2.couriers = S.couriers := by
  simp only [Pipeline.resume]
  cases Kitchen.getShelf
      ((((S.world.setOrder r { S.world.orders r with prepared := some inp.now }).emit
        (Event.prepareOrder Emitter.manager r)).orders r).temp)
      ((S.world.setOrder r { S.world.orders r with prepared := some inp.now }).emit
        (Event.prepareOrder Emitter.manager r)) <;> exact ⟨rfl, rfl⟩

theorem interleavedTrace_undisturbed :
    Pipeline.runAmong (Undisturbed 0) interleavedTrace
      (KitchenManager.processOrder (hotOrder "a") freshManager)
      (Pipeline.run [Inputs.at 3, Inputs.at 2003, Inputs.at 2004, Inputs.at 2005]
        interleavedStored) := by
  refine ⟨?_, ?_, ?_⟩
  · exact undisturbed_mk 0 _ _ _ [Event.insertOrder Emitter.kitchen 1] (by decide!)
      (by rw [processOrder_eq (hotOrder "b")]) (by decide!) (by decide!)
      (by rw [processOrder_eq (hotOrder "b")]) (by decide!) (by decide!)
  · exact undisturbed_mk 0 _ _ _ [Event.prepareOrder Emitter.manager 1] (by decide!)
      (resume_cooking_frame 1 _ _).1 (by decide!) (by decide!)
      (resume_cooking_frame 1 _ _).2 (by decide!) (by decide!)
  · apply runAmong_alone
    intro k hk
    apply undisturbed_refl
    intro r hr ht
    have hk4 : k < 4 := by simpa using hk
    have : ∀ r ∈ (Pipeline.run
        (([Inputs.at 3, Inputs.at 2003, Inputs.at 2004, Inputs.at 2005] : List Inputs).take k)
        interleavedStored).2.world.tracked, r ≠ 0 →
        ((Pipeline.run
          (([Inputs.at 3, Inputs.at 2003, Inputs.at 2004, Inputs.at 2005] : List Inputs).take k)
          interleavedStored).2.world.orders r).id
        ≠ ((Pipeline.run
          (([Inputs.at 3, Inputs.at 2003, Inputs.at 2004, Inputs.at 2005] : List Inputs).take k)
          interleavedStored).2.world.orders 0).id := by
      interval_cases k <;> decide!
    exact this r ((tracked_iff _ _).mp ht) hr

/-- C28 (as stated, refuted): the notifications concerning the order of a call
of `processOrder` that runs alone and delivers it, along `deliverySchedule`: a
`removeOrder` notification comes before `assignOrderToShelf`, since
`Kitchen.assignOrdersToShelf` first removes the order from the registry. Along
`staleSchedule`, where another call cleans the shelf while the call waits for
its courier, a second `removeOrder` notification comes before `dispatchCourier`.
And on `fullHotManager`, where a resident of the full hot shelf has the id "a" of
the new order 3, the move takes that resident off the shelf too, stores the new
order in its place and then throws for lack of room: the `assignOrderToShelf`
notification of the order 3 is followed by a `removeOrder` notification, and no
`dispatchCourier` notification comes. -/
theorem removeOrder_before_assignOrderToShelf :
    KitchenManager.concerning 0
        (Pipeline.run deliverySchedule
          (KitchenManager.processOrder (hotOrder "a") freshManager)).2.world.events
      = [Event.insertOrder Emitter.kitchen 0, Event.prepareOrder Emitter.manager 0,
         Event.removeOrder Emitter.kitchen 0 none,
         Event.assignOrderToShelf Emitter.kitchen 0 0,
         Event.dispatchCourier Emitter.manager 0 (some 0),
         Event.removeOrder Emitter.kitchen 0 none,
         Event.deliverOrder Emitter.manager 0 (some 0)]
    ∧ KitchenManager.concerning 0
        (System.run staleSchedule { state := freshManager, pipelines := [] }).state.world.events
      = [Event.insertOrder Emitter.kitchen 0, Event.prepareOrder Emitter.manager 0,
         Event.removeOrder Emitter.kitchen 0 none,
         Event.assignOrderToShelf Emitter.kitchen 0 0,
         Event.removeOrder Emitter.manager 0 (some KitchenManager.expiredError),
         Event.dispatchCourier Emitter.manager 0 (some 0)]
    ∧ (Pipeline.run [Inputs.at 1, Inputs.at 2]
        (KitchenManager.processOrder (hotOrder "a") fullHotManager)).1
      = Pipeline.rejected KitchenManager.outOfCapacityError
    ∧ KitchenManager.concerning 3
        (Pipeline.run [Inputs.at 1, Inputs.at 2]
          (KitchenManager.processOrder (hotOrder "a") fullHotManager)).2.world.events
      = [Event.insertOrder Emitter.kitchen 3, Event.prepareOrder Emitter.manager 3,
         Event.removeOrder Emitter.kitchen 3 none,
         Event.assignOrderToShelf Emitter.kitchen 3 0,
         Event.removeOrder Emitter.kitchen 3 (some KitchenManager.outOfCapacityError)] := by
  decide!

/-- C28 (as amended): a call of `processOrder` for a new order, whose id no
tracked order has, runs among other calls: before each of its resumptions the
other calls have changed the state, in a way that does not disturb the order
(`Undisturbed`: they neither remove it nor store it, no other tracked order has
its id, they leave the kitchen its shelves and the courier of the call its
order, and they emit no notification concerning the order). However far the call
has got, the
notifications concerning its order emitted since the call began are the first
ones of the sequence `insertOrder`, `prepareOrder`, `removeOrder` with cause
`null` (the order leaves the registry), `assignOrderToShelf`, `dispatchCourier`,
`removeOrder` (the order leaves its shelf), `deliverOrder`; and they are that
whole sequence when the call has returned. -/
theorem processOrder_notifications (params : OrderParams) (st : ManagerState)
    (trace : List (Inputs × ManagerState)) (final : Pipeline × ManagerState)
    (hreg : st.nextOrder ∉ st.world.kitchen._orders)
    (hshelf : ∀ s, st.nextOrder ∉ (st.world.shelves s)._orders)
    (hid : ∀ r, Tracked st.world r → (st.world.orders r).id ≠ params.id)
    (hrun : Pipeline.runAmong (Undisturbed st.nextOrder) trace
      (KitchenManager.processOrder params st) final) :
    ∃ sh c cause extra,
      final.2.world.events = st.world.events ++ extra
      ∧ KitchenManager.concerning st.nextOrder extra
        <+: KitchenManager.lifecycle st.nextOrder sh c cause
      ∧ (∀ r, final.1 = Pipeline.resolved r →
          KitchenManager.concerning st.nextOrder extra
            = KitchenManager.lifecycle st.nextOrder sh c none) :=
  callTrace_initial st.nextOrder st.world.events _
    (runAmong_trace st.nextOrder st.world.events trace _ final
      (processOrder_trace params st hreg hshelf hid) hrun)

/-- C28 (as amended), on `freshManager` along `interleavedTrace`: the call for the
order "a" runs among the steps of the call for the order "b", which starts and
cooks its order while the first call sleeps, and delivers its order. -/
theorem processOrder_notifications_witness :
    Pipeline.runAmong (Undisturbed freshManager.nextOrder) interleavedTrace
      (KitchenManager.processOrder (hotOrder "a") freshManager)
      (Pipeline.run [Inputs.at 3, Inputs.at 2003, Inputs.at 2004, Inputs.at 2005]
        interleavedStored)
    ∧ (Pipeline.run [Inputs.at 3, Inputs.at 2003, Inputs.at 2004, Inputs.at 2005]
        interleavedStored).1 = Pipeline.resolved 0
    ∧ ∃ sh c cause extra,
      (Pipeline.run [Inputs.at 3, Inputs.at 2003, Inputs.at 2004, Inputs.at 2005]
        interleavedStored).2.world.events = freshManager.world.events ++ extra
      ∧ KitchenManager.concerning freshManager.nextOrder extra
        <+: KitchenManager.lifecycle freshManager.nextOrder sh c cause
      ∧ (∀ r, (Pipeline.run [Inputs.at 3, Inputs.at 2003, Inputs.at 2004, Inputs.at 2005]
            interleavedStored).1 = Pipeline.resolved r →
          KitchenManager.concerning freshManager.nextOrder extra
            = KitchenManager.lifecycle freshManager.nextOrder sh c none) :=
  ⟨interleavedTrace_undisturbed, by decide!,
    processOrder_notifications (hotOrder "a") freshManager interleavedTrace _
      (by decide!)
      (fun s => by by_cases hs : s = 0 <;> simp [freshManager, managedWorld, hs])
      (fun r ht => by
        rw [tracked_iff, (by decide! : freshManager.world.tracked = [])] at ht
        cases ht)
      interleavedTrace_undisturbed⟩

/-! ### Orders that never expire -/

theorem live_of_unexpiring (O : KitchenOrder) (h : O.decayRate = 0) (_hs : O.shelfLife ≠ 0)
    (now : Int) : O.expired now = false :=
  expired_unexpiring O h now

theorem assignCount_append (s : ShelfRef) (a b : List Event) :
    KitchenManager.assignCount s (a ++ b)
      = KitchenManager.assignCount s a + KitchenManager.assignCount s b := by
  unfold KitchenManager.assignCount KitchenManager.notifications
  rw [List.filter_append, List.countP_append]

theorem discardCount_append (a b : List Event) :
    KitchenManager.discardCount (a ++ b)
      = KitchenManager.discardCount a + KitchenManager.discardCount b := by
  unfold KitchenManager.discardCount KitchenManager.notifications
  rw [List.filter_append, List.countP_append]

theorem store_cooking (inp : Inputs) (rest : List Inputs) (o : OrderRef) (T : ManagerState) :
    Pipeline.store (inp :: rest) (Pipeline.cooking o, T)
      = Pipeline.store rest ((Pipeline.cooking o).resume inp T) := by
  simp [Pipeline.store, Pipeline.isStoring, Pipeline.attempt]

/-- An attempt on a shelf none of whose residents is expired: the clean changes
nothing, and the order is stored if the shelf has room. -/
theorem cleanAndAssign_live (o : OrderRef) (s : ShelfRef) (inp : Inputs)
    (T : ManagerState) (base seen : List Event) (a : Nat) (ha : a ≤ 1)
    (h : OrderTrace o a none base seen T.world)
    (hlive : ∀ r ∈ (T.world.shelves s)._orders,
      (T.world.orders r).expired inp.now = false) :
    ((((T.world.shelves s)._orders.length : ℕ) : ℚ) < (T.world.shelves s).capacity →
        ∃ w2, KitchenManager.cleanAndAssign o s inp T
            = KitchenManager._dispatchCourier o inp.now { T with world := w2 }
          ∧ w2.orders o
            = { T.world.orders o with
                removed := none,
                _decayHistory := (T.world.orders o)._decayHistory
                  ++ [{ decayModifier := (T.world.shelves s).decayModifier, date := inp.now }],
                status := StatusField.member KitchenOrderStatus.AWAITING_COURIER }
          ∧ (∀ r, r ≠ o → w2.orders r = T.world.orders r)
          ∧ w2.kitchen._shelfs = T.world.kitchen._shelfs
          ∧ w2.shelves = Function.update T.world.shelves s
              { T.world.shelves s with _orders := (T.world.shelves s)._orders ++ [o] }
          ∧ w2.events = T.world.events
              ++ ((if a = 1 then [Event.removeOrder Emitter.kitchen o none] else [])
                ++ [Event.insertOrder (Emitter.shelf s) o,
                    Event.assignOrderToShelf Emitter.kitchen o s])
          ∧ w2.kitchen._orders = T.world.kitchen._orders.filter (fun r => decide (r ≠ o)))
    ∧ ((T.world.shelves s).capacity ≤ (((T.world.shelves s)._orders.length : ℕ) : ℚ) →
        ∃ wr, KitchenManager.cleanAndAssign o s inp T
            = (if (T.world.shelves s).kind = none then
                (Pipeline.forcedCleaning o s, { T with world := wr })
              else KitchenManager.retryOnOverflow o inp.now { T with world := wr })
          ∧ OrderTrace o 0 none base
              (seen ++ (if a = 1 then [Event.removeOrder Emitter.kitchen o none] else [])) wr
          ∧ (∀ r, r ≠ o → wr.orders r = T.world.orders r)
          ∧ wr.kitchen._shelfs = T.world.kitchen._shelfs
          ∧ wr.shelves = T.world.shelves
          ∧ wr.events = T.world.events
              ++ (if a = 1 then [Event.removeOrder Emitter.kitchen o none] else [])
          ∧ wr.kitchen._orders = T.world.kitchen._orders.filter (fun r => decide (r ≠ o))
          ∧ wr.orders o
            = (if a = 1 then { T.world.orders o with removed := some inp.now }
              else T.world.orders o)) := by
  obtain ⟨wc, hwc, _, hroomcase, hfullcase⟩ := cleanAndAssign_outcome o s inp T base seen a ha h
  rw [cleanShelf_unforced_of_live s inp.now inp.random T.world hlive] at hwc
  have hwc2 : T.world = wc := hwc
  subst hwc2
  constructor
  · intro hroom
    obtain ⟨w2, h1, _, h3, h4, h5, h6, h7, h8⟩ := hroomcase hroom
    exact ⟨w2, h1, h3, h4, h5, h6, h7, h8⟩
  · intro hfull
    obtain ⟨wr, h1, h2, _, h4, h5, h6, h7, h8, h9⟩ := hfullcase hfull
    exact ⟨wr, h1, h2, h4, h5, h6, h7, h8, h9⟩

/-- What `_dispatchCourier` leaves alone: the orders, the shelves, the kitchen
and the counter of orders; the events it emits are no `assignOrderToShelf` and
no `removeOrder` notification. -/
theorem dispatchCourier_frame (o : OrderRef) (now : Int) (S : ManagerState) :
    ((KitchenManager._dispatchCourier o now S).1 = Pipeline.contacting o
      ∨ ∃ c, (KitchenManager._dispatchCourier o now S).1 = Pipeline.travelling o c)
    ∧ (KitchenManager._dispatchCourier o now S).2.nextOrder = S.nextOrder
    ∧ (KitchenManager._dispatchCourier o now S).2.world.orders = S.world.orders
    ∧ (KitchenManager._dispatchCourier o now S).2.world.shelves = S.world.shelves
    ∧ (KitchenManager._dispatchCourier o now S).2.world.kitchen = S.world.kitchen
    ∧ ∃ ev, (KitchenManager._dispatchCourier o now S).2.world.events = S.world.events ++ ev
        ∧ (∀ s, KitchenManager.assignCount s ev = 0)
        ∧ KitchenManager.discardCount ev = 0 := by
  rw [dispatchCourier_eq]
  cases (S._couriers.filter (fun c => decide ((S.couriers c).dispatched = none))).head? with
  | none =>
    exact ⟨Or.inl rfl, rfl, rfl, rfl, rfl, [], by simp, fun s => rfl, rfl⟩
  | some c =>
    refine ⟨Or.inr ⟨c, rfl⟩, rfl, rfl, rfl, rfl,
      [Event.dispatchCourier Emitter.manager c (some o)], rfl, fun s => rfl, rfl⟩

/-! ### One placement of a batch -/

/-- The state after a placement satisfies `BatchInv` again. -/
theorem batchInv_of (P V : ShelfRef) (t : Option String) (c1 c2 a b a2 b2 : ℕ)
    (ids : List String) (pid : String) (S S2 : ManagerState)
    (hinv : BatchInv P V t c1 c2 a b (pid :: ids) S) (hpid : pid ∉ ids)
    (hnext : S2.nextOrder = S.nextOrder + 1)
    (hreg : S2.world.kitchen._orders = [])
    (hcfg : SameConfig S.world S2.world)
    (hstatic : ∀ r, r ≠ S.nextOrder →
      (S2.world.orders r).id = (S.world.orders r).id
      ∧ (S2.world.orders r).decayRate = (S.world.orders r).decayRate
      ∧ (S2.world.orders r).shelfLife = (S.world.orders r).shelfLife)
    (ho : (S2.world.orders S.nextOrder).id = pid
      ∧ (S2.world.orders S.nextOrder).decayRate = 0
      ∧ (S2.world.orders S.nextOrder).shelfLife ≠ 0)
    (hres : ∀ s, ∀ r ∈ (S2.world.shelves s)._orders,
      r = S.nextOrder ∨ r ∈ (S.world.shelves s)._orders)
    (hlenP : (S2.world.shelves P)._orders.length = a2)
    (hlenV : (S2.world.shelves V)._orders.length = b2)
    (ha2 : a2 ≤ c1) (hb2 : b2 ≤ c2) :
    BatchInv P V t c1 c2 a2 b2 ids S2 := by
  obtain ⟨_, hr, hP, ht, hV, hc1, hc2, _, _, _, _⟩ := hinv
  refine ⟨hreg, ?_, ?_, ht, ?_, ?_, ?_, hlenP, hlenV, ha2, hb2⟩
  · intro s r hmem
    rcases hres s r hmem with rfl | hold
    · refine ⟨by rw [hnext]; exact Nat.lt_succ_self _, ho.2.1, ho.2.2, ?_⟩
      rw [ho.1]
      exact hpid
    · obtain ⟨h1, h2, h3, h4⟩ := hr s r hold
      have hne : r ≠ S.nextOrder := Nat.ne_of_lt h1
      obtain ⟨g1, g2, g3⟩ := hstatic r hne
      refine ⟨by rw [hnext]; exact Nat.lt_succ_of_lt h1, by rw [g2, h2], by rw [g3]; exact h3, ?_⟩
      rw [g1]
      exact fun hx => h4 (List.mem_cons_of_mem pid hx)
  · rw [getShelf_sameConfig hcfg]
    exact hP
  · rw [getShelf_sameConfig hcfg]
    exact hV
  · rw [(hcfg.2 P).2.1]
    exact hc1
  · rw [(hcfg.2 V).2.1]
    exact hc2

/-- The call of `processOrder` and its first resumption, when the kitchen has
the shelf `P` for the order: the order is in the registry, cooked, and the call
is about to clean `P`. -/
theorem cook_facts (params : OrderParams) (S : ManagerState) (inp : Inputs) (P : ShelfRef)
    (hP : Kitchen.getShelf params.temp S.world = some P) :
    ∃ S0 S1, KitchenManager.processOrder params S = (Pipeline.cooking S.nextOrder, S0)
      ∧ (Pipeline.cooking S.nextOrder).resume inp S0 = (Pipeline.cleaning S.nextOrder P, S1)
      ∧ S1.nextOrder = S.nextOrder + 1
      ∧ S1.world.kitchen._orders = S.world.kitchen._orders ++ [S.nextOrder]
      ∧ S1.world.kitchen._shelfs = S.world.kitchen._shelfs
      ∧ S1.world.shelves = S.world.shelves
      ∧ (∀ r, r ≠ S.nextOrder → S1.world.orders r = S.world.orders r)
      ∧ (S1.world.orders S.nextOrder).id = params.id
      ∧ (S1.world.orders S.nextOrder).decayRate = params.decayRate
      ∧ (S1.world.orders S.nextOrder).shelfLife = params.shelfLife
      ∧ S1.world.events = S.world.events
          ++ [Event.insertOrder Emitter.kitchen S.nextOrder,
              Event.prepareOrder Emitter.manager S.nextOrder] := by
  refine ⟨_, ?S1, processOrder_eq params S, ?heq, ?_⟩
  case heq =>
    simp only [Pipeline.resume]
    have hget : ∀ (w : World) (k : Option String), w.kitchen._shelfs = S.world.kitchen._shelfs →
        (∀ s, (w.shelves s).kind = (S.world.shelves s).kind) → k = params.temp →
        Kitchen.getShelf k w = some P := by
      intro w k h1 h2 h3
      rw [h3, getShelf_congr params.temp S.world w h1 h2]
      exact hP
    refine (congrArg (fun x => KitchenManager._assignOrderToShelf S.nextOrder x _)
      (hget _ _ ?_ ?_ ?_)).trans ?_
    · rfl
    · intro s
      rfl
    · simp [World.setOrder, World.emit, Function.update_same, KitchenOrder.new]
    · exact rfl
  refine ⟨rfl, rfl, rfl, rfl, ?_, ?_, ?_, ?_, ?_⟩
  · intro r hr
    simp [World.setOrder, World.emit, Function.update_noteq hr]
  · simp [World.setOrder, World.emit, Function.update_same, KitchenOrder.new]
  · simp [World.setOrder, World.emit, Function.update_same, KitchenOrder.new]
  · simp [World.setOrder, World.emit, Function.update_same, KitchenOrder.new]
  · simp [World.setOrder, World.emit]

/-- What the call knows about its order while it is being placed. -/
theorem placing_trace {P V : ShelfRef} {t : Option String} {c1 c2 a b : ℕ}
    {ids : List String} {S T : ManagerState} {pid : String} {aT bT dT : ℕ}
    (hinv : BatchInv P V t c1 c2 a b (pid :: ids) S)
    (hpl : Placing P V S T pid aT bT dT) :
    OrderTrace S.nextOrder (T.world.kitchen._orders.count S.nextOrder) none T.world.events []
      T.world
    ∧ ∀ s now, ∀ r ∈ (T.world.shelves s)._orders,
        (T.world.orders r).expired now = false := by
  obtain ⟨_, hr, _⟩ := hinv
  obtain ⟨_, _, _, hfil, hst, ho, hres, _⟩ := hpl
  have hnot : ∀ s, S.nextOrder ∉ (T.world.shelves s)._orders :=
    fun s hm => lt_irrefl _ (hr s _ ((hres s).subset hm)).1
  refine ⟨⟨rfl, ?_, ?_, [], by simp, rfl⟩, ?_⟩
  · intro s
    have hn : ¬ ((none : Option ShelfRef) = some s) := fun hx => by cases hx
    rw [if_neg hn]
    exact List.count_eq_zero.mpr (hnot s)
  · intro r hne ht
    rcases ht with ht | ⟨s, _, hmem⟩
    · have : r ∈ T.world.kitchen._orders.filter (fun r => decide (r ≠ S.nextOrder)) :=
        List.mem_filter.mpr ⟨ht, by simpa using hne⟩
      rw [hfil] at this
      cases this
    · obtain ⟨_, _, _, h4⟩ := hr s r ((hres s).subset hmem)
      rw [(hst r hne).1, ho.1]
      exact fun hx => h4 (hx ▸ List.mem_cons_self pid ids)
  · intro s now r hmem
    obtain ⟨h1, h2, h3, _⟩ := hr s r ((hres s).subset hmem)
    have hne : r ≠ S.nextOrder := Nat.ne_of_lt h1
    obtain ⟨_, g2, g3⟩ := hst r hne
    exact live_of_unexpiring _ (by rw [g2, h2]) (by rw [g3]; exact h3) now

/-- The call of `processOrder` and its first resumption start the placement. -/
theorem placing_start (P V : ShelfRef) (t : Option String) (c1 c2 a b : ℕ)
    (ids : List String) (S : ManagerState) (params : OrderParams) (inp : Inputs)
    (hinv : BatchInv P V t c1 c2 a b (params.id :: ids) S)
    (htemp : params.temp = t) (hdecay : params.decayRate = 0) (hlife : params.shelfLife ≠ 0) :
    ∃ S0 S1, KitchenManager.processOrder params S = (Pipeline.cooking S.nextOrder, S0)
      ∧ (Pipeline.cooking S.nextOrder).resume inp S0 = (Pipeline.cleaning S.nextOrder P, S1)
      ∧ Placing P V S S1 params.id a b 0 := by
  obtain ⟨hreg, hr, hP, ht, hV, hc1, hc2, hla, hlb, hac, hbc⟩ := hinv
  obtain ⟨S0, S1, hproc, hcook, hn1, hreg1, hshelfs1, hsh1, hord1, hid1, hdec1, hlife1, hev1⟩ :=
    cook_facts params S inp P (by rw [htemp]; exact hP)
  refine ⟨S0, S1, hproc, hcook, hn1, ⟨hshelfs1, fun s => by rw [hsh1]; exact ⟨rfl, rfl, rfl⟩⟩,
    ?_, ?_, ?_, ⟨hid1, hdec1.trans hdecay, by rw [hlife1]; exact hlife⟩, ?_, ?_, ?_,
    [Event.insertOrder Emitter.kitchen S.nextOrder,
     Event.prepareOrder Emitter.manager S.nextOrder], hev1, rfl, rfl, rfl⟩
  · rw [hreg1, hreg]
    simp
  · rw [hreg1, hreg]
    simp
  · intro r hne
    rw [hord1 r hne]
    exact ⟨rfl, rfl, rfl⟩
  · intro s
    rw [hsh1]
  · rw [hsh1]
    exact hla
  · rw [hsh1]
    exact hlb

theorem batch_shelves_ne {P V : ShelfRef} {t : Option String} {c1 c2 a b : ℕ}
    {ids : List String} {S : ManagerState} (hinv : BatchInv P V t c1 c2 a b ids S) :
    P ≠ V ∧ (S.world.shelves P).kind ≠ none ∧ (S.world.shelves V).kind = none := by
  obtain ⟨_, _, hP, ht, hV, _⟩ := hinv
  have hkP := (getShelf_some hP).1
  have hkV := (getShelf_some hV).1
  refine ⟨?_, by rw [hkP]; exact ht, hkV⟩
  intro h
  rw [h, hkV] at hkP
  exact ht hkP.symm

/-- An attempt that finds the shelf full, while the order is being placed. -/
theorem placing_full (P V : ShelfRef) (t : Option String) (c1 c2 a b : ℕ)
    (ids : List String) (S T : ManagerState) (pid : String) (aT bT dT : ℕ) (s : ShelfRef)
    (inp : Inputs)
    (hinv : BatchInv P V t c1 c2 a b (pid :: ids) S)
    (hpl : Placing P V S T pid aT bT dT)
    (hfull : (T.world.shelves s).capacity ≤ (((T.world.shelves s)._orders.length : ℕ) : ℚ)) :
    ∃ T2, KitchenManager.cleanAndAssign S.nextOrder s inp T
        = (if (T.world.shelves s).kind = none then (Pipeline.forcedCleaning S.nextOrder s, T2)
          else KitchenManager.retryOnOverflow S.nextOrder inp.now T2)
      ∧ Placing P V S T2 pid aT bT dT
      ∧ T2.world.kitchen._orders.count S.nextOrder = 0 := by
  obtain ⟨htr, hlive⟩ := placing_trace hinv hpl
  obtain ⟨hn, hcfg, hcnt, hfil, hst, ho, hres, hlP, hlV, ev, hev, hcP, hcV, hcD⟩ := hpl
  obtain ⟨wr, heq, _, hothr, hshelfsr, hshr, hevr, hregr, hor⟩ :=
    (cleanAndAssign_live S.nextOrder s inp T T.world.events [] _ hcnt htr
      (hlive s inp.now)).2 hfull
  have hcount0 : wr.kitchen._orders.count S.nextOrder = 0 := by
    rw [hregr, List.count_eq_zero]
    intro hmem
    have := (List.mem_filter.mp hmem).2
    simp at this
  refine ⟨{ T with world := wr }, heq, ⟨hn, ⟨hshelfsr.trans hcfg.1, ?_⟩, ?_, ?_, ?_, ?_, ?_, ?_,
    ?_, ev ++ (if T.world.kitchen._orders.count S.nextOrder = 1 then
      [Event.removeOrder Emitter.kitchen S.nextOrder none] else []), ?_, ?_, ?_, ?_⟩, hcount0⟩
  · intro s2
    show (wr.shelves s2).kind = _ ∧ (wr.shelves s2).capacity = _ ∧ (wr.shelves s2).decayModifier = _
    rw [hshr]
    exact hcfg.2 s2
  · show wr.kitchen._orders.count S.nextOrder ≤ 1
    rw [hcount0]
    exact Nat.zero_le 1
  · show wr.kitchen._orders.filter (fun r => decide (r ≠ S.nextOrder)) = []
    rw [hregr, List.filter_filter]
    simpa using hfil
  · intro r hne
    show (wr.orders r).id = _ ∧ (wr.orders r).decayRate = _ ∧ (wr.orders r).shelfLife = _
    rw [hothr r hne]
    exact hst r hne
  · show (wr.orders S.nextOrder).id = pid ∧ (wr.orders S.nextOrder).decayRate = 0
      ∧ (wr.orders S.nextOrder).shelfLife ≠ 0
    rw [hor]
    split <;> exact ho
  · intro s2
    show (wr.shelves s2)._orders.Sublist _
    rw [hshr]
    exact hres s2
  · show (wr.shelves P)._orders.length = aT
    rw [hshr]
    exact hlP
  · show (wr.shelves V)._orders.length = bT
    rw [hshr]
    exact hlV
  · show wr.events = _
    rw [hevr, hev, List.append_assoc]
  · rw [assignCount_append, hcP]
    split <;> rfl
  · rw [assignCount_append, hcV]
    split <;> rfl
  · rw [discardCount_append, hcD]
    split <;> rfl

/-- The call goes on with the overflow shelf, while the order is being placed. -/
theorem placing_retry (P V : ShelfRef) (t : Option String) (c1 c2 a b : ℕ)
    (ids : List String) (S T : ManagerState) (pid : String) (aT bT dT : ℕ) (now : Int)
    (hinv : BatchInv P V t c1 c2 a b (pid :: ids) S)
    (hpl : Placing P V S T pid aT bT dT)
    (hcount : T.world.kitchen._orders.count S.nextOrder = 0) :
    ∃ T2, KitchenManager.retryOnOverflow S.nextOrder now T = (Pipeline.cleaning S.nextOrder V, T2)
      ∧ Placing P V S T2 pid aT bT dT
      ∧ T2.world.kitchen._orders.count S.nextOrder = 0 := by
  obtain ⟨htr, _⟩ := placing_trace hinv hpl
  rw [hcount] at htr
  have hV : Kitchen.getShelf none T.world = some V := by
    rw [getShelf_sameConfig hpl.2.1]
    exact hinv.2.2.2.2.1
  obtain ⟨hn, hcfg, hcnt, hfil, hst, ho, hres, hlP, hlV, hevs⟩ := hpl
  refine ⟨{ T with
      world := T.world.setOrder S.nextOrder
        ({ T.world.orders S.nextOrder with status := StatusField.undefined }) },
    ?_, ⟨hn, hcfg, hcnt, hfil, ?_, ?_, hres, hlP, hlV, hevs⟩, hcount⟩
  · rw [retryOnOverflow_eq S.nextOrder now T T.world.events [] htr]
    simp only [hV]
  · intro r hne
    simp only [World.setOrder, Function.update_noteq hne]
    exact hst r hne
  · simp only [World.setOrder, Function.update_same]
    exact ho

/-- The forced clean of the overflow shelf, while the order is being placed:
the resident at the drawn position is evicted, and the call goes on with the
overflow shelf. -/
theorem placing_forced (P V : ShelfRef) (t : Option String) (c1 c2 a b : ℕ)
    (ids : List String) (S T : ManagerState) (pid : String) (aT bT dT : ℕ) (inp : Inputs)
    (hinv : BatchInv P V t c1 c2 a b (pid :: ids) S)
    (hpl : Placing P V S T pid aT bT dT)
    (hcount : T.world.kitchen._orders.count S.nextOrder = 0)
    (h0 : 0 ≤ inp.random) (hlt : inp.random.toNat < bT) :
    ∃ T2, (Pipeline.forcedCleaning S.nextOrder V).resume inp T
        = (Pipeline.cleaning S.nextOrder V, T2)
      ∧ Placing P V S T2 pid aT (bT - 1) (dT + 1)
      ∧ T2.world.kitchen._orders.count S.nextOrder = 0 := by
  obtain ⟨_, hlive⟩ := placing_trace hinv hpl
  obtain ⟨hPV, _, _⟩ := batch_shelves_ne hinv
  have hj : ((inp.random.toNat : ℕ) : Int) = inp.random := Int.toNat_of_nonneg h0
  have hclean := cleanShelf_forced_of_live V inp.now inp.random.toNat T.world (hlive V inp.now)
  rw [hj] at hclean
  obtain ⟨hn, hcfg, hcnt, hfil, hst, ho, hres, hlP, hlV, ev, hev, hcP, hcV, hcD⟩ := hpl
  have hlt2 : inp.random.toNat < (T.world.shelves V)._orders.length := by
    rw [hlV]
    exact hlt
  obtain ⟨e, he⟩ : ∃ e, (T.world.shelves V)._orders.get? inp.random.toNat = some e :=
    ⟨_, List.get?_eq_get hlt2⟩
  rw [he] at hclean
  simp only [Option.toList_some, List.map_cons, List.map_nil, List.mem_singleton,
    List.singleton_append] at hclean
  cases hres2 : KitchenManager._cleanShelf V true inp.now inp.random T.world with
  | mk res wf =>
    rw [hres2] at hclean
    obtain ⟨hr1, hwf⟩ := Prod.mk.inj hclean
    have hplf : Placing P V S { T with world := wf } pid aT (bT - 1) (dT + 1) := by
      refine ⟨hn, ⟨?_, ?_⟩, ?_, ?_, ?_, ?_, ?_, ?_, ?_,
        ev ++ [Event.removeOrder (Emitter.shelf V) e (some KitchenManager.outOfCapacityError),
          Event.removeOrder Emitter.manager e (some KitchenManager.outOfCapacityError)],
        ?_, ?_, ?_, ?_⟩
      · show wf.kitchen._shelfs = _
        rw [hwf]
        exact hcfg.1
      · intro s
        show (wf.shelves s).kind = _ ∧ (wf.shelves s).capacity = _
          ∧ (wf.shelves s).decayModifier = _
        rw [hwf]
        by_cases hs : s = V
        · subst hs
          simp only [Function.update_same]
          exact hcfg.2 s
        · simp only [Function.update_noteq hs]
          exact hcfg.2 s
      · show wf.kitchen._orders.count S.nextOrder ≤ 1
        rw [hwf]
        exact hcnt
      · show wf.kitchen._orders.filter (fun r => decide (r ≠ S.nextOrder)) = []
        rw [hwf]
        exact hfil
      · intro r hne
        show (wf.orders r).id = _ ∧ (wf.orders r).decayRate = _ ∧ (wf.orders r).shelfLife = _
        rw [hwf]
        simp only
        split <;> exact hst r hne
      · show (wf.orders S.nextOrder).id = pid ∧ (wf.orders S.nextOrder).decayRate = 0
          ∧ (wf.orders S.nextOrder).shelfLife ≠ 0
        rw [hwf]
        simp only
        split <;> exact ho
      · intro s
        show (wf.shelves s)._orders.Sublist _
        rw [hwf]
        by_cases hs : s = V
        · subst hs
          simp only [Function.update_same]
          exact (List.eraseIdx_sublist _ _).trans (hres s)
        · simp only [Function.update_noteq hs]
          exact hres s
      · show (wf.shelves P)._orders.length = aT
        rw [hwf]
        simp only [Function.update_noteq hPV]
        exact hlP
      · show (wf.shelves V)._orders.length = bT - 1
        rw [hwf]
        simp only [Function.update_same, List.length_eraseIdx, hlV, if_pos hlt]
      · show wf.events = _
        rw [hwf, hev]
        simp
      · rw [assignCount_append, hcP]
        rfl
      · rw [assignCount_append, hcV]
        rfl
      · rw [discardCount_append, hcD]
        rfl
    have hcountf : ({ T with world := wf } : ManagerState).world.kitchen._orders.count
        S.nextOrder = 0 := by
      show wf.kitchen._orders.count S.nextOrder = 0
      rw [hwf]
      exact hcount
    obtain ⟨T2, hretry, hpl2, hc2⟩ := placing_retry P V t c1 c2 a b ids S
      { T with world := wf } pid aT (bT - 1) (dT + 1) inp.now hinv hplf hcountf
    refine ⟨T2, ?_, hpl2, hc2⟩
    simp only [Pipeline.resume, hres2, hr1]
    exact hretry

/-- An attempt that finds room on `P` or on `V` ends the placement. -/
theorem placing_finish (P V : ShelfRef) (t : Option String) (c1 c2 a b : ℕ)
    (ids : List String) (S T : ManagerState) (pid : String) (aT bT dT : ℕ) (s : ShelfRef)
    (inp : Inputs) (rest : List Inputs)
    (hinv : BatchInv P V t c1 c2 a b (pid :: ids) S) (hpid : pid ∉ ids)
    (hpl : Placing P V S T pid aT bT dT)
    (hs : s = P ∨ s = V)
    (hroom : (((T.world.shelves s)._orders.length : ℕ) : ℚ) < (T.world.shelves s).capacity) :
    ((Pipeline.store (inp :: rest) (Pipeline.cleaning S.nextOrder s, T)).2.1
        = Pipeline.contacting S.nextOrder
      ∨ ∃ c, (Pipeline.store (inp :: rest) (Pipeline.cleaning S.nextOrder s, T)).2.1
        = Pipeline.travelling S.nextOrder c)
    ∧ ∃ extra,
      (Pipeline.store (inp :: rest) (Pipeline.cleaning S.nextOrder s, T)).2.2.world.events
        = S.world.events ++ extra
      ∧ BatchInv P V t c1 c2 (if s = P then aT + 1 else aT) (if s = P then bT else bT + 1) ids
          (Pipeline.store (inp :: rest) (Pipeline.cleaning S.nextOrder s, T)).2.2
      ∧ KitchenManager.assignCount P extra = (if s = P then 1 else 0)
      ∧ KitchenManager.assignCount V extra = (if s = P then 0 else 1)
      ∧ KitchenManager.discardCount extra = dT := by
  obtain ⟨htr, hlive⟩ := placing_trace hinv hpl
  obtain ⟨hPV, _, _⟩ := batch_shelves_ne hinv
  obtain ⟨hn, hcfg, hcnt, hfil, hst, ho, hres, hlP, hlV, ev, hev, hcP, hcV, hcD⟩ := hpl
  obtain ⟨w2, heq, ho2, hoth2, hshelfs2, hsh2, hev2, hreg2⟩ :=
    (cleanAndAssign_live S.nextOrder s inp T T.world.events [] _ hcnt htr
      (hlive s inp.now)).1 hroom
  obtain ⟨hstage, hnext, hords, hshs, hkit, dev, hdev, hca, hcd⟩ :=
    dispatchCourier_frame S.nextOrder inp.now { T with world := w2 }
  have hstop : (KitchenManager._dispatchCourier S.nextOrder inp.now
      { T with world := w2 }).1.isStoring = false := by
    rcases hstage with h | ⟨c, h⟩ <;> rw [h] <;> rfl
  have hfin : (Pipeline.store (inp :: rest) (Pipeline.cleaning S.nextOrder s, T)).2
      = KitchenManager._dispatchCourier S.nextOrder inp.now { T with world := w2 } := by
    rw [store_cleaning, heq, store_stop _ _ hstop]
  have hlenS : ∀ s2, (T.world.shelves s2)._orders.length ≤ (S.world.shelves s2)._orders.length :=
    fun s2 => (hres s2).length_le
  have hcapT : ∀ s2, (T.world.shelves s2).capacity = (S.world.shelves s2).capacity :=
    fun s2 => (hcfg.2 s2).2.1
  have hinv2 := hinv
  obtain ⟨_, _, _, _, _, hc1, hc2, hla, hlb, hac, hbc⟩ := hinv2
  have hlens : ∀ s2, ((KitchenManager._dispatchCourier S.nextOrder inp.now
      { T with world := w2 }).2.world.shelves s2)._orders.length
        = if s2 = s then (T.world.shelves s2)._orders.length + 1
          else (T.world.shelves s2)._orders.length := by
    intro s2
    rw [hshs]
    show ((w2.shelves s2)._orders.length = _)
    rw [hsh2]
    by_cases h : s2 = s
    · subst h
      simp [Function.update_same]
    · simp [Function.update_noteq h, h]
  rw [hfin]
  refine ⟨hstage, ev ++ ((if T.world.kitchen._orders.count S.nextOrder = 1 then
      [Event.removeOrder Emitter.kitchen S.nextOrder none] else [])
      ++ [Event.insertOrder (Emitter.shelf s) S.nextOrder,
          Event.assignOrderToShelf Emitter.kitchen S.nextOrder s]) ++ dev, ?_, ?_, ?_, ?_, ?_⟩
  · rw [hdev]
    show w2.events ++ dev = _
    rw [hev2, hev]
    simp only [List.append_assoc]
  · refine batchInv_of P V t c1 c2 a b _ _ ids pid S _ hinv hpid (hnext.trans hn) ?_ ⟨?_, ?_⟩
      ?_ ?_ ?_ ?_ ?_ ?_ ?_
    · rw [hkit]
      show w2.kitchen._orders = []
      rw [hreg2]
      exact hfil
    · rw [hkit]
      exact hshelfs2.trans hcfg.1
    · intro s2
      rw [hshs]
      show (w2.shelves s2).kind = _ ∧ (w2.shelves s2).capacity = _
        ∧ (w2.shelves s2).decayModifier = _
      rw [hsh2]
      by_cases h : s2 = s
      · subst h
        simp only [Function.update_same]
        exact hcfg.2 s2
      · simp only [Function.update_noteq h]
        exact hcfg.2 s2
    · intro r hne
      rw [hords]
      show (w2.orders r).id = _ ∧ (w2.orders r).decayRate = _ ∧ (w2.orders r).shelfLife = _
      rw [hoth2 r hne]
      exact hst r hne
    · rw [hords]
      show (w2.orders S.nextOrder).id = pid ∧ (w2.orders S.nextOrder).decayRate = 0
        ∧ (w2.orders S.nextOrder).shelfLife ≠ 0
      rw [ho2]
      exact ho
    · intro s2 r hmem
      rw [hshs] at hmem
      have hmem2 : r ∈ (w2.shelves s2)._orders := hmem
      rw [hsh2] at hmem2
      by_cases h : s2 = s
      · subst h
        simp only [Function.update_same] at hmem2
        rcases List.mem_append.mp hmem2 with h1 | h1
        · exact Or.inr ((hres s2).subset h1)
        · exact Or.inl (List.mem_singleton.mp h1)
      · simp only [Function.update_noteq h] at hmem2
        exact Or.inr ((hres s2).subset hmem2)
    · rw [hlens P]
      rcases hs with rfl | rfl
      · simp [hlP]
      · rw [if_neg hPV, if_neg (Ne.symm hPV)]
        exact hlP
    · rw [hlens V]
      rcases hs with rfl | rfl
      · rw [if_neg (Ne.symm hPV), if_pos rfl]
        exact hlV
      · simp [hlV, Ne.symm hPV]
    · rcases hs with rfl | rfl
      · rw [if_pos rfl]
        have h1 : ((aT : ℕ) : ℚ) < ((c1 : ℕ) : ℚ) := by
          rw [← hc1, ← hcapT s, ← hlP]
          exact hroom
        have h2 : aT < c1 := by exact_mod_cast h1
        omega
      · rw [if_neg (Ne.symm hPV)]
        have := hlenS P
        omega
    · rcases hs with rfl | rfl
      · rw [if_pos rfl]
        have := hlenS V
        omega
      · rw [if_neg (Ne.symm hPV)]
        have h1 : ((bT : ℕ) : ℚ) < ((c2 : ℕ) : ℚ) := by
          rw [← hc2, ← hcapT s, ← hlV]
          exact hroom
        have h2 : bT < c2 := by exact_mod_cast h1
        omega
  · rw [assignCount_append, assignCount_append, hcP, hca P, assignCount_append]
    rcases hs with rfl | rfl
    · rw [if_pos rfl]
      split <;> simp [KitchenManager.assignCount, KitchenManager.notifications]
    · rw [if_neg (Ne.symm hPV)]
      split <;> simp [KitchenManager.assignCount, KitchenManager.notifications, Ne.symm hPV]
  · rw [assignCount_append, assignCount_append, hcV, hca V, assignCount_append]
    rcases hs with rfl | rfl
    · rw [if_pos rfl]
      split <;> simp [KitchenManager.assignCount, KitchenManager.notifications, hPV]
    · rw [if_neg (Ne.symm hPV)]
      split <;> simp [KitchenManager.assignCount, KitchenManager.notifications]
  · rw [discardCount_append, discardCount_append, hcD, hcd, discardCount_append]
    split <;> simp [KitchenManager.discardCount, KitchenManager.notifications]

/-- One placement of the batch: the order goes to `P` if `P` has room, else to
`V` if `V` has room, else to `V` after the eviction of one resident of `V`. -/
theorem place_one (P V : ShelfRef) (t : Option String) (c1 c2 a b : ℕ) (ids : List String)
    (S : ManagerState) (params : OrderParams) (inps : List Inputs)
    (hinv : BatchInv P V t c1 c2 a b (params.id :: ids) S)
    (hpid : params.id ∉ ids)
    (htemp : params.temp = t) (hdecay : params.decayRate = 0) (hlife : params.shelfLife ≠ 0)
    (hlen : 3 ≤ inps.length)
    (hsat : a = c1 → b = c2 →
      1 ≤ c2 ∧ 5 ≤ inps.length ∧ ∀ inp ∈ inps, 0 ≤ inp.random ∧ inp.random ≤ (c2 : Int) - 1) :
    ((Pipeline.store inps (KitchenManager.processOrder params S)).2.1
        = Pipeline.contacting S.nextOrder
      ∨ ∃ c, (Pipeline.store inps (KitchenManager.processOrder params S)).2.1
        = Pipeline.travelling S.nextOrder c)
    ∧ ∃ extra,
      (Pipeline.store inps (KitchenManager.processOrder params S)).2.2.world.events
        = S.world.events ++ extra
      ∧ BatchInv P V t c1 c2 (if a < c1 then a + 1 else a)
          (if a < c1 then b else if b < c2 then b + 1 else b) ids
          (Pipeline.store inps (KitchenManager.processOrder params S)).2.2
      ∧ KitchenManager.assignCount P extra = (if a < c1 then 1 else 0)
      ∧ KitchenManager.assignCount V extra = (if a < c1 then 0 else 1)
      ∧ KitchenManager.discardCount extra
        = (if a < c1 then 0 else if b < c2 then 0 else 1) := by
  obtain ⟨i1, i2, i3, rest, rfl⟩ : ∃ i1 i2 i3 rest, inps = i1 :: i2 :: i3 :: rest := by
    match inps, hlen with
    | i1 :: i2 :: i3 :: rest, _ => exact ⟨i1, i2, i3, rest, rfl⟩
  obtain ⟨hPV, hkP, hkV⟩ := batch_shelves_ne hinv
  obtain ⟨S0, S1, hproc, hcook, hpl1⟩ :=
    placing_start P V t c1 c2 a b ids S params i1 hinv htemp hdecay hlife
  have hinv2 := hinv
  obtain ⟨_, _, _, _, _, hc1, hc2, hla, hlb, hac, hbc⟩ := hinv2
  have hcap : ∀ (T : ManagerState) (aT bT dT : ℕ), Placing P V S T params.id aT bT dT →
      (T.world.shelves P).capacity = c1 ∧ (T.world.shelves V).capacity = c2
      ∧ (T.world.shelves P).kind ≠ none ∧ (T.world.shelves V).kind = none := by
    intro T aT bT dT h
    refine ⟨by rw [(h.2.1.2 P).2.1]; exact hc1, by rw [(h.2.1.2 V).2.1]; exact hc2, ?_, ?_⟩
    · rw [(h.2.1.2 P).1]
      exact hkP
    · rw [(h.2.1.2 V).1]
      exact hkV
  have hstart : (Pipeline.store (i1 :: i2 :: i3 :: rest) (KitchenManager.processOrder params S)).2
      = (Pipeline.store (i2 :: i3 :: rest) (Pipeline.cleaning S.nextOrder P, S1)).2 := by
    rw [hproc, store_cooking, hcook]
  rw [hstart]
  by_cases hA : a < c1
  · simp only [if_pos hA]
    have hroom : ((((S1.world.shelves P)._orders.length : ℕ) : ℚ)
        < (S1.world.shelves P).capacity) := by
      rw [(hcap S1 a b 0 hpl1).1, hpl1.2.2.2.2.2.2.2.1]
      exact_mod_cast hA
    have := placing_finish P V t c1 c2 a b ids S S1 params.id a b 0 P i2 (i3 :: rest) hinv hpid
      hpl1 (Or.inl rfl) hroom
    simpa using this
  · simp only [if_neg hA]
    have haeq : a = c1 := by omega
    have hfull : (S1.world.shelves P).capacity
        ≤ (((S1.world.shelves P)._orders.length : ℕ) : ℚ) := by
      rw [(hcap S1 a b 0 hpl1).1, hpl1.2.2.2.2.2.2.2.1, haeq]
    obtain ⟨T2, heq2, hpl2, hcount2⟩ :=
      placing_full P V t c1 c2 a b ids S S1 params.id a b 0 P i2 hinv hpl1 hfull
    rw [if_neg (hcap S1 a b 0 hpl1).2.2.1] at heq2
    obtain ⟨T3, hretry3, hpl3, hcount3⟩ :=
      placing_retry P V t c1 c2 a b ids S T2 params.id a b 0 i2.now hinv hpl2 hcount2
    have hstep2 : (Pipeline.store (i2 :: i3 :: rest) (Pipeline.cleaning S.nextOrder P, S1)).2
        = (Pipeline.store (i3 :: rest) (Pipeline.cleaning S.nextOrder V, T3)).2 := by
      rw [store_cleaning, heq2, hretry3]
    rw [hstep2]
    by_cases hB : b < c2
    · simp only [if_pos hB]
      have hroom : ((((T3.world.shelves V)._orders.length : ℕ) : ℚ)
          < (T3.world.shelves V).capacity) := by
        rw [(hcap T3 a b 0 hpl3).2.1, hpl3.2.2.2.2.2.2.2.2.1]
        exact_mod_cast hB
      have := placing_finish P V t c1 c2 a b ids S T3 params.id a b 0 V i3 rest hinv hpid
        hpl3 (Or.inr rfl) hroom
      simpa [Ne.symm hPV] using this
    · simp only [if_neg hB]
      have hbeq : b = c2 := by omega
      obtain ⟨hc2pos, hlen5, hrand⟩ := hsat haeq hbeq
      obtain ⟨i4, i5, rest2, rfl⟩ : ∃ i4 i5 rest2, rest = i4 :: i5 :: rest2 := by
        match rest, hlen5 with
        | i4 :: i5 :: rest2, _ => exact ⟨i4, i5, rest2, rfl⟩
      have hfullV : (T3.world.shelves V).capacity
          ≤ (((T3.world.shelves V)._orders.length : ℕ) : ℚ) := by
        rw [(hcap T3 a b 0 hpl3).2.1, hpl3.2.2.2.2.2.2.2.2.1, hbeq]
      obtain ⟨T4, heq4, hpl4, hcount4⟩ :=
        placing_full P V t c1 c2 a b ids S T3 params.id a b 0 V i3 hinv hpl3 hfullV
      rw [if_pos (hcap T3 a b 0 hpl3).2.2.2] at heq4
      obtain ⟨hr0, hr1⟩ := hrand i4 (by simp)
      have hlt : i4.random.toNat < b := by
        rw [hbeq]
        omega
      obtain ⟨T5, hres5, hpl5, hcount5⟩ :=
        placing_forced P V t c1 c2 a b ids S T4 params.id a b 0 i4 hinv hpl4 hcount4 hr0 hlt
      have hstep3 : (Pipeline.store (i3 :: i4 :: i5 :: rest2)
          (Pipeline.cleaning S.nextOrder V, T3)).2
          = (Pipeline.store (i5 :: rest2) (Pipeline.cleaning S.nextOrder V, T5)).2 := by
        rw [store_cleaning, heq4, store_forcedCleaning, hres5]
      rw [hstep3]
      have hroom : ((((T5.world.shelves V)._orders.length : ℕ) : ℚ)
          < (T5.world.shelves V).capacity) := by
        rw [(hcap T5 a (b - 1) (0 + 1) hpl5).2.1, hpl5.2.2.2.2.2.2.2.2.1]
        have : b - 1 < c2 := by omega
        exact_mod_cast this
      have := placing_finish P V t c1 c2 a b ids S T5 params.id a (b - 1) (0 + 1) V i5 rest2
        hinv hpid hpl5 (Or.inr rfl) hroom
      have hb1 : b - 1 + 1 = b := by omega
      simpa [Ne.symm hPV, hb1] using this

/-! ### A batch of orders that never expire -/

/-- The notifications of a batch placed from a state that satisfies `BatchInv`. -/
theorem placeAll_counts (P V : ShelfRef) (t : Option String) (c1 c2 : ℕ)
    (jobs : List (OrderParams × List Inputs)) :
    ∀ (a b : ℕ) (S : ManagerState),
      BatchInv P V t c1 c2 a b (jobs.map (fun j => j.1.id)) S →
      (jobs.map (fun j => j.1.id)).Nodup →
      (∀ job ∈ jobs, job.1.temp = t ∧ job.1.decayRate = 0 ∧ job.1.shelfLife ≠ 0
        ∧ 3 ≤ job.2.length) →
      (c1 + c2 < a + b + jobs.length →
        1 ≤ c2 ∧ ∀ job ∈ jobs, 5 ≤ job.2.length
          ∧ ∀ inp ∈ job.2, 0 ≤ inp.random ∧ inp.random ≤ (c2 : Int) - 1) →
      (∀ p ∈ (KitchenManager.placeAll jobs S).1,
        ∃ o, p = Pipeline.contacting o ∨ ∃ c, p = Pipeline.travelling o c)
      ∧ (KitchenManager.placeAll jobs S).1.length = jobs.length
      ∧ ((KitchenManager.placeAll jobs S).2.world.shelves P)._orders.length
        = a + min jobs.length (c1 - a)
      ∧ ((KitchenManager.placeAll jobs S).2.world.shelves V)._orders.length
        = min c2 (b + (jobs.length - min jobs.length (c1 - a)))
      ∧ ∃ extra, (KitchenManager.placeAll jobs S).2.world.events = S.world.events ++ extra
        ∧ KitchenManager.assignCount P extra = min jobs.length (c1 - a)
        ∧ KitchenManager.assignCount V extra = jobs.length - min jobs.length (c1 - a)
        ∧ KitchenManager.discardCount extra
          = (b + (jobs.length - min jobs.length (c1 - a))) - c2 := by
  induction jobs with
  | nil =>
    intro a b S hinv _ _ _
    obtain ⟨_, _, _, _, _, _, _, hla, hlb, hac, hbc⟩ := hinv
    refine ⟨by simp [KitchenManager.placeAll], rfl, ?_, ?_, [], by simp [KitchenManager.placeAll],
      ?_, ?_, ?_⟩
    · simpa [KitchenManager.placeAll] using hla
    · simp only [KitchenManager.placeAll, List.length_nil]
      rw [hlb]
      omega
    · simp [KitchenManager.assignCount, KitchenManager.notifications]
    · simp [KitchenManager.assignCount, KitchenManager.notifications]
    · simp only [List.length_nil]
      have : KitchenManager.discardCount [] = 0 := rfl
      rw [this]
      omega
  | cons job rest ih =>
    intro a b S hinv hnodup hjobs hsat
    have hinv : BatchInv P V t c1 c2 a b (job.1.id :: rest.map (fun j => j.1.id)) S := hinv
    have hnodup : (job.1.id :: rest.map (fun j => j.1.id)).Nodup := hnodup
    have hinv2 := hinv
    obtain ⟨_, _, _, _, _, _, _, _, _, hac, hbc⟩ := hinv2
    obtain ⟨hjt, hjd, hjl, hj3⟩ := hjobs job (List.mem_cons_self job rest)
    have hnd : job.1.id ∉ rest.map (fun j => j.1.id) ∧ (rest.map (fun j => j.1.id)).Nodup :=
      List.nodup_cons.mp hnodup
    have hlenc : (job :: rest).length = rest.length + 1 := rfl
    obtain ⟨hstage, extra1, hev1, hinv1, hP1, hV1, hD1⟩ :=
      place_one P V t c1 c2 a b (rest.map (fun (j : OrderParams × List Inputs) => j.1.id)) S
        job.1 job.2 hinv hnd.1 hjt hjd
        hjl hj3
        (by
          intro ha hb
          obtain ⟨h1, h2⟩ := hsat (by rw [hlenc]; omega)
          exact ⟨h1, h2 job (List.mem_cons_self job rest)⟩)
    obtain ⟨hall, hlen, hlP, hlV, extra2, hev2, hP2, hV2, hD2⟩ :=
      ih _ _ _ hinv1 hnd.2 (fun j hj => hjobs j (List.mem_cons_of_mem job hj))
        (by
          intro hlt
          obtain ⟨h1, h2⟩ := hsat (by rw [hlenc]; split_ifs at hlt <;> omega)
          exact ⟨h1, fun j hj => h2 j (List.mem_cons_of_mem job hj)⟩)
    refine ⟨?_, ?_, ?_, ?_, extra1 ++ extra2, ?_, ?_, ?_, ?_⟩
    · intro p hp
      simp only [KitchenManager.placeAll, List.mem_cons] at hp
      rcases hp with rfl | hp
      · exact ⟨S.nextOrder, hstage⟩
      · exact hall p hp
    · simp only [KitchenManager.placeAll, List.length_cons, hlen]
    · simp only [KitchenManager.placeAll]
      rw [hlP, hlenc]
      split_ifs <;> omega
    · simp only [KitchenManager.placeAll]
      rw [hlV, hlenc]
      split_ifs <;> omega
    · simp only [KitchenManager.placeAll]
      rw [hev2, hev1, List.append_assoc]
    · rw [assignCount_append, hP1, hP2, hlenc]
      split_ifs <;> omega
    · rw [assignCount_append, hV1, hV2, hlenc]
      split_ifs <;> omega
    · rw [discardCount_append, hD1, hD2, hlenc]
      split_ifs <;> omega

/-- A kitchen that holds no order satisfies `BatchInv`. -/
theorem batchInv_empty (P V : ShelfRef) (t : Option String) (c1 c2 : ℕ) (ids : List String)
    (st : ManagerState)
    (hreg : st.world.kitchen._orders = [])
    (hempty : ∀ s, (st.world.shelves s)._orders = [])
    (hP : Kitchen.getShelf t st.world = some P) (ht : t ≠ none)
    (hV : Kitchen.getShelf none st.world = some V)
    (hc1 : (st.world.shelves P).capacity = c1) (hc2 : (st.world.shelves V).capacity = c2) :
    BatchInv P V t c1 c2 0 0 ids st := by
  refine ⟨hreg, ?_, hP, ht, hV, hc1, hc2, by rw [hempty]; rfl, by rw [hempty]; rfl,
    Nat.zero_le _, Nat.zero_le _⟩
  intro s r hmem
  rw [hempty] at hmem
  cases hmem

/-- C24: a kitchen that holds no order has the shelf `P` of capacity `c1` for
the kind `t`, not the overflow kind, and the overflow shelf `V` of capacity
`c2`. At most `c1 + c2` orders of kind `t` with decay rate 0, with distinct ids,
are placed one after another, none being picked up. Then every call has stored
its order, the listeners of the manager have received `min n c1`
`assignOrderToShelf` notifications naming `P` and `n - min n c1` naming `V`, and
no `removeOrder` notification with a cause. -/
theorem overflow_fallback_without_loss (P V : ShelfRef) (t : Option String) (c1 c2 : ℕ)
    (jobs : List (OrderParams × List Inputs)) (st : ManagerState)
    (hreg : st.world.kitchen._orders = [])
    (hempty : ∀ s, (st.world.shelves s)._orders = [])
    (hP : Kitchen.getShelf t st.world = some P) (ht : t ≠ none)
    (hV : Kitchen.getShelf none st.world = some V)
    (hc1 : (st.world.shelves P).capacity = c1) (hc2 : (st.world.shelves V).capacity = c2)
    (hids : (jobs.map (fun j => j.1.id)).Nodup)
    (hjobs : ∀ job ∈ jobs, job.1.temp = t ∧ job.1.decayRate = 0 ∧ job.1.shelfLife ≠ 0
      ∧ 3 ≤ job.2.length)
    (hn : jobs.length ≤ c1 + c2) :
    (∀ p ∈ (KitchenManager.placeAll jobs st).1,
      ∃ o, p = Pipeline.contacting o ∨ ∃ c, p = Pipeline.travelling o c)
    ∧ (KitchenManager.placeAll jobs st).1.length = jobs.length
    ∧ KitchenManager.assignCount P
        ((KitchenManager.placeAll jobs st).2.world.events.drop st.world.events.length)
      = min jobs.length c1
    ∧ KitchenManager.assignCount V
        ((KitchenManager.placeAll jobs st).2.world.events.drop st.world.events.length)
      = jobs.length - min jobs.length c1
    ∧ KitchenManager.discardCount
        ((KitchenManager.placeAll jobs st).2.world.events.drop st.world.events.length)
      = 0 := by
  obtain ⟨hall, hlen, _, _, extra, hev, hcP, hcV, hcD⟩ :=
    placeAll_counts P V t c1 c2 jobs 0 0 st
      (batchInv_empty P V t c1 c2 _ st hreg hempty hP ht hV hc1 hc2) hids hjobs
      (fun h => absurd h (by omega))
  rw [hev, List.drop_left]
  refine ⟨hall, hlen, by rw [hcP]; rfl, by rw [hcV]; rfl, ?_⟩
  rw [hcD]
  omega

/-- C24, on `freshManager`: the hot shelf and the overflow shelf have capacity 2
and four hot orders that never expire are placed. -/
theorem overflow_fallback_without_loss_witness :
    KitchenManager.assignCount 0
        (KitchenManager.placeAll (lastingBatch ["a", "b", "c", "d"]) freshManager).2.world.events
      = 2
    ∧ KitchenManager.assignCount 1
        (KitchenManager.placeAll (lastingBatch ["a", "b", "c", "d"]) freshManager).2.world.events
      = 2
    ∧ KitchenManager.discardCount
        (KitchenManager.placeAll (lastingBatch ["a", "b", "c", "d"]) freshManager).2.world.events
      = 0 := by
  have h := overflow_fallback_without_loss 0 1 (some "hot") 2 2
    (lastingBatch ["a", "b", "c", "d"]) freshManager
    (by simp [freshManager, managedWorld])
    (by intro s; by_cases hs : s = 0 <;> simp [freshManager, managedWorld, hs])
    (by simp [Kitchen.getShelf, freshManager, managedWorld])
    (by simp)
    (by simp [Kitchen.getShelf, freshManager, managedWorld])
    (by norm_num [freshManager, managedWorld])
    (by norm_num [freshManager, managedWorld])
    (by decide)
    (by
      intro job hjob
      simp only [lastingBatch, List.map_cons, List.map_nil, List.mem_cons, List.mem_singleton,
        List.not_mem_nil, or_false] at hjob
      rcases hjob with rfl | rfl | rfl | rfl <;> simp [lastingOrder])
    (by decide)
  have hbase : freshManager.world.events.length = 0 := rfl
  rw [hbase] at h
  exact ⟨h.2.2.1, h.2.2.2.1, h.2.2.2.2⟩

/-- C25: a kitchen that holds no order has the shelf `P` of capacity `c1` for
the kind `t`, not the overflow kind, and the overflow shelf `V` of capacity
`c2`, at least 1. More than `c1 + c2` orders of kind `t` with decay rate 0, with
distinct ids, are placed one after another, none being picked up, every index
drawn for a forced clean being one of `0..c2 - 1`. Then every call has stored
its order; after the first `k` orders, for every `k` from `c1 + c2` on, `P` holds
`c1` orders and `V` holds `c2`, and the listeners of the manager have received
`k - (c1 + c2)` `removeOrder` notifications with a cause, one more for each
further order; at the end they have received `n - c1 - c2` of them. -/
theorem eviction_under_saturation (P V : ShelfRef) (t : Option String) (c1 c2 : ℕ)
    (jobs : List (OrderParams × List Inputs)) (st : ManagerState)
    (hreg : st.world.kitchen._orders = [])
    (hempty : ∀ s, (st.world.shelves s)._orders = [])
    (hP : Kitchen.getShelf t st.world = some P) (ht : t ≠ none)
    (hV : Kitchen.getShelf none st.world = some V)
    (hc1 : (st.world.shelves P).capacity = c1) (hc2 : (st.world.shelves V).capacity = c2)
    (hpos : 1 ≤ c2)
    (hids : (jobs.map (fun j => j.1.id)).Nodup)
    (hjobs : ∀ job ∈ jobs, job.1.temp = t ∧ job.1.decayRate = 0 ∧ job.1.shelfLife ≠ 0
      ∧ 5 ≤ job.2.length ∧ ∀ inp ∈ job.2, 0 ≤ inp.random ∧ inp.random ≤ (c2 : Int) - 1)
    (hn : c1 + c2 < jobs.length) :
    (∀ p ∈ (KitchenManager.placeAll jobs st).1,
      ∃ o, p = Pipeline.contacting o ∨ ∃ c, p = Pipeline.travelling o c)
    ∧ (KitchenManager.placeAll jobs st).1.length = jobs.length
    ∧ (∀ k, c1 + c2 ≤ k → k ≤ jobs.length →
        ((KitchenManager.placeAll (jobs.take k) st).2.world.shelves P)._orders.length = c1
        ∧ ((KitchenManager.placeAll (jobs.take k) st).2.world.shelves V)._orders.length = c2
        ∧ KitchenManager.discardCount
            ((KitchenManager.placeAll (jobs.take k) st).2.world.events.drop
              st.world.events.length)
          = k - (c1 + c2))
    ∧ KitchenManager.discardCount
        ((KitchenManager.placeAll jobs st).2.world.events.drop st.world.events.length)
      = jobs.length - c1 - c2 := by
  have hgen : ∀ js : List (OrderParams × List Inputs), js.Sublist jobs →
      (∀ p ∈ (KitchenManager.placeAll js st).1,
        ∃ o, p = Pipeline.contacting o ∨ ∃ c, p = Pipeline.travelling o c)
      ∧ (KitchenManager.placeAll js st).1.length = js.length
      ∧ ((KitchenManager.placeAll js st).2.world.shelves P)._orders.length
        = 0 + min js.length (c1 - 0)
      ∧ ((KitchenManager.placeAll js st).2.world.shelves V)._orders.length
        = min c2 (0 + (js.length - min js.length (c1 - 0)))
      ∧ KitchenManager.discardCount
          ((KitchenManager.placeAll js st).2.world.events.drop st.world.events.length)
        = (0 + (js.length - min js.length (c1 - 0))) - c2 := by
    intro js hsub
    obtain ⟨hall, hlen, hlP, hlV, extra, hev, _, _, hcD⟩ :=
      placeAll_counts P V t c1 c2 js 0 0 st
        (batchInv_empty P V t c1 c2 _ st hreg hempty hP ht hV hc1 hc2)
        (hids.sublist (hsub.map _))
        (fun job hjob => by
          obtain ⟨h1, h2, h3, h4, _⟩ := hjobs job (hsub.subset hjob)
          exact ⟨h1, h2, h3, by omega⟩)
        (fun _ => ⟨hpos, fun job hjob => (hjobs job (hsub.subset hjob)).2.2.2⟩)
    rw [hev, List.drop_left]
    exact ⟨hall, hlen, hlP, hlV, hcD⟩
  obtain ⟨hall, hlen, _, _, hcD⟩ := hgen jobs (List.Sublist.refl jobs)
  refine ⟨hall, hlen, ?_, ?_⟩
  · intro k hk1 hk2
    obtain ⟨_, _, hlP, hlV, hD⟩ := hgen (jobs.take k) (List.take_sublist k jobs)
    have hlk : (jobs.take k).length = k := by
      rw [List.length_take]
      omega
    rw [hlk] at hlP hlV hD
    refine ⟨by rw [hlP]; omega, by rw [hlV]; omega, by rw [hD]; omega⟩
  · rw [hcD]
    omega

/-- C25, on `freshManager`: the hot shelf and the overflow shelf have capacity 2
and six hot orders that never expire are placed; two residents of the overflow
shelf are evicted. -/
theorem eviction_under_saturation_witness :
    (KitchenManager.placeAll (lastingBatch ["a", "b", "c", "d", "e", "f"]) freshManager).1.length
      = 6
    ∧ KitchenManager.discardCount
        (KitchenManager.placeAll (lastingBatch ["a", "b", "c", "d", "e", "f"])
          freshManager).2.world.events
      = 2 := by
  have h := eviction_under_saturation 0 1 (some "hot") 2 2
    (lastingBatch ["a", "b", "c", "d", "e", "f"]) freshManager
    (by simp [freshManager, managedWorld])
    (by intro s; by_cases hs : s = 0 <;> simp [freshManager, managedWorld, hs])
    (by simp [Kitchen.getShelf, freshManager, managedWorld])
    (by simp)
    (by simp [Kitchen.getShelf, freshManager, managedWorld])
    (by norm_num [freshManager, managedWorld])
    (by norm_num [freshManager, managedWorld])
    (by decide)
    (by decide)
    (by
      intro job hjob
      simp only [lastingBatch, List.map_cons, List.map_nil, List.mem_cons, List.mem_singleton,
        List.not_mem_nil, or_false] at hjob
      rcases hjob with rfl | rfl | rfl | rfl | rfl | rfl <;> simp [lastingOrder, Inputs.at])
    (by decide)
  have hbase : freshManager.world.events.length = 0 := rfl
  rw [hbase] at h
  exact ⟨h.2.1, h.2.2.2⟩

/-! ### Saturation without an overflow shelf -/

/-- C23: three hot orders are submitted together to a kitchen whose only shelf
is a hot shelf of capacity 2. The calls for the first two return; the call for
the third throws an error of kind `OUT_OF_CAPACITY`. The notifications that
concern the third order are `insertOrder`, `prepareOrder` and one `removeOrder`
whose cause is `null`, and the listener that counts the `removeOrder`
notifications with a cause has counted none. -/
theorem saturation_discard_uncounted :
    (System.run saturationSchedule { state := hotOnlyManager, pipelines := [] }).pipelines
      = [Pipeline.resolved 0, Pipeline.resolved 1,
         Pipeline.rejected KitchenManager.outOfCapacityError]
    ∧ KitchenManager.outOfCapacityError.kind = some ErrorCode.OUT_OF_CAPACITY
    ∧ KitchenManager.concerning 2
        (System.run saturationSchedule
          { state := hotOnlyManager, pipelines := [] }).state.world.events
      = [Event.insertOrder Emitter.kitchen 2, Event.prepareOrder Emitter.manager 2,
         Event.removeOrder Emitter.kitchen 2 none]
    ∧ KitchenManager.discardCount
        (System.run saturationSchedule
          { state := hotOnlyManager, pipelines := [] }).state.world.events
      = 0 := by
  decide!

/-! ### The status of an order -/

/-- C27: along `raceSchedule` the status of the first order is `DISCARDED` after
the clean made for the second order at 2990 ms, while the call for the first
order is suspended in the pick-up of `_deliverOrder`; the two later steps of
that call change it to `DELIVERED`, and the call returns. -/
theorem discarded_then_delivered :
    ((System.run (raceSchedule.take 5) { state := freshManager, pipelines := [] }).pipelines
      = [Pipeline.pickingUp 0 0 0])
    ∧ ((System.run (raceSchedule.take 8)
        { state := freshManager, pipelines := [] }).state.world.orders 0).status
      = StatusField.member KitchenOrderStatus.DISCARDED
    ∧ ((System.run raceSchedule
        { state := freshManager, pipelines := [] }).state.world.orders 0).status
      = StatusField.member KitchenOrderStatus.DELIVERED
    ∧ (System.run raceSchedule { state := freshManager, pipelines := [] }).pipelines
      = [Pipeline.resolved 0, Pipeline.contacting 1] := by
  decide!

/-- C26: the successive values of the status of an order that is delivered, from
the return of `processOrder` over the six resumptions of `deliverySchedule`:
`AWAITING_PREPARATION`, then `undefined`, which is no member of
`KitchenOrderStatus`, then `AWAITING_COURIER` and `DELIVERED`; neither
`AWAITING_STORAGE` nor `AWAITING_DELIVERY` is ever taken. -/
theorem delivered_statuses :
    (Pipeline.run deliverySchedule
      (KitchenManager.processOrder (hotOrder "a") freshManager)).1 = Pipeline.resolved 0
    ∧ (List.range 7).map (fun k =>
        ((Pipeline.run (deliverySchedule.take k)
          (KitchenManager.processOrder (hotOrder "a") freshManager)).2.world.orders 0).status)
      = [StatusField.member KitchenOrderStatus.AWAITING_PREPARATION,
         StatusField.undefined,
         StatusField.member KitchenOrderStatus.AWAITING_COURIER,
         StatusField.member KitchenOrderStatus.AWAITING_COURIER,
         StatusField.member KitchenOrderStatus.AWAITING_COURIER,
         StatusField.member KitchenOrderStatus.AWAITING_COURIER,
         StatusField.member KitchenOrderStatus.DELIVERED] := by
  decide!

/-! ### Kitchen.assignOrdersToShelf on a full shelf -/

/-- The removal of an order that is in the registry: the call returns a list
that holds the order, and the events it emits end with one `removeOrder` event
of the kitchen per order returned, with the cause given. -/
theorem Kitchen.removeOrders_listed (o : OrderRef) (err : Option JsError) (now : Int)
    (w : World) (hmem : o ∈ w.kitchen._orders) :
    ∃ out w2 extra,
      Kitchen.removeOrders (JsValue.order o) err now w = (Except.ok out, w2)
      ∧ o ∈ out
      ∧ w2.events = w.events ++ extra
          ++ out.map (fun r => Event.removeOrder Emitter.kitchen r err) := by
  have hp : toModelPredicate w (JsValue.order o) = some (idPredicate (w.orders o).id) := rfl
  have hin : o ∈ List.filter (fun r => decide ((w.orders r).id = (w.orders o).id))
      w.kitchen._orders := List.mem_filter.mpr ⟨hmem, by simp⟩
  unfold Kitchen.removeOrders
  simp only [hp, Kitchen.registryLoop_eq, scan_idPredicate, List.nil_append]
  obtain ⟨out, w2, extra, heq, hev, _⟩ :=
    Kitchen.removeOrdersShelves_events (idPredicate (w.orders o).id) err now w.kitchen._shelfs
      (List.filter (fun r => decide ((w.orders r).id = (w.orders o).id)) w.kitchen._orders)
      { orders := markRemoved w.orders
          (List.filter (fun r => decide ((w.orders r).id = (w.orders o).id))
            w.kitchen._orders) now,
        shelves := w.shelves,
        kitchen :=
          { _orders := List.filter (fun r => decide ((w.orders r).id ≠ (w.orders o).id))
              w.kitchen._orders,
            _shelfs := w.kitchen._shelfs },
        events := w.events }
  obtain ⟨removed, w3, heq2, _⟩ :=
    Kitchen.removeOrdersShelves_idPredicate (w.orders o).id err now w.kitchen._shelfs
      (List.filter (fun r => decide ((w.orders r).id = (w.orders o).id)) w.kitchen._orders)
      { orders := markRemoved w.orders
          (List.filter (fun r => decide ((w.orders r).id = (w.orders o).id))
            w.kitchen._orders) now,
        shelves := w.shelves,
        kitchen :=
          { _orders := List.filter (fun r => decide ((w.orders r).id ≠ (w.orders o).id))
              w.kitchen._orders,
            _shelfs := w.kitchen._shelfs },
        events := w.events }
  have hout : out = List.filter (fun r => decide ((w.orders r).id = (w.orders o).id))
      w.kitchen._orders ++ removed := by
    rw [heq] at heq2
    have := (Prod.mk.inj heq2).1
    exact Except.ok.inj this
  have hoin : o ∈ out := by
    rw [hout]
    exact List.mem_append_left _ hin
  have hlen : ¬ (out.length = 0) := by
    intro h
    rw [List.length_eq_zero] at h
    rw [h] at hoin
    cases hoin
  rw [heq]
  simp only [foldl_emit_removeOrder, if_neg hlen]
  exact ⟨out, _, extra, rfl, hoin, by rw [hev]⟩

theorem except_eq_error {ε α : Type} (x : Except ε α) (e : ε)
    (h : (match x with
      | Except.error e2 => some e2
      | Except.ok _ => none) = some e) : x = Except.error e := by
  cases x with
  | error e2 =>
    simp only [Option.some.injEq] at h
    rw [h]
  | ok a => cases h

/-- C31 (counterexample to the claim as stated): in `trackedTwiceWorld` the order
0 is in the registry and the target shelf is full, its resident being the order
0 itself. The call throws `OUT_OF_CAPACITY`, and afterwards the order is on the
shelf and has no removal timestamp: the removal made room for it, and it is the
second insertion of the same order that throws. -/
theorem assignOrdersToShelf_error_keeps_order :
    0 ∈ trackedTwiceWorld.kitchen._orders
    ∧ (trackedTwiceWorld.shelves 0).capacity
      ≤ (((trackedTwiceWorld.shelves 0)._orders.length : ℕ) : ℚ)
    ∧ (Kitchen.assignOrdersToShelf (JsValue.order 0) (JsValue.shelf 0) 5
        trackedTwiceWorld).1 = Except.error KitchenManager.outOfCapacityError
    ∧ KitchenManager.outOfCapacityError.kind = some ErrorCode.OUT_OF_CAPACITY
    ∧ 0 ∈ ((Kitchen.assignOrdersToShelf (JsValue.order 0) (JsValue.shelf 0) 5
        trackedTwiceWorld).2.shelves 0)._orders
    ∧ ((Kitchen.assignOrdersToShelf (JsValue.order 0) (JsValue.shelf 0) 5
        trackedTwiceWorld).2.orders 0).removed = none :=
  ⟨by decide!, by decide!, except_eq_error _ _ (by decide!), rfl, by decide!, by decide!⟩

/-- C31 (as amended): `Kitchen.assignOrdersToShelf` is called with an order that is in the
registry and a shelf that holds at least as many orders as its capacity, none of
them with the id of the order. The call throws an error of kind
`OUT_OF_CAPACITY`, and what it did before the throw stays: the order is no
longer in the registry; it is on no shelf of the kitchen, every other shelf
holds what it held, and the target shelf, which the order was not on, holds
what it held; the removal timestamp of the order is the time of the call; and
the listeners of the manager have received a `removeOrder` notification for the
order with the cause `null`. -/
theorem assignOrdersToShelf_not_atomic (o : OrderRef) (s : ShelfRef) (now : Int) (w : World)
    (hmem : o ∈ w.kitchen._orders)
    (hfull : (w.shelves s).capacity ≤ (((w.shelves s)._orders.length : ℕ) : ℚ))
    (htarget : ∀ r ∈ (w.shelves s)._orders, (w.orders r).id ≠ (w.orders o).id) :
    (∃ e, (Kitchen.assignOrdersToShelf (JsValue.order o) (JsValue.shelf s) now w).1
        = Except.error e ∧ e.kind = some ErrorCode.OUT_OF_CAPACITY)
    ∧ o ∉ (Kitchen.assignOrdersToShelf (JsValue.order o) (JsValue.shelf s) now
        w).2.kitchen._orders
    ∧ (∀ s2 ∈ w.kitchen._shelfs,
        o ∉ ((Kitchen.assignOrdersToShelf (JsValue.order o) (JsValue.shelf s) now
          w).2.shelves s2)._orders)
    ∧ (∀ s2, s2 ∉ w.kitchen._shelfs →
        (Kitchen.assignOrdersToShelf (JsValue.order o) (JsValue.shelf s) now w).2.shelves s2
          = w.shelves s2)
    ∧ (Kitchen.assignOrdersToShelf (JsValue.order o) (JsValue.shelf s) now w).2.shelves s
      = w.shelves s
    ∧ ((Kitchen.assignOrdersToShelf (JsValue.order o) (JsValue.shelf s) now w).2.orders
        o).removed = some now
    ∧ Event.removeOrder Emitter.kitchen o none
      ∈ KitchenManager.notifications
        ((Kitchen.assignOrdersToShelf (JsValue.order o) (JsValue.shelf s) now
          w).2.events.drop w.events.length) := by
  obtain ⟨out, w2, extra, heq, hoin, hev⟩ := Kitchen.removeOrders_listed o none now w hmem
  obtain ⟨out2, w3, removed, heq2, hk, hsh, hord, _, hall⟩ :=
    Kitchen.removeOrders_idPredicate (JsValue.order o) (w.orders o).id none now w rfl
  rw [heq] at heq2
  obtain ⟨_, hw⟩ := Prod.mk.inj heq2
  subst hw
  have hlen : ¬ (out.length = 0) := by
    intro h
    rw [List.length_eq_zero] at h
    rw [h] at hoin
    cases hoin
  have hkeep : (w.shelves s)._orders.filter
      (fun r => decide ((w.orders r).id ≠ (w.orders o).id)) = (w.shelves s)._orders := by
    rw [List.filter_eq_self]
    intro r hr
    simpa using htarget r hr
  have hs : w2.shelves s = w.shelves s := by
    rw [hsh s]
    split
    · rw [hkeep]
    · rfl
  have hfull2 : (((w2.shelves s)._orders.length : ℕ) : ℚ) ≥ (w2.shelves s).capacity := by
    rw [hs]
    exact hfull
  have hres : Kitchen.assignOrdersToShelf (JsValue.order o) (JsValue.shelf s) now w
      = (Except.error { message := "out of capacity", kind := some ErrorCode.OUT_OF_CAPACITY },
          w2) := by
    unfold Kitchen.assignOrdersToShelf
    simp only [heq, hlen, false_and, if_false]
    cases out with
    | nil => exact absurd rfl hlen
    | cons first rest =>
      simp only [Kitchen.assignOrdersLoop, KitchenShelf.insertOrder, hfull2, if_true]
  rw [hres]
  refine ⟨⟨_, rfl, rfl⟩, ?_, ?_, ?_, hs, ?_, ?_⟩
  · rw [hk]
    intro hx
    have := (List.mem_filter.mp hx).2
    simp at this
  · intro s2 hs2 hx
    rw [hsh s2, if_pos hs2] at hx
    have := (List.mem_filter.mp hx).2
    simp at this
  · intro s2 hs2
    rw [hsh s2, if_neg hs2]
  · have hrem : o ∈ removed := hall o rfl (Or.inl hmem)
    show (w2.orders o).removed = some now
    rw [hord]
    simp [markRemoved, hrem]
  · show Event.removeOrder Emitter.kitchen o none
      ∈ KitchenManager.notifications (w2.events.drop w.events.length)
    rw [hev, List.append_assoc, List.drop_left]
    unfold KitchenManager.notifications
    rw [List.filter_append]
    apply List.mem_append_right
    rw [List.mem_filter]
    exact ⟨List.mem_map.mpr ⟨o, hoin, rfl⟩, rfl⟩

/-- C31 (as amended), on `fullHotManager`: the order 2 is in the registry and the hot shelf
holds the orders 0 and 1, as many as its capacity. -/
theorem assignOrdersToShelf_not_atomic_witness :
    (∃ e, (Kitchen.assignOrdersToShelf (JsValue.order 2) (JsValue.shelf 0) 7
        fullHotManager.world).1 = Except.error e ∧ e.kind = some ErrorCode.OUT_OF_CAPACITY)
    ∧ 2 ∉ (Kitchen.assignOrdersToShelf (JsValue.order 2) (JsValue.shelf 0) 7
        fullHotManager.world).2.kitchen._orders
    ∧ ((Kitchen.assignOrdersToShelf (JsValue.order 2) (JsValue.shelf 0) 7
        fullHotManager.world).2.orders 2).removed = some 7 := by
  have h := assignOrdersToShelf_not_atomic 2 0 7 fullHotManager.world
    (by simp [fullHotManager])
    (by norm_num [fullHotManager])
    (by
      intro r hr
      have hr2 : r = 0 ∨ r = 1 := by simpa [fullHotManager] using hr
      rcases hr2 with rfl | rfl <;> simp [fullHotManager, KitchenOrder.new])
  exact ⟨h.1, h.2.1, h.2.2.2.2.2.1⟩

/-! ### A courier whose delivery failed -/

/-- A `_deliverOrder` that throws `ORDER_EXPIRED` or `ORDER_NOT_FOUND` read an
order from its courier. -/
theorem deliverOrder_failed_order (c : CourierRef) (now : Int) (st : ManagerState)
    (e : JsError) (h : (KitchenManager._deliverOrder c now st).1 = Except.error e)
    (hkind : e.kind = some ErrorCode.ORDER_EXPIRED ∨ e.kind = some ErrorCode.ORDER_NOT_FOUND) :
    (st.couriers c).order ≠ none := by
  intro hnone
  unfold KitchenManager._deliverOrder at h
  simp only [hnone] at h
  have he := Except.error.inj h
  rw [← he] at hkind
  rcases hkind with hk | hk <;> cases hk

/-- The resumption in which `_deliverOrder` throws `ORDER_EXPIRED` or
`ORDER_NOT_FOUND` leaves the order and the dispatched timestamp of every courier
as they were, and the courier of the call had an order. -/
theorem resume_travelling_rejected (o : OrderRef) (c : CourierRef) (inp : Inputs)
    (st : ManagerState) (e : JsError)
    (h : ((Pipeline.travelling o c).resume inp st).1 = Pipeline.rejected e)
    (hkind : e.kind = some ErrorCode.ORDER_EXPIRED ∨ e.kind = some ErrorCode.ORDER_NOT_FOUND) :
    (st.couriers c).order ≠ none
    ∧ (∀ c2, (((Pipeline.travelling o c).resume inp st).2.couriers c2).order
        = (st.couriers c2).order
      ∧ (((Pipeline.travelling o c).resume inp st).2.couriers c2).dispatched
        = (st.couriers c2).dispatched)
    ∧ ((Pipeline.travelling o c).resume inp st).2.nextCourier = st.nextCourier := by
  obtain ⟨h1, _, h3⟩ := deliverOrder_untouched c inp.now
    { st with
      couriers := Function.update st.couriers c
        { st.couriers c with arrived := some inp.now } }
  simp only [Pipeline.resume] at h ⊢
  cases hres : KitchenManager._deliverOrder c inp.now
    { st with
      couriers := Function.update st.couriers c
        { st.couriers c with arrived := some inp.now } } with
  | mk r st1 =>
    rw [hres] at h h1 h3
    simp only at h1 h3
    cases r with
    | ok carried =>
      simp only at h
      cases h
    | error e2 =>
      simp only at h ⊢
      have he : e2 = e := Pipeline.rejected.inj h
      subst he
      have hord := deliverOrder_failed_order c inp.now _ e2 (by rw [hres]) hkind
      refine ⟨by simpa [Function.update_same] using hord, ?_, h3⟩
      intro c2
      rw [h1]
      by_cases hc : c2 = c
      · subst hc
        simp [Function.update_same]
      · simp [Function.update_noteq hc]

/-- The courier that `_dispatchCourier` takes from the pool had no dispatched
timestamp. -/
theorem dispatchCourier_idle (order : OrderRef) (now : Int) (st : ManagerState) (c : CourierRef)
    (h : (KitchenManager._dispatchCourier order now st).1.courier = some c) :
    (st.couriers c).dispatched = none := by
  rw [dispatchCourier_eq] at h
  cases hh : (st._couriers.filter (fun c => decide ((st.couriers c).dispatched = none))).head? with
  | none =>
    rw [hh] at h
    cases h
  | some c2 =>
    rw [hh] at h
    have hc : c2 = c := by
      simpa [KitchenManager.dispatch, Pipeline.courier] using h
    subst hc
    have hmem := List.mem_of_mem_head? (by rw [hh]; exact rfl)
    simpa using (List.mem_filter.mp hmem).2

/-- A courier that no call holds and that has a dispatched timestamp is left as
it is by every action of the event loop, and no call acquires it. -/
theorem step_stuck (s : System) (a : Action) (c : CourierRef)
    (hfree : ∀ p ∈ s.pipelines, p.courier ≠ some c)
    (hd : (s.state.couriers c).dispatched ≠ none)
    (hlt : c < s.state.nextCourier) :
    (∀ p ∈ (s.step a).pipelines, p.courier ≠ some c)
    ∧ (s.step a).state.couriers c = s.state.couriers c
    ∧ c < (s.step a).state.nextCourier := by
  cases a with
  | processOrder params =>
    obtain ⟨h0, h1, _, h3⟩ := processOrder_untouched params s.state
    simp only [System.step]
    refine ⟨?_, by rw [h1], by rw [h3]; exact hlt⟩
    intro p hp
    rcases List.mem_append.mp hp with hp | hp
    · exact hfree p hp
    · rw [List.mem_singleton.mp hp, h0]
      exact fun hx => by cases hx
  | resume i inp =>
    simp only [System.step]
    cases hp : s.pipelines[i]? with
    | none => exact ⟨hfree, rfl, hlt⟩
    | some p =>
      simp only
      have hpm : p ∈ s.pipelines := List.mem_iff_getElem?.mpr ⟨i, hp⟩
      obtain ⟨e1, _, e3, e4⟩ := resume_effect p inp s.state
      have hnot : (p.resume inp s.state).1.courier ≠ some c := by
        intro hx
        obtain ⟨_, _, hcase⟩ := e3 c hx (hfree p hpm)
        rcases hcase with ⟨_, hidle⟩ | ⟨hnew, _⟩
        · exact hd hidle
        · exact absurd hlt (by rw [hnew]; exact lt_irrefl _)
      refine ⟨?_, e1 c (hfree p hpm) hnot, ?_⟩
      · intro q hq
        rcases List.mem_or_eq_of_mem_set hq with hq | hq
        · exact hfree q hq
        · rw [hq]
          exact hnot
      · rcases e4 with ⟨_, hn⟩ | ⟨_, hn⟩
        · rw [hn]
          exact hlt
        · rw [hn]
          exact Nat.lt_succ_of_lt hlt

theorem run_stuck (rest : List Action) (s : System) (c : CourierRef)
    (hfree : ∀ p ∈ s.pipelines, p.courier ≠ some c)
    (hd : (s.state.couriers c).dispatched ≠ none)
    (hlt : c < s.state.nextCourier) :
    (∀ p ∈ (System.run rest s).pipelines, p.courier ≠ some c)
    ∧ (System.run rest s).state.couriers c = s.state.couriers c
    ∧ c < (System.run rest s).state.nextCourier := by
  induction rest generalizing s with
  | nil => exact ⟨hfree, rfl, hlt⟩
  | cons a rest ih =>
    obtain ⟨h1, h2, h3⟩ := step_stuck s a c hfree hd hlt
    obtain ⟨g1, g2, g3⟩ := ih (s.step a) h1 (by rw [h2]; exact hd) h3
    exact ⟨g1, g2.trans h2, g3⟩

/-- C32: in a system whose couriers are consistent, a call waits for its courier
`c` to arrive and its next resumption throws, `_deliverOrder` failing with
`ORDER_EXPIRED` or `ORDER_NOT_FOUND`. That resumption changes the dispatched
timestamp of no courier, so it frees none. After it and after any further
actions of the event loop, the order and the dispatched timestamp of `c` are
still not `null`, no call holds `c`, `_dispatchCourier` does not take `c` from
the pool, and the courier it makes when none is idle is not `c`. -/
theorem failed_delivery_keeps_courier (s : System) (hcons : s.CouriersConsistent) (i : Nat)
    (inp : Inputs) (o : OrderRef) (c : CourierRef) (e : JsError)
    (hp : s.pipelines[i]? = some (Pipeline.travelling o c))
    (hfail : ((Pipeline.travelling o c).resume inp s.state).1 = Pipeline.rejected e)
    (hkind : e.kind = some ErrorCode.ORDER_EXPIRED ∨ e.kind = some ErrorCode.ORDER_NOT_FOUND)
    (rest : List Action) :
    (∀ c2, ((s.step (Action.resume i inp)).state.couriers c2).dispatched
        = (s.state.couriers c2).dispatched)
    ∧ ((System.run rest (s.step (Action.resume i inp))).state.couriers c).order ≠ none
    ∧ ((System.run rest (s.step (Action.resume i inp))).state.couriers c).dispatched ≠ none
    ∧ (∀ p ∈ (System.run rest (s.step (Action.resume i inp))).pipelines, p.courier ≠ some c)
    ∧ (∀ order now,
        (KitchenManager._dispatchCourier order now
          (System.run rest (s.step (Action.resume i inp))).state).1.courier ≠ some c)
    ∧ (∀ order inp2,
        ((Pipeline.contacting order).resume inp2
          (System.run rest (s.step (Action.resume i inp))).state).1.courier ≠ some c) := by
  obtain ⟨hord, hsame, hnext⟩ := resume_travelling_rejected o c inp s.state e hfail hkind
  have hmemp : Pipeline.travelling o c ∈ s.pipelines := List.mem_iff_getElem?.mpr ⟨i, hp⟩
  obtain ⟨hdisp, hlt⟩ := hcons.2.1 _ hmemp c rfl
  have hs1 : s.step (Action.resume i inp)
      = { state := ((Pipeline.travelling o c).resume inp s.state).2,
          pipelines := s.pipelines.set i (Pipeline.rejected e) } := by
    simp only [System.step, hp]
    cases hres : (Pipeline.travelling o c).resume inp s.state with
    | mk p2 st =>
      rw [hres] at hfail
      simp only at hfail
      rw [hfail]
  have hfree1 : ∀ p ∈ (s.step (Action.resume i inp)).pipelines, p.courier ≠ some c := by
    rw [hs1]
    intro p hp2 hx
    obtain ⟨j, hj⟩ := List.mem_iff_getElem?.mp hp2
    by_cases hij : i = j
    · subst hij
      have hlen : i < s.pipelines.length := by
        by_contra hge
        rw [List.getElem?_eq_none (not_lt.mp hge)] at hp
        cases hp
      have hj2 : (s.pipelines.set i (Pipeline.rejected e))[i]? = some p := hj
      rw [List.getElem?_set_self hlen] at hj2
      rw [← Option.some.inj hj2] at hx
      cases hx
    · have hj2 : (s.pipelines.set i (Pipeline.rejected e))[j]? = some p := hj
      rw [List.getElem?_set_ne hij] at hj2
      exact hij (hcons.1 i j _ p c hp hj2 rfl hx)
  have hd1 : ((s.step (Action.resume i inp)).state.couriers c).dispatched ≠ none := by
    rw [hs1]
    show (((Pipeline.travelling o c).resume inp s.state).2.couriers c).dispatched ≠ none
    rw [(hsame c).2]
    exact hdisp
  have ho1 : ((s.step (Action.resume i inp)).state.couriers c).order ≠ none := by
    rw [hs1]
    show (((Pipeline.travelling o c).resume inp s.state).2.couriers c).order ≠ none
    rw [(hsame c).1]
    exact hord
  have hlt1 : c < (s.step (Action.resume i inp)).state.nextCourier := by
    rw [hs1]
    show c < ((Pipeline.travelling o c).resume inp s.state).2.nextCourier
    rw [hnext]
    exact hlt
  obtain ⟨g1, g2, g3⟩ := run_stuck rest (s.step (Action.resume i inp)) c hfree1 hd1 hlt1
  refine ⟨?_, by rw [g2]; exact ho1, by rw [g2]; exact hd1, g1, ?_, ?_⟩
  · intro c2
    rw [hs1]
    exact (hsame c2).2
  · intro order now hx
    have := dispatchCourier_idle order now _ c hx
    rw [g2] at this
    exact hd1 this
  · intro order inp2 hx
    have hnew : ((Pipeline.contacting order).resume inp2
        (System.run rest (s.step (Action.resume i inp))).state).1.courier
        = some (System.run rest (s.step (Action.resume i inp))).state.nextCourier := by
      simp [Pipeline.resume, KitchenManager.allocateCourier, KitchenManager.dispatch,
        Pipeline.courier]
    rw [hnew] at hx
    have heq := Option.some.inj hx
    rw [heq] at g3
    exact lt_irrefl _ g3

/-- C32, on `perishableManager`: the courier 0 arrives at 5000 ms for the order
0, which is expired; a second order is then submitted and its call resumed three
times. -/
theorem failed_delivery_keeps_courier_witness :
    ((System.run
        [Action.processOrder (hotOrder "b"), Action.resume 1 (Inputs.at 5001),
         Action.resume 1 (Inputs.at 5002), Action.resume 1 (Inputs.at 5003)]
        (System.step { state := perishableManager, pipelines := [Pipeline.travelling 0 0] }
          (Action.resume 0 (Inputs.at 5000)))).state.couriers 0).dispatched ≠ none
    ∧ (∀ p ∈ (System.run
        [Action.processOrder (hotOrder "b"), Action.resume 1 (Inputs.at 5001),
         Action.resume 1 (Inputs.at 5002), Action.resume 1 (Inputs.at 5003)]
        (System.step { state := perishableManager, pipelines := [Pipeline.travelling 0 0] }
          (Action.resume 0 (Inputs.at 5000)))).pipelines, p.courier ≠ some 0) := by
  have h := failed_delivery_keeps_courier
    { state := perishableManager, pipelines := [Pipeline.travelling 0 0] }
    (by
      refine ⟨?_, ?_, ?_⟩
      · intro i j p q c hi hj _ _
        have hi2 : i = 0 := by
          cases i with
          | zero => rfl
          | succ n => simp at hi
        have hj2 : j = 0 := by
          cases j with
          | zero => rfl
          | succ n => simp at hj
        rw [hi2, hj2]
      · intro p hp c hc
        simp only [List.mem_singleton] at hp
        subst hp
        have hc0 : c = 0 := by
          simpa [Pipeline.courier] using hc.symm
        subst hc0
        exact ⟨by simp [perishableManager, Courier.new], by simp [perishableManager]⟩
      · intro c hc
        have hc0 : c = 0 := by simpa [perishableManager] using hc
        subst hc0
        simp [perishableManager])
    0 (Inputs.at 5000) 0 0 KitchenManager.deliverExpiredError
    (by simp)
    (by decide!)
    (Or.inl rfl)
    [Action.processOrder (hotOrder "b"), Action.resume 1 (Inputs.at 5001),
     Action.resume 1 (Inputs.at 5002), Action.resume 1 (Inputs.at 5003)]
  exact ⟨h.2.2.1, h.2.2.2.1⟩

end CloudKitchens
